import Mathlib

/-!
# libmsym character tables and symmetrizers: a shallow embedding of
`character_table.c` and `symmetrize.c`

The C sources compute with `double`.  The embedding is generic in a linearly
ordered field `K` that stands for exact real arithmetic; `cos` and `M_PI` come
from `math.h` and are taken as parameters `cosf : K → K` and `pi : K`.
At `K = ℚ` every definition below can be evaluated; at `K = ℝ` with
`Real.cos` and `Real.pi` the characters are the exact real ones.

C arrays are functions `Nat → α` together with the allocated length; a write
through a data dependent index is checked against that length.  A result
`none` means that the C program has no defined behaviour on the input (an
access outside an allocation, an integer division by zero) or no real value
(a floating division by zero).

The axis vector `v` of a symmetry operation is never read by
`character_table.c` and is left out of `msym_symmetry_operation_t`.  The C
`int` values are integers without overflow; class indices, which the sources
use as array subscripts, are natural numbers.

For `symmetrize.c` a position is a vector `Fin 3 → K`.  The point group
carries the axis of operation `j` as `axis j`, and the routines of `symop.c`
and `linalg.c` that are not among the sources are either parameters
(`applySymmetryOperation`, `vproj`, `vlproj`, `vlsumsqr`, `vlsub`, `vlabs`,
`vladd`, as well as `sqrt` and `DBL_MAX`) or, for `vadd`, `vdot` and `vscale`,
modelled from the specification.  The error accumulator `e` and the slot
`*err` are values `Option K`: `none` says that a floating division by zero
was met, after which the model does not follow the C value.  Lengths, group
orders and array indices are natural numbers.

Where the rounding of the type `double` decides a result, it is modelled on
the rationals: `binary64` rounds a rational to the nearest value of the type,
and `symmetrizeMoleculeProjectR` is `symmetrizeMoleculeProject` with the result
of every arithmetic operation passed through a rounding function `rnd`.
-/

namespace Msym

/-- Error codes of `msym_error_t` returned by the sources. -/
inductive msym_error_t
  | MSYM_SUCCESS
  | MSYM_INVALID_CHARACTER_TABLE
  | MSYM_POINT_GROUP_ERROR
  | MSYM_SYMMETRIZATION_ERROR
  deriving DecidableEq, Repr

/-- Point group types, in the order of the dispatch table `fmap`. -/
inductive msym_point_group_type_t
  | POINT_GROUP_Ci
  | POINT_GROUP_Cs
  | POINT_GROUP_Cn
  | POINT_GROUP_Cnh
  | POINT_GROUP_Cnv
  | POINT_GROUP_Dn
  | POINT_GROUP_Dnh
  | POINT_GROUP_Dnd
  | POINT_GROUP_Sn
  | POINT_GROUP_T
  | POINT_GROUP_Td
  | POINT_GROUP_Th
  | POINT_GROUP_O
  | POINT_GROUP_Oh
  | POINT_GROUP_I
  | POINT_GROUP_Ih
  | POINT_GROUP_K
  | POINT_GROUP_Kh
  deriving DecidableEq, Repr

/-- Kind of a symmetry operation (`sop->type`). -/
inductive msym_symmetry_operation_type
  | IDENTITY
  | PROPER_ROTATION
  | IMPROPER_ROTATION
  | REFLECTION
  | INVERSION
  deriving DecidableEq, Repr

/-- Orientation tag of a symmetry operation (`sop->orientation`). -/
inductive msym_symmetry_operation_orientation
  | NONE
  | HORIZONTAL
  | VERTICAL
  | DIHEDRAL
  deriving DecidableEq, Repr

/-- A symmetry operation: the fields `character_table.c` reads.  `cla` is the
conjugacy class index, used as an array subscript. -/
structure msym_symmetry_operation_t where
  type : msym_symmetry_operation_type
  order : Int
  power : Int
  orientation : msym_symmetry_operation_orientation
  cla : Nat
  deriving DecidableEq, Repr

/-- Tag of `msym_representation_t.type`; `IRREDUCIBLE` is the value 0. -/
inductive msym_representation_type
  | IRREDUCIBLE
  | REDUCIBLE
  deriving DecidableEq, Repr

/-- The anonymous struct `eig` of `msym_representation_t`. -/
structure msym_representation_eig where
  p : Int
  v : Int
  h : Int
  i : Int
  l : Int
  deriving DecidableEq, Repr

/-- Irrep descriptor `msym_representation_t` (its `name` buffer is never
written by the sources and is left out). -/
structure msym_representation_t where
  type : msym_representation_type
  d : Int
  eig : msym_representation_eig
  deriving DecidableEq, Repr

/-- Output row header `msym_symmetry_species_t`: label and dimension. -/
structure msym_symmetry_species_t where
  name : String
  d : Int
  deriving DecidableEq, Repr

/-- The table `msym_character_table_t`: `d` classes and irreps, class
multiplicities `classc`, class representatives `sops` (an index into the
operation list, `none` for a null pointer), species `s` and the `d × d`
matrix `table` (row = irrep, column = class). -/
structure msym_character_table_t (K : Type) where
  d : Nat
  classc : Nat → Int
  sops : Nat → Option Nat
  s : Nat → msym_symmetry_species_t
  table : Nat → Nat → K

open msym_error_t msym_point_group_type_t msym_symmetry_operation_type
open msym_symmetry_operation_orientation msym_representation_type

section Embedding

variable {K : Type} [LinearOrderedField K]

/-- The inner loop of `decomposeRepresentation` (line 64):
`dspan[k] += ct->classc[j]*rspan[j]*ctable[k][j]` for `j = 0 .. d-1`. -/
def decomposeRow (ct : msym_character_table_t K) (rspan : Nat → K) (k : Nat) (acc : K) : K :=
  (List.range ct.d).foldl (fun x j => x + (ct.classc j : K) * rspan j * ct.table k j) acc

/-- The first loop of `decomposeRepresentation` (lines 62-65) on the state
`(order, dspan)`. -/
def decomposeAccumulate (ct : msym_character_table_t K) (rspan : Nat → K)
    (st : Int × (Nat → K)) : Int × (Nat → K) :=
  (List.range ct.d).foldl
    (fun st k => (st.1 + ct.classc k, Function.update st.2 k (decomposeRow ct rspan k (st.2 k)))) st

/-- The function `decomposeRepresentation` (lines 57-67).  The argument `dspan`
is the caller's buffer, the result is its final content; `memset` clears the
first `d` cells.  `dspan[k] /= order` has no value when `order` is 0. -/
def decomposeRepresentation (ct : msym_character_table_t K) (rspan dspan : Nat → K) :
    Option (Nat → K) :=
  let st := decomposeAccumulate ct rspan (0, fun k => if k < ct.d then 0 else dspan k)
  (List.range ct.d).foldlM
    (fun ds k => if st.1 = 0 then none else some (Function.update ds k (ds k / (st.1 : K)))) st.2

/-- The function `directProduct` (lines 70-72); `pspan` is the caller's buffer. -/
def directProduct (l : Nat) (irrep1 irrep2 pspan : Nat → K) : Nat → K :=
  (List.range l).foldl (fun p i => Function.update p i (irrep1 i * irrep2 i)) pspan

/-- The constant `CHARACTER_TABLE_VERIFICATION_THRESHOLD`, `1e-10`. -/
def CHARACTER_TABLE_VERIFICATION_THRESHOLD : K := 1 / 10 ^ 10

/-- The innermost loop of `verifyCharacterTable` (lines 211-214):
`r += ct->classc[k]*table[i][k]*table[j][k]` from `r = 0.0`. -/
def rowProduct (ct : msym_character_table_t K) (i j : Nat) : K :=
  (List.range ct.d).foldl (fun r k => r + (ct.classc k : K) * ct.table i k * ct.table j k) 0

/-- The loop over `j = i+1 .. d-1` of `verifyCharacterTable` (lines 210-219). -/
def verifyRow (ct : msym_character_table_t K) (i : Nat) (ret : msym_error_t) : msym_error_t :=
  (List.range' (i + 1) (ct.d - (i + 1))).foldl
    (fun ret j =>
      if rowProduct ct i j > CHARACTER_TABLE_VERIFICATION_THRESHOLD
      then MSYM_INVALID_CHARACTER_TABLE else ret) ret

/-- The function `verifyCharacterTable` (lines 206-222): the outer loop runs
while `i < d && ret == MSYM_SUCCESS`. -/
def verifyCharacterTable (ct : msym_character_table_t K) : msym_error_t :=
  (List.range ct.d).foldl
    (fun ret i => if ret = MSYM_SUCCESS then verifyRow ct i ret else ret) MSYM_SUCCESS

/-- The C test `!(n & 1)`, equally `~n & 1`, on a two's complement `int`:
bit 0 of `n` is clear. -/
def bit0Clear (n : Int) : Bool := n % 2 = 0

/-- The C expression `n & 2` on a two's complement `int`. -/
def band2 (n : Int) : Int := if n % 4 < 2 then 0 else 2

/-- The C expression `(i & 1) << 1`. -/
def band1Shl1 (i : Int) : Int := (i % 2) * 2

/-- The C expression `(i % 2) << 1` (`%` truncates towards zero). -/
def mod2Shl1 (i : Int) : Int := (Int.tmod i 2) * 2

/-- A descriptor with every field assigned. -/
def mkRep (type : msym_representation_type) (d p v h i l : Int) : msym_representation_t :=
  { type := type, d := d, eig := { p := p, v := v, h := h, i := i, l := l } }

/-- One cell of `calloc(ct->d, sizeof(msym_representation_t))`. -/
def zeroRep : msym_representation_t := mkRep IRREDUCIBLE 0 0 0 0 0 0

/-- Stores into `rep[r]` of the array `rep[rl]`: the cell is replaced by `f`
of its old content; outside the allocation the behaviour is undefined. -/
def storeRep (rl : Nat) (rep : Nat → msym_representation_t) (r : Nat)
    (f : msym_representation_t → msym_representation_t) : Option (Nat → msym_representation_t) :=
  if r < rl then some (Function.update rep r (f (rep r))) else none

/-- The loop `for(int i = 1; r < rl; i++, r++)` writing one descriptor per
round: round `k` has `i = k + 1` and writes `rep[r0 + k]`. -/
def singleLoop (rl r0 : Nat) (body : Int → msym_representation_t → msym_representation_t)
    (rep : Nat → msym_representation_t) : Option (Nat → msym_representation_t) :=
  (List.range (rl - r0)).foldlM (fun rep k => storeRep rl rep (r0 + k) (body ((k : Int) + 1))) rep

/-- The loop `for(int i = 1; r < rl; i++)` whose body writes `rep[r]`, `r++`,
`rep[r]`, `r++`: round `k` has `i = k + 1` and writes `rep[r0 + 2k]` and
`rep[r0 + 2k + 1]`; it runs while `r0 + 2k < rl`. -/
def pairLoop (rl r0 : Nat) (body1 body2 : Int → msym_representation_t → msym_representation_t)
    (rep : Nat → msym_representation_t) : Option (Nat → msym_representation_t) :=
  (List.range ((rl - r0 + 1) / 2)).foldlM
    (fun rep k =>
      (storeRep rl rep (r0 + 2 * k) (body1 ((k : Int) + 1))).bind
        (fun rep => storeRep rl rep (r0 + 2 * k + 1) (body2 ((k : Int) + 1)))) rep

/-- The function `getRepresentationsUnknown` (lines 224-227). -/
def getRepresentationsUnknown (_n : Int) (_rl : Nat) (rep : Nat → msym_representation_t) :
    Option (msym_error_t × (Nat → msym_representation_t)) :=
  some (MSYM_INVALID_CHARACTER_TABLE, rep)

/-- The function `getRepresentationsCn` (lines 229-256). -/
def getRepresentationsCn (n : Int) (rl : Nat) (rep : Nat → msym_representation_t) :
    Option (msym_error_t × (Nat → msym_representation_t)) := do
  let rep ← storeRep rl rep 0 (fun _ => mkRep IRREDUCIBLE 1 1 1 1 1 1)
  let (rep, r) ←
    if bit0Clear n then do
      let rep ← storeRep rl rep 1 (fun _ => mkRep IRREDUCIBLE 1 (-1) 1 1 1 1)
      pure (rep, 2)
    else pure (rep, 1)
  let rep ← singleLoop rl r (fun i _ => mkRep REDUCIBLE 2 1 1 1 1 i) rep
  pure (MSYM_SUCCESS, rep)

/-- The function `getRepresentationsCnh` (lines 258-309). -/
def getRepresentationsCnh (n : Int) (rl : Nat) (rep : Nat → msym_representation_t) :
    Option (msym_error_t × (Nat → msym_representation_t)) := do
  let rep ← storeRep rl rep 0 (fun _ => mkRep IRREDUCIBLE 1 1 1 1 1 1)
  let rep ← storeRep rl rep 1 (fun _ => mkRep IRREDUCIBLE 1 1 1 (-1) (-1) 1)
  let (rep, r) ←
    if bit0Clear n then do
      let rep ← storeRep rl rep 2 (fun _ => mkRep IRREDUCIBLE 1 (-1) 1 (1 - band2 n) 1 1)
      let rep ← storeRep rl rep 3 (fun _ => mkRep IRREDUCIBLE 1 (-1) 1 (-1 + band2 n) (-1) 1)
      pure (rep, 4)
    else pure (rep, 2)
  let rep ← pairLoop rl r
    (fun i _ => mkRep REDUCIBLE 2 1 1 1 (1 - band1Shl1 i) i)
    (fun i _ => mkRep REDUCIBLE 2 1 1 (-1) (-1 + band1Shl1 i) i) rep
  pure (MSYM_SUCCESS, rep)

/-- The function `getRepresentationsCnv` (lines 311-350). -/
def getRepresentationsCnv (n : Int) (rl : Nat) (rep : Nat → msym_representation_t) :
    Option (msym_error_t × (Nat → msym_representation_t)) := do
  let rep ← storeRep rl rep 0 (fun _ => mkRep IRREDUCIBLE 1 1 1 1 1 1)
  let rep ← storeRep rl rep 1 (fun _ => mkRep IRREDUCIBLE 1 1 (-1) 1 1 1)
  let (rep, r) ←
    if bit0Clear n then do
      let rep ← storeRep rl rep 2 (fun _ => mkRep IRREDUCIBLE 1 (-1) 1 1 1 1)
      let rep ← storeRep rl rep 3 (fun _ => mkRep IRREDUCIBLE 1 (-1) (-1) 1 1 1)
      pure (rep, 4)
    else pure (rep, 2)
  let rep ← singleLoop rl r (fun i _ => mkRep IRREDUCIBLE 2 1 1 1 1 i) rep
  pure (MSYM_SUCCESS, rep)

/-- The function `getRepresentationsDn` (lines 352-391). -/
def getRepresentationsDn (n : Int) (rl : Nat) (rep : Nat → msym_representation_t) :
    Option (msym_error_t × (Nat → msym_representation_t)) := do
  let rep ← storeRep rl rep 0 (fun _ => mkRep IRREDUCIBLE 1 1 1 1 1 1)
  let rep ← storeRep rl rep 1 (fun _ => mkRep IRREDUCIBLE 1 1 (-1) 1 1 1)
  let (rep, r) ←
    if bit0Clear n then do
      let rep ← storeRep rl rep 2 (fun _ => mkRep IRREDUCIBLE 1 (-1) 1 1 1 1)
      let rep ← storeRep rl rep 3 (fun _ => mkRep IRREDUCIBLE 1 (-1) (-1) 1 1 1)
      pure (rep, 4)
    else pure (rep, 2)
  let rep ← singleLoop rl r (fun i _ => mkRep IRREDUCIBLE 2 1 1 1 1 i) rep
  pure (MSYM_SUCCESS, rep)

/-- The function `getRepresentationsDnh` (lines 393-471). -/
def getRepresentationsDnh (n : Int) (rl : Nat) (rep : Nat → msym_representation_t) :
    Option (msym_error_t × (Nat → msym_representation_t)) := do
  let rep ← storeRep rl rep 0 (fun _ => mkRep IRREDUCIBLE 1 1 1 1 1 1)
  let rep ← storeRep rl rep 1 (fun _ => mkRep IRREDUCIBLE 1 1 (-1) 1 1 1)
  let rep ← storeRep rl rep 2 (fun _ => mkRep IRREDUCIBLE 1 1 1 (-1) (-1) 1)
  let rep ← storeRep rl rep 3 (fun _ => mkRep IRREDUCIBLE 1 1 (-1) (-1) (-1) 1)
  let (rep, r) ←
    if bit0Clear n then do
      let rep ← storeRep rl rep 4 (fun _ => mkRep IRREDUCIBLE 1 (-1) 1 (1 - band2 n) 1 1)
      let rep ← storeRep rl rep 5 (fun _ => mkRep IRREDUCIBLE 1 (-1) 1 (-1 + band2 n) (-1) 1)
      let rep ← storeRep rl rep 6 (fun _ => mkRep IRREDUCIBLE 1 (-1) (-1) (1 - band2 n) 1 1)
      let rep ← storeRep rl rep 7 (fun _ => mkRep IRREDUCIBLE 1 (-1) (-1) (-1 + band2 n) (-1) 1)
      pure (rep, 8)
    else pure (rep, 4)
  let rep ← pairLoop rl r
    (fun i _ => mkRep IRREDUCIBLE 2 1 1 1 (1 - band1Shl1 i) i)
    (fun i _ => mkRep IRREDUCIBLE 2 1 1 (-1) (-1 + band1Shl1 i) i) rep
  pure (MSYM_SUCCESS, rep)

/-- The function `getRepresentationsDnd` (lines 473-544).  In the second
descriptor of a pair (lines 528-533) `eig.v` is not assigned and `eig.p` is
copied from it, so both keep what the cell held before. -/
def getRepresentationsDnd (n : Int) (rl : Nat) (rep : Nat → msym_representation_t) :
    Option (msym_error_t × (Nat → msym_representation_t)) := do
  let rep ← storeRep rl rep 0 (fun _ => mkRep IRREDUCIBLE 1 1 1 1 1 1)
  let rep ← storeRep rl rep 1 (fun _ => mkRep IRREDUCIBLE 1 1 (-1) 1 1 1)
  if bit0Clear n then do
    let rep ← storeRep rl rep 2 (fun _ => mkRep IRREDUCIBLE 1 1 1 (-1) 1 1)
    let rep ← storeRep rl rep 3 (fun _ => mkRep IRREDUCIBLE 1 1 (-1) (-1) 1 1)
    let rep ← singleLoop rl 4 (fun i _ => mkRep IRREDUCIBLE 2 1 1 1 1 i) rep
    pure (MSYM_SUCCESS, rep)
  else do
    let rep ← storeRep rl rep 2 (fun _ => mkRep IRREDUCIBLE 1 1 1 (-1) (-1) 1)
    let rep ← storeRep rl rep 3 (fun _ => mkRep IRREDUCIBLE 1 1 (-1) (-1) (-1) 1)
    let rep ← pairLoop rl 4
      (fun i _ => mkRep IRREDUCIBLE 2 1 1 (1 - mod2Shl1 i) 1 i)
      (fun i x => mkRep IRREDUCIBLE 2 x.eig.v x.eig.v (-1 + mod2Shl1 i) (-1) i) rep
    pure (MSYM_SUCCESS, rep)

/-- The `int` quotient `n/sop->order` (C division truncates towards zero);
undefined for a zero divisor. -/
def intQuot (n order : Int) : Option Int :=
  if order = 0 then none else some (Int.tdiv n order)

/-- The `double` quotient `M_PI/sop->order`; it has no real value for a zero
divisor. -/
def piOver (pi : K) (order : Int) : Option K :=
  if order = 0 then none else some (pi / (order : K))

/-- The C expression `((n/sop->order) & 1) ? rep->eig.p : 1`, given the
quotient. -/
def oddSelect (q p : Int) : Int := if q % 2 = 1 then p else 1

/-- The function `representationCharacter` (lines 547-634).  The argument `c`
is the old content of `*c`; the result holds the return code and the new
content of `*c`, which is written on success only. -/
def representationCharacter (cosf : K → K) (pi : K) (n : Int)
    (sop : msym_symmetry_operation_t) (rep : msym_representation_t) (c : K) :
    Option (msym_error_t × K) :=
  if sop.orientation = HORIZONTAL then
    if rep.d = 1 then
      match sop.type with
      | IDENTITY => some (MSYM_SUCCESS, 1)
      | REFLECTION => some (MSYM_SUCCESS, ((rep.eig.h : Int) : K))
      | INVERSION => some (MSYM_SUCCESS, ((rep.eig.i : Int) : K))
      | PROPER_ROTATION =>
        (intQuot n sop.order).map (fun q => (MSYM_SUCCESS, ((oddSelect q rep.eig.p : Int) : K)))
      | IMPROPER_ROTATION =>
        (intQuot n sop.order).map
          (fun q => (MSYM_SUCCESS, ((rep.eig.h * oddSelect q rep.eig.p : Int) : K)))
    else if rep.d = 2 then
      match sop.type with
      | IDENTITY => some (MSYM_SUCCESS, 2)
      | REFLECTION => some (MSYM_SUCCESS, ((2 * rep.eig.h : Int) : K))
      | INVERSION => some (MSYM_SUCCESS, ((2 * rep.eig.i : Int) : K))
      | PROPER_ROTATION =>
        (piOver pi sop.order).map
          (fun a => (MSYM_SUCCESS, 2 * cosf (((2 * rep.eig.l * sop.power : Int) : K) * a)))
      | IMPROPER_ROTATION =>
        (piOver pi sop.order).map
          (fun a => (MSYM_SUCCESS,
            ((rep.eig.h * 2 : Int) : K) * cosf (((2 * rep.eig.l * sop.power : Int) : K) * a)))
    else some (MSYM_INVALID_CHARACTER_TABLE, c)
  else
    if rep.d = 1 then
      match sop.type with
      | IDENTITY => some (MSYM_SUCCESS, 1)
      | INVERSION => some (MSYM_SUCCESS, ((rep.eig.i : Int) : K))
      | REFLECTION =>
        some (MSYM_SUCCESS,
          (((if sop.orientation = VERTICAL then rep.eig.v * rep.eig.h
             else rep.eig.p * rep.eig.v * rep.eig.h) : Int) : K))
      | PROPER_ROTATION =>
        some (MSYM_SUCCESS,
          (((if sop.orientation = VERTICAL then rep.eig.v
             else rep.eig.p * rep.eig.v) : Int) : K))
      | IMPROPER_ROTATION => some (MSYM_INVALID_CHARACTER_TABLE, c)
    else if rep.d = 2 then
      match sop.type with
      | IDENTITY => some (MSYM_SUCCESS, 2)
      | REFLECTION => some (MSYM_SUCCESS, 0)
      | INVERSION => some (MSYM_SUCCESS, ((2 * rep.eig.i : Int) : K))
      | PROPER_ROTATION => some (MSYM_SUCCESS, 0)
      | IMPROPER_ROTATION => some (MSYM_INVALID_CHARACTER_TABLE, c)
    else some (MSYM_INVALID_CHARACTER_TABLE, c)

/-- The C call `snprintf(name, l, ...)` for a formatted text `s`: at most
`l - 1` characters are stored; nothing is stored for `l = 0`. -/
def snprintf (l : Nat) (name s : String) : String :=
  if l = 0 then name else s.take (l - 1)

/-- The four slots `eindex[0..3]` of `getRepresentationName`. -/
structure eindex_t where
  e0 : Int
  e1 : Int
  e2 : Int
  e3 : Int
  deriving DecidableEq, Repr

/-- The switch over the group type in `getRepresentationName` (lines 821-848)
that masks the slots `eindex = {p, h, v, i}`. -/
def maskEindex (type : msym_point_group_type_t) (n : Int) (rep : msym_representation_t) :
    eindex_t :=
  let e : eindex_t := { e0 := rep.eig.p, e1 := rep.eig.h, e2 := rep.eig.v, e3 := rep.eig.i }
  match type with
  | POINT_GROUP_Cn => { e with e1 := 0, e2 := 0, e3 := 0 }
  | POINT_GROUP_Cnv => { e with e1 := 0, e3 := 0 }
  | POINT_GROUP_Cnh =>
    if bit0Clear n then { e with e1 := 0, e2 := 0 } else { e with e3 := 0, e2 := 0 }
  | POINT_GROUP_Dn => { e with e1 := 0, e3 := 0 }
  | POINT_GROUP_Dnd =>
    if bit0Clear n then { e with e3 := 0, e0 := rep.eig.h, e1 := 0 } else { e with e1 := 0 }
  | POINT_GROUP_Dnh =>
    if bit0Clear n then { e with e1 := 0 } else { e with e3 := 0 }
  | _ => e

/-- The array `types` of `getRepresentationName`. -/
def types : List Char := ['A', 'B', 'E', 'T', 'G', 'H']

/-- The array `si` of `getRepresentationName`, read at `eindex[3]+1`. -/
def si (e : Int) : String := ["u", "", "g"].getD (e + 1).toNat ""

/-- The array `sv` of `getRepresentationName`, read at `eindex[2]+1`. -/
def sv (e : Int) : String := ["2", "", "1"].getD (e + 1).toNat ""

/-- The array `sh` of `getRepresentationName`, read at `eindex[1]+1`. -/
def sh (e : Int) : String := ["''", "", "'"].getD (e + 1).toNat ""

/-- The function `getRepresentationName` (lines 813-862).  The argument `name`
is the old content of the buffer `name[l]`; the result holds the return code
and the new content.  `>> 1` on `1 - eindex[0]` (0, 1 or 2) is a halving. -/
def getRepresentationName (type : msym_point_group_type_t) (n : Int)
    (rep : msym_representation_t) (l : Nat) (name : String) : msym_error_t × String :=
  if rep.d < 1 ∨ rep.d > 5 ∨ |rep.eig.p| > 1 ∨ |rep.eig.v| > 1 ∨ |rep.eig.h| > 1
      ∨ |rep.eig.i| > 1 then
    (MSYM_INVALID_CHARACTER_TABLE, name)
  else
    let e := maskEindex type n rep
    let rtype : Char :=
      if rep.d = 1 then types.getD ((1 - e.e0) / 2).toNat 'A' else types.getD rep.d.toNat 'A'
    let star : String := if rep.type = IRREDUCIBLE then "" else "*"
    if rep.d = 1 then
      (MSYM_SUCCESS, snprintf l name (String.singleton rtype ++ sv e.e2 ++ si e.e3 ++ sh e.e1))
    else if rep.eig.l > 0 then
      (MSYM_SUCCESS,
        snprintf l name
          (star ++ String.singleton rtype ++ toString rep.eig.l ++ si e.e3 ++ sh e.e1))
    else
      (MSYM_SUCCESS, snprintf l name (star ++ String.singleton rtype ++ si e.e3 ++ sh e.e1))

/-- Modelled from the spec: `sizeof(ct->s[i].name)`; the declaration of
`msym_symmetry_species_t` is in `msym.h`, which is not among the sources.  The
spec gives a label of at most 7 characters plus terminator. -/
def sizeof_name : Nat := 8

/-- The macro `C4PI` of `character_table.h`, the decimal literal as written. -/
def C4PI : K := -(161803398874989484820458683436563811772030917980576286213544 / 10 ^ 59)

/-- The macro `C2PI` of `character_table.h`, the decimal literal as written. -/
def C2PI : K := 618033988749894848204586834365638117720309179805762862135448 / 10 ^ 60

/-- The value of type `double` that the literal `C4PI` has in the compiled
program: the binary64 number nearest to the literal (IEEE 754, round to
nearest), `-7286977268806824 · 2⁻⁵²`, in hexadecimal `-0x1.9e3779b97f4a8p+0`. -/
def C4PI_binary64 : K := -(7286977268806824 / 2 ^ 52)

/-- A class descriptor of a predefined table: the designated initialisers set
`type`, `order`, `power` and `orientation`; the other fields are zero. -/
def tsop (type : msym_symmetry_operation_type) (order power : Int) :
    msym_symmetry_operation_t :=
  { type := type, order := order, power := power, orientation := NONE, cla := 0 }

/-- The test of line 787 that a runtime operation matches a class descriptor. -/
def sopMatches (t sop : msym_symmetry_operation_t) : Bool :=
  t.type = sop.type && t.order = sop.order && t.power = sop.power
    && t.orientation = sop.orientation

/-- The copy loop of lines 795-797: `ctable[j][cla] = table[j][i]` for
`j = 0 .. l-1`. -/
def copyColumn (l : Nat) (table : List (List K)) (i cla : Nat) (ctable : Nat → Nat → K) :
    Nat → Nat → K :=
  (List.range l).foldl
    (fun ctable j =>
      Function.update ctable j (Function.update (ctable j) cla ((table.getD j []).getD i 0)))
    ctable

/-- The loop over `i = 0 .. l-1` of `getPredefinedCharacterTable` (lines
782-806), on the list of the indices still to be visited. -/
def predefinedLoop (sops : List msym_symmetry_operation_t) (l : Nat)
    (tsops : List msym_symmetry_operation_t) (tname : List String) (tdim : List Int)
    (table : List (List K)) :
    List Nat → msym_character_table_t K → msym_error_t × msym_character_table_t K
  | [], ct => (MSYM_SUCCESS, ct)
  | i :: rest, ct =>
    let species : msym_symmetry_species_t :=
      { name := snprintf sizeof_name (ct.s i).name (tname.getD i ""), d := tdim.getD i 0 }
    let ct : msym_character_table_t K := { ct with s := Function.update ct.s i species }
    match sops.find? (sopMatches (tsops.getD i (tsop IDENTITY 0 0))) with
    | some sop =>
      if sop.cla ≥ l then (MSYM_INVALID_CHARACTER_TABLE, ct)
      else
        predefinedLoop sops l tsops tname tdim table rest
          { ct with table := copyColumn l table i sop.cla ct.table }
    | none => (MSYM_INVALID_CHARACTER_TABLE, ct)

/-- The function `getPredefinedCharacterTable` (lines 771-810). -/
def getPredefinedCharacterTable (sops : List msym_symmetry_operation_t) (l : Nat)
    (tsops : List msym_symmetry_operation_t) (tname : List String) (tdim : List Int)
    (table : List (List K)) (ct : msym_character_table_t K) :
    msym_error_t × msym_character_table_t K :=
  if ct.d ≠ l then (MSYM_INVALID_CHARACTER_TABLE, ct)
  else predefinedLoop sops l tsops tname tdim table (List.range l) ct

/-- The function `getCharacterTableUnknown` (lines 636-643). -/
def getCharacterTableUnknown (_sops : List msym_symmetry_operation_t)
    (ct : msym_character_table_t K) : msym_error_t × msym_character_table_t K :=
  (MSYM_INVALID_CHARACTER_TABLE, ct)

/-- The function `getCharacterTableT` (lines 645-668). -/
def getCharacterTableT (sops : List msym_symmetry_operation_t)
    (ct : msym_character_table_t K) : msym_error_t × msym_character_table_t K :=
  getPredefinedCharacterTable sops 3
    [tsop IDENTITY 1 1, tsop PROPER_ROTATION 3 1, tsop PROPER_ROTATION 2 1]
    ["A", "E", "T"]
    [1, 2, 3]
    [[1, 1, 1],
     [2, -1, 2],
     [3, 0, -1]] ct

/-- The function `getCharacterTableTd` (lines 670-696). -/
def getCharacterTableTd (sops : List msym_symmetry_operation_t)
    (ct : msym_character_table_t K) : msym_error_t × msym_character_table_t K :=
  getPredefinedCharacterTable sops 5
    [tsop IDENTITY 1 1, tsop PROPER_ROTATION 2 1, tsop PROPER_ROTATION 3 1,
     tsop IMPROPER_ROTATION 4 1, tsop REFLECTION 1 1]
    ["A1", "A2", "E", "T1", "T2"]
    [1, 1, 2, 3, 3]
    [[1, 1, 1, 1, 1],
     [1, 1, 1, -1, -1],
     [2, 2, -1, 0, 0],
     [3, -1, 0, 1, -1],
     [3, -1, 0, -1, 1]] ct

/-- The function `getCharacterTableI` (lines 698-726). -/
def getCharacterTableI (sops : List msym_symmetry_operation_t)
    (ct : msym_character_table_t K) : msym_error_t × msym_character_table_t K :=
  getPredefinedCharacterTable sops 5
    [tsop IDENTITY 1 1, tsop PROPER_ROTATION 2 1, tsop PROPER_ROTATION 3 1,
     tsop PROPER_ROTATION 5 1, tsop PROPER_ROTATION 5 2]
    ["A", "T1", "T2", "G", "H"]
    [1, 3, 3, 4, 5]
    [[1, 1, 1, 1, 1],
     [3, -1, 0, -C4PI, -C2PI],
     [3, -1, 0, -C2PI, -C4PI],
     [4, 0, 1, -1, -1],
     [5, 1, -1, 0, 0]] ct

/-- The function `getCharacterTableIh` (lines 731-769). -/
def getCharacterTableIh (sops : List msym_symmetry_operation_t)
    (ct : msym_character_table_t K) : msym_error_t × msym_character_table_t K :=
  getPredefinedCharacterTable sops 10
    [tsop IDENTITY 1 1, tsop PROPER_ROTATION 2 1, tsop REFLECTION 1 1,
     tsop IMPROPER_ROTATION 6 1, tsop PROPER_ROTATION 5 1, tsop IMPROPER_ROTATION 10 1,
     tsop PROPER_ROTATION 5 2, tsop INVERSION 1 1, tsop PROPER_ROTATION 3 1,
     tsop IMPROPER_ROTATION 10 3]
    ["Ag", "Au", "T1g", "T1u", "T2g", "T2u", "Gg", "Gu", "Hg", "Hu"]
    [1, 1, 3, 3, 3, 3, 4, 4, 5, 5]
    [[1, 1, 1, 1, 1, 1, 1, 1, 1, 1],
     [1, 1, -1, -1, 1, -1, 1, -1, 1, -1],
     [3, -1, -1, 0, -C4PI, -C2PI, -C2PI, 3, 0, -C4PI],
     [3, -1, 1, 0, -C4PI, C2PI, -C2PI, -3, 0, C4PI],
     [3, -1, -1, 0, -C2PI, -C4PI, -C4PI, 3, 0, -C2PI],
     [3, -1, 1, 0, -C2PI, C4PI, -C4PI, -3, 0, C2PI],
     [4, 0, 0, 1, -1, -1, -1, 4, 1, -1],
     [4, 0, 0, -1, -1, 1, -1, -4, 1, 1],
     [5, 1, 1, -1, 0, 0, 0, 5, -1, 0],
     [5, 1, -1, 1, 0, 0, 0, -5, -1, 0]] ct

/-- The union `f` of an `fmap` entry together with its tag `c`: `fr` is the
tag `REP` with a descriptor generator, `ft` the tag `TAB` with a table binder. -/
inductive fmap_f (K : Type) where
  | fr (f : Int → Nat → (Nat → msym_representation_t) →
      Option (msym_error_t × (Nat → msym_representation_t)))
  | ft (f : List msym_symmetry_operation_t → msym_character_table_t K →
      msym_error_t × msym_character_table_t K)

/-- The tag test `fmap[fi].c == REP`. -/
def fmap_f.isREP : fmap_f K → Bool
  | fmap_f.fr _ => true
  | fmap_f.ft _ => false

/-- The dispatch table `fmap[18]` of `generateCharacterTable` (lines 91-118). -/
def fmap : List (msym_point_group_type_t × fmap_f K) :=
  [ (POINT_GROUP_Ci, fmap_f.fr getRepresentationsUnknown),
    (POINT_GROUP_Cs, fmap_f.fr getRepresentationsUnknown),
    (POINT_GROUP_Cn, fmap_f.fr getRepresentationsCn),
    (POINT_GROUP_Cnh, fmap_f.fr getRepresentationsCnh),
    (POINT_GROUP_Cnv, fmap_f.fr getRepresentationsCnv),
    (POINT_GROUP_Dn, fmap_f.fr getRepresentationsDn),
    (POINT_GROUP_Dnh, fmap_f.fr getRepresentationsDnh),
    (POINT_GROUP_Dnd, fmap_f.fr getRepresentationsDnd),
    (POINT_GROUP_Sn, fmap_f.fr getRepresentationsUnknown),
    (POINT_GROUP_T, fmap_f.ft getCharacterTableT),
    (POINT_GROUP_Td, fmap_f.ft getCharacterTableTd),
    (POINT_GROUP_Th, fmap_f.ft getCharacterTableUnknown),
    (POINT_GROUP_O, fmap_f.ft getCharacterTableUnknown),
    (POINT_GROUP_Oh, fmap_f.ft getCharacterTableUnknown),
    (POINT_GROUP_I, fmap_f.ft getCharacterTableI),
    (POINT_GROUP_Ih, fmap_f.ft getCharacterTableIh),
    (POINT_GROUP_K, fmap_f.ft getCharacterTableUnknown),
    (POINT_GROUP_Kh, fmap_f.ft getCharacterTableUnknown) ]

/-- Line 76: `int d = sops[sopsl-1].cla + 1`, undefined for an empty list. -/
def tableSize (sops : List msym_symmetry_operation_t) : Option Nat :=
  sops.getLast?.map (fun sop => sop.cla + 1)

/-- The zero-filled table of line 77 (`calloc`) with `ct->d = d` (line 85). -/
def callocTable (d : Nat) : msym_character_table_t K :=
  { d := d, classc := fun _ => 0, sops := fun _ => none,
    s := fun _ => { name := "", d := 0 }, table := fun _ _ => 0 }

/-- The loop of lines 134-136: `ct->classc[sops[i].cla]++`; `classc` has `d`
cells. -/
def countClasses (d : Nat) (sops : List msym_symmetry_operation_t) (classc : Nat → Int) :
    Option (Nat → Int) :=
  sops.foldlM
    (fun classc sop =>
      if sop.cla < d then some (Function.update classc sop.cla (classc sop.cla + 1)) else none)
    classc

/-- The loop over `j` of lines 142-148 for row `i`, on the operations still to
be visited and the running `nc`; the cell `table[i][nc]` lies in a row of `d`
cells. -/
def characterLoop (cosf : K → K) (pi : K) (n : Int) (d : Nat) (rep : msym_representation_t)
    (i : Nat) : List msym_symmetry_operation_t → Int → (Nat → Nat → K) →
    Option (msym_error_t × (Nat → Nat → K))
  | [], _, table => some (MSYM_SUCCESS, table)
  | sop :: rest, nc, table =>
    if nc < (sop.cla : Int) then
      if sop.cla < d then
        match representationCharacter cosf pi n sop rep (table i sop.cla) with
        | none => none
        | some (ret, c) =>
          if ret = MSYM_SUCCESS then
            characterLoop cosf pi n d rep i rest (sop.cla : Int)
              (Function.update table i (Function.update (table i) sop.cla c))
          else some (ret, table)
      else none
    else characterLoop cosf pi n d rep i rest nc table

/-- The loop over `i` of lines 138-149 (taken when the tag is `REP`), on the
list of the rows still to be visited. -/
def speciesLoop (cosf : K → K) (pi : K) (type : msym_point_group_type_t) (n : Int)
    (sops : List msym_symmetry_operation_t) (rep : Nat → msym_representation_t) :
    List Nat → msym_character_table_t K → Option (msym_error_t × msym_character_table_t K)
  | [], ct => some (MSYM_SUCCESS, ct)
  | i :: rest, ct =>
    match getRepresentationName type n (rep i) sizeof_name (ct.s i).name with
    | (ret, name) =>
      if ret = MSYM_SUCCESS then
        let species : msym_symmetry_species_t := { name := name, d := (rep i).d }
        let ct : msym_character_table_t K := { ct with s := Function.update ct.s i species }
        match characterLoop cosf pi n ct.d (rep i) i sops (-1) ct.table with
        | none => none
        | some (ret, table) =>
          if ret = MSYM_SUCCESS then
            speciesLoop cosf pi type n sops rep rest { ct with table := table }
          else some (ret, ct)
      else some (ret, ct)

/-- The inner loop of lines 153-158: the index of the first operation with
class index `i`. -/
def firstOfClass (sops : List msym_symmetry_operation_t) (i : Nat) : Option Nat :=
  sops.findIdx? (fun sop => sop.cla = i)

/-- The loop of lines 152-159: `ct->sops[i]` is set to the first operation of
class `i`, when there is one. -/
def selectRepresentatives (d : Nat) (sops : List msym_symmetry_operation_t)
    (csops : Nat → Option Nat) : Nat → Option Nat :=
  (List.range d).foldl
    (fun csops i =>
      match firstOfClass sops i with
      | some j => Function.update csops i (some j)
      | none => csops) csops

/-- The function `generateCharacterTable` (lines 74-202).  The argument `oct`
is the old content of `*oct`; the result holds the return code and the new
content of `*oct`.  The debug output of lines 161-190 is not modelled. -/
def generateCharacterTable (cosf : K → K) (pi : K) (type : msym_point_group_type_t) (n : Int)
    (sops : List msym_symmetry_operation_t) (oct : Option (msym_character_table_t K)) :
    Option (msym_error_t × Option (msym_character_table_t K)) :=
  match tableSize sops with
  | none => none
  | some d =>
    let ct : msym_character_table_t K := callocTable d
    let rep : Nat → msym_representation_t := fun _ => zeroRep
    match (fmap : List (msym_point_group_type_t × fmap_f K)).find? (fun e => e.1 = type) with
    | none => some (MSYM_POINT_GROUP_ERROR, oct)
    | some (_, f) =>
      let called : Option (msym_error_t × (Nat → msym_representation_t) × msym_character_table_t K) :=
        match f with
        | fmap_f.fr fr => (fr n ct.d rep).map (fun r => (r.1, r.2, ct))
        | fmap_f.ft ft => some ((ft sops ct).1, rep, (ft sops ct).2)
      match called with
      | none => none
      | some (ret, rep, ct) =>
        if ret = MSYM_SUCCESS then
          match countClasses ct.d sops ct.classc with
          | none => none
          | some classc =>
            let ct : msym_character_table_t K := { ct with classc := classc }
            let filled : Option (msym_error_t × msym_character_table_t K) :=
              if f.isREP then speciesLoop cosf pi type n sops rep (List.range ct.d) ct
              else some (MSYM_SUCCESS, ct)
            match filled with
            | none => none
            | some (ret, ct) =>
              if ret = MSYM_SUCCESS then
                let ct : msym_character_table_t K :=
                  { ct with sops := selectRepresentatives ct.d sops ct.sops }
                if verifyCharacterTable ct = MSYM_SUCCESS then some (MSYM_SUCCESS, some ct)
                else some (verifyCharacterTable ct, oct)
              else some (ret, oct)
        else some (ret, oct)

/-- A table given by the lists of its entries; cells beyond the lists are
zero, as `calloc` leaves them. -/
def msym_character_table_t.ofLists (d : Nat) (classc : List Int) (sops : List (Option Nat))
    (s : List msym_symmetry_species_t) (table : List (List K)) : msym_character_table_t K :=
  { d := d, classc := fun k => classc.getD k 0, sops := fun k => sops.getD k none,
    s := fun k => s.getD k { name := "", d := 0 },
    table := fun i k => (table.getD i []).getD k 0 }

/-- The largest class index of an operation list (0 for the empty list): the
"maximum class index over all operations" of the specification. -/
def maxClass (sops : List msym_symmetry_operation_t) : Nat :=
  (sops.map (fun sop => sop.cla)).foldr max 0

/-- The twelve operations of T in three classes: E; the eight rotations C3 and
C3² (merged into one class); the three C2. -/
def opsT : List msym_symmetry_operation_t :=
  [ { type := IDENTITY, order := 1, power := 1, orientation := NONE, cla := 0 },
    { type := PROPER_ROTATION, order := 3, power := 1, orientation := NONE, cla := 1 },
    { type := PROPER_ROTATION, order := 3, power := 2, orientation := NONE, cla := 1 },
    { type := PROPER_ROTATION, order := 3, power := 1, orientation := NONE, cla := 1 },
    { type := PROPER_ROTATION, order := 3, power := 2, orientation := NONE, cla := 1 },
    { type := PROPER_ROTATION, order := 3, power := 1, orientation := NONE, cla := 1 },
    { type := PROPER_ROTATION, order := 3, power := 2, orientation := NONE, cla := 1 },
    { type := PROPER_ROTATION, order := 3, power := 1, orientation := NONE, cla := 1 },
    { type := PROPER_ROTATION, order := 3, power := 2, orientation := NONE, cla := 1 },
    { type := PROPER_ROTATION, order := 2, power := 1, orientation := NONE, cla := 2 },
    { type := PROPER_ROTATION, order := 2, power := 1, orientation := NONE, cla := 2 },
    { type := PROPER_ROTATION, order := 2, power := 1, orientation := NONE, cla := 2 } ]

/-- The table `generateCharacterTable` returns for `opsT`. -/
def tableT : msym_character_table_t K :=
  msym_character_table_t.ofLists 3 [1, 8, 3] [some 0, some 1, some 9]
    [{ name := "A", d := 1 }, { name := "E", d := 2 }, { name := "T", d := 3 }]
    [[1, 1, 1], [2, -1, 2], [3, 0, -1]]

/-- The six operations of C3v: E (class 0), C3 and C3² about the principal axis
(class 1), three vertical reflections (class 2). -/
def opsC3v : List msym_symmetry_operation_t :=
  [ { type := IDENTITY, order := 1, power := 1, orientation := NONE, cla := 0 },
    { type := PROPER_ROTATION, order := 3, power := 1, orientation := HORIZONTAL, cla := 1 },
    { type := PROPER_ROTATION, order := 3, power := 2, orientation := HORIZONTAL, cla := 1 },
    { type := REFLECTION, order := 1, power := 1, orientation := VERTICAL, cla := 2 },
    { type := REFLECTION, order := 1, power := 1, orientation := VERTICAL, cla := 2 },
    { type := REFLECTION, order := 1, power := 1, orientation := VERTICAL, cla := 2 } ]

/-- The table `generateCharacterTable` returns for `opsC3v` with `n = 3`. -/
def tableC3v : msym_character_table_t K :=
  msym_character_table_t.ofLists 3 [1, 2, 3] [some 0, some 1, some 3]
    [{ name := "A1", d := 1 }, { name := "A2", d := 1 }, { name := "E1", d := 2 }]
    [[1, 1, 1], [1, 1, -1], [2, -1, 0]]

/-- The eight operations of D2h, one per class: E, the principal C2, a vertical
and a dihedral perpendicular C2, i, σh, a vertical and a dihedral mirror. -/
def opsD2h : List msym_symmetry_operation_t :=
  [ { type := IDENTITY, order := 1, power := 1, orientation := NONE, cla := 0 },
    { type := PROPER_ROTATION, order := 2, power := 1, orientation := HORIZONTAL, cla := 1 },
    { type := PROPER_ROTATION, order := 2, power := 1, orientation := VERTICAL, cla := 2 },
    { type := PROPER_ROTATION, order := 2, power := 1, orientation := DIHEDRAL, cla := 3 },
    { type := INVERSION, order := 1, power := 1, orientation := NONE, cla := 4 },
    { type := REFLECTION, order := 1, power := 1, orientation := HORIZONTAL, cla := 5 },
    { type := REFLECTION, order := 1, power := 1, orientation := VERTICAL, cla := 6 },
    { type := REFLECTION, order := 1, power := 1, orientation := DIHEDRAL, cla := 7 } ]

/-- The descriptors `getRepresentationsDnh` emits for `n = 2`, `rl = 8`. -/
def repsD2h : List msym_representation_t :=
  [mkRep IRREDUCIBLE 1 1 1 1 1 1, mkRep IRREDUCIBLE 1 1 (-1) 1 1 1,
   mkRep IRREDUCIBLE 1 1 1 (-1) (-1) 1, mkRep IRREDUCIBLE 1 1 (-1) (-1) (-1) 1,
   mkRep IRREDUCIBLE 1 (-1) 1 (-1) 1 1, mkRep IRREDUCIBLE 1 (-1) 1 1 (-1) 1,
   mkRep IRREDUCIBLE 1 (-1) (-1) (-1) 1 1, mkRep IRREDUCIBLE 1 (-1) (-1) 1 (-1) 1]

/-- The table `generateCharacterTable` returns for `opsD2h` with `n = 2`. -/
def tableD2h : msym_character_table_t K :=
  msym_character_table_t.ofLists 8 [1, 1, 1, 1, 1, 1, 1, 1]
    [some 0, some 1, some 2, some 3, some 4, some 5, some 6, some 7]
    [{ name := "A1g", d := 1 }, { name := "A2g", d := 1 }, { name := "A1u", d := 1 },
     { name := "A2u", d := 1 }, { name := "B1g", d := 1 }, { name := "B1u", d := 1 },
     { name := "B2g", d := 1 }, { name := "B2u", d := 1 }]
    [[1, 1, 1, 1, 1, 1, 1, 1],
     [1, 1, -1, -1, 1, 1, -1, -1],
     [1, 1, 1, 1, -1, -1, -1, -1],
     [1, 1, -1, -1, -1, -1, 1, 1],
     [1, -1, 1, -1, 1, -1, -1, 1],
     [1, -1, 1, -1, -1, 1, 1, -1],
     [1, -1, -1, 1, 1, -1, 1, -1],
     [1, -1, -1, 1, -1, 1, -1, 1]]

/-- An operation list in which the identity has class index 0 but is neither
the first operation nor alone in its class: a vertical reflection and E in
class 0, two principal-axis C2 in class 1. -/
def opsMixed : List msym_symmetry_operation_t :=
  [ { type := REFLECTION, order := 1, power := 1, orientation := VERTICAL, cla := 0 },
    { type := IDENTITY, order := 1, power := 1, orientation := NONE, cla := 0 },
    { type := PROPER_ROTATION, order := 2, power := 1, orientation := HORIZONTAL, cla := 1 },
    { type := PROPER_ROTATION, order := 2, power := 1, orientation := HORIZONTAL, cla := 1 } ]

/-- The table `generateCharacterTable` returns for `opsMixed` with type Cnv and
`n = 1`. -/
def tableMixed : msym_character_table_t K :=
  msym_character_table_t.ofLists 2 [2, 2] [some 0, some 2]
    [{ name := "A1", d := 1 }, { name := "A2", d := 1 }]
    [[1, 1], [-1, 1]]

/-- An operation list whose last operation does not carry the largest class
index. -/
def opsUnsorted : List msym_symmetry_operation_t :=
  [ { type := REFLECTION, order := 1, power := 1, orientation := VERTICAL, cla := 1 },
    { type := IDENTITY, order := 1, power := 1, orientation := NONE, cla := 0 } ]

/-- A vertical reflection in class 0 and a vertical C2 in class 1. -/
def opsVertical : List msym_symmetry_operation_t :=
  [ { type := REFLECTION, order := 1, power := 1, orientation := VERTICAL, cla := 0 },
    { type := PROPER_ROTATION, order := 2, power := 1, orientation := VERTICAL, cla := 1 } ]

/-- A table with two rows of class-weighted product -2. -/
def negTable : msym_character_table_t K :=
  msym_character_table_t.ofLists 2 [1, 1] [some 0, some 1]
    [{ name := "A1", d := 1 }, { name := "A2", d := 1 }]
    [[1, 1], [-1, -1]]

/-- The 24 operations of Td in five classes, none with an orientation: E
(class 0); the eight rotations C3 and C3² about four axes (class 1); the three
C2 (class 2); the six improper rotations S4 and S4³ about three axes (class 3);
the six reflections (class 4). -/
def opsTd : List msym_symmetry_operation_t :=
  [ { type := IDENTITY, order := 1, power := 1, orientation := NONE, cla := 0 },
    { type := PROPER_ROTATION, order := 3, power := 1, orientation := NONE, cla := 1 },
    { type := PROPER_ROTATION, order := 3, power := 2, orientation := NONE, cla := 1 },
    { type := PROPER_ROTATION, order := 3, power := 1, orientation := NONE, cla := 1 },
    { type := PROPER_ROTATION, order := 3, power := 2, orientation := NONE, cla := 1 },
    { type := PROPER_ROTATION, order := 3, power := 1, orientation := NONE, cla := 1 },
    { type := PROPER_ROTATION, order := 3, power := 2, orientation := NONE, cla := 1 },
    { type := PROPER_ROTATION, order := 3, power := 1, orientation := NONE, cla := 1 },
    { type := PROPER_ROTATION, order := 3, power := 2, orientation := NONE, cla := 1 },
    { type := PROPER_ROTATION, order := 2, power := 1, orientation := NONE, cla := 2 },
    { type := PROPER_ROTATION, order := 2, power := 1, orientation := NONE, cla := 2 },
    { type := PROPER_ROTATION, order := 2, power := 1, orientation := NONE, cla := 2 },
    { type := IMPROPER_ROTATION, order := 4, power := 1, orientation := NONE, cla := 3 },
    { type := IMPROPER_ROTATION, order := 4, power := 3, orientation := NONE, cla := 3 },
    { type := IMPROPER_ROTATION, order := 4, power := 1, orientation := NONE, cla := 3 },
    { type := IMPROPER_ROTATION, order := 4, power := 3, orientation := NONE, cla := 3 },
    { type := IMPROPER_ROTATION, order := 4, power := 1, orientation := NONE, cla := 3 },
    { type := IMPROPER_ROTATION, order := 4, power := 3, orientation := NONE, cla := 3 },
    { type := REFLECTION, order := 1, power := 1, orientation := NONE, cla := 4 },
    { type := REFLECTION, order := 1, power := 1, orientation := NONE, cla := 4 },
    { type := REFLECTION, order := 1, power := 1, orientation := NONE, cla := 4 },
    { type := REFLECTION, order := 1, power := 1, orientation := NONE, cla := 4 },
    { type := REFLECTION, order := 1, power := 1, orientation := NONE, cla := 4 },
    { type := REFLECTION, order := 1, power := 1, orientation := NONE, cla := 4 } ]

/-- The table `generateCharacterTable` returns for `opsTd`; the columns are in
the class order of `opsTd` (E, C3, C2, S4, reflections). -/
def tableTd : msym_character_table_t K :=
  msym_character_table_t.ofLists 5 [1, 8, 3, 6, 6] [some 0, some 1, some 9, some 12, some 18]
    [{ name := "A1", d := 1 }, { name := "A2", d := 1 }, { name := "E", d := 2 },
     { name := "T1", d := 3 }, { name := "T2", d := 3 }]
    [[1, 1, 1, 1, 1], [1, 1, 1, -1, -1], [2, -1, 2, 0, 0], [3, 0, -1, 1, -1],
     [3, 0, -1, -1, 1]]

/-- The two operations of Ci: E (class 0) and the inversion (class 1). -/
def opsCi : List msym_symmetry_operation_t :=
  [ { type := IDENTITY, order := 1, power := 1, orientation := NONE, cla := 0 },
    { type := INVERSION, order := 1, power := 1, orientation := NONE, cla := 1 } ]

/-- The class index a predefined class descriptor is bound to: the class of
the first runtime operation that matches it (lines 785-792), when there is
one. -/
def boundClass (sops : List msym_symmetry_operation_t) (t : msym_symmetry_operation_t) :
    Option Nat :=
  (sops.find? (sopMatches t)).map (fun sop => sop.cla)

/-- The array `tsops` of `getCharacterTableIh` (lines 733-744): the class
descriptors E, C2, σ, S6, C5, S10, C5², i, C3, S10³. -/
def tsopsIh : List msym_symmetry_operation_t :=
  [tsop IDENTITY 1 1, tsop PROPER_ROTATION 2 1, tsop REFLECTION 1 1,
   tsop IMPROPER_ROTATION 6 1, tsop PROPER_ROTATION 5 1, tsop IMPROPER_ROTATION 10 1,
   tsop PROPER_ROTATION 5 2, tsop INVERSION 1 1, tsop PROPER_ROTATION 3 1,
   tsop IMPROPER_ROTATION 10 3]

/-- Ten operations of Ih, one of each class, in the class order E, C2, C3, C5,
C5², i, σ, S6, S10, S10³. -/
def opsIh : List msym_symmetry_operation_t :=
  [ { type := IDENTITY, order := 1, power := 1, orientation := NONE, cla := 0 },
    { type := PROPER_ROTATION, order := 2, power := 1, orientation := NONE, cla := 1 },
    { type := PROPER_ROTATION, order := 3, power := 1, orientation := NONE, cla := 2 },
    { type := PROPER_ROTATION, order := 5, power := 1, orientation := NONE, cla := 3 },
    { type := PROPER_ROTATION, order := 5, power := 2, orientation := NONE, cla := 4 },
    { type := INVERSION, order := 1, power := 1, orientation := NONE, cla := 5 },
    { type := REFLECTION, order := 1, power := 1, orientation := NONE, cla := 6 },
    { type := IMPROPER_ROTATION, order := 6, power := 1, orientation := NONE, cla := 7 },
    { type := IMPROPER_ROTATION, order := 10, power := 1, orientation := NONE, cla := 8 },
    { type := IMPROPER_ROTATION, order := 10, power := 3, orientation := NONE, cla := 9 } ]

/-- Modelled from the spec: the routine `vadd(a, b, out)` of `linalg.c`, which
is not among the sources; `out` is the sum of the two vectors. -/
def vadd (a b : Fin 3 → K) : Fin 3 → K := a + b

/-- Modelled from the spec: the routine `vdot(a, b)` of `linalg.c`, which is not
among the sources; the scalar product, `vdot(a, a)` being the squared length. -/
def vdot (a b : Fin 3 → K) : K := a 0 * b 0 + a 1 * b 1 + a 2 * b 2

/-- Modelled from the spec: the routine `vscale(s, a, out)` of `linalg.c`, which
is not among the sources; `out` is `a` scaled by `s`. -/
def vscale (s : K) (a : Fin 3 → K) : Fin 3 → K := s • a

/-- The macro `SQR` of `symmetrize.c` (line 20). -/
def SQR (x : K) : K := x * x

/-- A division of two doubles: it has a real value when the divisor is not
zero (otherwise the C value is infinite or not a number). -/
def fdiv (a b : K) : Option K := if b = 0 then none else some (a / b)

/-- The field `zero` of `msym_thresholds_t`, the only one `symmetrize.c` reads. -/
structure msym_thresholds_t (K : Type) where
  zero : K

/-- The type `msym_permutation_t`: the index array `p`. -/
structure msym_permutation_t where
  p : Nat → Nat

/-- The type `msym_equivalence_set_t`: `length` and the positions
`elements[k]->v` of its elements.  Different entries `elements[k]`, of one set
or of two sets, are taken to point to different elements. -/
structure msym_equivalence_set_t (K : Type) where
  length : Nat
  elements : Nat → Fin 3 → K

/-- The type `msym_point_group_t`: the fields `type`, `n`, `order`, `sops` and
`ct` that `symmetrize.c` reads; `axis j` is the field `v` of `sops[j]`, which
the record `msym_symmetry_operation_t` above leaves out. -/
structure msym_point_group_t (K : Type) where
  type : msym_point_group_type_t
  n : Int
  order : Nat
  sops : Nat → msym_symmetry_operation_t
  axis : Nat → Fin 3 → K
  ct : msym_character_table_t K

/-- The loops over `j` and `k` of lines 55-62 (lines 111-118 of the linear
variant): operation `j` is applied to the source vector of element `k` and the
result is added into `v[p]`, `p = perm[i][j].p[k]`; `v` has `pg->order` rows.
The routine `applySymmetryOperation` (`symop.c`, not among the sources) is a
parameter: it receives the operation record, its axis and the vector. -/
def accumulateLoop
    (applySymmetryOperation : msym_symmetry_operation_t → (Fin 3 → K) → (Fin 3 → K) → Fin 3 → K)
    (pg : msym_point_group_t K) (perm : Nat → msym_permutation_t) (length : Nat)
    (src : Nat → Fin 3 → K) (v : Nat → Fin 3 → K) : Option (Nat → Fin 3 → K) :=
  (List.range pg.order).foldlM
    (fun v j =>
      (List.range length).foldlM
        (fun v k =>
          if (perm j).p k < pg.order then
            some (Function.update v ((perm j).p k)
              (vadd (applySymmetryOperation (pg.sops j) (pg.axis j) (src k)) (v ((perm j).p k))))
          else none) v) v

/-- The loop over `j` of lines 64-68 (lines 120-124): `ol` and `sl` are
accumulated and element `j` is moved to `v[j]` scaled by `1.0/order`.  The
state is (`ol`, `sl`, positions). -/
def scaleLoop (order length : Nat) (v : Nat → Fin 3 → K) (elements : Nat → Fin 3 → K) :
    K × K × (Nat → Fin 3 → K) :=
  (List.range length).foldl
    (fun st j =>
      (st.1 + vdot (st.2.2 j) (st.2.2 j), st.2.1 + vdot (v j) (v j),
        Function.update st.2.2 j (vscale (1 / (order : K)) (v j))))
    (0, 0, elements)

/-- Lines 69-70 (125-126) for a set that is not skipped: `sl /= SQR(order)` and
the term `(ol-sl)/ol` enters `e` through `acc` (`e += t` on the general path,
`e = fmax(e, t)` on the linear path).  The result is `none` when a division is
by zero, or when `e` was no real number already. -/
def errorTerm (acc : K → K → K) (order : Nat) (e : Option K) (ol sl : K) : Option K :=
  match e, fdiv sl (SQR (order : K)) with
  | some e, some sl => (fdiv (ol - sl) ol).map (fun t => acc e t)
  | _, _ => none

/-- The loop over the equivalence sets: lines 47-72 of
`symmetrizeMoleculeProject` and lines 98-127 of `symmetrizeMoleculeLinear`,
which differ only in the vector the operations are applied to (`source`: the
position itself, or its projection `vinf[k]`) and in how the term enters `e`
(`acc`).  The list holds the indices still to be visited; the result is the
return code, the positions and `e` (`none`: no real number); a result `none`
is an access outside `v`. -/
def symmetrizeLoop
    (applySymmetryOperation : msym_symmetry_operation_t → (Fin 3 → K) → (Fin 3 → K) → Fin 3 → K)
    (pg : msym_point_group_t K) (perm : Nat → Nat → msym_permutation_t)
    (thresholds : msym_thresholds_t K) (source : (Fin 3 → K) → Fin 3 → K) (acc : K → K → K) :
    List Nat → (Nat → msym_equivalence_set_t K) → Option K →
      Option (msym_error_t × (Nat → msym_equivalence_set_t K) × Option K)
  | [], es, e => some (MSYM_SUCCESS, es, e)
  | i :: rest, es, e =>
    if (es i).length > pg.order then some (MSYM_SYMMETRIZATION_ERROR, es, e)
    else
      match accumulateLoop applySymmetryOperation pg (perm i) (es i).length
          (fun k => source ((es i).elements k)) (fun _ => 0) with
      | none => none
      | some v =>
        let st := scaleLoop pg.order (es i).length v (es i).elements
        let moved : msym_equivalence_set_t K := { length := (es i).length, elements := st.2.2 }
        let e : Option K :=
          if (es i).length = 1 ∧ st.1 ≤ thresholds.zero then e
          else errorTerm acc pg.order e st.1 st.2.1
        symmetrizeLoop applySymmetryOperation pg perm thresholds source acc rest
          (Function.update es i moved) e

/-- The function `symmetrizeMoleculeProject` (lines 44-77).  `sqrtf` is `sqrt`
of `math.h`; `err` is the old content of `*err`, and the result holds the
return code, the positions and the new content of `*err` (`none`: a division
by zero was met on the way to it). -/
def symmetrizeMoleculeProject
    (applySymmetryOperation : msym_symmetry_operation_t → (Fin 3 → K) → (Fin 3 → K) → Fin 3 → K)
    (sqrtf : K → K) (pg : msym_point_group_t K) (esl : Nat)
    (es : Nat → msym_equivalence_set_t K) (perm : Nat → Nat → msym_permutation_t)
    (thresholds : msym_thresholds_t K) (err : Option K) :
    Option (msym_error_t × (Nat → msym_equivalence_set_t K) × Option K) :=
  match symmetrizeLoop applySymmetryOperation pg perm thresholds (fun x => x) (fun e t => e + t)
      (List.range esl) es (some 0) with
  | none => none
  | some (ret, es, e) =>
    if ret = MSYM_SUCCESS then some (MSYM_SUCCESS, es, e.map (fun e => sqrtf (max e 0)))
    else some (ret, es, err)

/-- The function `symmetrizeMoleculeLinear` (lines 79-137).  The routine `vproj`
(`linalg.c`, not among the sources) is a parameter: it receives the position
and the axis of the C∞ operation. -/
def symmetrizeMoleculeLinear
    (applySymmetryOperation : msym_symmetry_operation_t → (Fin 3 → K) → (Fin 3 → K) → Fin 3 → K)
    (vproj : (Fin 3 → K) → (Fin 3 → K) → Fin 3 → K)
    (sqrtf : K → K) (pg : msym_point_group_t K) (esl : Nat)
    (es : Nat → msym_equivalence_set_t K) (perm : Nat → Nat → msym_permutation_t)
    (thresholds : msym_thresholds_t K) (err : Option K) :
    Option (msym_error_t × (Nat → msym_equivalence_set_t K) × Option K) :=
  match (List.range pg.order).find?
      (fun i => (pg.sops i).type = PROPER_ROTATION && (pg.sops i).order = 0) with
  | none => some (MSYM_SYMMETRIZATION_ERROR, es, err)
  | some cinf =>
    match symmetrizeLoop applySymmetryOperation pg perm thresholds
        (fun x => vproj x (pg.axis cinf)) (fun e t => max e t) (List.range esl) es (some 0) with
    | none => none
    | some (ret, es, e) =>
      if ret = MSYM_SUCCESS then some (MSYM_SUCCESS, es, e.map sqrtf)
      else some (ret, es, err)

/-- The function `symmetrizeMolecule` (lines 27-36); the enumerators
`MSYM_POINT_GROUP_TYPE_Cnv` and `MSYM_POINT_GROUP_TYPE_Dnh` of `symmetrize.c`
are the constructors `POINT_GROUP_Cnv` and `POINT_GROUP_Dnh`. -/
def symmetrizeMolecule
    (applySymmetryOperation : msym_symmetry_operation_t → (Fin 3 → K) → (Fin 3 → K) → Fin 3 → K)
    (vproj : (Fin 3 → K) → (Fin 3 → K) → Fin 3 → K)
    (sqrtf : K → K) (pg : msym_point_group_t K) (esl : Nat)
    (es : Nat → msym_equivalence_set_t K) (perm : Nat → Nat → msym_permutation_t)
    (thresholds : msym_thresholds_t K) (err : Option K) :
    Option (msym_error_t × (Nat → msym_equivalence_set_t K) × Option K) :=
  if (pg.type = POINT_GROUP_Cnv ∨ pg.type = POINT_GROUP_Dnh) ∧ pg.n = 0 then
    symmetrizeMoleculeLinear applySymmetryOperation vproj sqrtf pg esl es perm thresholds err
  else symmetrizeMoleculeProject applySymmetryOperation sqrtf pg esl es perm thresholds err

/-- The vector the specification calls `v[k]` for one equivalence set: the sum,
over all pairs of an operation `j` and an element `k'` of the set with
`perm[j].p[k'] = k`, of operation `j` applied to the source vector of `k'`. -/
def orbitSum
    (applySymmetryOperation : msym_symmetry_operation_t → (Fin 3 → K) → (Fin 3 → K) → Fin 3 → K)
    (pg : msym_point_group_t K) (perm : Nat → msym_permutation_t) (length : Nat)
    (src : Nat → Fin 3 → K) (k : Nat) : Fin 3 → K :=
  ∑ j in Finset.range pg.order, ∑ k' in Finset.range length,
    if (perm j).p k' = k then applySymmetryOperation (pg.sops j) (pg.axis j) (src k') else 0

/-- The quantity `ol` of the specification: the sum of the squared lengths of
the positions of a set. -/
def setNorm (s : msym_equivalence_set_t K) : K :=
  ∑ k in Finset.range s.length, vdot (s.elements k) (s.elements k)

/-- The quantity `sl` of the specification: the sum of the squared lengths of
the vectors `v[k]`, divided by the square of the group order. -/
def orbitNorm
    (applySymmetryOperation : msym_symmetry_operation_t → (Fin 3 → K) → (Fin 3 → K) → Fin 3 → K)
    (pg : msym_point_group_t K) (perm : Nat → msym_permutation_t) (length : Nat)
    (src : Nat → Fin 3 → K) : K :=
  (∑ k in Finset.range length,
    vdot (orbitSum applySymmetryOperation pg perm length src k)
      (orbitSum applySymmetryOperation pg perm length src k)) / SQR (pg.order : K)

/-- The positions of a set after its round of the loop, in closed form: element
`k` is `orbitSum` scaled by `1/order`. -/
def symmetrizedSet
    (applySymmetryOperation : msym_symmetry_operation_t → (Fin 3 → K) → (Fin 3 → K) → Fin 3 → K)
    (pg : msym_point_group_t K) (perm : Nat → msym_permutation_t)
    (source : (Fin 3 → K) → Fin 3 → K) (s : msym_equivalence_set_t K) :
    msym_equivalence_set_t K :=
  { length := s.length,
    elements := fun k =>
      if k < s.length then
        vscale (1 / (pg.order : K))
          (orbitSum applySymmetryOperation pg perm s.length (fun k => source (s.elements k)) k)
      else s.elements k }

/-- The term `(ol - sl)/ol` of a set, in closed form. -/
def setError
    (applySymmetryOperation : msym_symmetry_operation_t → (Fin 3 → K) → (Fin 3 → K) → Fin 3 → K)
    (pg : msym_point_group_t K) (perm : Nat → msym_permutation_t)
    (source : (Fin 3 → K) → Fin 3 → K) (s : msym_equivalence_set_t K) : K :=
  (setNorm s
    - orbitNorm applySymmetryOperation pg perm s.length (fun k => source (s.elements k)))
    / setNorm s

/-- The test of lines 70 and 126 that a set does not enter the error: it has
a single element and `ol` is at most `thresholds->zero`. -/
def setSkipped (thresholds : msym_thresholds_t K) (s : msym_equivalence_set_t K) : Bool :=
  s.length = 1 ∧ setNorm s ≤ thresholds.zero

/-- The two operations of C2 about the z axis: E and the rotation by π. -/
def sopsC2 (j : Nat) : msym_symmetry_operation_t :=
  if j = 0 then { type := IDENTITY, order := 1, power := 1, orientation := NONE, cla := 0 }
  else { type := PROPER_ROTATION, order := 2, power := 1, orientation := HORIZONTAL, cla := 1 }

/-- The action of the operations `sopsC2` on a vector, standing for
`applySymmetryOperation`: the identity leaves it, the rotation by π about z
negates x and y. -/
def applyC2 (sop : msym_symmetry_operation_t) (_axis : Fin 3 → K) (x : Fin 3 → K) :
    Fin 3 → K :=
  if sop.type = IDENTITY then x else ![-x 0, -x 1, x 2]

/-- The point group C2 with the operations `sopsC2`. -/
def pgC2 : msym_point_group_t K :=
  { type := POINT_GROUP_Cn, n := 2, order := 2, sops := sopsC2, axis := fun _ => ![0, 0, 1],
    ct := callocTable 0 }

/-- Two equivalence sets for `pgC2`: a pair of atoms near (1,0,0) and (-1,0,0)
that the rotation exchanges, and a single atom at the origin. -/
def esC2 (i : Nat) : msym_equivalence_set_t K :=
  if i = 0 then { length := 2, elements := fun k => if k = 0 then ![1, 0, 0] else ![-1, 1, 0] }
  else { length := 1, elements := fun _ => ![0, 0, 0] }

/-- The permutations of the sets `esC2` under the operations `sopsC2`: the
rotation exchanges the two atoms of set 0. -/
def permC2 (i j : Nat) : msym_permutation_t :=
  { p := fun k => if i = 0 ∧ j = 1 then 1 - k else k }

/-- The thresholds of the examples: `zero` is 1/1000. -/
def thresholdsC2 : msym_thresholds_t K := { zero := 1 / 1000 }

/-- A point group of type Cnv with `n = 0` (linear) whose operation list is
`sopsC2`: it holds no proper rotation of order 0. -/
def pgC0v : msym_point_group_t K :=
  { type := POINT_GROUP_Cnv, n := 0, order := 2, sops := sopsC2, axis := fun _ => ![0, 0, 1],
    ct := callocTable 0 }

/-- Two operations of a linear group: E and the rotation C∞ (a proper rotation
of order 0) about the z axis. -/
def sopsCinf (j : Nat) : msym_symmetry_operation_t :=
  if j = 0 then { type := IDENTITY, order := 1, power := 1, orientation := NONE, cla := 0 }
  else { type := PROPER_ROTATION, order := 0, power := 1, orientation := HORIZONTAL, cla := 1 }

/-- A point group of type Cnv with `n = 0` and the operations `sopsCinf`. -/
def pgCinfv : msym_point_group_t K :=
  { type := POINT_GROUP_Cnv, n := 0, order := 2, sops := sopsCinf, axis := fun _ => ![0, 0, 1],
    ct := callocTable 0 }

/-- The projection on the z axis, standing for `vproj` in the examples. -/
def vprojZ (x _axis : Fin 3 → K) : Fin 3 → K := ![0, 0, x 2]

/-- One equivalence set of a single atom near the z axis. -/
def esLinear (_i : Nat) : msym_equivalence_set_t K :=
  { length := 1, elements := fun _ => ![1 / 10, 0, 1] }

/-- The identity permutations. -/
def permId (_i _j : Nat) : msym_permutation_t := { p := fun k => k }

/-- The type `msym_salc_t` (`msym.h`, not among the sources), with the fields
`symmetrize.c` reads: the number `d` of partner functions, the number `fl` of
basis functions, `f j` for the index `salc->f[j] - basis` of basis function `j`
in `basis`, and `pf d j` for the coefficient `space[d][j]`, the array `pf` read
as `d` rows of `fl` cells. -/
structure msym_salc_t (K : Type) where
  d : Nat
  fl : Nat
  f : Nat → Nat
  pf : Nat → Nat → K

/-- The type `msym_subspace_t` (`msym.h`, not among the sources), with the
fields `salcl` and `salc` that `symmetrize.c` reads. -/
structure msym_subspace_t (K : Type) where
  salcl : Nat
  salc : Nat → msym_salc_t K

/-- The local arrays that the component analysis of `symmetrizeWavefunctions`
fills (lines 143-162): `icomp` and `bfd` have `basisl` rows, `ispan` and
`psalck` have `pg->ct->d` cells, `psalc` has `basisl` rows of `psalcl` cells. -/
structure wf_components (K : Type) where
  icomp : Nat → Nat
  ispan : Nat → Int
  psalc : Nat → Nat → K
  bfd : Nat → Nat → K
  psalck : Nat → Nat

/-- Lines 148-150: `md`, the largest dimension of an irrep, at least 1. -/
def maxDimension (ct : msym_character_table_t K) : Int :=
  (List.range ct.d).foldl (fun md k => if md > (ct.s k).d then md else (ct.s k).d) 1

/-- Lines 155-157: `psalcl`, the number of SALCs of all subspaces. -/
def psalcLength (ssl : Nat) (ss : Nat → msym_subspace_t K) : Nat :=
  (List.range ssl).foldl (fun psalcl i => psalcl + (ss i).salcl) 0

/-- Lines 175-178 and 326-329: `mem[0]` is zeroed and the cell of basis function
`j` receives `val j`, for `j = 0 .. fl-1`; the cells are the `basisl` cells of
the row `mem[0]`. -/
def fillMem (basisl : Nat) (salc : msym_salc_t K) (val : Nat → K) : Option (Nat → K) :=
  (List.range salc.fl).foldlM
    (fun mem j =>
      if salc.f j < basisl then some (Function.update mem (salc.f j) (val j)) else none)
    (fun _ => 0)

/-- The loop over `d` of lines 174-184 for wave function `o` and one SALC, on
the state (`mabs`, `psalcabs`, `bfd`); a row of `bfd` has `md` cells.  The
routines `vlproj` and `vlsumsqr` (`linalg.c`, not among the sources) are
parameters: `vlproj l a b` is the content of the output vector. -/
def salcLoop (vlproj : Nat → (Nat → K) → (Nat → K) → Nat → K) (vlsumsqr : Nat → (Nat → K) → K)
    (basisl : Nat) (md : Int) (wf : Nat → Nat → K) (o : Nat) (salc : msym_salc_t K)
    (st : K × K × (Nat → Nat → K)) : Option (K × K × (Nat → Nat → K)) :=
  (List.range salc.d).foldlM
    (fun st d =>
      match fillMem basisl salc (fun j => salc.pf d j) with
      | none => none
      | some mem0 =>
        let pabssqr := vlsumsqr basisl (vlproj basisl (wf o) mem0)
        if (d : Int) < md then
          some (st.1 + pabssqr, st.2.1 + pabssqr,
            Function.update st.2.2 o (Function.update (st.2.2 o) d (st.2.2 o d + pabssqr)))
        else none)
    st

/-- The loop over `s` of lines 171-187 for wave function `o` and irrep `k`, on
the state (`mabs`, `psalci`, `psalc`, `bfd`); a row of `psalc` has `psalcl`
cells.  `sqrtf` is `sqrt` of `math.h`. -/
def subspaceLoop (vlproj : Nat → (Nat → K) → (Nat → K) → Nat → K)
    (vlsumsqr : Nat → (Nat → K) → K) (sqrtf : K → K)
    (basisl : Nat) (md : Int) (psalcl : Nat) (wf : Nat → Nat → K) (o : Nat)
    (sub : msym_subspace_t K) (st : K × Nat × (Nat → Nat → K) × (Nat → Nat → K)) :
    Option (K × Nat × (Nat → Nat → K) × (Nat → Nat → K)) :=
  (List.range sub.salcl).foldlM
    (fun st s =>
      match salcLoop vlproj vlsumsqr basisl md wf o (sub.salc s) (st.1, 0, st.2.2.2) with
      | none => none
      | some (mabs, psalcabs, bfd) =>
        if st.2.1 < psalcl then
          some (mabs, st.2.1 + 1,
            Function.update st.2.2.1 o
              (Function.update (st.2.2.1 o) st.2.1 (sqrtf psalcabs)), bfd)
        else none)
    st

/-- The state of the loop over `k` of lines 168-193: `mcomp`, `psalci` and the
arrays. -/
structure irrep_state (K : Type) where
  mcomp : K
  psalci : Nat
  c : wf_components K

/-- One round of the loop over `k` of lines 168-193 for wave function `o`;
`ss` has `ssl` entries. -/
def irrepStep (vlproj : Nat → (Nat → K) → (Nat → K) → Nat → K)
    (vlsumsqr : Nat → (Nat → K) → K) (sqrtf : K → K)
    (ssl : Nat) (ss : Nat → msym_subspace_t K)
    (basisl : Nat) (md : Int) (psalcl : Nat) (wf : Nat → Nat → K) (o : Nat)
    (st : irrep_state K) (k : Nat) : Option (irrep_state K) :=
  if k < ssl then
    match subspaceLoop vlproj vlsumsqr sqrtf basisl md psalcl wf o (ss k)
        (0, st.psalci, st.c.psalc, st.c.bfd) with
    | none => none
    | some (mabs, psalci, psalc, bfd) =>
      let psalck := Function.update st.c.psalck k st.psalci
      if mabs > st.mcomp then
        some { mcomp := mabs, psalci := psalci,
               c := { icomp := Function.update st.c.icomp o k, ispan := st.c.ispan,
                      psalc := psalc, bfd := bfd, psalck := psalck } }
      else
        some { mcomp := st.mcomp, psalci := psalci,
               c := { icomp := st.c.icomp, ispan := st.c.ispan,
                      psalc := psalc, bfd := bfd, psalck := psalck } }
  else none

/-- The loop over `k` of lines 168-193 for wave function `o`. -/
def irrepLoop (vlproj : Nat → (Nat → K) → (Nat → K) → Nat → K)
    (vlsumsqr : Nat → (Nat → K) → K) (sqrtf : K → K)
    (ct : msym_character_table_t K) (ssl : Nat) (ss : Nat → msym_subspace_t K)
    (basisl : Nat) (md : Int) (psalcl : Nat) (wf : Nat → Nat → K) (o : Nat)
    (st : irrep_state K) : Option (irrep_state K) :=
  (List.range ct.d).foldlM (irrepStep vlproj vlsumsqr sqrtf ssl ss basisl md psalcl wf o) st

/-- One round of the loop over the wave functions `o` of lines 164-194: the
loop over `k` from `mcomp = -1.0` and `psalci = 0`, then `ispan[icomp[o]]++`;
`ispan` has `pg->ct->d` cells. -/
def waveStep (vlproj : Nat → (Nat → K) → (Nat → K) → Nat → K)
    (vlsumsqr : Nat → (Nat → K) → K) (sqrtf : K → K)
    (ct : msym_character_table_t K) (ssl : Nat) (ss : Nat → msym_subspace_t K)
    (basisl : Nat) (wf : Nat → Nat → K) (c : wf_components K) (o : Nat) :
    Option (wf_components K) :=
  match irrepLoop vlproj vlsumsqr sqrtf ct ssl ss basisl (maxDimension ct)
      (psalcLength ssl ss) wf o { mcomp := -1, psalci := 0, c := c } with
  | none => none
  | some st =>
    if st.c.icomp o < ct.d then
      some { icomp := st.c.icomp,
             ispan := Function.update st.c.ispan (st.c.icomp o)
               (st.c.ispan (st.c.icomp o) + 1),
             psalc := st.c.psalc, bfd := st.c.bfd, psalck := st.c.psalck }
    else none

/-- The component analysis, lines 164-194: the loop over the wave functions
`o`, from the zeroed arrays of lines 143-162. -/
def componentAnalysis (vlproj : Nat → (Nat → K) → (Nat → K) → Nat → K)
    (vlsumsqr : Nat → (Nat → K) → K) (sqrtf : K → K)
    (ct : msym_character_table_t K) (ssl : Nat) (ss : Nat → msym_subspace_t K)
    (basisl : Nat) (wf : Nat → Nat → K) : Option (wf_components K) :=
  (List.range basisl).foldlM (waveStep vlproj vlsumsqr sqrtf ct ssl ss basisl wf)
    { icomp := fun _ => 0, ispan := fun _ => 0, psalc := fun _ _ => 0, bfd := fun _ _ => 0,
      psalck := fun _ => 0 }

/-- The span check, lines 196-202: some `ispan[k]` differs from
`span[k]*pg->ct->s[k].d`. -/
def spanMismatch (ct : msym_character_table_t K) (span : Nat → Int) (ispan : Nat → Int) :
    Bool :=
  (List.range ct.d).any (fun k => ispan k ≠ span k * (ct.s k).d)

/-- The assignment `a[r][c] = x` to a cell of a two-dimensional array. -/
def setCell {α : Type} (a : Nat → Nat → α) (r c : Nat) (x : α) : Nat → Nat → α :=
  Function.update a r (Function.update (a r) c x)

/-- Lines 209-212: `pf[o][i] = -1` and `pf[basisl][i] = -1` for
`i = 1 .. md-1`. -/
def resetPartners (basisl : Nat) (md : Int) (o : Nat) (pf : Nat → Nat → Int) :
    Nat → Nat → Int :=
  (List.range' 1 (md.toNat - 1)).foldl
    (fun pf i => setCell (setCell pf o i (-1)) basisl i (-1)) pf

/-- Lines 214-216: wave function `o` is a partner of an earlier one, that is
`pf[i][j] == o` for some `i < o` and `1 ≤ j < md`. -/
def claimed (md : Int) (o : Nat) (pf : Nat → Nat → Int) : Bool :=
  (List.range o).any (fun i => (List.range' 1 (md.toNat - 1)).any (fun j => pf i j = (o : Int)))

/-- The loop over `i` of lines 227-233: the slot `mic` whose distance `dmpf[i]`
the candidate distance `c` improves most (0: none), on the state (`mic`,
`mc`). -/
def bestSlot (dim : Int) (dmpf : Nat → K) (c : K) : Nat × K :=
  (List.range' 1 (dim.toNat - 1)).foldl
    (fun st i => if c < dmpf i ∧ |dmpf i - c| > st.2 then (i, |dmpf i - c|) else st)
    (0, 0)

/-- The loop over the candidates `po` of lines 222-239 for wave function `o`,
on the state (`dmpf`, `pf`).  The routines `vlsub` and `vlabs` (`linalg.c`,
not among the sources) are parameters.  `vlsub` writes `psalcl` cells from
`mem[0]` on, and the cells behind the row `mem[0]` are those of `dmpf`: the
model covers `psalcl ≤ basisl`. -/
def candidateLoop (vlsub : Nat → (Nat → K) → (Nat → K) → Nat → K) (vlabs : Nat → (Nat → K) → K)
    (basisl psalcl : Nat) (c : wf_components K) (o ko : Nat) (dim : Int)
    (st : (Nat → K) × (Nat → Nat → Int)) : Option ((Nat → K) × (Nat → Nat → Int)) :=
  (List.range basisl).foldlM
    (fun st po =>
      if c.icomp po ≠ ko ∨ o = po then some st
      else if psalcl ≤ basisl then
        let dist := vlabs psalcl (vlsub psalcl (c.psalc o) (c.psalc po))
        let mic := (bestSlot dim st.1 dist).1
        if mic > 0 then
          some (Function.update st.1 mic dist,
            setCell (setCell st.2 o mic (po : Int)) basisl mic (po : Int))
        else some st
      else none)
    st

/-- Lines 240-246: for each slot `i = 1 .. dim-1` with `pf[basisl][i] > 0` the
count `pf[o][0]` is incremented and the count of the partner decremented. -/
def countPartners (basisl : Nat) (dim : Int) (o : Nat) (pf : Nat → Nat → Int) :
    Nat → Nat → Int :=
  (List.range' 1 (dim.toNat - 1)).foldl
    (fun pf i =>
      if pf basisl i > 0 then
        setCell (setCell pf o 0 (pf o 0 + 1)) (pf basisl i).toNat 0
          (setCell pf o 0 (pf o 0 + 1) (pf basisl i).toNat 0 - 1)
      else pf)
    pf

/-- The partner search, lines 205-247: the loop over the wave functions `o`.
`dblMax` is the constant `DBL_MAX` of `float.h`. -/
def partnerLoop (vlsub : Nat → (Nat → K) → (Nat → K) → Nat → K) (vlabs : Nat → (Nat → K) → K)
    (dblMax : K) (ct : msym_character_table_t K) (basisl : Nat) (md : Int) (psalcl : Nat)
    (c : wf_components K) (pf : Nat → Nat → Int) : Option (Nat → Nat → Int) :=
  (List.range basisl).foldlM
    (fun pf o =>
      let pf := resetPartners basisl md o pf
      if claimed md o pf ∨ (ct.s (c.icomp o)).d ≤ 1 then some pf
      else
        match candidateLoop vlsub vlabs basisl psalcl c o (c.icomp o) (ct.s (c.icomp o)).d
            (fun _ => dblMax, pf) with
        | none => none
        | some st => some (countPartners basisl (ct.s (c.icomp o)).d o st.2))
    pf

/-- The checks of lines 251-273 pass: for every wave function `o`,
`abs(pf[o][0]) + 1` is the dimension of its irrep, and when `pf[o][0] ≥ 0`
none of the slots `pf[o][i]`, `i < dim`, is -1. -/
def partnersVerified (ct : msym_character_table_t K) (basisl : Nat) (c : wf_components K)
    (pf : Nat → Nat → Int) : Bool :=
  (List.range basisl).all
    (fun o =>
      (|pf o 0| + 1 = (ct.s (c.icomp o)).d)
        && (pf o 0 < 0
          || (List.range (ct.s (c.icomp o)).d.toNat).all (fun i => pf o i ≠ -1)))

/-- The dimension assignment of lines 288-306 for the partner group of `o`: for
each partner `i < dim` the dimension `d < dim` with the largest component
`bfd[pf[o][i]][d]` among those no earlier partner has taken is stored in
`pf[basisl][i]`; `pf[o][i]` indexes the `basisl` rows of `bfd`. -/
def assignDimensions (basisl dim : Nat) (c : wf_components K) (o : Nat)
    (pf : Nat → Nat → Int) : Option (Nat → Nat → Int) :=
  (List.range dim).foldlM
    (fun pf i =>
      if 0 ≤ pf o i ∧ pf o i < (basisl : Int) then
        some ((List.range dim).foldl
          (fun st d =>
            if c.bfd (pf o i).toNat d > st.2 then
              if (List.range i).any (fun j => st.1 basisl j = (d : Int)) then st
              else (setCell st.1 basisl i (d : Int), c.bfd (pf o i).toNat d)
            else st)
          (pf, (0 : K))).1
      else none)
    pf

/-- Lines 313-333 for wave function `o` and the SALC `s` of its irrep `k`: the
average `avg` of `psalc[pf[o][d]][psalci]` over the partners, and for each
partner `d` the vector `avg*space[di]` added to `symwf[wfi]`.  The routine
`vladd` (`linalg.c`, not among the sources) is a parameter: `vladd l a b` is the
content of the output vector.  `wfi` indexes the `basisl` rows of `symwf`
and `psalc`; `di` indexes the `salc->d` rows of `space`, which are read when
`fl` is not 0. -/
def reconstructSalc (vladd : Nat → (Nat → K) → (Nat → K) → Nat → K) (basisl psalcl dim : Nat)
    (c : wf_components K) (o k s : Nat) (salc : msym_salc_t K) (pf : Nat → Nat → Int)
    (symwf : Nat → Nat → K) : Option (Nat → Nat → K) :=
  match (List.range dim).foldlM
      (fun avg d =>
        if 0 ≤ pf o d ∧ pf o d < (basisl : Int) ∧ c.psalck k + s < psalcl then
          some (avg + c.psalc (pf o d).toNat (c.psalck k + s))
        else none) (0 : K) with
  | none => none
  | some sum =>
    (List.range dim).foldlM
      (fun symwf d =>
        if 0 ≤ pf o d ∧ pf o d < (basisl : Int)
            ∧ (salc.fl = 0 ∨ (0 ≤ pf basisl d ∧ pf basisl d < (salc.d : Int))) then
          match fillMem basisl salc
              (fun j => sum / (dim : K) * salc.pf (pf basisl d).toNat j) with
          | none => none
          | some mem0 =>
            some (Function.update symwf (pf o d).toNat
              (vladd basisl mem0 (symwf (pf o d).toNat)))
        else none)
      symwf

/-- The reconstruction, lines 275-335: the loop over the wave functions `o`,
on the state (`pf`, `symwf`). -/
def reconstructLoop (vladd : Nat → (Nat → K) → (Nat → K) → Nat → K)
    (ct : msym_character_table_t K) (ss : Nat → msym_subspace_t K) (basisl psalcl : Nat)
    (c : wf_components K) (st : (Nat → Nat → Int) × (Nat → Nat → K)) :
    Option ((Nat → Nat → Int) × (Nat → Nat → K)) :=
  (List.range basisl).foldlM
    (fun st o =>
      if st.1 o 0 < 0 then some st
      else
        let dim := (ct.s (c.icomp o)).d.toNat
        let pf := (List.range dim).foldl (fun pf i => setCell pf basisl i (-1))
          (setCell st.1 o 0 (o : Int))
        match assignDimensions basisl dim c o pf with
        | none => none
        | some pf =>
          match (List.range (ss (c.icomp o)).salcl).foldlM
              (fun symwf s =>
                reconstructSalc vladd basisl psalcl dim c o (c.icomp o) s
                  ((ss (c.icomp o)).salc s) pf symwf) st.2 with
          | none => none
          | some symwf => some (pf, symwf))
    st

/-- The function `symmetrizeWavefunctions` (lines 140-348).  Of `pg` the table
`pg->ct` is read; `basis` serves the index `salc->f[j] - basis` only, which is
the field `f` of the SALC here.  The result holds the return code and the
content of `symwf`, which line 146 zeroes before anything else.  The output of
`printf` is not modelled. -/
def symmetrizeWavefunctions (vlproj : Nat → (Nat → K) → (Nat → K) → Nat → K)
    (vlsumsqr : Nat → (Nat → K) → K) (vlsub : Nat → (Nat → K) → (Nat → K) → Nat → K)
    (vlabs : Nat → (Nat → K) → K) (vladd : Nat → (Nat → K) → (Nat → K) → Nat → K)
    (sqrtf : K → K) (dblMax : K) (pg : msym_point_group_t K) (ssl : Nat)
    (ss : Nat → msym_subspace_t K) (span : Nat → Int) (basisl : Nat) (wf : Nat → Nat → K) :
    Option (msym_error_t × (Nat → Nat → K)) :=
  match componentAnalysis vlproj vlsumsqr sqrtf pg.ct ssl ss basisl wf with
  | none => none
  | some c =>
    if spanMismatch pg.ct span c.ispan then some (MSYM_SYMMETRIZATION_ERROR, fun _ _ => 0)
    else
      match partnerLoop vlsub vlabs dblMax pg.ct basisl (maxDimension pg.ct)
          (psalcLength ssl ss) c (fun _ _ => 0) with
      | none => none
      | some pf =>
        if partnersVerified pg.ct basisl c pf then
          match reconstructLoop vladd pg.ct ss basisl (psalcLength ssl ss) c
              (pf, fun _ _ => 0) with
          | none => none
          | some st => some (MSYM_SUCCESS, st.2)
        else some (MSYM_SYMMETRIZATION_ERROR, fun _ _ => 0)

/-- A SALC of one partner function, the basis function 0 itself. -/
def salcA : msym_salc_t K := { d := 1, fl := 1, f := fun j => j, pf := fun _ _ => 1 }

/-- A point group whose table has the single irrep A of dimension 1. -/
def pgA : msym_point_group_t K :=
  { type := POINT_GROUP_Cn, n := 1, order := 1, sops := fun _ => tsop IDENTITY 1 1,
    axis := fun _ => ![0, 0, 1],
    ct := { d := 1, classc := fun _ => 1, sops := fun _ => some 0,
            s := fun _ => { name := "A", d := 1 }, table := fun _ _ => 1 } }

/-- The projection of `a` on `b` over `l` cells, standing for `vlproj` in the
examples. -/
def vlprojEx (l : Nat) (a b : Nat → K) : Nat → K :=
  fun i => (∑ t in Finset.range l, a t * b t) / (∑ t in Finset.range l, b t * b t) * b i

/-- The sum of the squares of `l` cells, standing for `vlsumsqr` in the
examples. -/
def vlsumsqrEx (l : Nat) (a : Nat → K) : K := ∑ t in Finset.range l, a t * a t

/-- The three operations of C3 in two classes: E (class 0); C3 and C3² about
the principal axis (class 1). -/
def opsC3 : List msym_symmetry_operation_t :=
  [ { type := IDENTITY, order := 1, power := 1, orientation := NONE, cla := 0 },
    { type := PROPER_ROTATION, order := 3, power := 1, orientation := HORIZONTAL, cla := 1 },
    { type := PROPER_ROTATION, order := 3, power := 2, orientation := HORIZONTAL, cla := 1 } ]

/-- The table `generateCharacterTable` returns for `opsC3` with type Cn and
`n = 3`. -/
def tableC3 : msym_character_table_t K :=
  msym_character_table_t.ofLists 2 [1, 2] [some 0, some 1]
    [{ name := "A", d := 1 }, { name := "*E1", d := 2 }]
    [[1, 1], [2, -1]]

/-- Three operations in which the C3 and the C2 that the class descriptors of
the T table match carry the same class index 1. -/
def opsTShared : List msym_symmetry_operation_t :=
  [ { type := IDENTITY, order := 1, power := 1, orientation := NONE, cla := 0 },
    { type := PROPER_ROTATION, order := 3, power := 1, orientation := NONE, cla := 1 },
    { type := PROPER_ROTATION, order := 2, power := 1, orientation := NONE, cla := 1 } ]

/-- A point group whose table has the single irrep E of dimension 2. -/
def pgE : msym_point_group_t K :=
  { type := POINT_GROUP_Cn, n := 1, order := 1, sops := fun _ => tsop IDENTITY 1 1,
    axis := fun _ => ![0, 0, 1],
    ct := { d := 1, classc := fun _ => 1, sops := fun _ => some 0,
            s := fun _ => { name := "E", d := 2 }, table := fun _ _ => 2 } }

/-- A SALC of two partner functions over two basis functions: partner `d` is
the basis function `d` itself. -/
def salcE : msym_salc_t K :=
  { d := 2, fl := 2, f := fun j => j, pf := fun d j => if d = j then 1 else 0 }

/-- Two wave functions over two basis functions, both equal to the basis
function 0. -/
def wfE (_o j : Nat) : K := if j = 0 then 1 else 0

/-- Three equivalence sets for `pgC2`: the pair of `esC2`, then a set of three
atoms, more than the order 2 of the group, then the single atom of `esC2`. -/
def esOversized (i : Nat) : msym_equivalence_set_t K :=
  if i = 0 then esC2 0
  else if i = 1 then { length := 3, elements := fun _ => ![1, 1, 1] }
  else esC2 1

/-- A SALC of two partner functions over the basis functions 1 and 2: partner
`d` is the basis function `d + 1` itself. -/
def salcE12 : msym_salc_t K :=
  { d := 2, fl := 2, f := fun j => j + 1, pf := fun d j => if d = j then 1 else 0 }

/-- The subspaces of the three irreps A1, A2, E1 of `tableC3v` over three basis
functions: A1 holds the SALC `salcA` (basis function 0), A2 holds no SALC and
E1 holds `salcE12`. -/
def ssC3v (k : Nat) : msym_subspace_t K :=
  if k = 0 then { salcl := 1, salc := fun _ => salcA }
  else if k = 1 then { salcl := 0, salc := fun _ => salcA }
  else { salcl := 1, salc := fun _ => salcE12 }

/-- Three wave functions over three basis functions, with the coefficients
(1, 0, 0), (1, 2, 0) and (0, 0, 1). -/
def wfC3v (o j : Nat) : K :=
  ([[1, 0, 0], [1, 2, 0], [0, 0, 1]].getD o []).getD j 0

/-- Modelled from the spec: `vadd` of `linalg.c` in an arithmetic that rounds
every result with `rnd`. -/
def vaddR (rnd : K → K) (a b : Fin 3 → K) : Fin 3 → K := fun c => rnd (a c + b c)

/-- Modelled from the spec: `vdot` of `linalg.c` in an arithmetic that rounds
every result with `rnd`; the three products are summed from left to right. -/
def vdotR (rnd : K → K) (a b : Fin 3 → K) : K :=
  rnd (rnd (rnd (a 0 * b 0) + rnd (a 1 * b 1)) + rnd (a 2 * b 2))

/-- Modelled from the spec: `vscale` of `linalg.c` in an arithmetic that rounds
every result with `rnd`. -/
def vscaleR (rnd : K → K) (s : K) (a : Fin 3 → K) : Fin 3 → K := fun c => rnd (s * a c)

/-- The loops of lines 55-62 in an arithmetic that rounds every result with
`rnd`: `accumulateLoop` with the rounded `vadd`. -/
def accumulateLoopR (rnd : K → K)
    (applySymmetryOperation : msym_symmetry_operation_t → (Fin 3 → K) → (Fin 3 → K) → Fin 3 → K)
    (pg : msym_point_group_t K) (perm : Nat → msym_permutation_t) (length : Nat)
    (src : Nat → Fin 3 → K) (v : Nat → Fin 3 → K) : Option (Nat → Fin 3 → K) :=
  (List.range pg.order).foldlM
    (fun v j =>
      (List.range length).foldlM
        (fun v k =>
          if (perm j).p k < pg.order then
            some (Function.update v ((perm j).p k)
              (vaddR rnd (applySymmetryOperation (pg.sops j) (pg.axis j) (src k))
                (v ((perm j).p k))))
          else none) v) v

/-- The loop of lines 64-68 in an arithmetic that rounds every result with
`rnd`: `ol += vdot(...)`, `sl += vdot(...)` and the scaling by
`1.0/((double)pg->order)`.  The conversion of the `int` to `double` is exact. -/
def scaleLoopR (rnd : K → K) (order length : Nat) (v : Nat → Fin 3 → K)
    (elements : Nat → Fin 3 → K) : K × K × (Nat → Fin 3 → K) :=
  (List.range length).foldl
    (fun st j =>
      (rnd (st.1 + vdotR rnd (st.2.2 j) (st.2.2 j)), rnd (st.2.1 + vdotR rnd (v j) (v j)),
        Function.update st.2.2 j (vscaleR rnd (rnd (1 / (order : K))) (v j))))
    (0, 0, elements)

/-- Lines 69-70 for a set that is not skipped, in an arithmetic that rounds
every result with `rnd`: `sl /= SQR((double)pg->order)` and
`e += (ol-sl)/ol`. -/
def errorTermR (rnd : K → K) (order : Nat) (e : Option K) (ol sl : K) : Option K :=
  match e, fdiv sl (rnd (SQR (order : K))) with
  | some e, some sl => (fdiv (rnd (ol - rnd sl)) ol).map (fun t => rnd (e + rnd t))
  | _, _ => none

/-- The loop over the equivalence sets of `symmetrizeMoleculeProject` (lines
47-72) in an arithmetic that rounds every result with `rnd`. -/
def symmetrizeLoopR (rnd : K → K)
    (applySymmetryOperation : msym_symmetry_operation_t → (Fin 3 → K) → (Fin 3 → K) → Fin 3 → K)
    (pg : msym_point_group_t K) (perm : Nat → Nat → msym_permutation_t)
    (thresholds : msym_thresholds_t K) :
    List Nat → (Nat → msym_equivalence_set_t K) → Option K →
      Option (msym_error_t × (Nat → msym_equivalence_set_t K) × Option K)
  | [], es, e => some (MSYM_SUCCESS, es, e)
  | i :: rest, es, e =>
    if (es i).length > pg.order then some (MSYM_SYMMETRIZATION_ERROR, es, e)
    else
      match accumulateLoopR rnd applySymmetryOperation pg (perm i) (es i).length
          (fun k => (es i).elements k) (fun _ => 0) with
      | none => none
      | some v =>
        let st := scaleLoopR rnd pg.order (es i).length v (es i).elements
        let moved : msym_equivalence_set_t K := { length := (es i).length, elements := st.2.2 }
        let e : Option K :=
          if (es i).length = 1 ∧ st.1 ≤ thresholds.zero then e
          else errorTermR rnd pg.order e st.1 st.2.1
        symmetrizeLoopR rnd applySymmetryOperation pg perm thresholds rest
          (Function.update es i moved) e

/-- The function `symmetrizeMoleculeProject` (lines 44-77) in an arithmetic
that rounds the result of every addition, subtraction, multiplication and
division with `rnd`; `sqrtf` is `sqrt` of `math.h` in that arithmetic.  With
`rnd` the identity this is `symmetrizeMoleculeProject`; with `rnd = binary64`
it is the computation in the type `double`. -/
def symmetrizeMoleculeProjectR (rnd : K → K)
    (applySymmetryOperation : msym_symmetry_operation_t → (Fin 3 → K) → (Fin 3 → K) → Fin 3 → K)
    (sqrtf : K → K) (pg : msym_point_group_t K) (esl : Nat)
    (es : Nat → msym_equivalence_set_t K) (perm : Nat → Nat → msym_permutation_t)
    (thresholds : msym_thresholds_t K) (err : Option K) :
    Option (msym_error_t × (Nat → msym_equivalence_set_t K) × Option K) :=
  match symmetrizeLoopR rnd applySymmetryOperation pg perm thresholds (List.range esl) es
      (some 0) with
  | none => none
  | some (ret, es, e) =>
    if ret = MSYM_SUCCESS then some (MSYM_SUCCESS, es, e.map (fun e => sqrtf (max e 0)))
    else some (ret, es, err)

end Embedding

section Lemmas

variable {K : Type} [LinearOrderedField K]

theorem foldl_range_add (f : Nat → K) (a : K) (n : Nat) :
    (List.range n).foldl (fun x j => x + f j) a = a + ∑ j in Finset.range n, f j := by
  induction n with
  | zero => simp
  | succ n ih => simp [List.range_succ, List.foldl_append, ih, Finset.sum_range_succ, add_assoc]

theorem decomposeRow_eq (ct : msym_character_table_t K) (rspan : Nat → K) (k : Nat) (acc : K) :
    decomposeRow ct rspan k acc
      = acc + ∑ j in Finset.range ct.d, (ct.classc j : K) * rspan j * ct.table k j := by
  unfold decomposeRow
  exact foldl_range_add _ _ _

theorem rowProduct_eq (ct : msym_character_table_t K) (i j : Nat) :
    rowProduct ct i j
      = ∑ k in Finset.range ct.d, (ct.classc k : K) * ct.table i k * ct.table j k := by
  unfold rowProduct
  rw [foldl_range_add, zero_add]

/-- State after the first `n` rounds of the accumulation loop. -/
theorem decomposeAccumulate_rounds (ct : msym_character_table_t K) (rspan : Nat → K)
    (st : Int × (Nat → K)) (n : Nat) :
    (List.range n).foldl
        (fun st k => (st.1 + ct.classc k,
          Function.update st.2 k (decomposeRow ct rspan k (st.2 k)))) st
      = (st.1 + ∑ j in Finset.range n, ct.classc j,
          fun k => if k < n then decomposeRow ct rspan k (st.2 k) else st.2 k) := by
  induction n with
  | zero => simp
  | succ n ih =>
    rw [List.range_succ, List.foldl_append, ih]
    simp only [List.foldl_cons, List.foldl_nil, Finset.sum_range_succ, add_assoc]
    congr 1
    funext k
    by_cases hk : k = n
    · subst hk; simp
    · rw [Function.update_noteq hk]
      have : (k < n + 1) = (k < n) := by
        apply propext; omega
      simp only [this]

theorem divideLoop_rounds (order : Int) (horder : order ≠ 0) (ds : Nat → K) (n : Nat) :
    (List.range n).foldlM
        (fun ds k => if order = 0 then none
          else some (Function.update ds k (ds k / (order : K)))) ds
      = some (fun k => if k < n then ds k / (order : K) else ds k) := by
  induction n with
  | zero => simp
  | succ n ih =>
    rw [List.range_succ, List.foldlM_append, ih]
    simp only [Option.some_bind, List.foldlM_cons, List.foldlM_nil, horder, if_false,
      Option.bind_eq_bind, Option.pure_def, Option.bind_some]
    congr 1
    funext k
    by_cases hk : k = n
    · subst hk; simp
    · rw [Function.update_noteq hk]
      have : (k < n + 1) = (k < n) := by
        apply propext; omega
      simp only [this]

theorem decomposeRepresentation_eq (ct : msym_character_table_t K) (rspan dspan : Nat → K)
    (horder : (∑ j in Finset.range ct.d, ct.classc j) ≠ 0) :
    decomposeRepresentation ct rspan dspan
      = some (fun k =>
          if k < ct.d then
            (∑ j in Finset.range ct.d, (ct.classc j : K) * rspan j * ct.table k j)
              / ((∑ j in Finset.range ct.d, ct.classc j : Int) : K)
          else dspan k) := by
  unfold decomposeRepresentation decomposeAccumulate
  rw [decomposeAccumulate_rounds]
  simp only [zero_add]
  rw [divideLoop_rounds _ horder]
  congr 1
  funext k
  by_cases hk : k < ct.d
  · simp [hk, decomposeRow_eq]
  · simp [hk]

theorem flagLoop_eq_success (P : Nat → Prop) [DecidablePred P] (l : List Nat)
    (ret : msym_error_t) :
    l.foldl (fun ret j => if P j then MSYM_INVALID_CHARACTER_TABLE else ret) ret = MSYM_SUCCESS
      ↔ ret = MSYM_SUCCESS ∧ ∀ j ∈ l, ¬ P j := by
  induction l generalizing ret with
  | nil => simp
  | cons j l ih =>
    rw [List.foldl_cons, ih]
    by_cases hj : P j
    · simp [hj]
    · simp [hj]

theorem verifyRow_eq_success (ct : msym_character_table_t K) (i : Nat) (ret : msym_error_t) :
    verifyRow ct i ret = MSYM_SUCCESS
      ↔ ret = MSYM_SUCCESS ∧
        ∀ j, i < j → j < ct.d → rowProduct ct i j ≤ CHARACTER_TABLE_VERIFICATION_THRESHOLD := by
  unfold verifyRow
  rw [flagLoop_eq_success (fun j => rowProduct ct i j > CHARACTER_TABLE_VERIFICATION_THRESHOLD)]
  apply and_congr_right
  intro _
  constructor
  · intro h j hij hjd
    have := h j (by rw [List.mem_range'_1]; omega)
    exact not_lt.mp this
  · intro h j hj
    rw [List.mem_range'_1] at hj
    exact not_lt.mpr (h j (by omega) (by omega))

theorem verifyOuter_eq_success (ct : msym_character_table_t K) (l : List Nat)
    (ret : msym_error_t) :
    l.foldl (fun ret i => if ret = MSYM_SUCCESS then verifyRow ct i ret else ret) ret
        = MSYM_SUCCESS
      ↔ ret = MSYM_SUCCESS ∧ ∀ i ∈ l, verifyRow ct i MSYM_SUCCESS = MSYM_SUCCESS := by
  induction l generalizing ret with
  | nil => simp
  | cons i l ih =>
    rw [List.foldl_cons, ih]
    by_cases hret : ret = MSYM_SUCCESS
    · subst hret; simp
    · simp [hret]

theorem verifyCharacterTable_eq_success (ct : msym_character_table_t K) :
    verifyCharacterTable ct = MSYM_SUCCESS
      ↔ ∀ i j, i < j → j < ct.d →
          rowProduct ct i j ≤ CHARACTER_TABLE_VERIFICATION_THRESHOLD := by
  unfold verifyCharacterTable
  rw [verifyOuter_eq_success]
  simp only [true_and, verifyRow_eq_success, List.mem_range]
  constructor
  · intro h i j hij hjd
    exact h i (by omega) j hij hjd
  · intro h i _ j hij hjd
    exact h i j hij hjd

theorem flagLoop_cases (P : Nat → Prop) [DecidablePred P] (l : List Nat)
    (ret : msym_error_t) (hret : ret = MSYM_SUCCESS ∨ ret = MSYM_INVALID_CHARACTER_TABLE) :
    l.foldl (fun ret j => if P j then MSYM_INVALID_CHARACTER_TABLE else ret) ret = MSYM_SUCCESS
      ∨ l.foldl (fun ret j => if P j then MSYM_INVALID_CHARACTER_TABLE else ret) ret
        = MSYM_INVALID_CHARACTER_TABLE := by
  induction l generalizing ret with
  | nil => simpa using hret
  | cons j l ih =>
    rw [List.foldl_cons]
    apply ih
    by_cases hj : P j
    · simp [hj]
    · simpa [hj] using hret

theorem verifyCharacterTable_cases (ct : msym_character_table_t K) :
    verifyCharacterTable ct = MSYM_SUCCESS
      ∨ verifyCharacterTable ct = MSYM_INVALID_CHARACTER_TABLE := by
  unfold verifyCharacterTable
  generalize List.range ct.d = l
  have key : ∀ (l : List Nat) (ret : msym_error_t),
      (ret = MSYM_SUCCESS ∨ ret = MSYM_INVALID_CHARACTER_TABLE) →
      (l.foldl (fun ret i => if ret = MSYM_SUCCESS then verifyRow ct i ret else ret) ret
          = MSYM_SUCCESS
        ∨ l.foldl (fun ret i => if ret = MSYM_SUCCESS then verifyRow ct i ret else ret) ret
          = MSYM_INVALID_CHARACTER_TABLE) := by
    intro l
    induction l with
    | nil => intro ret hret; simpa using hret
    | cons i l ih =>
      intro ret hret
      rw [List.foldl_cons]
      apply ih
      by_cases h : ret = MSYM_SUCCESS
      · rw [if_pos h]
        unfold verifyRow
        exact flagLoop_cases _ _ _ hret
      · rw [if_neg h]
        exact hret
  exact key l _ (Or.inl rfl)

theorem countClasses_spec (d : Nat) (sops : List msym_symmetry_operation_t)
    (c0 c : Nat → Int) (h : countClasses d sops c0 = some c) :
    (∀ sop ∈ sops, sop.cla < d) ∧
      ∀ k, c k = c0 k + (sops.countP (fun sop => sop.cla = k) : Nat) := by
  induction sops generalizing c0 with
  | nil =>
    simp [countClasses] at h
    subst h
    simp
  | cons sop rest ih =>
    unfold countClasses at h
    rw [List.foldlM_cons] at h
    by_cases hs : sop.cla < d
    · simp only [hs, if_true, Option.bind_eq_bind, Option.some_bind] at h
      obtain ⟨h1, h2⟩ := ih _ h
      refine ⟨?_, ?_⟩
      · intro x hx
        rcases List.mem_cons.mp hx with rfl | hx
        · exact hs
        · exact h1 x hx
      · intro k
        rw [h2 k, List.countP_cons]
        by_cases hk : sop.cla = k
        · subst hk
          simp
          ring
        · have hk2 : k ≠ sop.cla := fun e => hk e.symm
          simp [hk, Function.update_noteq hk2]
    · simp [hs] at h

theorem characterLoop_frame (cosf : K → K) (pi : K) (n : Int) (d : Nat)
    (rep : msym_representation_t) (i : Nat) (sops : List msym_symmetry_operation_t)
    (nc : Int) (t t1 : Nat → Nat → K) (ret : msym_error_t)
    (h : characterLoop cosf pi n d rep i sops nc t = some (ret, t1)) :
    (∀ r, r ≠ i → t1 r = t r) ∧ (∀ c : Nat, (c : Int) ≤ nc → t1 i c = t i c) := by
  induction sops generalizing nc t with
  | nil =>
    simp [characterLoop] at h
    obtain ⟨_, rfl⟩ := h
    simp
  | cons sop rest ih =>
    unfold characterLoop at h
    by_cases hnc : nc < (sop.cla : Int)
    · rw [if_pos hnc] at h
      by_cases hd : sop.cla < d
      · rw [if_pos hd] at h
        cases hrc : representationCharacter cosf pi n sop rep (t i sop.cla) with
        | none => simp [hrc] at h
        | some res =>
          obtain ⟨ret1, c1⟩ := res
          simp only [hrc] at h
          by_cases hret : ret1 = MSYM_SUCCESS
          · rw [if_pos hret] at h
            obtain ⟨h1, h2⟩ := ih _ _ h
            refine ⟨?_, ?_⟩
            · intro r hr
              rw [h1 r hr, Function.update_noteq hr]
            · intro c hc
              rw [h2 c (by omega)]
              have hne : c ≠ sop.cla := by
                intro e; subst e; omega
              simp [Function.update_noteq hne]
          · rw [if_neg hret] at h
            simp only [Option.some.injEq, Prod.mk.injEq] at h
            obtain ⟨_, rfl⟩ := h
            simp
      · simp [hd] at h
    · rw [if_neg hnc] at h
      exact ih _ _ h

theorem representationCharacter_identity (cosf : K → K) (pi : K) (n : Int)
    (sop : msym_symmetry_operation_t) (rep : msym_representation_t) (c x : K)
    (hid : sop.type = IDENTITY)
    (h : representationCharacter cosf pi n sop rep c = some (MSYM_SUCCESS, x)) :
    x = ((rep.d : Int) : K) := by
  unfold representationCharacter at h
  rw [hid] at h
  by_cases ho : sop.orientation = HORIZONTAL
  · by_cases h1 : rep.d = 1
    · simp [ho, h1] at h
      simp [h1, ← h]
    · by_cases h2 : rep.d = 2
      · simp [ho, h2] at h
        simp [h2, ← h]
      · simp [ho, h1, h2] at h
  · by_cases h1 : rep.d = 1
    · simp [ho, h1] at h
      simp [h1, ← h]
    · by_cases h2 : rep.d = 2
      · simp [ho, h2] at h
        simp [h2, ← h]
      · simp [ho, h1, h2] at h

theorem characterLoop_identity_head (cosf : K → K) (pi : K) (n : Int) (d : Nat)
    (rep : msym_representation_t) (i : Nat) (e : msym_symmetry_operation_t)
    (rest : List msym_symmetry_operation_t) (t t1 : Nat → Nat → K)
    (hcla : e.cla = 0) (hid : e.type = IDENTITY)
    (h : characterLoop cosf pi n d rep i (e :: rest) (-1) t = some (MSYM_SUCCESS, t1)) :
    t1 i 0 = ((rep.d : Int) : K) := by
  unfold characterLoop at h
  have hnc : (-1 : Int) < (e.cla : Int) := by omega
  rw [if_pos hnc] at h
  by_cases hd : e.cla < d
  · rw [if_pos hd] at h
    cases hrc : representationCharacter cosf pi n e rep (t i e.cla) with
    | none => simp [hrc] at h
    | some res =>
      obtain ⟨ret1, c1⟩ := res
      simp only [hrc] at h
      by_cases hret : ret1 = MSYM_SUCCESS
      · rw [if_pos hret] at h
        subst hret
        have hc1 := representationCharacter_identity cosf pi n e rep _ _ hid hrc
        obtain ⟨_, h2⟩ := characterLoop_frame cosf pi n d rep i rest _ _ _ _ h
        have := h2 0 (by simp [hcla])
        rw [this, hcla]
        simp [hc1]
      · rw [if_neg hret] at h
        simp only [Option.some.injEq, Prod.mk.injEq] at h
        exact absurd h.1 hret
  · simp [hd] at h

/-- What a successful run of the species loop over the rows `is` leaves. -/
theorem speciesLoop_inv (cosf : K → K) (pi : K) (type : msym_point_group_type_t) (n : Int)
    (sops : List msym_symmetry_operation_t) (rep : Nat → msym_representation_t)
    (is : List Nat) (ct ct1 : msym_character_table_t K) (hnd : is.Nodup)
    (h : speciesLoop cosf pi type n sops rep is ct = some (MSYM_SUCCESS, ct1)) :
    ct1.d = ct.d ∧ ct1.classc = ct.classc ∧ ct1.sops = ct.sops ∧
      (∀ i, i ∉ is → ct1.s i = ct.s i ∧ ct1.table i = ct.table i) ∧
      (∀ i ∈ is, ∃ t0 t1 : Nat → Nat → K,
          t0 i = ct.table i ∧
          characterLoop cosf pi n ct.d (rep i) i sops (-1) t0 = some (MSYM_SUCCESS, t1) ∧
          ct1.table i = t1 i ∧
          getRepresentationName type n (rep i) sizeof_name (ct.s i).name
            = (MSYM_SUCCESS, (ct1.s i).name) ∧
          (ct1.s i).d = (rep i).d) := by
  induction is generalizing ct with
  | nil =>
    simp [speciesLoop] at h
    subst h
    simp
  | cons i rest ih =>
    unfold speciesLoop at h
    cases hname : getRepresentationName type n (rep i) sizeof_name (ct.s i).name with
    | mk ret name =>
      simp only [hname] at h
      by_cases hret : ret = MSYM_SUCCESS
      · rw [if_pos hret] at h
        subst hret
        cases hcl : characterLoop cosf pi n ct.d (rep i) i sops (-1) ct.table with
        | none => simp [hcl] at h
        | some res =>
          obtain ⟨ret2, t1⟩ := res
          simp only [hcl] at h
          by_cases hret2 : ret2 = MSYM_SUCCESS
          · rw [if_pos hret2] at h
            subst hret2
            have hnd2 : rest.Nodup := (List.nodup_cons.mp hnd).2
            have hi : i ∉ rest := (List.nodup_cons.mp hnd).1
            obtain ⟨hd, hc, hs, hout, hin⟩ := ih _ hnd2 h
            obtain ⟨hfr, _⟩ := characterLoop_frame cosf pi n ct.d (rep i) i sops _ _ _ _ hcl
            refine ⟨hd, hc, hs, ?_, ?_⟩
            · intro j hj
              have hj1 : j ≠ i := fun e => hj (e ▸ List.mem_cons_self _ _)
              have hj2 : j ∉ rest := fun e => hj (List.mem_cons_of_mem _ e)
              obtain ⟨a, b⟩ := hout j hj2
              refine ⟨?_, ?_⟩
              · rw [a]; simp [Function.update_noteq hj1]
              · rw [b]; exact hfr j hj1
            · intro j hj
              rcases List.mem_cons.mp hj with rfl | hj
              · obtain ⟨a, b⟩ := hout j hi
                refine ⟨ct.table, t1, rfl, hcl, ?_, ?_, ?_⟩
                · rw [b]
                · rw [a]; simpa using hname
                · rw [a]; simp
              · have hji : j ≠ i := fun e => hi (e ▸ hj)
                obtain ⟨t0, t2, h0, h1, h2, h3, h4⟩ := hin j hj
                refine ⟨t0, t2, ?_, h1, h2, ?_, h4⟩
                · rw [h0]; exact hfr j hji
                · simpa [Function.update_noteq hji] using h3
          · rw [if_neg hret2] at h
            simp only [Option.some.injEq, Prod.mk.injEq] at h
            exact absurd h.1 hret2
      · rw [if_neg hret] at h
        simp only [Option.some.injEq, Prod.mk.injEq] at h
        exact absurd h.1 hret

theorem copyColumn_apply (l : Nat) (table : List (List K)) (i cla : Nat)
    (ctable : Nat → Nat → K) (j c : Nat) :
    copyColumn l table i cla ctable j c
      = if j < l ∧ c = cla then (table.getD j []).getD i 0 else ctable j c := by
  unfold copyColumn
  induction l with
  | zero => simp
  | succ l ih =>
    rw [List.range_succ, List.foldl_append]
    simp only [List.foldl_cons, List.foldl_nil]
    by_cases hj : j = l
    · subst hj
      rw [Function.update_same]
      by_cases hc : c = cla
      · subst hc; simp
      · rw [Function.update_noteq hc, ih]
        simp [hc]
    · rw [Function.update_noteq hj, ih]
      have : (j < l + 1) = (j < l) := by
        apply propext; omega
      simp only [this]

theorem predefinedLoop_frame (sops : List msym_symmetry_operation_t) (l : Nat)
    (tsops : List msym_symmetry_operation_t) (tname : List String) (tdim : List Int)
    (table : List (List K)) (is : List Nat) (ct ct1 : msym_character_table_t K)
    (ret : msym_error_t)
    (h : predefinedLoop sops l tsops tname tdim table is ct = (ret, ct1)) :
    ct1.d = ct.d ∧ ct1.classc = ct.classc ∧ ct1.sops = ct.sops := by
  induction is generalizing ct with
  | nil =>
    simp [predefinedLoop] at h
    obtain ⟨_, rfl⟩ := h
    simp
  | cons i rest ih =>
    unfold predefinedLoop at h
    simp only at h
    split at h
    · split at h
      · simp only [Prod.mk.injEq] at h
        obtain ⟨_, rfl⟩ := h
        simp
      · have := ih _ h
        simpa using this
    · simp only [Prod.mk.injEq] at h
      obtain ⟨_, rfl⟩ := h
      simp

/-- The species a predefined table stores for row `i`. -/
theorem predefinedLoop_species (sops : List msym_symmetry_operation_t) (l : Nat)
    (tsops : List msym_symmetry_operation_t) (tname : List String) (tdim : List Int)
    (table : List (List K)) (is : List Nat) (ct ct1 : msym_character_table_t K)
    (h : predefinedLoop sops l tsops tname tdim table is ct = (MSYM_SUCCESS, ct1)) :
    (∀ i, i ∉ is → ct1.s i = ct.s i) ∧
      ∀ i ∈ is, ct1.s i
        = { name := snprintf sizeof_name "" (tname.getD i ""), d := tdim.getD i 0 } := by
  induction is generalizing ct with
  | nil =>
    simp [predefinedLoop] at h
    subst h
    simp
  | cons i rest ih =>
    unfold predefinedLoop at h
    simp only at h
    split at h
    · split at h
      · simp at h
      · obtain ⟨h1, h2⟩ := ih _ h
        refine ⟨?_, ?_⟩
        · intro j hj
          have hj1 : j ≠ i := fun e => hj (e ▸ List.mem_cons_self _ _)
          have hj2 : j ∉ rest := fun e => hj (List.mem_cons_of_mem _ e)
          rw [h1 j hj2]
          simp [Function.update_noteq hj1]
        · intro j hj
          by_cases hjr : j ∈ rest
          · exact h2 j hjr
          · rcases List.mem_cons.mp hj with rfl | hj
            · rw [h1 j hjr]
              simp [snprintf, sizeof_name]
            · exact absurd hj hjr
    · simp at h

/-- Rounds whose class descriptor is not an identity leave column 0 alone, when
class 0 holds identity operations only. -/
theorem predefinedLoop_column_zero (sops : List msym_symmetry_operation_t) (l : Nat)
    (tsops : List msym_symmetry_operation_t) (tname : List String) (tdim : List Int)
    (table : List (List K)) (is : List Nat) (ct ct1 : msym_character_table_t K)
    (ret : msym_error_t)
    (hclass : ∀ sop ∈ sops, sop.cla = 0 → sop.type = IDENTITY)
    (htype : ∀ i ∈ is, (tsops.getD i (tsop IDENTITY 0 0)).type ≠ IDENTITY)
    (h : predefinedLoop sops l tsops tname tdim table is ct = (ret, ct1)) :
    ∀ j, ct1.table j 0 = ct.table j 0 := by
  induction is generalizing ct with
  | nil =>
    simp [predefinedLoop] at h
    obtain ⟨_, rfl⟩ := h
    simp
  | cons i rest ih =>
    unfold predefinedLoop at h
    simp only at h
    split at h
    · rename_i sop hfind
      split at h
      · simp only [Prod.mk.injEq] at h
        obtain ⟨_, rfl⟩ := h
        simp
      · have hrest := ih _ (fun k hk => htype k (List.mem_cons_of_mem _ hk)) h
        intro j
        rw [hrest j]
        simp only
        rw [copyColumn_apply]
        have hmem : sop ∈ sops := List.mem_of_find?_eq_some hfind
        have hm := List.find?_some hfind
        have hne : sop.cla ≠ 0 := by
          intro e
          have h1 := hclass sop hmem e
          have h2 := htype i (List.mem_cons_self _ _)
          simp only [sopMatches, Bool.and_eq_true, decide_eq_true_eq] at hm
          exact h2 (hm.1.1.1.trans h1)
        have : ¬ (j < l ∧ 0 = sop.cla) := fun e => hne e.2.symm
        rw [if_neg this]
    · simp only [Prod.mk.injEq] at h
      obtain ⟨_, rfl⟩ := h
      simp

theorem getPredefinedCharacterTable_frame (sops : List msym_symmetry_operation_t) (l : Nat)
    (tsops : List msym_symmetry_operation_t) (tname : List String) (tdim : List Int)
    (table : List (List K)) (ct ct1 : msym_character_table_t K) (ret : msym_error_t)
    (h : getPredefinedCharacterTable sops l tsops tname tdim table ct = (ret, ct1)) :
    ct1.d = ct.d ∧ ct1.classc = ct.classc ∧ ct1.sops = ct.sops := by
  unfold getPredefinedCharacterTable at h
  split at h
  · simp only [Prod.mk.injEq] at h
    obtain ⟨_, rfl⟩ := h
    simp
  · exact predefinedLoop_frame _ _ _ _ _ _ _ _ _ _ h

theorem getPredefinedCharacterTable_identity_column
    (sops : List msym_symmetry_operation_t) (l : Nat)
    (tsops : List msym_symmetry_operation_t) (tname : List String) (tdim : List Int)
    (table : List (List K)) (ct ct1 : msym_character_table_t K)
    (hclass : ∀ sop ∈ sops, sop.cla = 0 ↔ sop.type = IDENTITY)
    (h0 : (tsops.getD 0 (tsop IDENTITY 0 0)).type = IDENTITY)
    (hrest : ∀ i, 1 ≤ i → i < l → (tsops.getD i (tsop IDENTITY 0 0)).type ≠ IDENTITY)
    (hcol : ∀ j, j < l → (table.getD j []).getD 0 0 = ((tdim.getD j 0 : Int) : K))
    (hl : 0 < l)
    (h : getPredefinedCharacterTable sops l tsops tname tdim table ct = (MSYM_SUCCESS, ct1)) :
    ∀ j, j < l → ct1.table j 0 = (((ct1.s j).d : Int) : K) := by
  unfold getPredefinedCharacterTable at h
  split at h
  · simp at h
  · intro j hj
    obtain ⟨_, hsp⟩ := predefinedLoop_species _ _ _ _ _ _ _ _ _ h
    rw [hsp j (List.mem_range.mpr hj)]
    simp only
    rw [← hcol j hj]
    obtain ⟨m, rfl⟩ : ∃ m, l = m + 1 := ⟨l - 1, by omega⟩
    rw [List.range_eq_range', List.range'_succ] at h
    unfold predefinedLoop at h
    simp only at h
    split at h
    · rename_i sop hfind
      split at h
      · simp at h
      · have hmem : sop ∈ sops := List.mem_of_find?_eq_some hfind
        have hm := List.find?_some hfind
        simp only [sopMatches, Bool.and_eq_true, decide_eq_true_eq] at hm
        have hty : sop.type = IDENTITY := by rw [← hm.1.1.1]; exact h0
        have hcla : sop.cla = 0 := (hclass sop hmem).mpr hty
        have hz := predefinedLoop_column_zero sops (m + 1) tsops tname tdim table _ _ _ _
          (fun s hs e => (hclass s hs).mp e)
          (fun i hi => by
            rw [List.mem_range'_1] at hi
            exact hrest i (by omega) (by omega)) h j
        rw [hz]
        simp only
        rw [copyColumn_apply, hcla]
        simp [hj]
    · simp at h

/-- The stages a successful call of `generateCharacterTable` went through. -/
theorem generateCharacterTable_success_inv (cosf : K → K) (pi : K)
    (type : msym_point_group_type_t) (n : Int) (sops : List msym_symmetry_operation_t)
    (oct : Option (msym_character_table_t K)) (ct : msym_character_table_t K)
    (h : generateCharacterTable cosf pi type n sops oct = some (MSYM_SUCCESS, some ct)) :
    ∃ (d : Nat) (t : msym_point_group_type_t) (f : fmap_f K)
      (rep : Nat → msym_representation_t) (ct1 : msym_character_table_t K)
      (classc : Nat → Int) (ct2 : msym_character_table_t K),
      tableSize sops = some d ∧
      (fmap : List (msym_point_group_type_t × fmap_f K)).find? (fun e => e.1 = type)
        = some (t, f) ∧
      (match f with
        | fmap_f.fr fr =>
          (fr n d (fun _ => zeroRep)).map (fun r => (r.1, r.2, (callocTable d : msym_character_table_t K)))
        | fmap_f.ft ft =>
          some ((ft sops (callocTable d)).1, (fun _ => zeroRep), (ft sops (callocTable d)).2))
        = some (MSYM_SUCCESS, rep, ct1) ∧
      countClasses ct1.d sops ct1.classc = some classc ∧
      (if f.isREP then
          speciesLoop cosf pi type n sops rep (List.range ct1.d) { ct1 with classc := classc }
        else some (MSYM_SUCCESS, { ct1 with classc := classc }))
        = some (MSYM_SUCCESS, ct2) ∧
      ct = { ct2 with sops := selectRepresentatives ct2.d sops ct2.sops } ∧
      verifyCharacterTable ct = MSYM_SUCCESS := by
  unfold generateCharacterTable at h
  split at h
  · simp at h
  · rename_i d hd
    simp only at h
    split at h
    · simp at h
    · rename_i t f hfind
      split at h
      · simp at h
      · rename_i ret rep ct1 hcalled
        split at h
        · rename_i hret
          subst hret
          split at h
          · simp at h
          · rename_i classc hcount
            split at h
            · simp at h
            · rename_i ret2 ct2 hfilled
              split at h
              · rename_i hret2
                subst hret2
                split at h
                · rename_i hver
                  simp only [Option.some.injEq, Prod.mk.injEq, true_and] at h
                  subst h
                  exact ⟨d, t, f, rep, ct1, classc, ct2, hd, hfind, hcalled, hcount, hfilled, rfl, hver⟩
                · rename_i hver
                  simp only [Option.some.injEq, Prod.mk.injEq] at h
                  exact absurd h.1 hver
              · rename_i hret2
                simp only [Option.some.injEq, Prod.mk.injEq] at h
                exact absurd h.1 hret2
        · rename_i hret
          simp only [Option.some.injEq, Prod.mk.injEq] at h
          exact absurd h.1 hret

theorem fmap_find_cases (type t : msym_point_group_type_t) (f : fmap_f K)
    (h : (fmap : List (msym_point_group_type_t × fmap_f K)).find? (fun e => e.1 = type)
      = some (t, f)) :
    (∃ fr, f = fmap_f.fr fr) ∨ f = fmap_f.ft getCharacterTableT
      ∨ f = fmap_f.ft getCharacterTableTd ∨ f = fmap_f.ft getCharacterTableI
      ∨ f = fmap_f.ft getCharacterTableIh ∨ f = fmap_f.ft getCharacterTableUnknown := by
  cases type <;> simp [fmap] at h <;> obtain ⟨_, rfl⟩ := h <;> simp

theorem predefined_tables_frame (ft : List msym_symmetry_operation_t →
      msym_character_table_t K → msym_error_t × msym_character_table_t K)
    (hft : ft = getCharacterTableT ∨ ft = getCharacterTableTd ∨ ft = getCharacterTableI
      ∨ ft = getCharacterTableIh ∨ ft = getCharacterTableUnknown)
    (sops : List msym_symmetry_operation_t) (ct : msym_character_table_t K) :
    (ft sops ct).2.d = ct.d ∧ (ft sops ct).2.classc = ct.classc
      ∧ (ft sops ct).2.sops = ct.sops := by
  rcases hft with rfl | rfl | rfl | rfl | rfl
  · exact getPredefinedCharacterTable_frame _ _ _ _ _ _ _ _ _ rfl
  · exact getPredefinedCharacterTable_frame _ _ _ _ _ _ _ _ _ rfl
  · exact getPredefinedCharacterTable_frame _ _ _ _ _ _ _ _ _ rfl
  · exact getPredefinedCharacterTable_frame _ _ _ _ _ _ _ _ _ rfl
  · simp [getCharacterTableUnknown]

/-- What every successful call of `generateCharacterTable` guarantees about the
returned table: its size, its class multiplicities and the verification. -/
theorem generateCharacterTable_success_facts (cosf : K → K) (pi : K)
    (type : msym_point_group_type_t) (n : Int) (sops : List msym_symmetry_operation_t)
    (oct : Option (msym_character_table_t K)) (ct : msym_character_table_t K)
    (h : generateCharacterTable cosf pi type n sops oct = some (MSYM_SUCCESS, some ct)) :
    tableSize sops = some ct.d ∧ countClasses ct.d sops (fun _ => 0) = some ct.classc
      ∧ verifyCharacterTable ct = MSYM_SUCCESS := by
  obtain ⟨d, t, f, rep, ct1, classc, ct2, hd, hfind, hcalled, hcount, hfilled, hct, hver⟩ :=
    generateCharacterTable_success_inv cosf pi type n sops oct ct h
  refine ⟨?_, ?_, hver⟩
  · rcases fmap_find_cases type t f hfind with ⟨fr, rfl⟩ | hft
    · simp only [Option.map_eq_some', Prod.mk.injEq] at hcalled
      obtain ⟨a, _, _, _, rfl⟩ := hcalled
      simp only [fmap_f.isREP, if_true] at hfilled
      obtain ⟨h1, _⟩ := speciesLoop_inv cosf pi type n sops rep _ _ _ (List.nodup_range _) hfilled
      rw [hct]
      simp only [h1]
      simpa [callocTable] using hd
    · have hft2 : ∃ ft, f = fmap_f.ft ft ∧ (ft = getCharacterTableT ∨ ft = getCharacterTableTd
          ∨ ft = getCharacterTableI ∨ ft = getCharacterTableIh
          ∨ ft = getCharacterTableUnknown) := by
        rcases hft with rfl | rfl | rfl | rfl | rfl <;> exact ⟨_, rfl, by simp⟩
      obtain ⟨ft, rfl, hft3⟩ := hft2
      simp only [Option.some.injEq, Prod.mk.injEq] at hcalled
      obtain ⟨_, _, rfl⟩ := hcalled
      simp only [fmap_f.isREP, Bool.false_eq_true, if_false, Option.some.injEq, Prod.mk.injEq,
        true_and] at hfilled
      subst hfilled
      obtain ⟨h1, _, _⟩ := predefined_tables_frame ft hft3 sops (callocTable d)
      rw [hct]
      simp only [h1]
      simpa [callocTable] using hd
  · rcases fmap_find_cases type t f hfind with ⟨fr, rfl⟩ | hft
    · simp only [Option.map_eq_some', Prod.mk.injEq] at hcalled
      obtain ⟨a, _, _, _, rfl⟩ := hcalled
      simp only [fmap_f.isREP, if_true] at hfilled
      obtain ⟨h1, h2, _⟩ := speciesLoop_inv cosf pi type n sops rep _ _ _ (List.nodup_range _) hfilled
      rw [hct]
      simp only [h1, h2]
      simpa [callocTable] using hcount
    · have hft2 : ∃ ft, f = fmap_f.ft ft ∧ (ft = getCharacterTableT ∨ ft = getCharacterTableTd
          ∨ ft = getCharacterTableI ∨ ft = getCharacterTableIh
          ∨ ft = getCharacterTableUnknown) := by
        rcases hft with rfl | rfl | rfl | rfl | rfl <;> exact ⟨_, rfl, by simp⟩
      obtain ⟨ft, rfl, hft3⟩ := hft2
      simp only [Option.some.injEq, Prod.mk.injEq] at hcalled
      obtain ⟨_, _, rfl⟩ := hcalled
      simp only [fmap_f.isREP, Bool.false_eq_true, if_false, Option.some.injEq, Prod.mk.injEq,
        true_and] at hfilled
      subst hfilled
      obtain ⟨h1, h2, _⟩ := predefined_tables_frame ft hft3 sops (callocTable d)
      rw [hct]
      simp only
      rw [h2] at hcount
      simpa [callocTable] using hcount

theorem sum_countP_cla (d : Nat) (sops : List msym_symmetry_operation_t)
    (h : ∀ sop ∈ sops, sop.cla < d) :
    ∑ k in Finset.range d, ((sops.countP (fun sop => sop.cla = k) : Nat) : Int)
      = (sops.length : Int) := by
  induction sops with
  | nil => simp
  | cons sop rest ih =>
    have hrest := ih (fun x hx => h x (List.mem_cons_of_mem _ hx))
    have hs : sop.cla < d := h sop (List.mem_cons_self _ _)
    simp only [List.countP_cons, List.length_cons, Nat.cast_add, Finset.sum_add_distrib, hrest]
    congr 1
    simp [Finset.sum_ite_eq, hs]

theorem generateCharacterTable_of_rep_stages (cosf : K → K) (pi : K)
    (type : msym_point_group_type_t) (n : Int) (sops : List msym_symmetry_operation_t)
    (oct : Option (msym_character_table_t K)) (d : Nat)
    (fr : Int → Nat → (Nat → msym_representation_t) →
      Option (msym_error_t × (Nat → msym_representation_t)))
    (rep : Nat → msym_representation_t) (classc : Nat → Int) (ct2 : msym_character_table_t K)
    (hd : tableSize sops = some d)
    (hfind : (fmap : List (msym_point_group_type_t × fmap_f K)).find? (fun e => e.1 = type)
      = some (type, fmap_f.fr fr))
    (hrep : fr n d (fun _ => zeroRep) = some (MSYM_SUCCESS, rep))
    (hcount : countClasses d sops (fun _ => 0) = some classc)
    (hfill : speciesLoop cosf pi type n sops rep (List.range d)
      { (callocTable d : msym_character_table_t K) with classc := classc }
        = some (MSYM_SUCCESS, ct2))
    (hver : verifyCharacterTable { ct2 with sops := selectRepresentatives ct2.d sops ct2.sops }
      = MSYM_SUCCESS) :
    generateCharacterTable cosf pi type n sops oct
      = some (MSYM_SUCCESS,
          some { ct2 with sops := selectRepresentatives ct2.d sops ct2.sops }) := by
  unfold generateCharacterTable
  simp only [hd, hfind]
  simp only [callocTable] at hfill ⊢
  simp only [hrep, Option.map_some', if_true, hcount, fmap_f.isREP, hfill, hver]

theorem generateCharacterTable_of_tab_stages (cosf : K → K) (pi : K)
    (type : msym_point_group_type_t) (n : Int) (sops : List msym_symmetry_operation_t)
    (oct : Option (msym_character_table_t K)) (d : Nat)
    (ft : List msym_symmetry_operation_t → msym_character_table_t K →
      msym_error_t × msym_character_table_t K)
    (classc : Nat → Int) (ct1 : msym_character_table_t K)
    (hd : tableSize sops = some d)
    (hfind : (fmap : List (msym_point_group_type_t × fmap_f K)).find? (fun e => e.1 = type)
      = some (type, fmap_f.ft ft))
    (hft : ft sops (callocTable d) = (MSYM_SUCCESS, ct1))
    (hcount : countClasses ct1.d sops ct1.classc = some classc)
    (hver : verifyCharacterTable
      { ct1 with classc := classc, sops := selectRepresentatives ct1.d sops ct1.sops }
      = MSYM_SUCCESS) :
    generateCharacterTable cosf pi type n sops oct
      = some (MSYM_SUCCESS,
          some { ct1 with classc := classc,
                          sops := selectRepresentatives ct1.d sops ct1.sops }) := by
  unfold generateCharacterTable
  simp only [hd, hfind]
  simp only [callocTable] at hft ⊢
  simp only [hft, if_true, hcount, fmap_f.isREP, hver]
  simp [hver]

theorem getCharacterTableT_opsT :
    getCharacterTableT opsT (callocTable 3 : msym_character_table_t K)
      = (MSYM_SUCCESS, msym_character_table_t.ofLists 3 [] []
          [{ name := "A", d := 1 }, { name := "E", d := 2 }, { name := "T", d := 3 }]
          [[1, 1, 1], [2, -1, 2], [3, 0, -1]]) := by
  simp [getCharacterTableT, getPredefinedCharacterTable, callocTable, predefinedLoop,
    List.range_succ, opsT, tsop, sopMatches, snprintf, sizeof_name,
    msym_character_table_t.ofLists]
  refine ⟨?_, ?_⟩
  · funext k
    rcases k with _ | _ | _ | k <;> simp [Function.update_apply]
    decide
    decide
    decide
  · funext i k
    rw [copyColumn_apply, copyColumn_apply, copyColumn_apply]
    rcases i with _ | _ | _ | i <;> rcases k with _ | _ | _ | k <;> simp

theorem verify_tableT : verifyCharacterTable (tableT : msym_character_table_t K) = MSYM_SUCCESS := by
  rw [verifyCharacterTable_eq_success]
  intro i j hij hj
  have hj3 : j < 3 := hj
  rw [rowProduct_eq]
  interval_cases j <;> interval_cases i <;>
    norm_num [tableT, msym_character_table_t.ofLists, Finset.sum_range_succ,
      CHARACTER_TABLE_VERIFICATION_THRESHOLD]

theorem generateCharacterTable_opsT (cosf : K → K) (pi : K) (n : Int)
    (oct : Option (msym_character_table_t K)) :
    generateCharacterTable cosf pi POINT_GROUP_T n opsT oct = some (MSYM_SUCCESS, some tableT) := by
  have hcount : countClasses 3 opsT (fun _ => 0) = some (fun k => [1, 8, 3].getD k 0) := by
    simp [countClasses, opsT]
    funext k
    rcases k with _ | _ | _ | k <;> simp [Function.update_apply]
  have hsel : selectRepresentatives 3 opsT (fun _ => none)
      = fun k => [some 0, some 1, some 9].getD k none := by
    simp [selectRepresentatives, firstOfClass, opsT, List.range_succ, List.findIdx?_cons]
    funext k
    rcases k with _ | _ | _ | k <;> simp [Function.update_apply]
  have h := generateCharacterTable_of_tab_stages cosf pi POINT_GROUP_T n opsT oct 3
    getCharacterTableT (fun k => [1, 8, 3].getD k 0) _ rfl rfl getCharacterTableT_opsT
    (by simpa [msym_character_table_t.ofLists] using hcount)
  simp only [msym_character_table_t.ofLists] at h
  simp only [List.getD_nil] at h
  rw [hsel] at h
  exact h verify_tableT

theorem getRepresentationsCnv_three :
    getRepresentationsCnv 3 3 (fun _ => zeroRep)
      = some (MSYM_SUCCESS, fun r =>
          [mkRep IRREDUCIBLE 1 1 1 1 1 1, mkRep IRREDUCIBLE 1 1 (-1) 1 1 1,
            mkRep IRREDUCIBLE 2 1 1 1 1 1].getD r zeroRep) := by
  simp [getRepresentationsCnv, storeRep, bit0Clear, singleLoop, List.range_succ]
  funext r
  rcases r with _ | _ | _ | r <;> simp [Function.update_apply]

theorem speciesLoop_opsC3v (cosf : K → K) (pi : K) (hcos : cosf (2 * (pi / 3)) = -1 / 2) :
    speciesLoop cosf pi POINT_GROUP_Cnv 3 opsC3v
        (fun r => [mkRep IRREDUCIBLE 1 1 1 1 1 1, mkRep IRREDUCIBLE 1 1 (-1) 1 1 1,
            mkRep IRREDUCIBLE 2 1 1 1 1 1].getD r zeroRep)
        (List.range 3)
        { (callocTable 3 : msym_character_table_t K) with
          classc := fun k => [1, 2, 3].getD k 0 }
      = some (MSYM_SUCCESS, msym_character_table_t.ofLists 3 [1, 2, 3] []
          [{ name := "A1", d := 1 }, { name := "A2", d := 1 }, { name := "E1", d := 2 }]
          [[1, 1, 1], [1, 1, -1], [2, -1, 0]]) := by
  simp [speciesLoop, List.range_succ, callocTable, getRepresentationName, mkRep, maskEindex,
    characterLoop, opsC3v, representationCharacter, intQuot, piOver, oddSelect, hcos,
    msym_character_table_t.ofLists, snprintf, sizeof_name, types, sv, si, sh]
  refine ⟨?_, ?_⟩
  · funext k
    rcases k with _ | _ | _ | k <;> simp [Function.update_apply]
    decide
    decide
    decide
  · funext i k
    rcases i with _ | _ | _ | i <;> rcases k with _ | _ | _ | k <;>
      simp [Function.update_apply]
    norm_num

theorem verify_tableC3v :
    verifyCharacterTable (tableC3v : msym_character_table_t K) = MSYM_SUCCESS := by
  rw [verifyCharacterTable_eq_success]
  intro i j hij hj
  have hj3 : j < 3 := hj
  rw [rowProduct_eq]
  interval_cases j <;> interval_cases i <;>
    norm_num [tableC3v, msym_character_table_t.ofLists, Finset.sum_range_succ,
      CHARACTER_TABLE_VERIFICATION_THRESHOLD]

theorem generateCharacterTable_opsC3v (cosf : K → K) (pi : K)
    (hcos : cosf (2 * (pi / 3)) = -1 / 2) (oct : Option (msym_character_table_t K)) :
    generateCharacterTable cosf pi POINT_GROUP_Cnv 3 opsC3v oct
      = some (MSYM_SUCCESS, some tableC3v) := by
  have hcount : countClasses 3 opsC3v (fun _ => 0) = some (fun k => [1, 2, 3].getD k 0) := by
    simp [countClasses, opsC3v]
    funext k
    rcases k with _ | _ | _ | k <;> simp [Function.update_apply]
  have hsel : selectRepresentatives 3 opsC3v (fun _ => none)
      = fun k => [some 0, some 1, some 3].getD k none := by
    simp [selectRepresentatives, firstOfClass, opsC3v, List.range_succ, List.findIdx?_cons]
    funext k
    rcases k with _ | _ | _ | k <;> simp [Function.update_apply]
  have h := generateCharacterTable_of_rep_stages cosf pi POINT_GROUP_Cnv 3 opsC3v oct 3
    getRepresentationsCnv _ _ _ rfl rfl getRepresentationsCnv_three hcount
    (speciesLoop_opsC3v cosf pi hcos)
  simp only [msym_character_table_t.ofLists] at h
  simp only [List.getD_nil] at h
  rw [hsel] at h
  exact h verify_tableC3v

theorem real_cos_two_pi_div_three : Real.cos (2 * (Real.pi / 3)) = -1 / 2 := by
  have h : 2 * (Real.pi / 3) = Real.pi - Real.pi / 3 := by ring
  rw [h, Real.cos_pi_sub, Real.cos_pi_div_three]
  norm_num

theorem getRepresentationsDnh_two :
    getRepresentationsDnh 2 8 (fun _ => zeroRep)
      = some (MSYM_SUCCESS, fun r => repsD2h.getD r zeroRep) := by
  simp [getRepresentationsDnh, storeRep, bit0Clear, band2, pairLoop, List.range_succ, repsD2h]
  funext r
  rcases r with _ | _ | _ | _ | _ | _ | _ | _ | r <;> simp [Function.update_apply]

set_option maxHeartbeats 1000000 in
theorem speciesLoop_opsD2h (cosf : K → K) (pi : K) :
    speciesLoop cosf pi POINT_GROUP_Dnh 2 opsD2h (fun r => repsD2h.getD r zeroRep)
        (List.range 8)
        { (callocTable 8 : msym_character_table_t K) with
          classc := fun k => [1, 1, 1, 1, 1, 1, 1, 1].getD k 0 }
      = some (MSYM_SUCCESS, { (tableD2h : msym_character_table_t K) with sops := fun _ => none }) := by
  simp [speciesLoop, List.range_succ, callocTable, getRepresentationName, mkRep, maskEindex,
    characterLoop, opsD2h, representationCharacter, intQuot, piOver, oddSelect, repsD2h,
    msym_character_table_t.ofLists, snprintf, sizeof_name, types, sv, si, sh, tableD2h, bit0Clear]
  refine ⟨?_, ?_⟩
  · funext k
    rcases k with _ | _ | _ | _ | _ | _ | _ | _ | k <;> simp [Function.update_apply] <;> decide
  · funext i k
    rcases i with _ | _ | _ | _ | _ | _ | _ | _ | i <;>
      rcases k with _ | _ | _ | _ | _ | _ | _ | _ | k <;>
      simp [Function.update_apply]

theorem getPredefinedCharacterTable_size
    (sops : List msym_symmetry_operation_t) (l : Nat)
    (tsops : List msym_symmetry_operation_t) (tname : List String) (tdim : List Int)
    (table : List (List K)) (ct ct1 : msym_character_table_t K)
    (h : getPredefinedCharacterTable sops l tsops tname tdim table ct = (MSYM_SUCCESS, ct1)) :
    ct.d = l := by
  unfold getPredefinedCharacterTable at h
  split at h
  · simp at h
  · rename_i hd
    exact not_not.mp hd

/-- Column 0 of a predefined table bound with success holds the dimensions, when
class 0 consists of the identity operations. -/
theorem predefined_tables_identity_column (ft : List msym_symmetry_operation_t →
      msym_character_table_t K → msym_error_t × msym_character_table_t K)
    (hft : ft = getCharacterTableT ∨ ft = getCharacterTableTd ∨ ft = getCharacterTableI
      ∨ ft = getCharacterTableIh ∨ ft = getCharacterTableUnknown)
    (sops : List msym_symmetry_operation_t) (ct ct1 : msym_character_table_t K)
    (hclass : ∀ sop ∈ sops, sop.cla = 0 ↔ sop.type = IDENTITY)
    (h : ft sops ct = (MSYM_SUCCESS, ct1)) :
    ∀ j, j < ct.d → ct1.table j 0 = (((ct1.s j).d : Int) : K) := by
  rcases hft with rfl | rfl | rfl | rfl | rfl
  · have hl := getPredefinedCharacterTable_size _ _ _ _ _ _ _ _ h
    rw [hl]
    refine getPredefinedCharacterTable_identity_column _ _ _ _ _ _ _ _ hclass ?_ ?_ ?_ ?_ h
    · simp [tsop]
    · intro i h1 h2
      interval_cases i <;> simp [tsop]
    · intro j hj
      interval_cases j <;> simp
    · norm_num
  · have hl := getPredefinedCharacterTable_size _ _ _ _ _ _ _ _ h
    rw [hl]
    refine getPredefinedCharacterTable_identity_column _ _ _ _ _ _ _ _ hclass ?_ ?_ ?_ ?_ h
    · simp [tsop]
    · intro i h1 h2
      interval_cases i <;> simp [tsop]
    · intro j hj
      interval_cases j <;> simp
    · norm_num
  · have hl := getPredefinedCharacterTable_size _ _ _ _ _ _ _ _ h
    rw [hl]
    refine getPredefinedCharacterTable_identity_column _ _ _ _ _ _ _ _ hclass ?_ ?_ ?_ ?_ h
    · simp [tsop]
    · intro i h1 h2
      interval_cases i <;> simp [tsop]
    · intro j hj
      interval_cases j <;> simp
    · norm_num
  · have hl := getPredefinedCharacterTable_size _ _ _ _ _ _ _ _ h
    rw [hl]
    refine getPredefinedCharacterTable_identity_column _ _ _ _ _ _ _ _ hclass ?_ ?_ ?_ ?_ h
    · simp [tsop]
    · intro i h1 h2
      interval_cases i <;> simp [tsop]
    · intro j hj
      interval_cases j <;> simp
    · norm_num
  · simp [getCharacterTableUnknown] at h

/-- Column 0 after a successful call, under the class 0 hypotheses. -/
theorem generateCharacterTable_column_zero (cosf : K → K) (pi : K)
    (type : msym_point_group_type_t) (n : Int) (sops : List msym_symmetry_operation_t)
    (oct : Option (msym_character_table_t K)) (ct : msym_character_table_t K)
    (hhead : ∃ e rest, sops = e :: rest ∧ e.cla = 0)
    (hclass : ∀ sop ∈ sops, sop.cla = 0 ↔ sop.type = IDENTITY)
    (h : generateCharacterTable cosf pi type n sops oct = some (MSYM_SUCCESS, some ct)) :
    ∀ i, i < ct.d → ct.table i 0 = (((ct.s i).d : Int) : K) := by
  obtain ⟨d, t, f, rep, ct1, classc, ct2, hd, hfind, hcalled, hcount, hfilled, hct, hver⟩ :=
    generateCharacterTable_success_inv cosf pi type n sops oct ct h
  rcases fmap_find_cases type t f hfind with ⟨fr, rfl⟩ | hft
  · simp only [Option.map_eq_some', Prod.mk.injEq] at hcalled
    obtain ⟨a, _, _, _, rfl⟩ := hcalled
    simp only [fmap_f.isREP, if_true] at hfilled
    obtain ⟨h1, _, _, _, h5⟩ :=
      speciesLoop_inv cosf pi type n sops rep _ _ _ (List.nodup_range _) hfilled
    intro i hi
    rw [hct] at hi ⊢
    simp only at hi ⊢
    rw [h1] at hi
    obtain ⟨t0, t1, _, hloop, htab, _, hdim⟩ := h5 i (List.mem_range.mpr hi)
    obtain ⟨e, rest, rfl, hcla⟩ := hhead
    have hid : e.type = IDENTITY := (hclass e (List.mem_cons_self _ _)).mp hcla
    rw [htab, hdim]
    exact characterLoop_identity_head cosf pi n _ (rep i) i e rest t0 t1 hcla hid hloop
  · have hft2 : ∃ ft, f = fmap_f.ft ft ∧ (ft = getCharacterTableT ∨ ft = getCharacterTableTd
        ∨ ft = getCharacterTableI ∨ ft = getCharacterTableIh
        ∨ ft = getCharacterTableUnknown) := by
      rcases hft with rfl | rfl | rfl | rfl | rfl <;> exact ⟨_, rfl, by simp⟩
    obtain ⟨ft, rfl, hft3⟩ := hft2
    simp only [Option.some.injEq, Prod.mk.injEq] at hcalled
    obtain ⟨hret, _, hct1⟩ := hcalled
    simp only [fmap_f.isREP, Bool.false_eq_true, if_false, Option.some.injEq, Prod.mk.injEq,
      true_and] at hfilled
    subst hfilled
    have hpair : ft sops (callocTable d) = (MSYM_SUCCESS, ct1) := by
      rw [← hret, ← hct1]
    obtain ⟨hd1, _, _⟩ := predefined_tables_frame ft hft3 sops (callocTable d)
    intro i hi
    rw [hct] at hi ⊢
    simp only at hi ⊢
    refine predefined_tables_identity_column ft hft3 sops _ ct1 hclass hpair i ?_
    rw [← hct1, hd1] at hi
    exact hi


set_option maxHeartbeats 1000000 in
theorem verify_tableD2h :
    verifyCharacterTable (tableD2h : msym_character_table_t K) = MSYM_SUCCESS := by
  rw [verifyCharacterTable_eq_success]
  intro i j hij hj
  have hj8 : j < 8 := hj
  rw [rowProduct_eq]
  interval_cases j <;> interval_cases i <;>
    norm_num [tableD2h, msym_character_table_t.ofLists, Finset.sum_range_succ,
      CHARACTER_TABLE_VERIFICATION_THRESHOLD]

theorem generateCharacterTable_opsD2h (cosf : K → K) (pi : K)
    (oct : Option (msym_character_table_t K)) :
    generateCharacterTable cosf pi POINT_GROUP_Dnh 2 opsD2h oct
      = some (MSYM_SUCCESS, some tableD2h) := by
  have hcount : countClasses 8 opsD2h (fun _ => 0)
      = some (fun k => [1, 1, 1, 1, 1, 1, 1, 1].getD k 0) := by
    simp [countClasses, opsD2h]
    funext k
    rcases k with _ | _ | _ | _ | _ | _ | _ | _ | k <;> simp [Function.update_apply]
  have hsel : selectRepresentatives 8 opsD2h (fun _ => none)
      = fun k => [some 0, some 1, some 2, some 3, some 4, some 5, some 6, some 7].getD k none := by
    simp [selectRepresentatives, firstOfClass, opsD2h, List.range_succ, List.findIdx?_cons]
    funext k
    rcases k with _ | _ | _ | _ | _ | _ | _ | _ | k <;> simp [Function.update_apply]
  have h := generateCharacterTable_of_rep_stages cosf pi POINT_GROUP_Dnh 2 opsD2h oct 8
    getRepresentationsDnh _ _ _ rfl rfl getRepresentationsDnh_two hcount
    (speciesLoop_opsD2h cosf pi)
  simp only [tableD2h, msym_character_table_t.ofLists] at h
  rw [hsel] at h
  exact h verify_tableD2h

theorem getRepresentationsCnv_one :
    getRepresentationsCnv 1 2 (fun _ => zeroRep)
      = some (MSYM_SUCCESS, fun r =>
          [mkRep IRREDUCIBLE 1 1 1 1 1 1, mkRep IRREDUCIBLE 1 1 (-1) 1 1 1].getD r zeroRep) := by
  simp [getRepresentationsCnv, storeRep, bit0Clear, singleLoop, List.range_succ]
  funext r
  rcases r with _ | _ | r <;> simp [Function.update_apply]

theorem speciesLoop_opsMixed (cosf : K → K) (pi : K) :
    speciesLoop cosf pi POINT_GROUP_Cnv 1 opsMixed
        (fun r => [mkRep IRREDUCIBLE 1 1 1 1 1 1, mkRep IRREDUCIBLE 1 1 (-1) 1 1 1].getD r zeroRep)
        (List.range 2)
        { (callocTable 2 : msym_character_table_t K) with classc := fun k => [2, 2].getD k 0 }
      = some (MSYM_SUCCESS, msym_character_table_t.ofLists 2 [2, 2] []
          [{ name := "A1", d := 1 }, { name := "A2", d := 1 }] [[1, 1], [-1, 1]]) := by
  simp [speciesLoop, List.range_succ, callocTable, getRepresentationName, mkRep, maskEindex,
    characterLoop, opsMixed, representationCharacter, intQuot, piOver, oddSelect,
    msym_character_table_t.ofLists, snprintf, sizeof_name, types, sv, si, sh]
  refine ⟨?_, ?_⟩
  · funext k
    rcases k with _ | _ | k <;> simp [Function.update_apply]
    all_goals decide
  · funext i k
    rcases i with _ | _ | i <;> rcases k with _ | _ | k <;> simp [Function.update_apply]

theorem verify_tableMixed :
    verifyCharacterTable (tableMixed : msym_character_table_t K) = MSYM_SUCCESS := by
  rw [verifyCharacterTable_eq_success]
  intro i j hij hj
  have hj2 : j < 2 := hj
  rw [rowProduct_eq]
  interval_cases j <;> interval_cases i
  norm_num [tableMixed, msym_character_table_t.ofLists, Finset.sum_range_succ,
    CHARACTER_TABLE_VERIFICATION_THRESHOLD]

theorem generateCharacterTable_opsMixed (cosf : K → K) (pi : K)
    (oct : Option (msym_character_table_t K)) :
    generateCharacterTable cosf pi POINT_GROUP_Cnv 1 opsMixed oct
      = some (MSYM_SUCCESS, some tableMixed) := by
  have hcount : countClasses 2 opsMixed (fun _ => 0) = some (fun k => [2, 2].getD k 0) := by
    simp [countClasses, opsMixed]
    funext k
    rcases k with _ | _ | k <;> simp [Function.update_apply]
  have hsel : selectRepresentatives 2 opsMixed (fun _ => none)
      = fun k => [some 0, some 2].getD k none := by
    simp [selectRepresentatives, firstOfClass, opsMixed, List.range_succ, List.findIdx?_cons]
    funext k
    rcases k with _ | _ | k <;> simp [Function.update_apply]
  have h := generateCharacterTable_of_rep_stages cosf pi POINT_GROUP_Cnv 1 opsMixed oct 2
    getRepresentationsCnv _ _ _ rfl rfl getRepresentationsCnv_one hcount
    (speciesLoop_opsMixed cosf pi)
  simp only [msym_character_table_t.ofLists] at h
  simp only [List.getD_nil] at h
  rw [hsel] at h
  exact h verify_tableMixed

theorem rowSum_comm (ct : msym_character_table_t K) (i j : Nat) :
    ∑ k in Finset.range ct.d, (ct.classc k : K) * ct.table i k * ct.table j k
      = ∑ k in Finset.range ct.d, (ct.classc k : K) * ct.table j k * ct.table i k := by
  apply Finset.sum_congr rfl
  intro k _
  ring

/-- Distinct rows of a table returned with success have a class-weighted
product of at most the verification threshold. -/
theorem generateCharacterTable_rowSum_le (cosf : K → K) (pi : K)
    (type : msym_point_group_type_t) (n : Int) (sops : List msym_symmetry_operation_t)
    (oct : Option (msym_character_table_t K)) (ct : msym_character_table_t K)
    (h : generateCharacterTable cosf pi type n sops oct = some (MSYM_SUCCESS, some ct))
    (i j : Nat) (hi : i < ct.d) (hj : j < ct.d) (hij : i ≠ j) :
    ∑ k in Finset.range ct.d, (ct.classc k : K) * ct.table i k * ct.table j k
      ≤ 1 / 10 ^ 10 := by
  obtain ⟨_, _, hver⟩ := generateCharacterTable_success_facts cosf pi type n sops oct ct h
  rw [verifyCharacterTable_eq_success] at hver
  rcases Nat.lt_or_gt_of_ne hij with hlt | hgt
  · have := hver i j hlt hj
    rwa [rowProduct_eq] at this
  · have := hver j i hgt hi
    rw [rowProduct_eq] at this
    rw [rowSum_comm]
    exact this

/-- The class multiplicities of a table returned with success. -/
theorem generateCharacterTable_classc (cosf : K → K) (pi : K)
    (type : msym_point_group_type_t) (n : Int) (sops : List msym_symmetry_operation_t)
    (oct : Option (msym_character_table_t K)) (ct : msym_character_table_t K)
    (h : generateCharacterTable cosf pi type n sops oct = some (MSYM_SUCCESS, some ct)) :
    (∀ k, ct.classc k = ((sops.countP (fun sop => sop.cla = k) : Nat) : Int))
      ∧ ∑ k in Finset.range ct.d, ct.classc k = (sops.length : Int) := by
  obtain ⟨_, hcount, _⟩ := generateCharacterTable_success_facts cosf pi type n sops oct ct h
  obtain ⟨hlt, hc⟩ := countClasses_spec _ _ _ _ hcount
  have hc2 : ∀ k, ct.classc k = ((sops.countP (fun sop => sop.cla = k) : Nat) : Int) := by
    intro k
    rw [hc k]
    simp
  refine ⟨hc2, ?_⟩
  rw [← sum_countP_cla ct.d sops hlt]
  apply Finset.sum_congr rfl
  intro k _
  exact hc2 k

theorem generateCharacterTable_sops_ne_nil (cosf : K → K) (pi : K)
    (type : msym_point_group_type_t) (n : Int) (sops : List msym_symmetry_operation_t)
    (oct : Option (msym_character_table_t K)) (ct : msym_character_table_t K)
    (h : generateCharacterTable cosf pi type n sops oct = some (MSYM_SUCCESS, some ct)) :
    0 < sops.length := by
  obtain ⟨hd, _, _⟩ := generateCharacterTable_success_facts cosf pi type n sops oct ct h
  cases sops with
  | nil => simp [tableSize] at hd
  | cons a l => simp

theorem maxClass_eq_getLast (sops : List msym_symmetry_operation_t) (hne : sops ≠ [])
    (hsorted : sops.Pairwise (fun a b => a.cla ≤ b.cla)) :
    maxClass sops = (sops.getLast hne).cla := by
  induction sops with
  | nil => exact absurd rfl hne
  | cons a l ih =>
    cases l with
    | nil => simp [maxClass]
    | cons b t =>
      have hp := List.pairwise_cons.mp hsorted
      have ih2 := ih (by simp) hp.2
      have hlast : a.cla ≤ ((b :: t).getLast (by simp)).cla :=
        hp.1 _ (List.getLast_mem _)
      simp only [maxClass, List.map_cons, List.foldr_cons] at ih2 ⊢
      rw [List.getLast_cons (by simp)]
      rw [ih2]
      exact max_eq_right hlast

/-- `verifyCharacterTable` fails exactly when some pair of rows `i < j` has a
class-weighted product above the threshold. -/
theorem verifyCharacterTable_eq_invalid (ct : msym_character_table_t K) :
    verifyCharacterTable ct = MSYM_INVALID_CHARACTER_TABLE
      ↔ ∃ i j, i < j ∧ j < ct.d ∧
          CHARACTER_TABLE_VERIFICATION_THRESHOLD < rowProduct ct i j := by
  constructor
  · intro h
    by_contra hne
    have hall : ∀ i j, i < j → j < ct.d →
        rowProduct ct i j ≤ CHARACTER_TABLE_VERIFICATION_THRESHOLD := by
      intro i j hij hj
      by_contra hgt
      exact hne ⟨i, j, hij, hj, not_le.mp hgt⟩
    have hs := (verifyCharacterTable_eq_success ct).mpr hall
    rw [h] at hs
    exact absurd hs (by decide)
  · rintro ⟨i, j, hij, hj, hgt⟩
    rcases verifyCharacterTable_cases ct with hs | hi
    · have := (verifyCharacterTable_eq_success ct).mp hs i j hij hj
      exact absurd hgt (not_lt.mpr this)
    · exact hi

theorem le_maxClass (sops : List msym_symmetry_operation_t) (sop : msym_symmetry_operation_t)
    (h : sop ∈ sops) : sop.cla ≤ maxClass sops := by
  induction sops with
  | nil => simp at h
  | cons a l ih =>
    simp only [maxClass, List.map_cons, List.foldr_cons]
    rcases List.mem_cons.mp h with rfl | h
    · exact le_max_left _ _
    · exact le_trans (ih h) (le_max_right _ _)

theorem maxClass_lt (sops : List msym_symmetry_operation_t) (d : Nat) (hd : 0 < d)
    (h : ∀ sop ∈ sops, sop.cla < d) : maxClass sops < d := by
  induction sops with
  | nil => simpa [maxClass] using hd
  | cons a l ih =>
    simp only [maxClass, List.map_cons, List.foldr_cons]
    exact max_lt (h a (List.mem_cons_self _ _))
      (ih (fun s hs => h s (List.mem_cons_of_mem _ hs)))

/-- The size of a table returned with success is 1 + the largest class index,
whatever the order of the operations. -/
theorem generateCharacterTable_size (cosf : K → K) (pi : K)
    (type : msym_point_group_type_t) (n : Int) (sops : List msym_symmetry_operation_t)
    (oct : Option (msym_character_table_t K)) (ct : msym_character_table_t K)
    (h : generateCharacterTable cosf pi type n sops oct = some (MSYM_SUCCESS, some ct)) :
    ct.d = 1 + maxClass sops := by
  obtain ⟨hd, hcount, _⟩ := generateCharacterTable_success_facts cosf pi type n sops oct ct h
  obtain ⟨hlt, _⟩ := countClasses_spec _ _ _ _ hcount
  simp only [tableSize, Option.map_eq_some'] at hd
  obtain ⟨a, ha, had⟩ := hd
  have hmem : a ∈ sops := List.mem_of_getLast?_eq_some ha
  have h1 := le_maxClass sops a hmem
  have h2 := maxClass_lt sops ct.d (by omega) hlt
  omega

theorem speciesLoop_opsVertical (cosf : K → K) (pi : K) :
    speciesLoop cosf pi POINT_GROUP_Cnv 1 opsVertical
        (fun r => [mkRep IRREDUCIBLE 1 1 1 1 1 1, mkRep IRREDUCIBLE 1 1 (-1) 1 1 1].getD r zeroRep)
        (List.range 2)
        { (callocTable 2 : msym_character_table_t K) with classc := fun k => [1, 1].getD k 0 }
      = some (MSYM_SUCCESS, msym_character_table_t.ofLists 2 [1, 1] []
          [{ name := "A1", d := 1 }, { name := "A2", d := 1 }] [[1, 1], [-1, -1]]) := by
  simp [speciesLoop, List.range_succ, callocTable, getRepresentationName, mkRep, maskEindex,
    characterLoop, opsVertical, representationCharacter, intQuot, piOver, oddSelect,
    msym_character_table_t.ofLists, snprintf, sizeof_name, types, sv, si, sh]
  refine ⟨?_, ?_⟩
  · funext k
    rcases k with _ | _ | k <;> simp [Function.update_apply]
    all_goals decide
  · funext i k
    rcases i with _ | _ | i <;> rcases k with _ | _ | k <;> simp [Function.update_apply]

theorem rowProduct_negTable : rowProduct (negTable : msym_character_table_t K) 0 1 = -2 := by
  rw [rowProduct_eq]
  norm_num [negTable, msym_character_table_t.ofLists, Finset.sum_range_succ]

theorem verify_negTable :
    verifyCharacterTable (negTable : msym_character_table_t K) = MSYM_SUCCESS := by
  rw [verifyCharacterTable_eq_success]
  intro i j hij hj
  have hj2 : j < 2 := hj
  interval_cases j <;> interval_cases i
  rw [rowProduct_negTable]
  norm_num [CHARACTER_TABLE_VERIFICATION_THRESHOLD]

theorem generateCharacterTable_opsVertical (cosf : K → K) (pi : K)
    (oct : Option (msym_character_table_t K)) :
    generateCharacterTable cosf pi POINT_GROUP_Cnv 1 opsVertical oct
      = some (MSYM_SUCCESS, some negTable) := by
  have hcount : countClasses 2 opsVertical (fun _ => 0) = some (fun k => [1, 1].getD k 0) := by
    simp [countClasses, opsVertical]
    funext k
    rcases k with _ | _ | k <;> simp [Function.update_apply]
  have hsel : selectRepresentatives 2 opsVertical (fun _ => none)
      = fun k => [some 0, some 1].getD k none := by
    simp [selectRepresentatives, firstOfClass, opsVertical, List.range_succ, List.findIdx?_cons]
    funext k
    rcases k with _ | _ | k <;> simp [Function.update_apply]
  have h := generateCharacterTable_of_rep_stages cosf pi POINT_GROUP_Cnv 1 opsVertical oct 2
    getRepresentationsCnv _ _ _ rfl rfl getRepresentationsCnv_one hcount
    (speciesLoop_opsVertical cosf pi)
  simp only [msym_character_table_t.ofLists] at h
  simp only [List.getD_nil] at h
  rw [hsel] at h
  exact h verify_negTable

theorem getCharacterTableTd_opsTd :
    getCharacterTableTd opsTd (callocTable 5 : msym_character_table_t K)
      = (MSYM_SUCCESS, msym_character_table_t.ofLists 5 [] []
          [{ name := "A1", d := 1 }, { name := "A2", d := 1 }, { name := "E", d := 2 },
           { name := "T1", d := 3 }, { name := "T2", d := 3 }]
          [[1, 1, 1, 1, 1], [1, 1, 1, -1, -1], [2, -1, 2, 0, 0], [3, 0, -1, 1, -1],
           [3, 0, -1, -1, 1]]) := by
  simp [getCharacterTableTd, getPredefinedCharacterTable, callocTable, predefinedLoop,
    List.range_succ, opsTd, tsop, sopMatches, snprintf, sizeof_name,
    msym_character_table_t.ofLists]
  refine ⟨?_, ?_⟩
  · funext k
    rcases k with _ | _ | _ | _ | _ | k <;> simp [Function.update_apply]
    all_goals decide
  · funext i k
    rw [copyColumn_apply, copyColumn_apply, copyColumn_apply, copyColumn_apply,
      copyColumn_apply]
    rcases i with _ | _ | _ | _ | _ | i <;> rcases k with _ | _ | _ | _ | _ | k <;> simp

theorem verify_tableTd :
    verifyCharacterTable (tableTd : msym_character_table_t K) = MSYM_SUCCESS := by
  rw [verifyCharacterTable_eq_success]
  intro i j hij hj
  have hj5 : j < 5 := hj
  rw [rowProduct_eq]
  interval_cases j <;> interval_cases i <;>
    norm_num [tableTd, msym_character_table_t.ofLists, Finset.sum_range_succ,
      CHARACTER_TABLE_VERIFICATION_THRESHOLD]

theorem generateCharacterTable_opsTd (cosf : K → K) (pi : K) (n : Int)
    (oct : Option (msym_character_table_t K)) :
    generateCharacterTable cosf pi POINT_GROUP_Td n opsTd oct
      = some (MSYM_SUCCESS, some tableTd) := by
  have hcount : countClasses 5 opsTd (fun _ => 0)
      = some (fun k => [1, 8, 3, 6, 6].getD k 0) := by
    simp [countClasses, opsTd]
    funext k
    rcases k with _ | _ | _ | _ | _ | k <;> simp [Function.update_apply]
  have hsel : selectRepresentatives 5 opsTd (fun _ => none)
      = fun k => [some 0, some 1, some 9, some 12, some 18].getD k none := by
    simp [selectRepresentatives, firstOfClass, opsTd, List.range_succ, List.findIdx?_cons]
    funext k
    rcases k with _ | _ | _ | _ | _ | k <;> simp [Function.update_apply]
  have h := generateCharacterTable_of_tab_stages cosf pi POINT_GROUP_Td n opsTd oct 5
    getCharacterTableTd (fun k => [1, 8, 3, 6, 6].getD k 0) _ rfl rfl getCharacterTableTd_opsTd
    (by simpa [msym_character_table_t.ofLists] using hcount)
  simp only [msym_character_table_t.ofLists] at h
  simp only [List.getD_nil] at h
  rw [hsel] at h
  exact h verify_tableTd

theorem tableSize_of_ne_nil (sops : List msym_symmetry_operation_t) (h : sops ≠ []) :
    tableSize sops = some ((sops.getLast h).cla + 1) := by
  simp [tableSize, List.getLast?_eq_getLast _ h]

/-- The types whose `fmap` entry is `getRepresentationsUnknown`: the call
returns InvalidCharacterTable and leaves `*oct` as it was. -/
theorem generateCharacterTable_of_unknown_rep (cosf : K → K) (pi : K)
    (type : msym_point_group_type_t) (n : Int) (sops : List msym_symmetry_operation_t)
    (oct : Option (msym_character_table_t K)) (hne : sops ≠ [])
    (hfind : (fmap : List (msym_point_group_type_t × fmap_f K)).find? (fun e => e.1 = type)
      = some (type, fmap_f.fr getRepresentationsUnknown)) :
    generateCharacterTable cosf pi type n sops oct
      = some (MSYM_INVALID_CHARACTER_TABLE, oct) := by
  unfold generateCharacterTable
  simp [tableSize_of_ne_nil sops hne, hfind, getRepresentationsUnknown]

/-- The types whose `fmap` entry is `getCharacterTableUnknown`: the call
returns InvalidCharacterTable and leaves `*oct` as it was. -/
theorem generateCharacterTable_of_unknown_tab (cosf : K → K) (pi : K)
    (type : msym_point_group_type_t) (n : Int) (sops : List msym_symmetry_operation_t)
    (oct : Option (msym_character_table_t K)) (hne : sops ≠ [])
    (hfind : (fmap : List (msym_point_group_type_t × fmap_f K)).find? (fun e => e.1 = type)
      = some (type, fmap_f.ft getCharacterTableUnknown)) :
    generateCharacterTable cosf pi type n sops oct
      = some (MSYM_INVALID_CHARACTER_TABLE, oct) := by
  unfold generateCharacterTable
  simp [tableSize_of_ne_nil sops hne, hfind, getCharacterTableUnknown]

theorem generateCharacterTable_nil (cosf : K → K) (pi : K)
    (type : msym_point_group_type_t) (n : Int) (oct : Option (msym_character_table_t K)) :
    generateCharacterTable cosf pi type n [] oct = none := by
  simp [generateCharacterTable, tableSize]

/-- Every group type has an entry in `fmap`. -/
theorem fmap_find_isSome (type : msym_point_group_type_t) :
    ∃ f, (fmap : List (msym_point_group_type_t × fmap_f K)).find? (fun e => e.1 = type)
      = some (type, f) := by
  cases type <;> simp [fmap]

/-- The two ways a call of `generateCharacterTable` ends: Success with a table
that passed the verification stored in `*oct`, or an error with `*oct` as it
was. -/
theorem generateCharacterTable_outcome (cosf : K → K) (pi : K)
    (type : msym_point_group_type_t) (n : Int) (sops : List msym_symmetry_operation_t)
    (oct o : Option (msym_character_table_t K)) (ret : msym_error_t)
    (h : generateCharacterTable cosf pi type n sops oct = some (ret, o)) :
    (ret = MSYM_SUCCESS ∧ ∃ ct, o = some ct ∧ verifyCharacterTable ct = MSYM_SUCCESS)
      ∨ (ret ≠ MSYM_SUCCESS ∧ o = oct) := by
  unfold generateCharacterTable at h
  split at h
  · simp at h
  · simp only at h
    split at h
    · simp only [Option.some.injEq, Prod.mk.injEq] at h
      exact Or.inr ⟨by rw [← h.1]; decide, h.2.symm⟩
    · split at h
      · simp at h
      · split at h
        · split at h
          · simp at h
          · split at h
            · simp at h
            · split at h
              · split at h
                · rename_i hver
                  simp only [Option.some.injEq, Prod.mk.injEq] at h
                  exact Or.inl ⟨h.1.symm, _, h.2.symm, hver⟩
                · rename_i hver
                  simp only [Option.some.injEq, Prod.mk.injEq] at h
                  exact Or.inr ⟨by rw [← h.1]; exact hver, h.2.symm⟩
              · rename_i hret2
                simp only [Option.some.injEq, Prod.mk.injEq] at h
                exact Or.inr ⟨by rw [← h.1]; exact hret2, h.2.symm⟩
        · rename_i hret
          simp only [Option.some.injEq, Prod.mk.injEq] at h
          exact Or.inr ⟨by rw [← h.1]; exact hret, h.2.symm⟩

/-- What a successful run of the binding loop leaves in the table: every
visited descriptor is bound to a class below `l`; a column no visited descriptor
is bound to is untouched; and when the visited descriptors are bound to
pairwise different classes, the column of descriptor `i` holds the predefined
column `i`. -/
theorem predefinedLoop_columns (sops : List msym_symmetry_operation_t) (l : Nat)
    (tsops : List msym_symmetry_operation_t) (tname : List String) (tdim : List Int)
    (table : List (List K)) (is : List Nat) (ct ct1 : msym_character_table_t K)
    (h : predefinedLoop sops l tsops tname tdim table is ct = (MSYM_SUCCESS, ct1)) :
    (∀ i ∈ is, ∃ c, boundClass sops (tsops.getD i (tsop IDENTITY 0 0)) = some c ∧ c < l)
    ∧ (∀ j c, (∀ i ∈ is, boundClass sops (tsops.getD i (tsop IDENTITY 0 0)) ≠ some c) →
        ct1.table j c = ct.table j c)
    ∧ (is.Pairwise (fun a b => boundClass sops (tsops.getD a (tsop IDENTITY 0 0))
          ≠ boundClass sops (tsops.getD b (tsop IDENTITY 0 0))) →
        ∀ i ∈ is, ∀ c, boundClass sops (tsops.getD i (tsop IDENTITY 0 0)) = some c →
          ∀ j, j < l → ct1.table j c = (table.getD j []).getD i 0) := by
  induction is generalizing ct with
  | nil =>
    simp [predefinedLoop] at h
    subst h
    simp
  | cons i rest ih =>
    unfold predefinedLoop at h
    simp only at h
    split at h
    · rename_i sop hfind
      have hb : boundClass sops (tsops.getD i (tsop IDENTITY 0 0)) = some sop.cla := by
        unfold boundClass
        rw [hfind]
        rfl
      split at h
      · simp at h
      · rename_i hcla
        obtain ⟨h1, h2, h3⟩ := ih _ h
        refine ⟨?_, ?_, ?_⟩
        · intro k hk
          rcases List.mem_cons.mp hk with rfl | hk
          · exact ⟨sop.cla, hb, by omega⟩
          · exact h1 k hk
        · intro j c hc
          rw [h2 j c (fun k hk => hc k (List.mem_cons_of_mem _ hk))]
          simp only
          rw [copyColumn_apply]
          have hne : c ≠ sop.cla := by
            intro e
            exact hc i (List.mem_cons_self _ _) (by rw [hb, e])
          simp [hne]
        · intro hp k hk c hc j hj
          rw [List.pairwise_cons] at hp
          rcases List.mem_cons.mp hk with rfl | hk
          · rw [h2 j c (fun m hm e => hp.1 m hm (by rw [hc, e]))]
            simp only
            rw [copyColumn_apply]
            have hcc : c = sop.cla := by
              rw [hb] at hc
              exact (Option.some.inj hc).symm
            simp [hj, hcc]
          · exact h3 hp.2 k hk c hc j hj
    · simp at h

theorem getCharacterTableIh_eq (sops : List msym_symmetry_operation_t)
    (ct : msym_character_table_t K) :
    getCharacterTableIh sops ct
      = getPredefinedCharacterTable sops 10 tsopsIh
          ["Ag", "Au", "T1g", "T1u", "T2g", "T2u", "Gg", "Gu", "Hg", "Hu"]
          [1, 1, 3, 3, 3, 3, 4, 4, 5, 5]
          [[1, 1, 1, 1, 1, 1, 1, 1, 1, 1],
           [1, 1, -1, -1, 1, -1, 1, -1, 1, -1],
           [3, -1, -1, 0, -C4PI, -C2PI, -C2PI, 3, 0, -C4PI],
           [3, -1, 1, 0, -C4PI, C2PI, -C2PI, -3, 0, C4PI],
           [3, -1, -1, 0, -C2PI, -C4PI, -C4PI, 3, 0, -C2PI],
           [3, -1, 1, 0, -C2PI, C4PI, -C4PI, -3, 0, C2PI],
           [4, 0, 0, 1, -1, -1, -1, 4, 1, -1],
           [4, 0, 0, -1, -1, 1, -1, -4, 1, 1],
           [5, 1, 1, -1, 0, 0, 0, 5, -1, 0],
           [5, 1, -1, 1, 0, 0, 0, -5, -1, 0]] ct :=
  rfl

/-- The bound table of a successful `getPredefinedCharacterTable` whose `l`
descriptors are bound to pairwise different classes: the table has `l`
classes, descriptor `i` is bound to a class `c < l`, column `c` is the
predefined column `i`, and row `i` carries the predefined label and
dimension. -/
theorem getPredefinedCharacterTable_columns (sops : List msym_symmetry_operation_t) (l : Nat)
    (tsops : List msym_symmetry_operation_t) (tname : List String) (tdim : List Int)
    (table : List (List K)) (ct ct1 : msym_character_table_t K)
    (h : getPredefinedCharacterTable sops l tsops tname tdim table ct = (MSYM_SUCCESS, ct1))
    (hd : ((List.range l).map
      (fun i => boundClass sops (tsops.getD i (tsop IDENTITY 0 0)))).Nodup) :
    ct1.d = l ∧ ∀ i, i < l →
      ct1.s i = { name := snprintf sizeof_name "" (tname.getD i ""), d := tdim.getD i 0 }
      ∧ ∃ c, boundClass sops (tsops.getD i (tsop IDENTITY 0 0)) = some c ∧ c < l
        ∧ ∀ j, j < l → ct1.table j c = (table.getD j []).getD i 0 := by
  unfold getPredefinedCharacterTable at h
  split at h
  · simp at h
  · rename_i hl
    have hl2 : ct.d = l := not_not.mp hl
    obtain ⟨h1, _, h3⟩ := predefinedLoop_columns sops l tsops tname tdim table _ ct ct1 h
    have hfr := predefinedLoop_frame sops l tsops tname tdim table _ ct ct1 _ h
    have hsp := predefinedLoop_species sops l tsops tname tdim table _ ct ct1 h
    refine ⟨by rw [hfr.1, hl2], ?_⟩
    intro i hi
    have hmem : i ∈ List.range l := List.mem_range.mpr hi
    obtain ⟨c, hc, hcl⟩ := h1 i hmem
    refine ⟨hsp.2 i hmem, c, hc, hcl, ?_⟩
    have hp : (List.range l).Pairwise (fun a b =>
        boundClass sops (tsops.getD a (tsop IDENTITY 0 0))
          ≠ boundClass sops (tsops.getD b (tsop IDENTITY 0 0))) := by
      have := List.pairwise_map.mp hd
      exact this
    exact h3 hp i hmem c hc

theorem getCharacterTableIh_opsIh :
    (getCharacterTableIh opsIh (callocTable 10 : msym_character_table_t K)).1 = MSYM_SUCCESS := by
  simp [getCharacterTableIh, getPredefinedCharacterTable, callocTable, predefinedLoop,
    List.range_succ, opsIh, tsop, sopMatches]

theorem boundClass_opsIh :
    tsopsIh.map (boundClass opsIh)
      = [some 0, some 1, some 6, some 7, some 3, some 8, some 4, some 5, some 2, some 9] := by
  decide

/-- An injective assignment of `l` classes below `l` reaches every class. -/
theorem boundClass_onto (l : Nat) (cls : Nat → Option Nat)
    (hd : ((List.range l).map cls).Nodup)
    (hlt : ∀ i, i < l → ∃ c, cls i = some c ∧ c < l) (c : Nat) (hc : c < l) :
    ∃ i, i < l ∧ cls i = some c := by
  have hsub : (List.range l).map cls ⊆ (List.range l).map some := by
    intro x hx
    obtain ⟨i, hi, rfl⟩ := List.mem_map.mp hx
    obtain ⟨c, hc, hcl⟩ := hlt i (List.mem_range.mp hi)
    rw [hc]
    exact List.mem_map.mpr ⟨c, List.mem_range.mpr hcl, rfl⟩
  have hperm := (List.Nodup.subperm hd hsub).perm_of_length_le (by simp)
  have hmem : some c ∈ (List.range l).map cls :=
    hperm.symm.subset (List.mem_map.mpr ⟨c, List.mem_range.mpr hc, rfl⟩)
  obtain ⟨i, hi, hic⟩ := List.mem_map.mp hmem
  exact ⟨i, List.mem_range.mp hi, hic⟩


/-- The literal `-C4PI` agrees with the golden ratio to 59 decimals. -/
theorem neg_C4PI_near_golden : |(-C4PI : ℝ) - (1 + Real.sqrt 5) / 2| < 1 / 10 ^ 59 := by
  have hlo : (2 * (-C4PI : ℝ) - 1 - 2 / 10 ^ 59) < Real.sqrt 5 := by
    rw [Real.lt_sqrt (by norm_num [C4PI])]
    norm_num [C4PI]
  have hhi : Real.sqrt 5 < (2 * (-C4PI : ℝ) - 1 + 2 / 10 ^ 59) := by
    rw [Real.sqrt_lt' (by norm_num [C4PI])]
    norm_num [C4PI]
  rw [abs_sub_lt_iff]
  constructor <;> linarith

/-- The rows Ag, Au and T1u of a bound Ih table whose ten class descriptors
are bound to ten different classes. -/
theorem getCharacterTableIh_bound_rows (sops : List msym_symmetry_operation_t)
    (ct ct1 : msym_character_table_t K)
    (h : getCharacterTableIh sops ct = (MSYM_SUCCESS, ct1))
    (hd : (tsopsIh.map (boundClass sops)).Nodup) :
    ct1.d = 10
    ∧ ((ct1.s 0).name = "Ag" ∧ (ct1.s 1).name = "Au" ∧ (ct1.s 3).name = "T1u")
    ∧ (∀ c, c < 10 → ct1.table 0 c = 1)
    ∧ (∀ i : Fin 10, ∃ c, boundClass sops (tsopsIh.getD i (tsop IDENTITY 0 0)) = some c
        ∧ c < 10
        ∧ ct1.table 1 c = ([1, 1, -1, -1, 1, -1, 1, -1, 1, -1] : List K).getD i 0)
    ∧ (∃ c, boundClass sops (tsop PROPER_ROTATION 5 1) = some c ∧ c < 10
        ∧ ct1.table 3 c = -C4PI) := by
  rw [getCharacterTableIh_eq] at h
  have hd2 : ((List.range 10).map
      (fun i => boundClass sops (tsopsIh.getD i (tsop IDENTITY 0 0)))).Nodup := by
    simpa [List.range_succ, tsopsIh] using hd
  obtain ⟨h1, h2⟩ := getPredefinedCharacterTable_columns sops 10 tsopsIh _ _ _ ct ct1 h hd2
  refine ⟨h1, ⟨?_, ?_, ?_⟩, ?_, ?_, ?_⟩
  · rw [(h2 0 (by norm_num)).1]
    decide
  · rw [(h2 1 (by norm_num)).1]
    decide
  · rw [(h2 3 (by norm_num)).1]
    decide
  · intro c hc
    obtain ⟨i, hi, hic⟩ := boundClass_onto 10
      (fun i => boundClass sops (tsopsIh.getD i (tsop IDENTITY 0 0))) hd2
      (fun i hi => by
        obtain ⟨c, hc, hcl, _⟩ := (h2 i hi).2
        exact ⟨c, hc, hcl⟩) c hc
    obtain ⟨c2, hc2, _, hcol⟩ := (h2 i hi).2
    rw [hic] at hc2
    have hcc : c = c2 := Option.some.inj hc2
    subst hcc
    rw [hcol 0 (by norm_num)]
    interval_cases i <;> simp
  · intro i
    obtain ⟨c, hc, hcl, hcol⟩ := (h2 i.1 i.2).2
    refine ⟨c, hc, hcl, ?_⟩
    rw [hcol 1 (by norm_num)]
    fin_cases i <;> simp
  · obtain ⟨c, hc, hcl, hcol⟩ := (h2 4 (by norm_num)).2
    refine ⟨c, by simpa [tsopsIh] using hc, hcl, ?_⟩
    rw [hcol 3 (by norm_num)]
    simp

theorem accumulateInner_eq (N n : Nat) (p : Nat → Nat) (a : Nat → Fin 3 → K)
    (v0 : Nat → Fin 3 → K) :
    (List.range n).foldlM
        (fun v k =>
          if p k < N then some (Function.update v (p k) (vadd (a k) (v (p k)))) else none) v0
      = if ∀ k, k < n → p k < N then
          some (fun q => v0 q + ∑ k in Finset.range n, if p k = q then a k else 0)
        else none := by
  induction n with
  | zero => simp
  | succ n ih =>
    rw [List.range_succ, List.foldlM_append, ih]
    by_cases hall : ∀ k, k < n → p k < N
    · rw [if_pos hall]
      by_cases hn : p n < N
      · have hall2 : ∀ k, k < n + 1 → p k < N := by
          intro k hk
          rcases Nat.lt_succ_iff_lt_or_eq.mp hk with h | h
          · exact hall k h
          · rw [h]; exact hn
        rw [if_pos hall2]
        simp only [Option.some_bind, List.foldlM_cons, List.foldlM_nil, if_pos hn,
          Option.bind_eq_bind, Option.pure_def]
        congr 1
        funext q
        rw [Finset.sum_range_succ]
        by_cases hq : q = p n
        · subst hq
          rw [Function.update_same]
          simp only [vadd, if_true]
          abel
        · rw [Function.update_noteq hq]
          have hq2 : ¬ p n = q := fun e => hq e.symm
          simp [hq2]
      · have hall2 : ¬ ∀ k, k < n + 1 → p k < N := fun h => hn (h n (Nat.lt_succ_self n))
        rw [if_neg hall2]
        simp [hn]
    · rw [if_neg hall]
      have hall2 : ¬ ∀ k, k < n + 1 → p k < N :=
        fun h => hall (fun k hk => h k (Nat.lt_succ_of_lt hk))
      rw [if_neg hall2]
      rfl

theorem accumulateOuter_eq (N m n : Nat) (p : Nat → Nat → Nat) (a : Nat → Nat → Fin 3 → K)
    (v0 : Nat → Fin 3 → K) :
    (List.range m).foldlM
        (fun v j =>
          (List.range n).foldlM
            (fun v k =>
              if p j k < N then some (Function.update v (p j k) (vadd (a j k) (v (p j k))))
              else none) v) v0
      = if ∀ j, j < m → ∀ k, k < n → p j k < N then
          some (fun q => v0 q + ∑ j in Finset.range m, ∑ k in Finset.range n,
            if p j k = q then a j k else 0)
        else none := by
  induction m with
  | zero => simp
  | succ m ih =>
    rw [List.range_succ, List.foldlM_append, ih]
    by_cases hall : ∀ j, j < m → ∀ k, k < n → p j k < N
    · rw [if_pos hall]
      simp only [Option.some_bind, List.foldlM_cons, List.foldlM_nil, Option.bind_eq_bind,
        Option.pure_def]
      rw [accumulateInner_eq]
      by_cases hm : ∀ k, k < n → p m k < N
      · have hall2 : ∀ j, j < m + 1 → ∀ k, k < n → p j k < N := by
          intro j hj
          rcases Nat.lt_succ_iff_lt_or_eq.mp hj with h | h
          · exact hall j h
          · rw [h]; exact hm
        rw [if_pos hm, if_pos hall2]
        simp only [Option.some_bind]
        congr 1
        funext q
        rw [Finset.sum_range_succ]
        abel
      · have hall2 : ¬ ∀ j, j < m + 1 → ∀ k, k < n → p j k < N :=
          fun h => hm (h m (Nat.lt_succ_self m))
        rw [if_neg hm, if_neg hall2]
        rfl
    · rw [if_neg hall]
      have hall2 : ¬ ∀ j, j < m + 1 → ∀ k, k < n → p j k < N :=
        fun h => hall (fun j hj => h j (Nat.lt_succ_of_lt hj))
      rw [if_neg hall2]
      rfl

/-- The closed form of the accumulation loop: it is defined exactly when every
index `perm[j].p[k]` it meets is a row of `v`, and then adds `orbitSum` to
`v`. -/
theorem accumulateLoop_eq
    (applySymmetryOperation : msym_symmetry_operation_t → (Fin 3 → K) → (Fin 3 → K) → Fin 3 → K)
    (pg : msym_point_group_t K) (perm : Nat → msym_permutation_t) (length : Nat)
    (src : Nat → Fin 3 → K) (v0 : Nat → Fin 3 → K) :
    accumulateLoop applySymmetryOperation pg perm length src v0
      = if ∀ j, j < pg.order → ∀ k, k < length → (perm j).p k < pg.order then
          some (fun q => v0 q + orbitSum applySymmetryOperation pg perm length src q)
        else none := by
  unfold accumulateLoop orbitSum
  exact accumulateOuter_eq pg.order pg.order length (fun j k => (perm j).p k)
    (fun j k => applySymmetryOperation (pg.sops j) (pg.axis j) (src k)) v0

/-- The closed form of the scaling loop. -/
theorem scaleLoop_eq (order length : Nat) (v : Nat → Fin 3 → K) (elements : Nat → Fin 3 → K) :
    scaleLoop order length v elements
      = (∑ j in Finset.range length, vdot (elements j) (elements j),
         ∑ j in Finset.range length, vdot (v j) (v j),
         fun j => if j < length then vscale (1 / (order : K)) (v j) else elements j) := by
  unfold scaleLoop
  induction length with
  | zero => simp
  | succ n ih =>
    rw [List.range_succ, List.foldl_append, ih]
    simp only [List.foldl_cons, List.foldl_nil, lt_self_iff_false, if_false,
      Finset.sum_range_succ]
    refine Prod.ext rfl (Prod.ext rfl ?_)
    funext j
    simp only
    by_cases hj : j = n
    · subst hj
      simp
    · rw [Function.update_noteq hj]
      have : (j < n + 1) = (j < n) := by
        apply propext; omega
      simp only [this]

/-- One round of the loop over the equivalence sets, in closed form. -/
theorem symmetrizeLoop_cons
    (applySymmetryOperation : msym_symmetry_operation_t → (Fin 3 → K) → (Fin 3 → K) → Fin 3 → K)
    (pg : msym_point_group_t K) (perm : Nat → Nat → msym_permutation_t)
    (thresholds : msym_thresholds_t K) (source : (Fin 3 → K) → Fin 3 → K) (acc : K → K → K)
    (i : Nat) (rest : List Nat) (es : Nat → msym_equivalence_set_t K) (e : Option K)
    (hlen : (es i).length ≤ pg.order)
    (hperm : ∀ j, j < pg.order → ∀ k, k < (es i).length → ((perm i) j).p k < pg.order) :
    symmetrizeLoop applySymmetryOperation pg perm thresholds source acc (i :: rest) es e
      = symmetrizeLoop applySymmetryOperation pg perm thresholds source acc rest
          (Function.update es i
            (symmetrizedSet applySymmetryOperation pg (perm i) source (es i)))
          (if setSkipped thresholds (es i) then e
            else errorTerm acc pg.order e (setNorm (es i))
              (∑ k in Finset.range (es i).length,
                vdot (orbitSum applySymmetryOperation pg (perm i) (es i).length
                        (fun k => source ((es i).elements k)) k)
                  (orbitSum applySymmetryOperation pg (perm i) (es i).length
                        (fun k => source ((es i).elements k)) k))) := by
  rw [symmetrizeLoop]
  rw [if_neg (Nat.not_lt.mpr hlen), accumulateLoop_eq, if_pos hperm]
  simp only [scaleLoop_eq, zero_add, symmetrizedSet, setSkipped, setNorm, decide_eq_true_eq]

/-- A round on a set larger than the group order ends the loop. -/
theorem symmetrizeLoop_cons_error
    (applySymmetryOperation : msym_symmetry_operation_t → (Fin 3 → K) → (Fin 3 → K) → Fin 3 → K)
    (pg : msym_point_group_t K) (perm : Nat → Nat → msym_permutation_t)
    (thresholds : msym_thresholds_t K) (source : (Fin 3 → K) → Fin 3 → K) (acc : K → K → K)
    (i : Nat) (rest : List Nat) (es : Nat → msym_equivalence_set_t K) (e : Option K)
    (hlen : (es i).length > pg.order) :
    symmetrizeLoop applySymmetryOperation pg perm thresholds source acc (i :: rest) es e
      = some (MSYM_SYMMETRIZATION_ERROR, es, e) := by
  rw [symmetrizeLoop, if_pos hlen]

/-- A round in which an index of the permutation is no row of `v`. -/
theorem symmetrizeLoop_cons_none
    (applySymmetryOperation : msym_symmetry_operation_t → (Fin 3 → K) → (Fin 3 → K) → Fin 3 → K)
    (pg : msym_point_group_t K) (perm : Nat → Nat → msym_permutation_t)
    (thresholds : msym_thresholds_t K) (source : (Fin 3 → K) → Fin 3 → K) (acc : K → K → K)
    (i : Nat) (rest : List Nat) (es : Nat → msym_equivalence_set_t K) (e : Option K)
    (hlen : (es i).length ≤ pg.order)
    (hperm : ¬ ∀ j, j < pg.order → ∀ k, k < (es i).length → ((perm i) j).p k < pg.order) :
    symmetrizeLoop applySymmetryOperation pg perm thresholds source acc (i :: rest) es e
      = none := by
  rw [symmetrizeLoop]
  rw [if_neg (Nat.not_lt.mpr hlen), accumulateLoop_eq, if_neg hperm]

theorem update_symmetrizedSet_length
    (applySymmetryOperation : msym_symmetry_operation_t → (Fin 3 → K) → (Fin 3 → K) → Fin 3 → K)
    (pg : msym_point_group_t K) (perm : Nat → msym_permutation_t)
    (source : (Fin 3 → K) → Fin 3 → K) (es : Nat → msym_equivalence_set_t K) (i j : Nat) :
    (Function.update es i (symmetrizedSet applySymmetryOperation pg perm source (es i)) j).length
      = (es j).length := by
  by_cases h : j = i
  · subst h
    rw [Function.update_same]
    rfl
  · rw [Function.update_noteq h]

/-- What a successful run of the loop over the sets leaves: every visited set
is no larger than the group order and holds its symmetrized positions, the
other sets are untouched, and `e` has taken up the terms of the visited sets
that are not skipped.  `es0` is the input the visited sets are read from. -/
theorem symmetrizeLoop_success
    (applySymmetryOperation : msym_symmetry_operation_t → (Fin 3 → K) → (Fin 3 → K) → Fin 3 → K)
    (pg : msym_point_group_t K) (perm : Nat → Nat → msym_permutation_t)
    (thresholds : msym_thresholds_t K) (source : (Fin 3 → K) → Fin 3 → K) (acc : K → K → K)
    (es0 : Nat → msym_equivalence_set_t K) (is : List Nat)
    (es : Nat → msym_equivalence_set_t K) (e : Option K)
    (es1 : Nat → msym_equivalence_set_t K) (e1 : Option K)
    (hnd : is.Nodup) (hagree : ∀ i ∈ is, es i = es0 i)
    (h : symmetrizeLoop applySymmetryOperation pg perm thresholds source acc is es e
      = some (MSYM_SUCCESS, es1, e1)) :
    (∀ i ∈ is, (es0 i).length ≤ pg.order
        ∧ es1 i = symmetrizedSet applySymmetryOperation pg (perm i) source (es0 i))
      ∧ (∀ i, i ∉ is → es1 i = es i)
      ∧ e1 = is.foldl
          (fun e i =>
            if setSkipped thresholds (es0 i) then e
            else errorTerm acc pg.order e (setNorm (es0 i))
              (∑ k in Finset.range (es0 i).length,
                vdot (orbitSum applySymmetryOperation pg (perm i) (es0 i).length
                        (fun k => source ((es0 i).elements k)) k)
                  (orbitSum applySymmetryOperation pg (perm i) (es0 i).length
                        (fun k => source ((es0 i).elements k)) k))) e := by
  induction is generalizing es e with
  | nil =>
    simp only [symmetrizeLoop, Option.some.injEq, Prod.mk.injEq, true_and] at h
    obtain ⟨rfl, rfl⟩ := h
    simp
  | cons i rest ih =>
    have hi : es i = es0 i := hagree i (List.mem_cons_self _ _)
    have hnd2 := List.nodup_cons.mp hnd
    by_cases hlen : (es i).length > pg.order
    · rw [symmetrizeLoop_cons_error _ _ _ _ _ _ _ _ _ _ hlen] at h
      simp at h
    · have hlen2 : (es i).length ≤ pg.order := Nat.not_lt.mp hlen
      by_cases hperm : ∀ j, j < pg.order → ∀ k, k < (es i).length →
          ((perm i) j).p k < pg.order
      · rw [symmetrizeLoop_cons _ _ _ _ _ _ _ _ _ _ hlen2 hperm] at h
        have hagree2 : ∀ j ∈ rest,
            Function.update es i
              (symmetrizedSet applySymmetryOperation pg (perm i) source (es i)) j = es0 j := by
          intro j hj
          have hji : j ≠ i := fun e => hnd2.1 (e ▸ hj)
          rw [Function.update_noteq hji]
          exact hagree j (List.mem_cons_of_mem _ hj)
        obtain ⟨h1, h2, h3⟩ := ih _ _ hnd2.2 hagree2 h
        refine ⟨?_, ?_, ?_⟩
        · intro j hj
          rcases List.mem_cons.mp hj with rfl | hj
          · refine ⟨hi ▸ hlen2, ?_⟩
            rw [h2 j hnd2.1, Function.update_same, hi]
          · exact h1 j hj
        · intro j hj
          have hji : j ≠ i := fun e => hj (e ▸ List.mem_cons_self _ _)
          rw [h2 j (fun e => hj (List.mem_cons_of_mem _ e)), Function.update_noteq hji]
        · rw [h3, List.foldl_cons, hi]
      · rw [symmetrizeLoop_cons_none _ _ _ _ _ _ _ _ _ _ hlen2 hperm] at h
        simp at h

/-- The loop over the sets returns when every index of the permutations of the
visited sets is a row of `v`; the code is the error exactly when a visited set
is larger than the group order, and the lengths of the sets are kept. -/
theorem symmetrizeLoop_defined
    (applySymmetryOperation : msym_symmetry_operation_t → (Fin 3 → K) → (Fin 3 → K) → Fin 3 → K)
    (pg : msym_point_group_t K) (perm : Nat → Nat → msym_permutation_t)
    (thresholds : msym_thresholds_t K) (source : (Fin 3 → K) → Fin 3 → K) (acc : K → K → K)
    (is : List Nat) (es : Nat → msym_equivalence_set_t K) (e : Option K)
    (hperm : ∀ i ∈ is, (es i).length ≤ pg.order → ∀ j, j < pg.order →
      ∀ k, k < (es i).length → ((perm i) j).p k < pg.order) :
    ∃ ret es1 e1,
      symmetrizeLoop applySymmetryOperation pg perm thresholds source acc is es e
        = some (ret, es1, e1)
      ∧ (∀ i, (es1 i).length = (es i).length)
      ∧ ((ret = MSYM_SUCCESS ∧ ∀ i ∈ is, (es i).length ≤ pg.order)
        ∨ (ret = MSYM_SYMMETRIZATION_ERROR ∧ ∃ i ∈ is, (es i).length > pg.order)) := by
  induction is generalizing es e with
  | nil =>
    exact ⟨MSYM_SUCCESS, es, e, rfl, fun _ => rfl, Or.inl ⟨rfl, by simp⟩⟩
  | cons i rest ih =>
    by_cases hlen : (es i).length > pg.order
    · rw [symmetrizeLoop_cons_error _ _ _ _ _ _ _ _ _ _ hlen]
      exact ⟨_, _, _, rfl, fun _ => rfl, Or.inr ⟨rfl, i, List.mem_cons_self _ _, hlen⟩⟩
    · have hlen2 : (es i).length ≤ pg.order := Nat.not_lt.mp hlen
      rw [symmetrizeLoop_cons _ _ _ _ _ _ _ _ _ _ hlen2
        (hperm i (List.mem_cons_self _ _) hlen2)]
      have hl := update_symmetrizedSet_length applySymmetryOperation pg (perm i) source es i
      obtain ⟨ret, es1, e1, h1, h2, h3⟩ := ih
        (Function.update es i (symmetrizedSet applySymmetryOperation pg (perm i) source (es i)))
        (if setSkipped thresholds (es i) then e
            else errorTerm acc pg.order e (setNorm (es i))
              (∑ k in Finset.range (es i).length,
                vdot (orbitSum applySymmetryOperation pg (perm i) (es i).length
                        (fun k => source ((es i).elements k)) k)
                  (orbitSum applySymmetryOperation pg (perm i) (es i).length
                        (fun k => source ((es i).elements k)) k)))
        (by
          intro j hj
          rw [hl j]
          exact hperm j (List.mem_cons_of_mem _ hj))
      refine ⟨ret, es1, e1, h1, fun j => by rw [h2 j, hl j], ?_⟩
      rcases h3 with ⟨hr, hall⟩ | ⟨hr, j, hj, hjl⟩
      · refine Or.inl ⟨hr, ?_⟩
        intro j hj
        rcases List.mem_cons.mp hj with rfl | hj
        · exact hlen2
        · have := hall j hj
          rwa [hl j] at this
      · refine Or.inr ⟨hr, j, List.mem_cons_of_mem _ hj, ?_⟩
        rwa [hl j] at hjl

theorem setNorm_of_length_zero (s : msym_equivalence_set_t K) (h : s.length = 0) :
    setNorm s = 0 := by
  simp [setNorm, h]

/-- The term of a set that is not skipped has a real value when `ol` is not
zero; the set then has an element, so the group order is not zero. -/
theorem errorTerm_eq
    (applySymmetryOperation : msym_symmetry_operation_t → (Fin 3 → K) → (Fin 3 → K) → Fin 3 → K)
    (pg : msym_point_group_t K) (perm : Nat → msym_permutation_t)
    (source : (Fin 3 → K) → Fin 3 → K) (acc : K → K → K) (s : msym_equivalence_set_t K)
    (e : K) (hlen : s.length ≤ pg.order) (hol : setNorm s ≠ 0) :
    errorTerm acc pg.order (some e) (setNorm s)
        (∑ k in Finset.range s.length,
          vdot (orbitSum applySymmetryOperation pg perm s.length
                  (fun k => source (s.elements k)) k)
            (orbitSum applySymmetryOperation pg perm s.length
                  (fun k => source (s.elements k)) k))
      = some (acc e (setError applySymmetryOperation pg perm source s)) := by
  have hl : s.length ≠ 0 := fun h => hol (setNorm_of_length_zero s h)
  have ho : (pg.order : K) ≠ 0 := by
    have : pg.order ≠ 0 := by omega
    exact_mod_cast this
  have hsq : SQR (pg.order : K) ≠ 0 := by
    unfold SQR
    exact mul_ne_zero ho ho
  simp [errorTerm, fdiv, hsq, hol, setError, orbitNorm]

/-- The value of `e` after the loop, when no term divides by zero. -/
theorem errorFold_eq
    (applySymmetryOperation : msym_symmetry_operation_t → (Fin 3 → K) → (Fin 3 → K) → Fin 3 → K)
    (pg : msym_point_group_t K) (perm : Nat → Nat → msym_permutation_t)
    (thresholds : msym_thresholds_t K) (source : (Fin 3 → K) → Fin 3 → K) (acc : K → K → K)
    (es0 : Nat → msym_equivalence_set_t K) (is : List Nat) (e : K)
    (hlen : ∀ i ∈ is, (es0 i).length ≤ pg.order)
    (hol : ∀ i ∈ is, setSkipped thresholds (es0 i) = false → setNorm (es0 i) ≠ 0) :
    is.foldl
        (fun e i =>
          if setSkipped thresholds (es0 i) then e
          else errorTerm acc pg.order e (setNorm (es0 i))
            (∑ k in Finset.range (es0 i).length,
              vdot (orbitSum applySymmetryOperation pg (perm i) (es0 i).length
                      (fun k => source ((es0 i).elements k)) k)
                (orbitSum applySymmetryOperation pg (perm i) (es0 i).length
                      (fun k => source ((es0 i).elements k)) k))) (some e)
      = some (is.foldl
          (fun e i =>
            if setSkipped thresholds (es0 i) then e
            else acc e (setError applySymmetryOperation pg (perm i) source (es0 i))) e) := by
  induction is generalizing e with
  | nil => rfl
  | cons i rest ih =>
    rw [List.foldl_cons, List.foldl_cons]
    have hrest := fun e => ih e (fun j hj => hlen j (List.mem_cons_of_mem _ hj))
      (fun j hj => hol j (List.mem_cons_of_mem _ hj))
    by_cases hs : setSkipped thresholds (es0 i) = true
    · simp only [hs, if_true]
      exact hrest e
    · have hs2 : setSkipped thresholds (es0 i) = false := by simpa using hs
      simp only [hs2, Bool.false_eq_true, if_false]
      rw [errorTerm_eq applySymmetryOperation pg (perm i) source acc (es0 i) e
        (hlen i (List.mem_cons_self _ _)) (hol i (List.mem_cons_self _ _) hs2)]
      exact hrest _

theorem foldl_add_eq_sum (f : Nat → K) (c : Nat → Bool) (n : Nat) :
    (List.range n).foldl (fun e i => if c i then e else e + f i) 0
      = ∑ i in Finset.range n, if c i then 0 else f i := by
  induction n with
  | zero => simp
  | succ n ih =>
    rw [List.range_succ, List.foldl_append, ih, Finset.sum_range_succ]
    by_cases h : c n = true <;> simp [h]

/-- The running maximum of the linear path is the greatest of 0 and the terms
of the sets that are not skipped. -/
theorem foldl_max_isGreatest (f : Nat → K) (c : Nat → Bool) (n : Nat) :
    IsGreatest ({0} ∪ {t | ∃ i, i < n ∧ c i = false ∧ t = f i})
      ((List.range n).foldl (fun e i => if c i then e else max e (f i)) 0) := by
  induction n with
  | zero =>
    simp [IsGreatest, upperBounds]
  | succ n ih =>
    rw [List.range_succ, List.foldl_append]
    simp only [List.foldl_cons, List.foldl_nil]
    obtain ⟨hmem, hub⟩ := ih
    set m := (List.range n).foldl (fun e i => if c i then e else max e (f i)) 0 with hm
    by_cases hc : c n = true
    · simp only [hc, if_true]
      refine ⟨?_, ?_⟩
      · rcases hmem with h0 | ⟨i, hi, hci, hti⟩
        · exact Or.inl h0
        · exact Or.inr ⟨i, Nat.lt_succ_of_lt hi, hci, hti⟩
      · intro t ht
        rcases ht with h0 | ⟨i, hi, hci, hti⟩
        · exact hub (Or.inl h0)
        · rcases Nat.lt_succ_iff_lt_or_eq.mp hi with h | h
          · exact hub (Or.inr ⟨i, h, hci, hti⟩)
          · rw [h, hc] at hci
            exact absurd hci (by simp)
    · have hc2 : c n = false := by simpa using hc
      simp only [hc2, Bool.false_eq_true, if_false]
      refine ⟨?_, ?_⟩
      · rcases le_total m (f n) with hle | hle
        · rw [max_eq_right hle]
          exact Or.inr ⟨n, Nat.lt_succ_self n, hc2, rfl⟩
        · rw [max_eq_left hle]
          rcases hmem with h0 | ⟨i, hi, hci, hti⟩
          · exact Or.inl h0
          · exact Or.inr ⟨i, Nat.lt_succ_of_lt hi, hci, hti⟩
      · intro t ht
        rcases ht with h0 | ⟨i, hi, hci, hti⟩
        · exact le_trans (hub (Or.inl h0)) (le_max_left _ _)
        · rcases Nat.lt_succ_iff_lt_or_eq.mp hi with h | h
          · exact le_trans (hub (Or.inr ⟨i, h, hci, hti⟩)) (le_max_left _ _)
          · rw [hti, h]
            exact le_max_right _ _

theorem symmetrizeMoleculeProject_success_inv
    (applySymmetryOperation : msym_symmetry_operation_t → (Fin 3 → K) → (Fin 3 → K) → Fin 3 → K)
    (sqrtf : K → K) (pg : msym_point_group_t K) (esl : Nat)
    (es : Nat → msym_equivalence_set_t K) (perm : Nat → Nat → msym_permutation_t)
    (thresholds : msym_thresholds_t K) (err : Option K)
    (es1 : Nat → msym_equivalence_set_t K) (err1 : Option K)
    (h : symmetrizeMoleculeProject applySymmetryOperation sqrtf pg esl es perm thresholds err
      = some (MSYM_SUCCESS, es1, err1)) :
    ∃ e, symmetrizeLoop applySymmetryOperation pg perm thresholds (fun x => x)
          (fun e t => e + t) (List.range esl) es (some 0) = some (MSYM_SUCCESS, es1, e)
      ∧ err1 = e.map (fun e => sqrtf (max e 0)) := by
  unfold symmetrizeMoleculeProject at h
  split at h
  · simp at h
  · rename_i ret es2 e hloop
    split at h
    · rename_i hret
      subst hret
      simp only [Option.some.injEq, Prod.mk.injEq, true_and] at h
      obtain ⟨rfl, rfl⟩ := h
      exact ⟨e, hloop, rfl⟩
    · rename_i hret
      simp only [Option.some.injEq, Prod.mk.injEq] at h
      exact absurd h.1 hret

theorem symmetrizeMoleculeLinear_success_inv
    (applySymmetryOperation : msym_symmetry_operation_t → (Fin 3 → K) → (Fin 3 → K) → Fin 3 → K)
    (vproj : (Fin 3 → K) → (Fin 3 → K) → Fin 3 → K)
    (sqrtf : K → K) (pg : msym_point_group_t K) (esl : Nat)
    (es : Nat → msym_equivalence_set_t K) (perm : Nat → Nat → msym_permutation_t)
    (thresholds : msym_thresholds_t K) (err : Option K)
    (es1 : Nat → msym_equivalence_set_t K) (err1 : Option K)
    (h : symmetrizeMoleculeLinear applySymmetryOperation vproj sqrtf pg esl es perm thresholds
      err = some (MSYM_SUCCESS, es1, err1)) :
    ∃ cinf e,
      (List.range pg.order).find?
          (fun i => (pg.sops i).type = PROPER_ROTATION && (pg.sops i).order = 0) = some cinf
      ∧ symmetrizeLoop applySymmetryOperation pg perm thresholds
          (fun x => vproj x (pg.axis cinf)) (fun e t => max e t) (List.range esl) es (some 0)
          = some (MSYM_SUCCESS, es1, e)
      ∧ err1 = e.map sqrtf := by
  unfold symmetrizeMoleculeLinear at h
  split at h
  · simp at h
  · rename_i cinf hfind
    split at h
    · simp at h
    · rename_i ret es2 e hloop
      split at h
      · rename_i hret
        subst hret
        simp only [Option.some.injEq, Prod.mk.injEq, true_and] at h
        obtain ⟨rfl, rfl⟩ := h
        exact ⟨cinf, e, hfind, hloop, rfl⟩
      · rename_i hret
        simp only [Option.some.injEq, Prod.mk.injEq] at h
        exact absurd h.1 hret

/-- After a successful `symmetrizeMoleculeProject` every set below `esl` is no
larger than the group order and holds its symmetrized positions. -/
theorem symmetrizeMoleculeProject_sets
    (applySymmetryOperation : msym_symmetry_operation_t → (Fin 3 → K) → (Fin 3 → K) → Fin 3 → K)
    (sqrtf : K → K) (pg : msym_point_group_t K) (esl : Nat)
    (es : Nat → msym_equivalence_set_t K) (perm : Nat → Nat → msym_permutation_t)
    (thresholds : msym_thresholds_t K) (err : Option K)
    (es1 : Nat → msym_equivalence_set_t K) (err1 : Option K)
    (h : symmetrizeMoleculeProject applySymmetryOperation sqrtf pg esl es perm thresholds err
      = some (MSYM_SUCCESS, es1, err1)) :
    (∀ i, i < esl → (es i).length ≤ pg.order
      ∧ es1 i = symmetrizedSet applySymmetryOperation pg (perm i) (fun x => x) (es i))
    ∧ ∀ i, ¬ i < esl → es1 i = es i := by
  obtain ⟨e, hloop, _⟩ := symmetrizeMoleculeProject_success_inv _ _ _ _ _ _ _ _ _ _ h
  obtain ⟨h1, h2, _⟩ := symmetrizeLoop_success applySymmetryOperation pg perm thresholds
    (fun x => x) (fun e t => e + t) es (List.range esl) es (some 0) es1 e
    (List.nodup_range esl) (fun _ _ => rfl) hloop
  exact ⟨fun i hi => h1 i (List.mem_range.mpr hi),
    fun i hi => h2 i (fun hm => hi (List.mem_range.mp hm))⟩

/-- The function `symmetrizeMoleculeProject` returns when the indices of the
permutations stay inside their sets; the code is the error exactly when a set
is larger than the group order. -/
theorem symmetrizeMoleculeProject_defined
    (applySymmetryOperation : msym_symmetry_operation_t → (Fin 3 → K) → (Fin 3 → K) → Fin 3 → K)
    (sqrtf : K → K) (pg : msym_point_group_t K) (esl : Nat)
    (es : Nat → msym_equivalence_set_t K) (perm : Nat → Nat → msym_permutation_t)
    (thresholds : msym_thresholds_t K) (err : Option K)
    (hperm : ∀ i, i < esl → ∀ j, j < pg.order → ∀ k, k < (es i).length →
      ((perm i) j).p k < (es i).length) :
    ∃ ret es1 err1,
      symmetrizeMoleculeProject applySymmetryOperation sqrtf pg esl es perm thresholds err
        = some (ret, es1, err1)
      ∧ ((ret = MSYM_SUCCESS ∧ ∀ i, i < esl → (es i).length ≤ pg.order)
        ∨ (ret = MSYM_SYMMETRIZATION_ERROR ∧ ∃ i, i < esl ∧ (es i).length > pg.order)) := by
  obtain ⟨ret, es1, e1, h1, _, h3⟩ := symmetrizeLoop_defined applySymmetryOperation pg perm
    thresholds (fun x => x) (fun e t => e + t) (List.range esl) es (some 0)
    (fun i hi hlen j hj k hk =>
      lt_of_lt_of_le (hperm i (List.mem_range.mp hi) j hj k hk) hlen)
  unfold symmetrizeMoleculeProject
  rw [h1]
  rcases h3 with ⟨hr, hall⟩ | ⟨hr, i, hi, hil⟩
  · subst hr
    exact ⟨_, _, _, rfl, Or.inl ⟨rfl, fun i hi => hall i (List.mem_range.mpr hi)⟩⟩
  · subst hr
    exact ⟨_, _, _, rfl, Or.inr ⟨rfl, i, List.mem_range.mp hi, hil⟩⟩

/-- The function `symmetrizeMoleculeLinear` returns when the indices of the
permutations stay inside their sets; the code is the error exactly when there
is no proper rotation of order 0 among the operations or a set is larger than
the group order. -/
theorem symmetrizeMoleculeLinear_defined
    (applySymmetryOperation : msym_symmetry_operation_t → (Fin 3 → K) → (Fin 3 → K) → Fin 3 → K)
    (vproj : (Fin 3 → K) → (Fin 3 → K) → Fin 3 → K)
    (sqrtf : K → K) (pg : msym_point_group_t K) (esl : Nat)
    (es : Nat → msym_equivalence_set_t K) (perm : Nat → Nat → msym_permutation_t)
    (thresholds : msym_thresholds_t K) (err : Option K)
    (hperm : ∀ i, i < esl → ∀ j, j < pg.order → ∀ k, k < (es i).length →
      ((perm i) j).p k < (es i).length) :
    ∃ ret es1 err1,
      symmetrizeMoleculeLinear applySymmetryOperation vproj sqrtf pg esl es perm thresholds err
        = some (ret, es1, err1)
      ∧ ((ret = MSYM_SUCCESS
          ∧ (∃ j, j < pg.order ∧ (pg.sops j).type = PROPER_ROTATION ∧ (pg.sops j).order = 0)
          ∧ ∀ i, i < esl → (es i).length ≤ pg.order)
        ∨ (ret = MSYM_SYMMETRIZATION_ERROR
          ∧ ((∀ j, j < pg.order →
                ¬ ((pg.sops j).type = PROPER_ROTATION ∧ (pg.sops j).order = 0))
            ∨ ∃ i, i < esl ∧ (es i).length > pg.order))) := by
  unfold symmetrizeMoleculeLinear
  split
  · rename_i hfind
    refine ⟨_, _, _, rfl, Or.inr ⟨rfl, Or.inl ?_⟩⟩
    intro j hj hc
    have := List.find?_eq_none.mp hfind j (List.mem_range.mpr hj)
    simp [hc.1, hc.2] at this
  · rename_i cinf hfind
    have hc := List.find?_some hfind
    have hcm := List.mem_range.mp (List.mem_of_find?_eq_some hfind)
    simp only [Bool.and_eq_true, decide_eq_true_eq] at hc
    obtain ⟨ret, es1, e1, h1, _, h3⟩ := symmetrizeLoop_defined applySymmetryOperation pg perm
      thresholds (fun x => vproj x (pg.axis cinf)) (fun e t => max e t) (List.range esl) es
      (some 0)
      (fun i hi hlen j hj k hk =>
        lt_of_lt_of_le (hperm i (List.mem_range.mp hi) j hj k hk) hlen)
    rw [h1]
    rcases h3 with ⟨hr, hall⟩ | ⟨hr, i, hi, hil⟩
    · subst hr
      exact ⟨_, _, _, rfl,
        Or.inl ⟨rfl, ⟨cinf, hcm, hc⟩, fun i hi => hall i (List.mem_range.mpr hi)⟩⟩
    · subst hr
      exact ⟨_, _, _, rfl, Or.inr ⟨rfl, Or.inr ⟨i, List.mem_range.mp hi, hil⟩⟩⟩

theorem permC2_lt (i : Nat) (hi : i < 2) (j : Nat) (hj : j < 2) (k : Nat)
    (hk : k < (esC2 i : msym_equivalence_set_t K).length) :
    ((permC2 i) j).p k < (esC2 i : msym_equivalence_set_t K).length := by
  interval_cases i <;> interval_cases j <;> simp [esC2, permC2] at hk ⊢ <;> omega

theorem esC2_length_le (i : Nat) :
    (esC2 i : msym_equivalence_set_t K).length ≤ 2 := by
  unfold esC2
  split <;> simp

/-- The general path succeeds on the C2 example. -/
theorem symmetrizeMoleculeProject_C2 (sqrtf : K → K) (err : Option K) :
    ∃ es1 err1,
      symmetrizeMoleculeProject applyC2 sqrtf pgC2 2 esC2 permC2 thresholdsC2 err
        = some (MSYM_SUCCESS, es1, err1) := by
  obtain ⟨ret, es1, err1, h, hc⟩ := symmetrizeMoleculeProject_defined applyC2 sqrtf
    (pgC2 : msym_point_group_t K) 2 esC2 permC2 thresholdsC2 err
    (fun i hi j hj k hk => permC2_lt i hi j hj k hk)
  rcases hc with ⟨hr, _⟩ | ⟨_, i, _, hil⟩
  · subst hr
    exact ⟨es1, err1, h⟩
  · exact absurd (esC2_length_le i) (Nat.not_le.mpr hil)

theorem symmetrizeMolecule_general
    (applySymmetryOperation : msym_symmetry_operation_t → (Fin 3 → K) → (Fin 3 → K) → Fin 3 → K)
    (vproj : (Fin 3 → K) → (Fin 3 → K) → Fin 3 → K)
    (sqrtf : K → K) (pg : msym_point_group_t K) (esl : Nat)
    (es : Nat → msym_equivalence_set_t K) (perm : Nat → Nat → msym_permutation_t)
    (thresholds : msym_thresholds_t K) (err : Option K)
    (hgen : ¬ ((pg.type = POINT_GROUP_Cnv ∨ pg.type = POINT_GROUP_Dnh) ∧ pg.n = 0)) :
    symmetrizeMolecule applySymmetryOperation vproj sqrtf pg esl es perm thresholds err
      = symmetrizeMoleculeProject applySymmetryOperation sqrtf pg esl es perm thresholds err := by
  unfold symmetrizeMolecule
  rw [if_neg hgen]

theorem symmetrizeMolecule_linear
    (applySymmetryOperation : msym_symmetry_operation_t → (Fin 3 → K) → (Fin 3 → K) → Fin 3 → K)
    (vproj : (Fin 3 → K) → (Fin 3 → K) → Fin 3 → K)
    (sqrtf : K → K) (pg : msym_point_group_t K) (esl : Nat)
    (es : Nat → msym_equivalence_set_t K) (perm : Nat → Nat → msym_permutation_t)
    (thresholds : msym_thresholds_t K) (err : Option K)
    (hlin : (pg.type = POINT_GROUP_Cnv ∨ pg.type = POINT_GROUP_Dnh) ∧ pg.n = 0) :
    symmetrizeMolecule applySymmetryOperation vproj sqrtf pg esl es perm thresholds err
      = symmetrizeMoleculeLinear applySymmetryOperation vproj sqrtf pg esl es perm thresholds
          err := by
  unfold symmetrizeMolecule
  rw [if_pos hlin]

theorem pgC2_general :
    ¬ (((pgC2 : msym_point_group_t K).type = POINT_GROUP_Cnv
        ∨ (pgC2 : msym_point_group_t K).type = POINT_GROUP_Dnh)
      ∧ (pgC2 : msym_point_group_t K).n = 0) := by
  simp [pgC2]

/-- The error a successful general path stores: the square root of the sum of
the terms of the sets that are not skipped (cut at 0), when none of them
divides by zero. -/
theorem symmetrizeMoleculeProject_error
    (applySymmetryOperation : msym_symmetry_operation_t → (Fin 3 → K) → (Fin 3 → K) → Fin 3 → K)
    (sqrtf : K → K) (pg : msym_point_group_t K) (esl : Nat)
    (es : Nat → msym_equivalence_set_t K) (perm : Nat → Nat → msym_permutation_t)
    (thresholds : msym_thresholds_t K) (err : Option K)
    (es1 : Nat → msym_equivalence_set_t K) (err1 : Option K)
    (h : symmetrizeMoleculeProject applySymmetryOperation sqrtf pg esl es perm thresholds err
      = some (MSYM_SUCCESS, es1, err1))
    (hol : ∀ i, i < esl → setSkipped thresholds (es i) = false → setNorm (es i) ≠ 0) :
    err1 = some (sqrtf (max
      (∑ i in Finset.range esl,
        if setSkipped thresholds (es i) then 0
        else setError applySymmetryOperation pg (perm i) (fun x => x) (es i)) 0)) := by
  obtain ⟨e, hloop, herr⟩ := symmetrizeMoleculeProject_success_inv _ _ _ _ _ _ _ _ _ _ h
  obtain ⟨h1, _, h3⟩ := symmetrizeLoop_success applySymmetryOperation pg perm thresholds
    (fun x => x) (fun e t => e + t) es (List.range esl) es (some 0) es1 e
    (List.nodup_range esl) (fun _ _ => rfl) hloop
  rw [errorFold_eq applySymmetryOperation pg perm thresholds (fun x => x) (fun e t => e + t) es
    (List.range esl) 0 (fun i hi => (h1 i hi).1)
    (fun i hi => hol i (List.mem_range.mp hi))] at h3
  rw [foldl_add_eq_sum
    (fun i => setError applySymmetryOperation pg (perm i) (fun x => x) (es i))
    (fun i => setSkipped thresholds (es i))] at h3
  rw [herr, h3]
  rfl

/-- The error a successful linear path stores: the square root of the greatest
of 0 and the terms of the sets that are not skipped, when none of them divides
by zero. -/
theorem symmetrizeMoleculeLinear_error
    (applySymmetryOperation : msym_symmetry_operation_t → (Fin 3 → K) → (Fin 3 → K) → Fin 3 → K)
    (vproj : (Fin 3 → K) → (Fin 3 → K) → Fin 3 → K)
    (sqrtf : K → K) (pg : msym_point_group_t K) (esl : Nat)
    (es : Nat → msym_equivalence_set_t K) (perm : Nat → Nat → msym_permutation_t)
    (thresholds : msym_thresholds_t K) (err : Option K)
    (es1 : Nat → msym_equivalence_set_t K) (err1 : Option K)
    (h : symmetrizeMoleculeLinear applySymmetryOperation vproj sqrtf pg esl es perm thresholds
      err = some (MSYM_SUCCESS, es1, err1))
    (hol : ∀ i, i < esl → setSkipped thresholds (es i) = false → setNorm (es i) ≠ 0) :
    ∃ cinf e,
      (List.range pg.order).find?
          (fun i => (pg.sops i).type = PROPER_ROTATION && (pg.sops i).order = 0) = some cinf
      ∧ IsGreatest ({0} ∪ {t | ∃ i, i < esl ∧ setSkipped thresholds (es i) = false
          ∧ t = setError applySymmetryOperation pg (perm i)
                  (fun x => vproj x (pg.axis cinf)) (es i)}) e
      ∧ err1 = some (sqrtf e) := by
  obtain ⟨cinf, e, hfind, hloop, herr⟩ :=
    symmetrizeMoleculeLinear_success_inv _ _ _ _ _ _ _ _ _ _ _ h
  obtain ⟨h1, _, h3⟩ := symmetrizeLoop_success applySymmetryOperation pg perm thresholds
    (fun x => vproj x (pg.axis cinf)) (fun e t => max e t) es (List.range esl) es (some 0)
    es1 e (List.nodup_range esl) (fun _ _ => rfl) hloop
  rw [errorFold_eq applySymmetryOperation pg perm thresholds (fun x => vproj x (pg.axis cinf))
    (fun e t => max e t) es (List.range esl) 0 (fun i hi => (h1 i hi).1)
    (fun i hi => hol i (List.mem_range.mp hi))] at h3
  refine ⟨cinf, _, hfind, foldl_max_isGreatest
    (fun i => setError applySymmetryOperation pg (perm i)
      (fun x => vproj x (pg.axis cinf)) (es i))
    (fun i => setSkipped thresholds (es i)) esl, ?_⟩
  rw [herr, h3]
  rfl

/-- The linear path succeeds on the example `pgCinfv`, `esLinear`. -/
theorem symmetrizeMoleculeLinear_Cinf (sqrtf : K → K) (err : Option K) :
    ∃ es1 err1,
      symmetrizeMoleculeLinear (fun _ _ x => x) vprojZ sqrtf pgCinfv 1 esLinear permId
        thresholdsC2 err = some (MSYM_SUCCESS, es1, err1) := by
  obtain ⟨ret, es1, err1, h, hc⟩ := symmetrizeMoleculeLinear_defined (fun _ _ x => x) vprojZ
    sqrtf (pgCinfv : msym_point_group_t K) 1 esLinear permId thresholdsC2 err
    (fun i _ j _ k hk => hk)
  rcases hc with ⟨hr, _⟩ | ⟨_, hno | ⟨i, _, hil⟩⟩
  · subst hr
    exact ⟨es1, err1, h⟩
  · exact absurd ⟨rfl, rfl⟩ (hno 1 (by simp [pgCinfv]))
  · simp [esLinear, pgCinfv] at hil

theorem pgCinfv_linear :
    ((pgCinfv : msym_point_group_t K).type = POINT_GROUP_Cnv
        ∨ (pgCinfv : msym_point_group_t K).type = POINT_GROUP_Dnh)
      ∧ (pgCinfv : msym_point_group_t K).n = 0 :=
  ⟨Or.inl rfl, rfl⟩

/-- The return code of `symmetrizeMolecule` when the indices of the
permutations stay inside their sets. -/
theorem symmetrizeMolecule_defined
    (applySymmetryOperation : msym_symmetry_operation_t → (Fin 3 → K) → (Fin 3 → K) → Fin 3 → K)
    (vproj : (Fin 3 → K) → (Fin 3 → K) → Fin 3 → K)
    (sqrtf : K → K) (pg : msym_point_group_t K) (esl : Nat)
    (es : Nat → msym_equivalence_set_t K) (perm : Nat → Nat → msym_permutation_t)
    (thresholds : msym_thresholds_t K) (err : Option K)
    (hperm : ∀ i, i < esl → ∀ j, j < pg.order → ∀ k, k < (es i).length →
      ((perm i) j).p k < (es i).length) :
    ∃ ret es1 err1,
      symmetrizeMolecule applySymmetryOperation vproj sqrtf pg esl es perm thresholds err
        = some (ret, es1, err1)
      ∧ (ret = MSYM_SYMMETRIZATION_ERROR ↔
          ((∃ i, i < esl ∧ (es i).length > pg.order)
            ∨ (((pg.type = POINT_GROUP_Cnv ∨ pg.type = POINT_GROUP_Dnh) ∧ pg.n = 0)
              ∧ ∀ j, j < pg.order →
                  ¬ ((pg.sops j).type = PROPER_ROTATION ∧ (pg.sops j).order = 0))))
      ∧ (ret = MSYM_SUCCESS ↔
          ¬ ((∃ i, i < esl ∧ (es i).length > pg.order)
            ∨ (((pg.type = POINT_GROUP_Cnv ∨ pg.type = POINT_GROUP_Dnh) ∧ pg.n = 0)
              ∧ ∀ j, j < pg.order →
                  ¬ ((pg.sops j).type = PROPER_ROTATION ∧ (pg.sops j).order = 0)))) := by
  by_cases hlin : (pg.type = POINT_GROUP_Cnv ∨ pg.type = POINT_GROUP_Dnh) ∧ pg.n = 0
  · rw [symmetrizeMolecule_linear _ _ _ _ _ _ _ _ _ hlin]
    obtain ⟨ret, es1, err1, h, hc⟩ := symmetrizeMoleculeLinear_defined applySymmetryOperation
      vproj sqrtf pg esl es perm thresholds err hperm
    refine ⟨ret, es1, err1, h, ?_⟩
    rcases hc with ⟨hr, ⟨j, hj, hjc⟩, hall⟩ | ⟨hr, hcond⟩
    · subst hr
      have hno : ¬ ((∃ i, i < esl ∧ (es i).length > pg.order)
          ∨ (((pg.type = POINT_GROUP_Cnv ∨ pg.type = POINT_GROUP_Dnh) ∧ pg.n = 0)
            ∧ ∀ j, j < pg.order →
                ¬ ((pg.sops j).type = PROPER_ROTATION ∧ (pg.sops j).order = 0))) := by
        rintro (⟨i, hi, hil⟩ | ⟨_, hnone⟩)
        · exact absurd (hall i hi) (Nat.not_le.mpr hil)
        · exact hnone j hj hjc
      exact ⟨⟨fun he => by simp at he, fun hc => absurd hc hno⟩, ⟨fun _ => hno, fun _ => rfl⟩⟩
    · subst hr
      have hyes : (∃ i, i < esl ∧ (es i).length > pg.order)
          ∨ (((pg.type = POINT_GROUP_Cnv ∨ pg.type = POINT_GROUP_Dnh) ∧ pg.n = 0)
            ∧ ∀ j, j < pg.order →
                ¬ ((pg.sops j).type = PROPER_ROTATION ∧ (pg.sops j).order = 0)) := by
        rcases hcond with hnone | hbig
        · exact Or.inr ⟨hlin, hnone⟩
        · exact Or.inl hbig
      exact ⟨⟨fun _ => hyes, fun _ => rfl⟩, ⟨fun he => by simp at he, fun hn => absurd hyes hn⟩⟩
  · rw [symmetrizeMolecule_general _ _ _ _ _ _ _ _ _ hlin]
    obtain ⟨ret, es1, err1, h, hc⟩ := symmetrizeMoleculeProject_defined applySymmetryOperation
      sqrtf pg esl es perm thresholds err hperm
    refine ⟨ret, es1, err1, h, ?_⟩
    rcases hc with ⟨hr, hall⟩ | ⟨hr, hbig⟩
    · subst hr
      have hno : ¬ ((∃ i, i < esl ∧ (es i).length > pg.order)
          ∨ (((pg.type = POINT_GROUP_Cnv ∨ pg.type = POINT_GROUP_Dnh) ∧ pg.n = 0)
            ∧ ∀ j, j < pg.order →
                ¬ ((pg.sops j).type = PROPER_ROTATION ∧ (pg.sops j).order = 0))) := by
        rintro (⟨i, hi, hil⟩ | ⟨hl, _⟩)
        · exact absurd (hall i hi) (Nat.not_le.mpr hil)
        · exact hlin hl
      exact ⟨⟨fun he => by simp at he, fun hc => absurd hc hno⟩, ⟨fun _ => hno, fun _ => rfl⟩⟩
    · subst hr
      exact ⟨⟨fun _ => Or.inl hbig, fun _ => rfl⟩,
        ⟨fun he => by simp at he, fun hn => absurd (Or.inl hbig) hn⟩⟩

/-- A failed span check ends `symmetrizeWavefunctions` with the error and the
zeroed `symwf`. -/
theorem symmetrizeWavefunctions_of_spanMismatch
    (vlproj : Nat → (Nat → K) → (Nat → K) → Nat → K)
    (vlsumsqr : Nat → (Nat → K) → K) (vlsub : Nat → (Nat → K) → (Nat → K) → Nat → K)
    (vlabs : Nat → (Nat → K) → K) (vladd : Nat → (Nat → K) → (Nat → K) → Nat → K)
    (sqrtf : K → K) (dblMax : K) (pg : msym_point_group_t K) (ssl : Nat)
    (ss : Nat → msym_subspace_t K) (span : Nat → Int) (basisl : Nat) (wf : Nat → Nat → K)
    (c : wf_components K)
    (hca : componentAnalysis vlproj vlsumsqr sqrtf pg.ct ssl ss basisl wf = some c)
    (k : Nat) (hk : k < pg.ct.d) (hne : c.ispan k ≠ span k * (pg.ct.s k).d) :
    symmetrizeWavefunctions vlproj vlsumsqr vlsub vlabs vladd sqrtf dblMax pg ssl ss span
        basisl wf
      = some (MSYM_SYMMETRIZATION_ERROR, fun _ _ => 0) := by
  have hm : spanMismatch pg.ct span c.ispan = true := by
    unfold spanMismatch
    rw [List.any_eq_true]
    exact ⟨k, List.mem_range.mpr hk, by simpa using hne⟩
  unfold symmetrizeWavefunctions
  rw [hca]
  simp only [hm, if_true]

theorem componentAnalysis_pgA (sqrtf : K → K) :
    ∃ c, componentAnalysis vlprojEx vlsumsqrEx sqrtf (pgA : msym_point_group_t K).ct 1
        (fun _ => { salcl := 1, salc := fun _ => salcA }) 1 (fun _ _ => 1) = some c
      ∧ c.ispan 0 = 1 := by
  simp [componentAnalysis, waveStep, irrepLoop, irrepStep, subspaceLoop, salcLoop, fillMem, pgA, salcA,
    maxDimension, psalcLength, vlprojEx, vlsumsqrEx, List.range_succ]

/-- The loop over `k` for wave function `o` leaves `ispan` and the cells of
`icomp` other than `icomp[o]` as they were. -/
theorem irrepLoop_frame (vlproj : Nat → (Nat → K) → (Nat → K) → Nat → K)
    (vlsumsqr : Nat → (Nat → K) → K) (sqrtf : K → K)
    (ct : msym_character_table_t K) (ssl : Nat) (ss : Nat → msym_subspace_t K)
    (basisl : Nat) (md : Int) (psalcl : Nat) (wf : Nat → Nat → K) (o : Nat)
    (st st1 : irrep_state K)
    (h : irrepLoop vlproj vlsumsqr sqrtf ct ssl ss basisl md psalcl wf o st = some st1) :
    st1.c.ispan = st.c.ispan ∧ ∀ o1, o1 ≠ o → st1.c.icomp o1 = st.c.icomp o1 := by
  unfold irrepLoop at h
  generalize List.range ct.d = ks at h
  induction ks generalizing st with
  | nil =>
    simp only [List.foldlM_nil, Option.pure_def, Option.some.injEq] at h
    subst h
    exact ⟨rfl, fun _ _ => rfl⟩
  | cons k rest ih =>
    rw [List.foldlM_cons] at h
    cases hstep : irrepStep vlproj vlsumsqr sqrtf ssl ss basisl md psalcl wf o st k with
    | none => simp [hstep] at h
    | some st2 =>
      rw [hstep] at h
      obtain ⟨h1, h2⟩ := ih st2 h
      have hfr : st2.c.ispan = st.c.ispan ∧ ∀ o1, o1 ≠ o → st2.c.icomp o1 = st.c.icomp o1 := by
        unfold irrepStep at hstep
        split at hstep
        · split at hstep
          · simp at hstep
          · split at hstep
            · simp only [Option.some.injEq] at hstep
              subst hstep
              exact ⟨rfl, fun o1 ho1 => Function.update_noteq ho1 _ _⟩
            · simp only [Option.some.injEq] at hstep
              subst hstep
              exact ⟨rfl, fun _ _ => rfl⟩
        · simp at hstep
      exact ⟨h1.trans hfr.1, fun o1 ho1 => (h2 o1 ho1).trans (hfr.2 o1 ho1)⟩

/-- After the rounds of the wave functions of a list without repetition,
`ispan[k]` has grown by the number of those assigned to irrep `k`, and the
cells of `icomp` of the other wave functions are as they were. -/
theorem waveLoop_ispan (vlproj : Nat → (Nat → K) → (Nat → K) → Nat → K)
    (vlsumsqr : Nat → (Nat → K) → K) (sqrtf : K → K)
    (ct : msym_character_table_t K) (ssl : Nat) (ss : Nat → msym_subspace_t K)
    (basisl : Nat) (wf : Nat → Nat → K) (os : List Nat) (c0 c : wf_components K)
    (hnd : os.Nodup)
    (h : os.foldlM (waveStep vlproj vlsumsqr sqrtf ct ssl ss basisl wf) c0 = some c) :
    (∀ k, c.ispan k = c0.ispan k + ((os.countP (fun o => c.icomp o = k) : Nat) : Int))
      ∧ (∀ o, o ∉ os → c.icomp o = c0.icomp o)
      ∧ ∀ o ∈ os, c.icomp o < ct.d := by
  induction os generalizing c0 with
  | nil =>
    simp only [List.foldlM_nil, Option.pure_def, Option.some.injEq] at h
    subst h
    simp
  | cons o rest ih =>
    rw [List.foldlM_cons] at h
    have hnd2 := List.nodup_cons.mp hnd
    cases hstep : waveStep vlproj vlsumsqr sqrtf ct ssl ss basisl wf c0 o with
    | none => simp [hstep] at h
    | some c1 =>
      rw [hstep] at h
      obtain ⟨h1, h2, h3⟩ := ih c1 hnd2.2 h
      have hc1 : (∀ k, c1.ispan k = c0.ispan k + if c1.icomp o = k then 1 else 0)
          ∧ (∀ o1, o1 ≠ o → c1.icomp o1 = c0.icomp o1) ∧ c1.icomp o < ct.d := by
        unfold waveStep at hstep
        split at hstep
        · simp at hstep
        · rename_i st hloop
          obtain ⟨hf1, hf2⟩ := irrepLoop_frame _ _ _ _ _ _ _ _ _ _ _ _ _ hloop
          split at hstep
          · rename_i hlt
            simp only [Option.some.injEq] at hstep
            subst hstep
            refine ⟨?_, hf2, hlt⟩
            intro k
            simp only
            by_cases hk : st.c.icomp o = k
            · subst hk
              rw [Function.update_same, hf1]
              simp
            · rw [Function.update_noteq (fun e => hk e.symm), hf1]
              simp [hk]
          · simp at hstep
      have hio : c.icomp o = c1.icomp o := h2 o hnd2.1
      refine ⟨?_, ?_, ?_⟩
      · intro k
        rw [h1 k, hc1.1 k, List.countP_cons, hio]
        by_cases hk : c1.icomp o = k
        · simp [hk]
          ring
        · simp [hk]
      · intro o1 ho1
        have hne : o1 ≠ o := fun e => ho1 (e ▸ List.mem_cons_self _ _)
        rw [h2 o1 (fun e => ho1 (List.mem_cons_of_mem _ e)), hc1.2.1 o1 hne]
      · intro o1 ho1
        rcases List.mem_cons.mp ho1 with rfl | ho1
        · rw [hio]
          exact hc1.2.2
        · exact h3 o1 ho1

/-- After the component analysis `ispan[k]` is the number of wave functions
assigned to irrep `k`, and every wave function is assigned to an irrep of the
table. -/
theorem componentAnalysis_ispan (vlproj : Nat → (Nat → K) → (Nat → K) → Nat → K)
    (vlsumsqr : Nat → (Nat → K) → K) (sqrtf : K → K)
    (ct : msym_character_table_t K) (ssl : Nat) (ss : Nat → msym_subspace_t K)
    (basisl : Nat) (wf : Nat → Nat → K) (c : wf_components K)
    (h : componentAnalysis vlproj vlsumsqr sqrtf ct ssl ss basisl wf = some c) :
    (∀ k, c.ispan k = (((List.range basisl).countP (fun o => c.icomp o = k) : Nat) : Int))
      ∧ ∀ o, o < basisl → c.icomp o < ct.d := by
  obtain ⟨h1, _, h3⟩ := waveLoop_ispan vlproj vlsumsqr sqrtf ct ssl ss basisl wf
    (List.range basisl) _ c (List.nodup_range basisl) h
  exact ⟨fun k => by simpa using h1 k, fun o ho => h3 o (List.mem_range.mpr ho)⟩

theorem directProduct_apply (l : Nat) (irrep1 irrep2 pspan : Nat → K) (i : Nat) :
    directProduct l irrep1 irrep2 pspan i = if i < l then irrep1 i * irrep2 i else pspan i := by
  unfold directProduct
  induction l with
  | zero => simp
  | succ l ih =>
    rw [List.range_succ, List.foldl_append]
    simp only [List.foldl_cons, List.foldl_nil]
    by_cases h : i = l
    · subst h
      simp
    · rw [Function.update_noteq h, ih]
      by_cases h2 : i < l
      · simp [h2, Nat.lt_succ_of_lt h2]
      · have h3 : ¬ i < l + 1 := by omega
        simp [h2, h3]

theorem singleLoop_aux (rl r0 : Nat) (body : Int → msym_representation_t → msym_representation_t)
    (m : Nat) (hm : r0 + m ≤ rl) (rep : Nat → msym_representation_t) :
    (List.range m).foldlM (fun rep k => storeRep rl rep (r0 + k) (body ((k : Int) + 1))) rep
      = some (fun k => if r0 ≤ k ∧ k < r0 + m then body (((k - r0 : Nat) : Int) + 1) (rep k)
          else rep k) := by
  induction m with
  | zero =>
    simp only [List.range_zero, List.foldlM_nil, Option.pure_def, Option.some.injEq]
    funext k
    have : ¬ (r0 ≤ k ∧ k < r0 + 0) := by omega
    rw [if_neg this]
  | succ m ih =>
    rw [List.range_succ, List.foldlM_append, ih (by omega)]
    have hlt : r0 + m < rl := by omega
    simp only [Option.bind_eq_bind, Option.some_bind, List.foldlM_cons, List.foldlM_nil, storeRep,
      if_pos hlt, Option.pure_def, Option.bind_some]
    congr 1
    funext k
    by_cases hk : k = r0 + m
    · subst hk
      simp
    · rw [Function.update_noteq hk]
      by_cases h1 : r0 ≤ k ∧ k < r0 + m
      · have h2 : r0 ≤ k ∧ k < r0 + (m + 1) := ⟨h1.1, by omega⟩
        rw [if_pos h1, if_pos h2]
      · have h2 : ¬ (r0 ≤ k ∧ k < r0 + (m + 1)) := by
          intro h; apply h1; exact ⟨h.1, by omega⟩
        rw [if_neg h1, if_neg h2]

theorem singleLoop_eq (rl r0 : Nat) (body : Int → msym_representation_t → msym_representation_t)
    (rep : Nat → msym_representation_t) :
    singleLoop rl r0 body rep
      = some (fun k => if r0 ≤ k ∧ k < rl then body (((k - r0 : Nat) : Int) + 1) (rep k)
          else rep k) := by
  unfold singleLoop
  by_cases h : r0 ≤ rl
  · rw [singleLoop_aux rl r0 body (rl - r0) (by omega)]
    have : r0 + (rl - r0) = rl := by omega
    rw [this]
  · have h0 : rl - r0 = 0 := by omega
    rw [h0]
    simp only [List.range_zero, List.foldlM_nil, Option.pure_def, Option.some.injEq]
    funext k
    have : ¬ (r0 ≤ k ∧ k < rl) := by omega
    rw [if_neg this]

theorem pairLoop_aux (rl r0 : Nat)
    (body1 body2 : Int → msym_representation_t → msym_representation_t)
    (m : Nat) (hm : r0 + 2 * m ≤ rl) (rep : Nat → msym_representation_t) :
    (List.range m).foldlM
      (fun rep k =>
        (storeRep rl rep (r0 + 2 * k) (body1 ((k : Int) + 1))).bind
          (fun rep => storeRep rl rep (r0 + 2 * k + 1) (body2 ((k : Int) + 1)))) rep
      = some (fun k => if r0 ≤ k ∧ k < r0 + 2 * m then
            (if (k - r0) % 2 = 0 then body1 ((((k - r0) / 2 : Nat) : Int) + 1) (rep k)
             else body2 ((((k - r0) / 2 : Nat) : Int) + 1) (rep k))
          else rep k) := by
  induction m with
  | zero =>
    simp only [List.range_zero, List.foldlM_nil, Option.pure_def, Option.some.injEq]
    funext k
    have : ¬ (r0 ≤ k ∧ k < r0 + 2 * 0) := by omega
    rw [if_neg this]
  | succ m ih =>
    rw [List.range_succ, List.foldlM_append, ih (by omega)]
    have hlt : r0 + 2 * m < rl := by omega
    have hlt2 : r0 + 2 * m + 1 < rl := by omega
    simp only [Option.bind_eq_bind, Option.some_bind, List.foldlM_cons, List.foldlM_nil, storeRep,
      if_pos hlt, if_pos hlt2, Option.pure_def, Option.bind_some]
    congr 1
    funext k
    by_cases hk1 : k = r0 + 2 * m + 1
    · subst hk1
      have e1 : (r0 + 2 * m + 1 - r0) % 2 = 1 := by omega
      have e2 : (r0 + 2 * m + 1 - r0) / 2 = m := by omega
      have hc : r0 ≤ r0 + 2 * m + 1 ∧ r0 + 2 * m + 1 < r0 + 2 * (m + 1) := by omega
      rw [if_pos hc]
      simp [e1, e2]
    · rw [Function.update_noteq hk1]
      by_cases hk : k = r0 + 2 * m
      · subst hk
        have e1 : (r0 + 2 * m - r0) % 2 = 0 := by omega
        have e2 : (r0 + 2 * m - r0) / 2 = m := by omega
        have hc : r0 ≤ r0 + 2 * m ∧ r0 + 2 * m < r0 + 2 * (m + 1) := by omega
        have hc0 : ¬ (r0 ≤ r0 + 2 * m ∧ r0 + 2 * m < r0 + 2 * m) := by omega
        rw [if_pos hc, if_neg hc0]
        simp [e1, e2]
      · rw [Function.update_noteq hk]
        by_cases h1 : r0 ≤ k ∧ k < r0 + 2 * m
        · have h2 : r0 ≤ k ∧ k < r0 + 2 * (m + 1) := ⟨h1.1, by omega⟩
          rw [if_pos h1, if_pos h2]
        · have h2 : ¬ (r0 ≤ k ∧ k < r0 + 2 * (m + 1)) := by
            intro h; apply h1; exact ⟨h.1, by omega⟩
          rw [if_neg h1, if_neg h2]

theorem pairLoop_eq (rl r0 : Nat)
    (body1 body2 : Int → msym_representation_t → msym_representation_t)
    (rep : Nat → msym_representation_t) (hpar : rl ≤ r0 ∨ (rl - r0) % 2 = 0) :
    pairLoop rl r0 body1 body2 rep
      = some (fun k => if r0 ≤ k ∧ k < rl then
            (if (k - r0) % 2 = 0 then body1 ((((k - r0) / 2 : Nat) : Int) + 1) (rep k)
             else body2 ((((k - r0) / 2 : Nat) : Int) + 1) (rep k))
          else rep k) := by
  unfold pairLoop
  by_cases h : r0 ≤ rl
  · have hp : (rl - r0) % 2 = 0 := by omega
    rw [pairLoop_aux rl r0 body1 body2 ((rl - r0 + 1) / 2) (by omega)]
    have : r0 + 2 * ((rl - r0 + 1) / 2) = rl := by omega
    rw [this]
  · have h0 : (rl - r0 + 1) / 2 = 0 := by omega
    rw [h0]
    simp only [List.range_zero, List.foldlM_nil, Option.pure_def, Option.some.injEq]
    funext k
    have : ¬ (r0 ≤ k ∧ k < rl) := by omega
    rw [if_neg this]

theorem pairLoop_none (rl r0 : Nat)
    (body1 body2 : Int → msym_representation_t → msym_representation_t)
    (rep : Nat → msym_representation_t) (hpar : (rl - r0) % 2 = 1) :
    pairLoop rl r0 body1 body2 rep = none := by
  unfold pairLoop
  obtain ⟨m, hm⟩ : ∃ m, (rl - r0 + 1) / 2 = m + 1 := ⟨(rl - r0 + 1) / 2 - 1, by omega⟩
  rw [hm, List.range_succ, List.foldlM_append, pairLoop_aux rl r0 body1 body2 m (by omega)]
  have hlt : r0 + 2 * m < rl := by omega
  have hlt2 : ¬ r0 + 2 * m + 1 < rl := by omega
  simp [storeRep, hlt, hlt2]

theorem getRepresentationsCn_code (n : Int) (rl : Nat) (rep : Nat → msym_representation_t) :
    (getRepresentationsCn n rl rep).map Prod.fst
      = if (if n % 2 = 0 then 2 else 1) ≤ rl then some MSYM_SUCCESS else none := by
  unfold getRepresentationsCn
  by_cases hn : n % 2 = 0
  · by_cases h : 2 ≤ rl
    · have h0 : 0 < rl := by omega
      have h1 : 1 < rl := by omega
      simp [hn, h, h0, h1, storeRep, bit0Clear, singleLoop_eq]
    · have h2 : rl < 2 := by omega
      interval_cases rl <;> simp [hn, storeRep, bit0Clear]
  · by_cases h : 1 ≤ rl
    · have h0 : 0 < rl := by omega
      simp [hn, h, h0, storeRep, bit0Clear, singleLoop_eq]
    · have h0 : ¬ 0 < rl := by omega
      simp [hn, h, h0, storeRep]

theorem getRepresentationsCnv_code (n : Int) (rl : Nat) (rep : Nat → msym_representation_t) :
    (getRepresentationsCnv n rl rep).map Prod.fst
      = if (if n % 2 = 0 then 4 else 2) ≤ rl then some MSYM_SUCCESS else none := by
  unfold getRepresentationsCnv
  by_cases hn : n % 2 = 0
  · by_cases h : 4 ≤ rl
    · have h0 : 0 < rl := by omega
      have h1 : 1 < rl := by omega
      have h2 : 2 < rl := by omega
      have h3 : 3 < rl := by omega
      simp [hn, h, h0, h1, h2, h3, storeRep, bit0Clear, singleLoop_eq]
    · have h2 : rl < 4 := by omega
      interval_cases rl <;> simp [hn, storeRep, bit0Clear]
  · by_cases h : 2 ≤ rl
    · have h0 : 0 < rl := by omega
      have h1 : 1 < rl := by omega
      simp [hn, h, h0, h1, storeRep, bit0Clear, singleLoop_eq]
    · have h2 : rl < 2 := by omega
      interval_cases rl <;> simp [hn, storeRep, bit0Clear]

theorem getRepresentationsDn_code (n : Int) (rl : Nat) (rep : Nat → msym_representation_t) :
    (getRepresentationsDn n rl rep).map Prod.fst
      = if (if n % 2 = 0 then 4 else 2) ≤ rl then some MSYM_SUCCESS else none := by
  unfold getRepresentationsDn
  by_cases hn : n % 2 = 0
  · by_cases h : 4 ≤ rl
    · have h0 : 0 < rl := by omega
      have h1 : 1 < rl := by omega
      have h2 : 2 < rl := by omega
      have h3 : 3 < rl := by omega
      simp [hn, h, h0, h1, h2, h3, storeRep, bit0Clear, singleLoop_eq]
    · have h2 : rl < 4 := by omega
      interval_cases rl <;> simp [hn, storeRep, bit0Clear]
  · by_cases h : 2 ≤ rl
    · have h0 : 0 < rl := by omega
      have h1 : 1 < rl := by omega
      simp [hn, h, h0, h1, storeRep, bit0Clear, singleLoop_eq]
    · have h2 : rl < 2 := by omega
      interval_cases rl <;> simp [hn, storeRep, bit0Clear]

theorem getRepresentationsCnh_code (n : Int) (rl : Nat) (rep : Nat → msym_representation_t) :
    (getRepresentationsCnh n rl rep).map Prod.fst
      = if (if n % 2 = 0 then 4 else 2) ≤ rl ∧ rl % 2 = 0 then some MSYM_SUCCESS else none := by
  unfold getRepresentationsCnh
  by_cases hn : n % 2 = 0
  · by_cases h : 4 ≤ rl
    · have h0 : 0 < rl := by omega
      have h1 : 1 < rl := by omega
      have h2 : 2 < rl := by omega
      have h3 : 3 < rl := by omega
      by_cases hp : rl % 2 = 0
      · simp [hn, h, h0, h1, h2, h3, hp, storeRep, bit0Clear,
          pairLoop_eq rl 4 _ _ _ (Or.inr (by omega))]
      · simp [hn, h, h0, h1, h2, h3, hp, storeRep, bit0Clear,
          pairLoop_none rl 4 _ _ _ (by omega)]
    · have h2 : rl < 4 := by omega
      interval_cases rl <;> simp [hn, storeRep, bit0Clear]
  · by_cases h : 2 ≤ rl
    · have h0 : 0 < rl := by omega
      have h1 : 1 < rl := by omega
      by_cases hp : rl % 2 = 0
      · simp [hn, h, h0, h1, hp, storeRep, bit0Clear,
          pairLoop_eq rl 2 _ _ _ (Or.inr (by omega))]
      · simp [hn, h, h0, h1, hp, storeRep, bit0Clear,
          pairLoop_none rl 2 _ _ _ (by omega)]
    · have h2 : rl < 2 := by omega
      interval_cases rl <;> simp [hn, storeRep, bit0Clear]

theorem getRepresentationsDnh_code (n : Int) (rl : Nat) (rep : Nat → msym_representation_t) :
    (getRepresentationsDnh n rl rep).map Prod.fst
      = if (if n % 2 = 0 then 8 else 4) ≤ rl ∧ rl % 2 = 0 then some MSYM_SUCCESS else none := by
  unfold getRepresentationsDnh
  by_cases h4 : 4 ≤ rl
  · have h0 : 0 < rl := by omega
    have h1 : 1 < rl := by omega
    have h2 : 2 < rl := by omega
    have h3 : 3 < rl := by omega
    by_cases hn : n % 2 = 0
    · by_cases h : 8 ≤ rl
      · have h4 : 4 < rl := by omega
        have h5 : 5 < rl := by omega
        have h6 : 6 < rl := by omega
        have h7 : 7 < rl := by omega
        by_cases hp : rl % 2 = 0
        · simp [hn, h, h0, h1, h2, h3, h4, h5, h6, h7, hp, storeRep, bit0Clear,
            pairLoop_eq rl 8 _ _ _ (Or.inr (by omega))]
        · simp [hn, h, h0, h1, h2, h3, h4, h5, h6, h7, hp, storeRep, bit0Clear,
            pairLoop_none rl 8 _ _ _ (by omega)]
      · have h2 : rl < 8 := by omega
        interval_cases rl <;> simp [hn, storeRep, bit0Clear]
    · by_cases hp : rl % 2 = 0
      · simp [hn, h4, h0, h1, h2, h3, hp, storeRep, bit0Clear,
          pairLoop_eq rl 4 _ _ _ (Or.inr (by omega))]
      · simp [hn, h4, h0, h1, h2, h3, hp, storeRep, bit0Clear,
          pairLoop_none rl 4 _ _ _ (by omega)]
  · have h2 : rl < 4 := by omega
    by_cases hn : n % 2 = 0
    · interval_cases rl <;> simp [hn, storeRep, bit0Clear]
    · interval_cases rl <;> simp [hn, storeRep, bit0Clear]

theorem getRepresentationsDnd_code (n : Int) (rl : Nat) (rep : Nat → msym_representation_t) :
    (getRepresentationsDnd n rl rep).map Prod.fst
      = if 4 ≤ rl ∧ (n % 2 = 0 ∨ rl % 2 = 0) then some MSYM_SUCCESS else none := by
  unfold getRepresentationsDnd
  by_cases h4 : 4 ≤ rl
  · have h0 : 0 < rl := by omega
    have h1 : 1 < rl := by omega
    have h2 : 2 < rl := by omega
    have h3 : 3 < rl := by omega
    by_cases hn : n % 2 = 0
    · simp [hn, h4, h0, h1, h2, h3, storeRep, bit0Clear, singleLoop_eq]
    · by_cases hp : rl % 2 = 0
      · simp [hn, h4, h0, h1, h2, h3, hp, storeRep, bit0Clear,
          pairLoop_eq rl 4 _ _ _ (Or.inr (by omega))]
      · simp [hn, h4, h0, h1, h2, h3, hp, storeRep, bit0Clear,
          pairLoop_none rl 4 _ _ _ (by omega)]
  · have h2 : rl < 4 := by omega
    by_cases hn : n % 2 = 0
    · interval_cases rl <;> simp [hn, storeRep, bit0Clear]
    · interval_cases rl <;> simp [hn, storeRep, bit0Clear]

theorem getRepresentationsCn_odd (n : Int) (rl : Nat) (rep0 : Nat → msym_representation_t)
    (hn : n % 2 = 1) (h1 : 1 ≤ rl) :
    getRepresentationsCn n rl rep0
      = some (MSYM_SUCCESS, fun k =>
          if 1 ≤ k ∧ k < rl then mkRep REDUCIBLE 2 1 1 1 1 (((k - 1 : Nat) : Int) + 1)
          else if k = 0 then mkRep IRREDUCIBLE 1 1 1 1 1 1
          else rep0 k) := by
  unfold getRepresentationsCn
  have h0 : 0 < rl := by omega
  have hn0 : ¬ (n % 2 = 0) := by omega
  simp only [storeRep, h0, if_true, bit0Clear, hn0, decide_False, Option.bind_eq_bind,
    Option.some_bind, singleLoop_eq, Option.pure_def]
  simp only [Bool.false_eq_true, if_false, Option.some_bind, singleLoop_eq, Option.some.injEq,
    Prod.mk.injEq, true_and]
  funext k
  simp only [Function.update_apply]

theorem representationCharacter_success_irrel (cosf : K → K) (pi : K) (n : Int)
    (sop : msym_symmetry_operation_t) (rep : msym_representation_t) (c c' x : K)
    (h : representationCharacter cosf pi n sop rep c = some (MSYM_SUCCESS, x)) :
    representationCharacter cosf pi n sop rep c' = some (MSYM_SUCCESS, x) := by
  unfold representationCharacter at h ⊢
  by_cases ho : sop.orientation = HORIZONTAL
  · by_cases h1 : rep.d = 1
    · simpa [ho, h1] using h
    · by_cases h2 : rep.d = 2
      · simpa [ho, h1, h2] using h
      · simp [ho, h1, h2] at h
  · by_cases h1 : rep.d = 1
    · simp only [ho, h1, if_true, if_false] at h ⊢
      cases ht : sop.type <;> simp [ht] at h ⊢ <;> exact h
    · by_cases h2 : rep.d = 2
      · simp only [ho, h1, h2, if_true, if_false] at h ⊢
        cases ht : sop.type <;> simp [ht] at h ⊢ <;> exact h
      · simp [ho, h1, h2] at h

theorem firstOfClass_cons (sop : msym_symmetry_operation_t)
    (rest : List msym_symmetry_operation_t) (c : Nat) :
    firstOfClass (sop :: rest) c
      = if sop.cla = c then some 0 else (firstOfClass rest c).map (fun j => j + 1) := by
  unfold firstOfClass
  rw [List.findIdx?_cons]
  by_cases h : sop.cla = c
  · simp [h]
  · simp [h, List.findIdx?_succ]

theorem firstOfClass_some (sops : List msym_symmetry_operation_t) (c j : Nat)
    (h : firstOfClass sops c = some j) :
    ∃ sop, sops[j]? = some sop ∧ sop.cla = c ∧ sop ∈ sops := by
  induction sops generalizing j with
  | nil => simp [firstOfClass] at h
  | cons sop rest ih =>
    rw [firstOfClass_cons] at h
    by_cases hc : sop.cla = c
    · rw [if_pos hc] at h
      simp only [Option.some.injEq] at h
      subst h
      exact ⟨sop, by simp, hc, List.mem_cons_self _ _⟩
    · rw [if_neg hc] at h
      simp only [Option.map_eq_some'] at h
      obtain ⟨j', hj', rfl⟩ := h
      obtain ⟨s, hs1, hs2, hs3⟩ := ih j' hj'
      exact ⟨s, by simpa using hs1, hs2, List.mem_cons_of_mem _ hs3⟩

theorem firstOfClass_of_mem (sops : List msym_symmetry_operation_t) (c : Nat)
    (h : ∃ sop ∈ sops, sop.cla = c) : ∃ j, firstOfClass sops c = some j := by
  induction sops with
  | nil => simp at h
  | cons sop rest ih =>
    rw [firstOfClass_cons]
    by_cases hc : sop.cla = c
    · exact ⟨0, by simp [hc]⟩
    · obtain ⟨s, hs, hsc⟩ := h
      rcases List.mem_cons.mp hs with rfl | hs
      · exact absurd hsc hc
      · obtain ⟨j, hj⟩ := ih ⟨s, hs, hsc⟩
        exact ⟨j + 1, by simp [hc, hj]⟩

/-- On a list with non-decreasing class indices the loop of lines 142-148
evaluates `representationCharacter` exactly on the first operation of each
class above `nc`. -/
theorem characterLoop_first (cosf : K → K) (pi : K) (n : Int) (d : Nat)
    (rep : msym_representation_t) (i : Nat) (sops : List msym_symmetry_operation_t)
    (nc : Int) (t t1 : Nat → Nat → K)
    (hs : sops.Pairwise (fun a b => a.cla ≤ b.cla))
    (hnc : ∀ sop ∈ sops, nc ≤ (sop.cla : Int))
    (h : characterLoop cosf pi n d rep i sops nc t = some (MSYM_SUCCESS, t1))
    (c j : Nat) (sop : msym_symmetry_operation_t) (hc : nc < (c : Int))
    (hj : firstOfClass sops c = some j) (hsop : sops[j]? = some sop) :
    representationCharacter cosf pi n sop rep 0 = some (MSYM_SUCCESS, t1 i c) := by
  induction sops generalizing nc t j with
  | nil => simp [firstOfClass] at hj
  | cons s rest ih =>
    have hs2 := List.pairwise_cons.mp hs
    rw [firstOfClass_cons] at hj
    unfold characterLoop at h
    by_cases hlt : nc < (s.cla : Int)
    · rw [if_pos hlt] at h
      by_cases hd : s.cla < d
      · rw [if_pos hd] at h
        cases hrc : representationCharacter cosf pi n s rep (t i s.cla) with
        | none => simp [hrc] at h
        | some res =>
          obtain ⟨ret1, c1⟩ := res
          simp only [hrc] at h
          by_cases hret : ret1 = MSYM_SUCCESS
          · rw [if_pos hret] at h
            subst hret
            by_cases hcc : s.cla = c
            · rw [if_pos hcc] at hj
              simp only [Option.some.injEq] at hj
              subst hj
              simp only [List.getElem?_cons_zero, Option.some.injEq] at hsop
              subst hsop
              obtain ⟨_, h2⟩ := characterLoop_frame cosf pi n d rep i rest _ _ _ _ h
              rw [h2 c (by omega), ← hcc]
              simp only [Function.update_same]
              exact representationCharacter_success_irrel cosf pi n s rep _ _ _ hrc
            · rw [if_neg hcc] at hj
              simp only [Option.map_eq_some'] at hj
              obtain ⟨j', hj', rfl⟩ := hj
              simp only [List.getElem?_cons_succ] at hsop
              obtain ⟨s', hs'1, hs'2, hs'3⟩ := firstOfClass_some rest c j' hj'
              have hle := hs2.1 s' hs'3
              exact ih (s.cla : Int) _ hs2.2
                (fun x hx => by exact_mod_cast hs2.1 x hx) h j' (by omega) hj' hsop
          · rw [if_neg hret] at h
            simp only [Option.some.injEq, Prod.mk.injEq] at h
            exact absurd h.1 hret
      · simp [hd] at h
    · rw [if_neg hlt] at h
      have hle := hnc s (List.mem_cons_self _ _)
      have hcc : s.cla ≠ c := by
        intro e
        rw [e] at hlt
        exact hlt hc
      rw [if_neg hcc] at hj
      simp only [Option.map_eq_some'] at hj
      obtain ⟨j', hj', rfl⟩ := hj
      simp only [List.getElem?_cons_succ] at hsop
      exact ih nc _ hs2.2 (fun x hx => hnc x (List.mem_cons_of_mem _ hx)) h j' hc hj' hsop

theorem selectRepresentatives_apply (d : Nat) (sops : List msym_symmetry_operation_t)
    (csops : Nat → Option Nat) (c : Nat) :
    selectRepresentatives d sops csops c
      = if c < d then (firstOfClass sops c).orElse (fun _ => csops c) else csops c := by
  unfold selectRepresentatives
  induction d with
  | zero => simp
  | succ d ih =>
    rw [List.range_succ, List.foldl_append]
    simp only [List.foldl_cons, List.foldl_nil]
    by_cases hc : c = d
    · subst hc
      cases hf : firstOfClass sops c with
      | none => simp [hf, ih]
      | some j => simp [hf]
    · have hupd : ∀ (f : Nat → Option Nat) (v : Option Nat), Function.update f d v c = f c :=
        fun f v => Function.update_noteq hc v f
      cases hf : firstOfClass sops d with
      | none =>
        simp only [hf]
        rw [ih]
        by_cases h1 : c < d
        · simp [h1, Nat.lt_succ_of_lt h1]
        · have h2 : ¬ c < d + 1 := by omega
          simp [h1, h2]
      | some j =>
        simp only [hf]
        rw [hupd, ih]
        by_cases h1 : c < d
        · simp [h1, Nat.lt_succ_of_lt h1]
        · have h2 : ¬ c < d + 1 := by omega
          simp [h1, h2]

/-- The stages a successful call of `generateCharacterTable` went through when
the dispatch table holds a representation generator for the type. -/
theorem generateCharacterTable_rep_success_inv (cosf : K → K) (pi : K)
    (type : msym_point_group_type_t) (n : Int) (sops : List msym_symmetry_operation_t)
    (oct : Option (msym_character_table_t K)) (ct : msym_character_table_t K)
    (fr : Int → Nat → (Nat → msym_representation_t) →
      Option (msym_error_t × (Nat → msym_representation_t)))
    (hfr : (fmap : List (msym_point_group_type_t × fmap_f K)).find? (fun e => e.1 = type)
      = some (type, fmap_f.fr fr))
    (h : generateCharacterTable cosf pi type n sops oct = some (MSYM_SUCCESS, some ct)) :
    ∃ (rep : Nat → msym_representation_t) (classc : Nat → Int) (ct2 : msym_character_table_t K),
      fr n ct.d (fun _ => zeroRep) = some (MSYM_SUCCESS, rep) ∧
      speciesLoop cosf pi type n sops rep (List.range ct.d)
        { (callocTable ct.d : msym_character_table_t K) with classc := classc }
        = some (MSYM_SUCCESS, ct2) ∧
      ct2.d = ct.d ∧
      ct = { ct2 with sops := selectRepresentatives ct.d sops (fun _ => none) } := by
  obtain ⟨d, t, f, rep, ct1, classc, ct2, hd, hfind, hcalled, hcount, hfilled, hct, hver⟩ :=
    generateCharacterTable_success_inv cosf pi type n sops oct ct h
  rw [hfr] at hfind
  simp only [Option.some.injEq, Prod.mk.injEq] at hfind
  obtain ⟨rfl, rfl⟩ := hfind
  simp only [Option.map_eq_some', Prod.mk.injEq] at hcalled
  obtain ⟨a, ha, ha1, ha2, rfl⟩ := hcalled
  simp only [fmap_f.isREP, if_true] at hfilled
  obtain ⟨h1, h2, h3, _⟩ :=
    speciesLoop_inv cosf pi type n sops rep _ _ _ (List.nodup_range _) hfilled
  have hdd : ct.d = d := by
    rw [hct]
    simp only [h1]
    simp [callocTable]
  have hfra : fr n d (fun _ => zeroRep) = some (MSYM_SUCCESS, rep) := by
    rw [ha, ← ha1, ← ha2]
  refine ⟨rep, classc, ct2, ?_, ?_, ?_, ?_⟩
  · rw [hdd]; exact hfra
  · rw [hdd]
    simpa [callocTable] using hfilled
  · rw [hdd, h1]
    simp [callocTable]
  · have h1' : ct2.d = d := by rw [h1]; simp [callocTable]
    have h3' : ct2.sops = fun _ => none := by rw [h3]; simp [callocTable]
    rw [hdd]
    rw [hct, h1', h3']

theorem generateCharacterTable_first_of_class (cosf : K → K) (pi : K)
    (type : msym_point_group_type_t) (n : Int) (sops : List msym_symmetry_operation_t)
    (oct : Option (msym_character_table_t K)) (ct : msym_character_table_t K)
    (fr : Int → Nat → (Nat → msym_representation_t) →
      Option (msym_error_t × (Nat → msym_representation_t)))
    (hfr : (fmap : List (msym_point_group_type_t × fmap_f K)).find? (fun e => e.1 = type)
      = some (type, fmap_f.fr fr))
    (hsorted : sops.Pairwise (fun a b => a.cla ≤ b.cla))
    (hcover : ∀ c, c < ct.d → ∃ sop ∈ sops, sop.cla = c)
    (h : generateCharacterTable cosf pi type n sops oct = some (MSYM_SUCCESS, some ct)) :
    ∃ rep, fr n ct.d (fun _ => zeroRep) = some (MSYM_SUCCESS, rep) ∧
      ∀ c, c < ct.d → ∃ j sop, firstOfClass sops c = some j ∧ sops[j]? = some sop ∧
        sop.cla = c ∧ ct.sops c = some j ∧
        ∀ i, i < ct.d →
          representationCharacter cosf pi n sop (rep i) 0 = some (MSYM_SUCCESS, ct.table i c) := by
  obtain ⟨rep, classc, ct2, hrep, hloop, hd2, hct⟩ :=
    generateCharacterTable_rep_success_inv cosf pi type n sops oct ct fr hfr h
  refine ⟨rep, hrep, ?_⟩
  intro c hc
  obtain ⟨j, hj⟩ := firstOfClass_of_mem sops c (hcover c hc)
  obtain ⟨sop, hsop, hcla, _⟩ := firstOfClass_some sops c j hj
  refine ⟨j, sop, hj, hsop, hcla, ?_, ?_⟩
  · rw [hct]
    simp only
    rw [selectRepresentatives_apply, if_pos hc, hj]
    rfl
  · intro i hi
    obtain ⟨_, _, _, _, hin⟩ :=
      speciesLoop_inv cosf pi type n sops rep _ _ _ (List.nodup_range _) hloop
    obtain ⟨t0, t1, _, hcl, htab, _, _⟩ := hin i (List.mem_range.mpr hi)
    have := characterLoop_first cosf pi n _ (rep i) i sops (-1) t0 t1 hsorted
      (fun x _ => by omega) hcl c j sop (by omega) hj hsop
    rw [this, hct]
    simp only
    rw [htab]

theorem oddSelect_cast (q p : Int) :
    ((oddSelect q p : Int) : K) = if Odd q then (p : K) else 1 := by
  unfold oddSelect
  by_cases h : q % 2 = 1
  · rw [if_pos h, if_pos (Int.odd_iff.mpr h)]
  · rw [if_neg h, if_neg (fun e => h (Int.odd_iff.mp e))]
    simp

theorem mod2Shl1_succ (j : Nat) : 1 - mod2Shl1 ((j : Int) + 1) = (-1) ^ (j + 1) := by
  unfold mod2Shl1
  have hnn : (0 : Int) ≤ (j : Int) + 1 := by omega
  rw [Int.tmod_eq_emod hnn (by decide)]
  rcases Nat.even_or_odd j with he | ho
  · have h1 : ((j : Int) + 1) % 2 = 1 := by
      obtain ⟨k, hk⟩ := he
      omega
    rw [h1, Odd.neg_one_pow (Even.add_one he)]
    norm_num
  · have h1 : ((j : Int) + 1) % 2 = 0 := by
      obtain ⟨k, hk⟩ := ho
      omega
    rw [h1, Even.neg_one_pow (Odd.add_one ho)]
    norm_num

theorem getRepresentationsDnd_even (n : Int) (rl : Nat) (rep0 : Nat → msym_representation_t)
    (hn : n % 2 = 0) (h4 : 4 ≤ rl) :
    getRepresentationsDnd n rl rep0
      = some (MSYM_SUCCESS, fun k =>
          if 4 ≤ k ∧ k < rl then mkRep IRREDUCIBLE 2 1 1 1 1 (((k - 4 : Nat) : Int) + 1)
          else if k = 3 then mkRep IRREDUCIBLE 1 1 (-1) (-1) 1 1
          else if k = 2 then mkRep IRREDUCIBLE 1 1 1 (-1) 1 1
          else if k = 1 then mkRep IRREDUCIBLE 1 1 (-1) 1 1 1
          else if k = 0 then mkRep IRREDUCIBLE 1 1 1 1 1 1
          else rep0 k) := by
  unfold getRepresentationsDnd
  have h0 : 0 < rl := by omega
  have h1 : 1 < rl := by omega
  have h2 : 2 < rl := by omega
  have h3 : 3 < rl := by omega
  simp only [storeRep, h0, h1, h2, h3, if_true, bit0Clear, hn, decide_True, Option.bind_eq_bind,
    Option.some_bind, singleLoop_eq, Option.pure_def]
  congr 2
  funext k
  simp only [Function.update_apply]

theorem getRepresentationsDnd_odd (n : Int) (rl : Nat) (rep0 : Nat → msym_representation_t)
    (hn : n % 2 = 1) (h4 : 4 ≤ rl) (hp : rl % 2 = 0) :
    getRepresentationsDnd n rl rep0
      = some (MSYM_SUCCESS, fun k =>
          if 4 ≤ k ∧ k < rl then
            (if (k - 4) % 2 = 0 then
              mkRep IRREDUCIBLE 2 1 1 (1 - mod2Shl1 ((((k - 4) / 2 : Nat) : Int) + 1)) 1
                ((((k - 4) / 2 : Nat) : Int) + 1)
             else
              mkRep IRREDUCIBLE 2 (rep0 k).eig.v (rep0 k).eig.v
                (-1 + mod2Shl1 ((((k - 4) / 2 : Nat) : Int) + 1)) (-1)
                ((((k - 4) / 2 : Nat) : Int) + 1))
          else if k = 3 then mkRep IRREDUCIBLE 1 1 (-1) (-1) (-1) 1
          else if k = 2 then mkRep IRREDUCIBLE 1 1 1 (-1) (-1) 1
          else if k = 1 then mkRep IRREDUCIBLE 1 1 (-1) 1 1 1
          else if k = 0 then mkRep IRREDUCIBLE 1 1 1 1 1 1
          else rep0 k) := by
  unfold getRepresentationsDnd
  have h0 : 0 < rl := by omega
  have h1 : 1 < rl := by omega
  have h2 : 2 < rl := by omega
  have h3 : 3 < rl := by omega
  have hn0 : ¬ (n % 2 = 0) := by omega
  simp only [storeRep, h0, h1, h2, h3, if_true, bit0Clear, hn0, decide_False, Option.bind_eq_bind,
    Option.some_bind, pairLoop_eq rl 4 _ _ _ (Or.inr (by omega)), Option.pure_def]
  simp only [Bool.false_eq_true, if_false, Option.some.injEq, Prod.mk.injEq, true_and]
  funext k
  by_cases hk : 4 ≤ k ∧ k < rl
  · have e0 : k ≠ 0 := by omega
    have e1 : k ≠ 1 := by omega
    have e2 : k ≠ 2 := by omega
    have e3 : k ≠ 3 := by omega
    simp only [hk, and_self, if_true, Function.update_apply, e0, e1, e2, e3, if_false]
  · simp only [hk, if_false, Function.update_apply]

theorem getRepresentationsCn_three :
    getRepresentationsCn 3 2 (fun _ => zeroRep)
      = some (MSYM_SUCCESS, fun r =>
          [mkRep IRREDUCIBLE 1 1 1 1 1 1, mkRep REDUCIBLE 2 1 1 1 1 1].getD r zeroRep) := by
  simp [getRepresentationsCn, storeRep, bit0Clear, singleLoop, List.range_succ]
  funext r
  rcases r with _ | _ | r <;> simp [Function.update_apply]

theorem speciesLoop_opsC3 (cosf : K → K) (pi : K) (hcos : cosf (2 * (pi / 3)) = -1 / 2) :
    speciesLoop cosf pi POINT_GROUP_Cn 3 opsC3
        (fun r => [mkRep IRREDUCIBLE 1 1 1 1 1 1, mkRep REDUCIBLE 2 1 1 1 1 1].getD r zeroRep)
        (List.range 2)
        { (callocTable 2 : msym_character_table_t K) with
          classc := fun k => [1, 2].getD k 0 }
      = some (MSYM_SUCCESS, msym_character_table_t.ofLists 2 [1, 2] []
          [{ name := "A", d := 1 }, { name := "*E1", d := 2 }]
          [[1, 1], [2, -1]]) := by
  simp [speciesLoop, List.range_succ, callocTable, getRepresentationName, mkRep, maskEindex,
    characterLoop, opsC3, representationCharacter, intQuot, piOver, oddSelect, hcos,
    msym_character_table_t.ofLists, snprintf, sizeof_name, types, sv, si, sh]
  refine ⟨?_, ?_⟩
  · funext k
    rcases k with _ | _ | k <;> simp [Function.update_apply]
    decide
    decide
  · funext i k
    rcases i with _ | _ | i <;> rcases k with _ | _ | k <;>
      simp [Function.update_apply]
    norm_num

theorem verify_tableC3 :
    verifyCharacterTable (tableC3 : msym_character_table_t K) = MSYM_SUCCESS := by
  rw [verifyCharacterTable_eq_success]
  intro i j hij hj
  have hj3 : j < 2 := hj
  rw [rowProduct_eq]
  interval_cases j
  · omega
  · interval_cases i
    norm_num [tableC3, msym_character_table_t.ofLists, Finset.sum_range_succ,
      CHARACTER_TABLE_VERIFICATION_THRESHOLD]

theorem generateCharacterTable_opsC3 (cosf : K → K) (pi : K)
    (hcos : cosf (2 * (pi / 3)) = -1 / 2) (oct : Option (msym_character_table_t K)) :
    generateCharacterTable cosf pi POINT_GROUP_Cn 3 opsC3 oct
      = some (MSYM_SUCCESS, some tableC3) := by
  have hcount : countClasses 2 opsC3 (fun _ => 0) = some (fun k => [1, 2].getD k 0) := by
    simp [countClasses, opsC3]
    funext k
    rcases k with _ | _ | k <;> simp [Function.update_apply]
  have hsel : selectRepresentatives 2 opsC3 (fun _ => none)
      = fun k => [some 0, some 1].getD k none := by
    simp [selectRepresentatives, firstOfClass, opsC3, List.range_succ, List.findIdx?_cons]
    funext k
    rcases k with _ | _ | k <;> simp [Function.update_apply]
  have h := generateCharacterTable_of_rep_stages cosf pi POINT_GROUP_Cn 3 opsC3 oct 2
    getRepresentationsCn _ _ _ rfl rfl getRepresentationsCn_three hcount
    (speciesLoop_opsC3 cosf pi hcos)
  simp only [msym_character_table_t.ofLists] at h
  simp only [List.getD_nil] at h
  rw [hsel] at h
  exact h verify_tableC3

theorem types_getD_ne_star (k : Nat) : types.getD k 'A' ≠ '*' := by
  rcases k with _ | _ | _ | _ | _ | _ | k <;> simp [types]

theorem snprintf_data (l : Nat) (name s : String) (hl : 0 < l) :
    (snprintf l name s).data = s.data.take (l - 1) := by
  unfold snprintf
  rw [if_neg (by omega), String.data_take]

theorem snprintf_head (l : Nat) (name : String) (c : Char) (t : String) (hl : 2 ≤ l) :
    (snprintf l name (String.singleton c ++ t)).data.head? = some c := by
  obtain ⟨m, rfl⟩ : ∃ m, l = m + 2 := ⟨l - 2, by omega⟩
  rw [snprintf_data _ _ _ (by omega), String.data_append]
  rfl

theorem string_empty_append (s : String) : "" ++ s = s := by
  apply String.ext
  rw [String.data_append]
  rfl

/-- The label `getRepresentationName` writes into a buffer of at least two
bytes begins with "*" exactly for a reducible descriptor of dimension other
than 1. -/
theorem getRepresentationName_star (type : msym_point_group_type_t) (n : Int)
    (rep : msym_representation_t) (l : Nat) (name label : String) (hl : 2 ≤ l)
    (h : getRepresentationName type n rep l name = (MSYM_SUCCESS, label)) :
    label.data.head? = some '*' ↔ rep.type = REDUCIBLE ∧ rep.d ≠ 1 := by
  unfold getRepresentationName at h
  split at h
  · simp at h
  · by_cases h1 : rep.d = 1
    · simp only [h1, if_true, Prod.mk.injEq, true_and] at h
      rw [← h, String.append_assoc, String.append_assoc, snprintf_head _ _ _ _ hl]
      have := types_getD_ne_star ((1 - (maskEindex type n rep).e0) / 2).toNat
      simp only [Option.some.injEq, h1, ne_eq, not_true_eq_false, and_false, iff_false]
      exact this
    · have hstar : ∀ t : String,
          ((snprintf l name
            ((if rep.type = IRREDUCIBLE then "" else "*")
              ++ String.singleton (types.getD rep.d.toNat 'A') ++ t)).data.head? = some '*'
            ↔ rep.type = REDUCIBLE ∧ rep.d ≠ 1) := by
        intro t
        have := types_getD_ne_star rep.d.toNat
        cases hty : rep.type
        · simp only [if_true, string_empty_append, snprintf_head _ _ _ _ hl, Option.some.injEq,
            false_and, iff_false, reduceCtorEq]
          exact this
        · have hs : ("*" : String) = String.singleton '*' := rfl
          simp only [reduceCtorEq, if_false, hs, String.append_assoc,
            snprintf_head _ _ _ _ hl, true_and, ne_eq, true_iff]
          exact h1
      simp only [h1, if_false] at h
      split at h
      · simp only [Prod.mk.injEq, true_and] at h
        rw [← h, String.append_assoc _ (toString rep.eig.l),
          String.append_assoc _ (toString rep.eig.l ++ _)]
        exact hstar _
      · simp only [Prod.mk.injEq, true_and] at h
        rw [← h, String.append_assoc _ (si _)]
        exact hstar _

theorem generateCharacterTable_labels_inv (cosf : K → K) (pi : K)
    (type : msym_point_group_type_t) (n : Int) (sops : List msym_symmetry_operation_t)
    (oct : Option (msym_character_table_t K)) (ct : msym_character_table_t K)
    (fr : Int → Nat → (Nat → msym_representation_t) →
      Option (msym_error_t × (Nat → msym_representation_t)))
    (hfr : (fmap : List (msym_point_group_type_t × fmap_f K)).find? (fun e => e.1 = type)
      = some (type, fmap_f.fr fr))
    (h : generateCharacterTable cosf pi type n sops oct = some (MSYM_SUCCESS, some ct)) :
    ∃ rep, fr n ct.d (fun _ => zeroRep) = some (MSYM_SUCCESS, rep) ∧
      ∀ i, i < ct.d →
        getRepresentationName type n (rep i) sizeof_name "" = (MSYM_SUCCESS, (ct.s i).name)
        ∧ ((ct.s i).name.data.head? = some '*' ↔ (rep i).type = REDUCIBLE ∧ (rep i).d ≠ 1) := by
  obtain ⟨rep, classc, ct2, hrep, hloop, hd2, hct⟩ :=
    generateCharacterTable_rep_success_inv cosf pi type n sops oct ct fr hfr h
  refine ⟨rep, hrep, ?_⟩
  intro i hi
  obtain ⟨_, _, _, _, hin⟩ :=
    speciesLoop_inv cosf pi type n sops rep _ _ _ (List.nodup_range _) hloop
  obtain ⟨t0, t1, _, _, _, hname, _⟩ := hin i (List.mem_range.mpr hi)
  have hname2 : getRepresentationName type n (rep i) sizeof_name ""
      = (MSYM_SUCCESS, (ct.s i).name) := by
    rw [hct]
    simpa [callocTable] using hname
  exact ⟨hname2, getRepresentationName_star type n (rep i) sizeof_name "" _ (by decide) hname2⟩

theorem sign_cases (e : Int) (h : |e| ≤ 1) : e = -1 ∨ e = 0 ∨ e = 1 := by
  have := abs_le.mp h
  omega

theorem maskEindex_valid (type : msym_point_group_type_t) (n : Int)
    (rep : msym_representation_t)
    (hp : |rep.eig.p| ≤ 1) (hv : |rep.eig.v| ≤ 1) (hh : |rep.eig.h| ≤ 1)
    (hi : |rep.eig.i| ≤ 1) :
    |(maskEindex type n rep).e0| ≤ 1 ∧ |(maskEindex type n rep).e1| ≤ 1
      ∧ |(maskEindex type n rep).e2| ≤ 1 ∧ |(maskEindex type n rep).e3| ≤ 1 := by
  cases type <;> simp only [maskEindex] <;> (try split_ifs) <;> simp [hp, hv, hh, hi]

theorem maskEindex_e2 (type : msym_point_group_type_t) (n : Int)
    (rep : msym_representation_t)
    (htype : type ≠ POINT_GROUP_Cn ∧ type ≠ POINT_GROUP_Cnh) :
    (maskEindex type n rep).e2 = rep.eig.v := by
  obtain ⟨h1, h2⟩ := htype
  cases type <;> simp only [maskEindex] <;> (try split_ifs) <;>
    first | rfl | exact absurd rfl h1 | exact absurd rfl h2

theorem maskEindex_e0 (type : msym_point_group_type_t) (n : Int)
    (rep : msym_representation_t) :
    (maskEindex type n rep).e0
      = if type = POINT_GROUP_Dnd ∧ n % 2 = 0 then rep.eig.h else rep.eig.p := by
  cases type <;> simp only [maskEindex, bit0Clear] <;> (try split_ifs) <;> simp_all

theorem maskEindex_v_irrel (type : msym_point_group_type_t) (n : Int)
    (rep : msym_representation_t) (v : Int) :
    (maskEindex type n { rep with eig := { rep.eig with v := v } }).e1
        = (maskEindex type n rep).e1
      ∧ (maskEindex type n { rep with eig := { rep.eig with v := v } }).e3
        = (maskEindex type n rep).e3 := by
  cases type <;> simp only [maskEindex] <;> (try split_ifs) <;> simp

theorem si_mem (e : Int) (h : |e| ≤ 1) : si e ∈ ["u", "", "g"] := by
  rcases sign_cases e h with rfl | rfl | rfl <;> decide

theorem sh_mem (e : Int) (h : |e| ≤ 1) : sh e ∈ ["''", "", "'"] := by
  rcases sign_cases e h with rfl | rfl | rfl <;> decide

theorem sv_eq (e : Int) (h : |e| ≤ 1) :
    sv e = if e = 1 then "1" else if e = -1 then "2" else "" := by
  rcases sign_cases e h with rfl | rfl | rfl <;> decide

theorem letter_eq (e : Int) (h : |e| ≤ 1) :
    types.getD ((1 - e) / 2).toNat 'A' = if e = -1 then 'B' else 'A' := by
  rcases sign_cases e h with rfl | rfl | rfl <;> decide

theorem types_getD_dim (d : Int) (h2 : 2 ≤ d) (h5 : d ≤ 5) :
    types.getD d.toNat 'A'
      = if d = 2 then 'E' else if d = 3 then 'T' else if d = 4 then 'G' else 'H' := by
  interval_cases d <;> decide

theorem snprintf_append (l : Nat) (name a t : String) (h : a.length + 1 ≤ l) :
    snprintf l name (a ++ t) = a ++ t.take (l - 1 - a.length) := by
  unfold snprintf
  rw [if_neg (by omega)]
  apply String.ext
  have hlen : a.data.length ≤ l - 1 := by
    have : a.length = a.data.length := rfl
    omega
  rw [String.data_take, String.data_append, String.data_append, String.data_take,
    List.take_append_eq_append_take, List.take_of_length_le hlen]
  rfl

theorem getRepresentationName_v_suffix_aux (type : msym_point_group_type_t) (n : Int)
    (rep : msym_representation_t) (l : Nat) (name : String)
    (hvalid : 1 ≤ rep.d ∧ rep.d ≤ 5 ∧ |rep.eig.p| ≤ 1 ∧ |rep.eig.v| ≤ 1 ∧ |rep.eig.h| ≤ 1
      ∧ |rep.eig.i| ≤ 1)
    (htype : type ≠ POINT_GROUP_Cn ∧ type ≠ POINT_GROUP_Cnh) :
    (rep.d = 1 → ∃ letter gu prime, letter ∈ ['A', 'B'] ∧ gu ∈ ["u", "", "g"]
        ∧ prime ∈ ["''", "", "'"]
        ∧ getRepresentationName type n rep l name
          = (MSYM_SUCCESS, snprintf l name
              (String.singleton letter
                ++ (if rep.eig.v = 1 then "1" else if rep.eig.v = -1 then "2" else "")
                ++ gu ++ prime)))
    ∧ (rep.d ≠ 1 → ∀ v, |v| ≤ 1 →
        getRepresentationName type n { rep with eig := { rep.eig with v := v } } l name
          = getRepresentationName type n rep l name) := by
  obtain ⟨hd1, hd5, hp, hv, hh, hi⟩ := hvalid
  have hnot : ¬ (rep.d < 1 ∨ rep.d > 5 ∨ |rep.eig.p| > 1 ∨ |rep.eig.v| > 1 ∨ |rep.eig.h| > 1
      ∨ |rep.eig.i| > 1) := by
    simp only [not_or, not_lt, gt_iff_lt]
    exact ⟨hd1, hd5, hp, hv, hh, hi⟩
  obtain ⟨m0, m1, m2, m3⟩ := maskEindex_valid type n rep hp hv hh hi
  refine ⟨?_, ?_⟩
  · intro h1
    refine ⟨types.getD ((1 - (maskEindex type n rep).e0) / 2).toNat 'A',
      si (maskEindex type n rep).e3, sh (maskEindex type n rep).e1, ?_, si_mem _ m3,
      sh_mem _ m1, ?_⟩
    · rw [letter_eq _ m0]
      split_ifs <;> simp
    · unfold getRepresentationName
      rw [if_neg hnot]
      simp only [h1, if_true]
      rw [← maskEindex_e2 type n rep htype, ← sv_eq _ m2]
  · intro h1 v hv'
    have hnot2 : ¬ (rep.d < 1 ∨ rep.d > 5 ∨ |rep.eig.p| > 1 ∨ |v| > 1 ∨ |rep.eig.h| > 1
        ∨ |rep.eig.i| > 1) := by
      simp only [not_or, not_lt, gt_iff_lt]
      exact ⟨hd1, hd5, hp, hv', hh, hi⟩
    obtain ⟨i1, i3⟩ := maskEindex_v_irrel type n rep v
    unfold getRepresentationName
    simp only [if_neg hnot, if_neg hnot2, h1, if_false, i1, i3]

theorem getRepresentationName_letter_aux (type : msym_point_group_type_t) (n : Int)
    (rep : msym_representation_t) (l : Nat) (name : String)
    (hvalid : 1 ≤ rep.d ∧ rep.d ≤ 5 ∧ |rep.eig.p| ≤ 1 ∧ |rep.eig.v| ≤ 1 ∧ |rep.eig.h| ≤ 1
      ∧ |rep.eig.i| ≤ 1)
    (hl : 3 ≤ l) :
    ∃ label, getRepresentationName type n rep l name = (MSYM_SUCCESS, label)
      ∧ (rep.d = 1 → label.data.head?
          = some (if (if type = POINT_GROUP_Dnd ∧ n % 2 = 0 then rep.eig.h else rep.eig.p) = -1
              then 'B' else 'A'))
      ∧ (rep.d ≠ 1 → ∃ rest,
          label = (if rep.type = IRREDUCIBLE then "" else "*")
            ++ String.singleton
                (if rep.d = 2 then 'E' else if rep.d = 3 then 'T' else if rep.d = 4 then 'G'
                  else 'H')
            ++ rest) := by
  obtain ⟨hd1, hd5, hp, hv, hh, hi⟩ := hvalid
  have hnot : ¬ (rep.d < 1 ∨ rep.d > 5 ∨ |rep.eig.p| > 1 ∨ |rep.eig.v| > 1 ∨ |rep.eig.h| > 1
      ∨ |rep.eig.i| > 1) := by
    simp only [not_or, not_lt, gt_iff_lt]
    exact ⟨hd1, hd5, hp, hv, hh, hi⟩
  obtain ⟨m0, m1, m2, m3⟩ := maskEindex_valid type n rep hp hv hh hi
  by_cases h1 : rep.d = 1
  · refine ⟨snprintf l name
        (String.singleton (types.getD ((1 - (maskEindex type n rep).e0) / 2).toNat 'A')
          ++ sv (maskEindex type n rep).e2 ++ si (maskEindex type n rep).e3
          ++ sh (maskEindex type n rep).e1), ?_, ?_, fun h => absurd h1 h⟩
    · unfold getRepresentationName
      rw [if_neg hnot]
      simp only [h1, if_true]
    · intro _
      rw [String.append_assoc, String.append_assoc, snprintf_head _ _ _ _ (by omega),
        letter_eq _ m0, maskEindex_e0]
  · have hd2 : 2 ≤ rep.d := by omega
    have hlen : ((if rep.type = IRREDUCIBLE then "" else "*")
        ++ String.singleton (types.getD rep.d.toNat 'A')).length + 1 ≤ l := by
      cases rep.type
      · have : ("" ++ String.singleton (types.getD rep.d.toNat 'A')).length = 1 := rfl
        simp only [if_true, this]
        omega
      · have : ("*" ++ String.singleton (types.getD rep.d.toNat 'A')).length = 2 := rfl
        simp only [reduceCtorEq, if_false, this]
        omega
    by_cases hlz : rep.eig.l > 0
    · refine ⟨snprintf l name
          ((if rep.type = IRREDUCIBLE then "" else "*")
            ++ String.singleton (types.getD rep.d.toNat 'A') ++ toString rep.eig.l
            ++ si (maskEindex type n rep).e3 ++ sh (maskEindex type n rep).e1),
        ?_, fun h => absurd h h1, ?_⟩
      · unfold getRepresentationName
        rw [if_neg hnot]
        simp only [h1, if_false, hlz, if_true]
      · intro _
        rw [String.append_assoc _ (toString rep.eig.l),
          String.append_assoc _ (toString rep.eig.l ++ _), snprintf_append _ _ _ _ hlen,
          types_getD_dim _ hd2 hd5]
        exact ⟨_, rfl⟩
    · refine ⟨snprintf l name
          ((if rep.type = IRREDUCIBLE then "" else "*")
            ++ String.singleton (types.getD rep.d.toNat 'A')
            ++ si (maskEindex type n rep).e3 ++ sh (maskEindex type n rep).e1),
        ?_, fun h => absurd h h1, ?_⟩
      · unfold getRepresentationName
        rw [if_neg hnot]
        simp only [h1, if_false, hlz]
      · intro _
        rw [String.append_assoc _ (si _), snprintf_append _ _ _ _ hlen,
          types_getD_dim _ hd2 hd5]
        exact ⟨_, rfl⟩

/-- The column of a class holds the predefined column of the last descriptor
bound to it. -/
theorem predefinedLoop_last (sops : List msym_symmetry_operation_t) (l : Nat)
    (tsops : List msym_symmetry_operation_t) (tname : List String) (tdim : List Int)
    (table : List (List K)) (is : List Nat) (ct ct1 : msym_character_table_t K)
    (h : predefinedLoop sops l tsops tname tdim table is ct = (MSYM_SUCCESS, ct1))
    (hs : is.Pairwise (fun a b => a < b)) (i : Nat) (hi : i ∈ is) (c : Nat)
    (hc : boundClass sops (tsops.getD i (tsop IDENTITY 0 0)) = some c)
    (hlast : ∀ k ∈ is, i < k → boundClass sops (tsops.getD k (tsop IDENTITY 0 0)) ≠ some c) :
    ∀ j, j < l → ct1.table j c = (table.getD j []).getD i 0 := by
  induction is generalizing ct with
  | nil => simp at hi
  | cons i0 rest ih =>
    rw [List.pairwise_cons] at hs
    unfold predefinedLoop at h
    simp only at h
    split at h
    · rename_i sop hfind
      have hb : boundClass sops (tsops.getD i0 (tsop IDENTITY 0 0)) = some sop.cla := by
        unfold boundClass
        rw [hfind]
        rfl
      split at h
      · simp at h
      · by_cases hii : i = i0
        · subst hii
          intro j hj
          obtain ⟨_, h2, _⟩ := predefinedLoop_columns sops l tsops tname tdim table rest _ ct1 h
          rw [h2 j c (fun k hk => hlast k (List.mem_cons_of_mem _ hk) (hs.1 k hk))]
          simp only
          rw [copyColumn_apply]
          have hcc : c = sop.cla := by
            rw [hb] at hc
            exact (Option.some.inj hc).symm
          simp [hj, hcc]
        · have hmem : i ∈ rest := by
            rcases List.mem_cons.mp hi with e | e
            · exact absurd e hii
            · exact e
          exact ih _ h hs.2 hmem (fun k hk => hlast k (List.mem_cons_of_mem _ hk))
    · simp at h

theorem getPredefinedCharacterTable_last (sops : List msym_symmetry_operation_t) (l : Nat)
    (tsops : List msym_symmetry_operation_t) (tname : List String) (tdim : List Int)
    (table : List (List K)) (ct ct1 : msym_character_table_t K)
    (h : getPredefinedCharacterTable sops l tsops tname tdim table ct = (MSYM_SUCCESS, ct1)) :
    ct1.d = l ∧ ∀ i, i < l →
      ct1.s i = { name := snprintf sizeof_name "" (tname.getD i ""), d := tdim.getD i 0 }
      ∧ ∃ c, boundClass sops (tsops.getD i (tsop IDENTITY 0 0)) = some c ∧ c < l
        ∧ ((∀ k, i < k → k < l →
              boundClass sops (tsops.getD k (tsop IDENTITY 0 0)) ≠ some c) →
            ∀ j, j < l → ct1.table j c = (table.getD j []).getD i 0) := by
  unfold getPredefinedCharacterTable at h
  split at h
  · simp at h
  · rename_i hl
    have hl2 : ct.d = l := not_not.mp hl
    obtain ⟨h1, _, _⟩ := predefinedLoop_columns sops l tsops tname tdim table _ ct ct1 h
    have hfr := predefinedLoop_frame sops l tsops tname tdim table _ ct ct1 _ h
    have hsp := predefinedLoop_species sops l tsops tname tdim table _ ct ct1 h
    refine ⟨by rw [hfr.1, hl2], ?_⟩
    intro i hi
    have hmem : i ∈ List.range l := List.mem_range.mpr hi
    obtain ⟨c, hc, hcl⟩ := h1 i hmem
    refine ⟨hsp.2 i hmem, c, hc, hcl, ?_⟩
    intro hlast
    exact predefinedLoop_last sops l tsops tname tdim table _ ct ct1 h (List.pairwise_lt_range l)
      i hmem c hc (fun k hk hik => hlast k hik (List.mem_range.mp hk))

theorem getCharacterTableT_opsTShared :
    getCharacterTableT opsTShared (callocTable 3 : msym_character_table_t K)
      = (MSYM_SUCCESS, msym_character_table_t.ofLists 3 [] []
          [{ name := "A", d := 1 }, { name := "E", d := 2 }, { name := "T", d := 3 }]
          [[1, 1], [2, 2], [3, -1]]) := by
  simp [getCharacterTableT, getPredefinedCharacterTable, callocTable, predefinedLoop,
    List.range_succ, opsTShared, tsop, sopMatches, snprintf, sizeof_name,
    msym_character_table_t.ofLists]
  refine ⟨?_, ?_⟩
  · funext k
    rcases k with _ | _ | _ | k <;> simp [Function.update_apply]
    decide
    decide
    decide
  · funext i k
    simp only [copyColumn_apply]
    rcases i with _ | _ | _ | i <;> rcases k with _ | _ | _ | k <;> simp

/-- The return code of the loop over the descriptors: it is the error exactly
when some visited descriptor matches no operation or is bound to a class that
is no column of the table, and Success otherwise. -/
theorem predefinedLoop_code (sops : List msym_symmetry_operation_t) (l : Nat)
    (tsops : List msym_symmetry_operation_t) (tname : List String) (tdim : List Int)
    (table : List (List K)) (is : List Nat) (ct : msym_character_table_t K) :
    (predefinedLoop sops l tsops tname tdim table is ct).1
      = if ∃ i ∈ is, ∀ c, boundClass sops (tsops.getD i (tsop IDENTITY 0 0)) = some c → l ≤ c
        then MSYM_INVALID_CHARACTER_TABLE else MSYM_SUCCESS := by
  induction is generalizing ct with
  | nil => simp [predefinedLoop]
  | cons i rest ih =>
    unfold predefinedLoop
    simp only
    split
    · rename_i sop hfind
      have hb : boundClass sops (tsops.getD i (tsop IDENTITY 0 0)) = some sop.cla := by
        unfold boundClass
        rw [hfind]
        rfl
      by_cases hcla : sop.cla ≥ l
      · rw [if_pos hcla]
        have hex : ∃ k ∈ i :: rest,
            ∀ c, boundClass sops (tsops.getD k (tsop IDENTITY 0 0)) = some c → l ≤ c := by
          refine ⟨i, List.mem_cons_self _ _, ?_⟩
          intro c hc
          rw [hb] at hc
          cases hc
          exact hcla
        rw [if_pos hex]
      · rw [if_neg hcla, ih]
        have hiff : (∃ k ∈ i :: rest,
            ∀ c, boundClass sops (tsops.getD k (tsop IDENTITY 0 0)) = some c → l ≤ c)
            ↔ ∃ k ∈ rest,
              ∀ c, boundClass sops (tsops.getD k (tsop IDENTITY 0 0)) = some c → l ≤ c := by
          constructor
          · rintro ⟨k, hk, hbad⟩
            rcases List.mem_cons.mp hk with rfl | hk
            · exact absurd (hbad _ hb) hcla
            · exact ⟨k, hk, hbad⟩
          · rintro ⟨k, hk, hbad⟩
            exact ⟨k, List.mem_cons_of_mem _ hk, hbad⟩
        simp only [hiff]
    · rename_i hfind
      have hb : boundClass sops (tsops.getD i (tsop IDENTITY 0 0)) = none := by
        unfold boundClass
        rw [hfind]
        rfl
      have hex : ∃ k ∈ i :: rest,
          ∀ c, boundClass sops (tsops.getD k (tsop IDENTITY 0 0)) = some c → l ≤ c := by
        refine ⟨i, List.mem_cons_self _ _, ?_⟩
        intro c hc
        rw [hb] at hc
        cases hc
      rw [if_pos hex]

theorem getPredefinedCharacterTable_code (sops : List msym_symmetry_operation_t) (l : Nat)
    (tsops : List msym_symmetry_operation_t) (tname : List String) (tdim : List Int)
    (table : List (List K)) (ct : msym_character_table_t K) :
    ((getPredefinedCharacterTable sops l tsops tname tdim table ct).1
        = MSYM_INVALID_CHARACTER_TABLE
      ↔ ct.d ≠ l
        ∨ (∃ i, i < l ∧ boundClass sops (tsops.getD i (tsop IDENTITY 0 0)) = none)
        ∨ ∃ i, i < l ∧ ∃ c, boundClass sops (tsops.getD i (tsop IDENTITY 0 0)) = some c
            ∧ l ≤ c)
    ∧ ((getPredefinedCharacterTable sops l tsops tname tdim table ct).1
        ≠ MSYM_INVALID_CHARACTER_TABLE
      → (getPredefinedCharacterTable sops l tsops tname tdim table ct).1 = MSYM_SUCCESS) := by
  have hbad : (∃ i ∈ List.range l,
        ∀ c, boundClass sops (tsops.getD i (tsop IDENTITY 0 0)) = some c → l ≤ c)
      ↔ ((∃ i, i < l ∧ boundClass sops (tsops.getD i (tsop IDENTITY 0 0)) = none)
        ∨ ∃ i, i < l ∧ ∃ c, boundClass sops (tsops.getD i (tsop IDENTITY 0 0)) = some c
            ∧ l ≤ c) := by
    constructor
    · rintro ⟨i, hi, h⟩
      cases hb : boundClass sops (tsops.getD i (tsop IDENTITY 0 0)) with
      | none => exact Or.inl ⟨i, List.mem_range.mp hi, hb⟩
      | some c => exact Or.inr ⟨i, List.mem_range.mp hi, c, hb, h c hb⟩
    · rintro (⟨i, hi, hb⟩ | ⟨i, hi, c, hb, hc⟩)
      · refine ⟨i, List.mem_range.mpr hi, ?_⟩
        intro c hc
        rw [hb] at hc
        cases hc
      · refine ⟨i, List.mem_range.mpr hi, ?_⟩
        intro c' hc'
        rw [hb] at hc'
        cases hc'
        exact hc
  have hcode : (getPredefinedCharacterTable sops l tsops tname tdim table ct).1
      = if ct.d ≠ l then MSYM_INVALID_CHARACTER_TABLE
        else if ∃ i ∈ List.range l,
            ∀ c, boundClass sops (tsops.getD i (tsop IDENTITY 0 0)) = some c → l ≤ c
          then MSYM_INVALID_CHARACTER_TABLE else MSYM_SUCCESS := by
    unfold getPredefinedCharacterTable
    by_cases hd : ct.d ≠ l
    · rw [if_pos hd, if_pos hd]
    · rw [if_neg hd, if_neg hd, predefinedLoop_code]
  rw [hcode]
  by_cases hd : ct.d ≠ l
  · rw [if_pos hd]
    exact ⟨⟨fun _ => Or.inl hd, fun _ => rfl⟩, fun h => absurd rfl h⟩
  · rw [if_neg hd]
    by_cases hex : ∃ i ∈ List.range l,
        ∀ c, boundClass sops (tsops.getD i (tsop IDENTITY 0 0)) = some c → l ≤ c
    · rw [if_pos hex]
      exact ⟨⟨fun _ => Or.inr (hbad.mp hex), fun _ => rfl⟩, fun h => absurd rfl h⟩
    · rw [if_neg hex]
      refine ⟨⟨(fun h => by cases h), ?_⟩, fun _ => rfl⟩
      rintro (h | h)
      · exact absurd h hd
      · exact absurd (hbad.mpr h) hex

/-- The calls of `representationCharacter` that divide by zero: a horizontal
proper or improper rotation of order 0 with a descriptor of dimension 1 (the
`int` quotient `n/sop->order`) or 2 (the `double` quotient
`M_PI/sop->order`). -/
theorem representationCharacter_eq_none (cosf : K → K) (pi : K) (n : Int)
    (sop : msym_symmetry_operation_t) (rep : msym_representation_t) (c : K) :
    representationCharacter cosf pi n sop rep c = none
      ↔ sop.order = 0 ∧ sop.orientation = HORIZONTAL
        ∧ (sop.type = PROPER_ROTATION ∨ sop.type = IMPROPER_ROTATION)
        ∧ (rep.d = 1 ∨ rep.d = 2) := by
  unfold representationCharacter
  by_cases hor : sop.orientation = HORIZONTAL
  · by_cases h1 : rep.d = 1
    · simp only [hor, h1, if_true]
      cases ht : sop.type <;> simp [intQuot]
    · by_cases h2 : rep.d = 2
      · simp only [hor, h1, h2, if_true, if_false]
        cases ht : sop.type <;> simp [piOver]
      · simp [hor, h1, h2]
  · by_cases h1 : rep.d = 1
    · simp only [hor, h1, if_true, if_false]
      cases ht : sop.type <;> simp
    · by_cases h2 : rep.d = 2
      · simp only [hor, h1, h2, if_true, if_false]
        cases ht : sop.type <;> simp
      · simp [hor, h1, h2]

/-- A call of `representationCharacter` that returns gives Success and a
character, or InvalidCharacterTable and the old content of `*c`. -/
theorem representationCharacter_codes (cosf : K → K) (pi : K) (n : Int)
    (sop : msym_symmetry_operation_t) (rep : msym_representation_t) (c : K)
    (r : msym_error_t × K) (h : representationCharacter cosf pi n sop rep c = some r) :
    r.1 = MSYM_SUCCESS ∨ r = (MSYM_INVALID_CHARACTER_TABLE, c) := by
  unfold representationCharacter at h
  have hsome : ∀ x : K, some (MSYM_SUCCESS, x) = some r → r.1 = MSYM_SUCCESS := by
    intro x hx
    cases hx
    rfl
  have hmap : ∀ (o : Option K) (g : K → K),
      o.map (fun a => (MSYM_SUCCESS, g a)) = some r → r.1 = MSYM_SUCCESS := by
    intro o g hx
    cases o with
    | none => simp at hx
    | some a =>
      simp only [Option.map_some', Option.some.injEq] at hx
      subst hx
      rfl
  have hmapi : ∀ (o : Option Int) (g : Int → K),
      o.map (fun a => (MSYM_SUCCESS, g a)) = some r → r.1 = MSYM_SUCCESS := by
    intro o g hx
    cases o with
    | none => simp at hx
    | some a =>
      simp only [Option.map_some', Option.some.injEq] at hx
      subst hx
      rfl
  have hinv : some (MSYM_INVALID_CHARACTER_TABLE, c) = some r
      → r = (MSYM_INVALID_CHARACTER_TABLE, c) := by
    intro hx
    cases hx
    rfl
  by_cases hor : sop.orientation = HORIZONTAL
  · rw [if_pos hor] at h
    by_cases h1 : rep.d = 1
    · rw [if_pos h1] at h
      cases ht : sop.type <;> rw [ht] at h
      · exact Or.inl (hsome _ h)
      · exact Or.inl (hmapi _ _ h)
      · exact Or.inl (hmapi _ _ h)
      · exact Or.inl (hsome _ h)
      · exact Or.inl (hsome _ h)
    · rw [if_neg h1] at h
      by_cases h2 : rep.d = 2
      · rw [if_pos h2] at h
        cases ht : sop.type <;> rw [ht] at h
        · exact Or.inl (hsome _ h)
        · exact Or.inl (hmap _ _ h)
        · exact Or.inl (hmap _ _ h)
        · exact Or.inl (hsome _ h)
        · exact Or.inl (hsome _ h)
      · rw [if_neg h2] at h
        exact Or.inr (hinv h)
  · rw [if_neg hor] at h
    by_cases h1 : rep.d = 1
    · rw [if_pos h1] at h
      cases ht : sop.type <;> rw [ht] at h
      · exact Or.inl (hsome _ h)
      · exact Or.inl (hsome _ h)
      · exact Or.inr (hinv h)
      · exact Or.inl (hsome _ h)
      · exact Or.inl (hsome _ h)
    · rw [if_neg h1] at h
      by_cases h2 : rep.d = 2
      · rw [if_pos h2] at h
        cases ht : sop.type <;> rw [ht] at h
        · exact Or.inl (hsome _ h)
        · exact Or.inl (hsome _ h)
        · exact Or.inr (hinv h)
        · exact Or.inl (hsome _ h)
        · exact Or.inl (hsome _ h)
      · rw [if_neg h2] at h
        exact Or.inr (hinv h)

/-- A run of the loop over the sets on increasing indices that meets its first
set larger than the group order at index `i`: the sets before `i` hold their
symmetrized positions, all other sets are as they were, and the code is the
error. -/
theorem symmetrizeLoop_first_oversized
    (applySymmetryOperation : msym_symmetry_operation_t → (Fin 3 → K) → (Fin 3 → K) → Fin 3 → K)
    (pg : msym_point_group_t K) (perm : Nat → Nat → msym_permutation_t)
    (thresholds : msym_thresholds_t K) (source : (Fin 3 → K) → Fin 3 → K) (acc : K → K → K)
    (es0 : Nat → msym_equivalence_set_t K) (is : List Nat)
    (es : Nat → msym_equivalence_set_t K) (e : Option K) (i : Nat)
    (hs : is.Pairwise (fun a b => a < b)) (hi : i ∈ is)
    (hagree : ∀ k ∈ is, es k = es0 k)
    (hbig : (es0 i).length > pg.order)
    (hfirst : ∀ k ∈ is, k < i → (es0 k).length ≤ pg.order)
    (hperm : ∀ k ∈ is, k < i → ∀ j, j < pg.order → ∀ m, m < (es0 k).length →
      ((perm k) j).p m < pg.order) :
    ∃ es1 e1,
      symmetrizeLoop applySymmetryOperation pg perm thresholds source acc is es e
        = some (MSYM_SYMMETRIZATION_ERROR, es1, e1)
      ∧ (∀ k ∈ is, k < i →
          es1 k = symmetrizedSet applySymmetryOperation pg (perm k) source (es0 k))
      ∧ ∀ k, (k ∉ is ∨ i ≤ k) → es1 k = es k := by
  induction is generalizing es e with
  | nil => simp at hi
  | cons i0 rest ih =>
    rw [List.pairwise_cons] at hs
    have h0 : es i0 = es0 i0 := hagree i0 (List.mem_cons_self _ _)
    by_cases hii : i = i0
    · subst hii
      refine ⟨es, e, ?_, ?_, fun _ _ => rfl⟩
      · exact symmetrizeLoop_cons_error _ _ _ _ _ _ _ _ _ _ (by rw [h0]; exact hbig)
      · intro k hk hki
        rcases List.mem_cons.mp hk with rfl | hk
        · exact absurd hki (lt_irrefl _)
        · exact absurd (hs.1 k hk) (by omega)
    · have hmem : i ∈ rest := by
        rcases List.mem_cons.mp hi with e1 | e1
        · exact absurd e1 hii
        · exact e1
      have hlt : i0 < i := hs.1 i hmem
      have hlen : (es i0).length ≤ pg.order := by
        rw [h0]
        exact hfirst i0 (List.mem_cons_self _ _) hlt
      have hp : ∀ j, j < pg.order → ∀ m, m < (es i0).length →
          ((perm i0) j).p m < pg.order := by
        rw [h0]
        exact hperm i0 (List.mem_cons_self _ _) hlt
      rw [symmetrizeLoop_cons _ _ _ _ _ _ _ _ _ _ hlen hp]
      have hnot : i0 ∉ rest := fun hm => absurd (hs.1 i0 hm) (lt_irrefl _)
      have hagree2 : ∀ k ∈ rest,
          Function.update es i0
            (symmetrizedSet applySymmetryOperation pg (perm i0) source (es i0)) k = es0 k := by
        intro k hk
        have hne : k ≠ i0 := fun e1 => hnot (e1 ▸ hk)
        rw [Function.update_noteq hne]
        exact hagree k (List.mem_cons_of_mem _ hk)
      obtain ⟨es1, e1, hrun, hbefore, hafter⟩ := ih _ _ hs.2 hmem hagree2
        (fun k hk => hfirst k (List.mem_cons_of_mem _ hk))
        (fun k hk => hperm k (List.mem_cons_of_mem _ hk))
      refine ⟨es1, e1, hrun, ?_, ?_⟩
      · intro k hk hki
        rcases List.mem_cons.mp hk with rfl | hk
        · rw [hafter k (Or.inl hnot), Function.update_same, h0]
        · exact hbefore k hk hki
      · intro k hk
        have hne : k ≠ i0 := by
          rcases hk with hk | hk
          · exact fun e1 => hk (e1 ▸ List.mem_cons_self _ _)
          · omega
        have hk2 : k ∉ rest ∨ i ≤ k := by
          rcases hk with hk | hk
          · exact Or.inl (fun hm => hk (List.mem_cons_of_mem _ hm))
          · exact Or.inr hk
        rw [hafter k hk2, Function.update_noteq hne]

theorem symmetrizeMolecule_first_oversized_aux
    (applySymmetryOperation : msym_symmetry_operation_t → (Fin 3 → K) → (Fin 3 → K) → Fin 3 → K)
    (vproj : (Fin 3 → K) → (Fin 3 → K) → Fin 3 → K)
    (sqrtf : K → K) (pg : msym_point_group_t K) (esl : Nat)
    (es : Nat → msym_equivalence_set_t K) (perm : Nat → Nat → msym_permutation_t)
    (thresholds : msym_thresholds_t K) (err : Option K)
    (hgen : ¬ ((pg.type = POINT_GROUP_Cnv ∨ pg.type = POINT_GROUP_Dnh) ∧ pg.n = 0))
    (i : Nat) (hi : i < esl) (hbig : (es i).length > pg.order)
    (hfirst : ∀ k, k < i → (es k).length ≤ pg.order)
    (hperm : ∀ k, k < i → ∀ j, j < pg.order → ∀ m, m < (es k).length →
      ((perm k) j).p m < pg.order) :
    ∃ es1,
      symmetrizeMolecule applySymmetryOperation vproj sqrtf pg esl es perm thresholds err
        = some (MSYM_SYMMETRIZATION_ERROR, es1, err)
      ∧ (∀ k, k < i →
          es1 k = symmetrizedSet applySymmetryOperation pg (perm k) (fun x => x) (es k))
      ∧ ∀ k, i ≤ k → es1 k = es k := by
  obtain ⟨es1, e1, hrun, hbefore, hafter⟩ :=
    symmetrizeLoop_first_oversized applySymmetryOperation pg perm thresholds (fun x => x)
      (fun e t => e + t) es (List.range esl) es (some 0) i (List.pairwise_lt_range esl)
      (List.mem_range.mpr hi) (fun _ _ => rfl) hbig (fun k _ hk => hfirst k hk)
      (fun k _ hk => hperm k hk)
  refine ⟨es1, ?_, ?_, ?_⟩
  · rw [symmetrizeMolecule_general _ _ _ _ _ _ _ _ _ hgen]
    unfold symmetrizeMoleculeProject
    rw [hrun]
    simp
  · intro k hk
    exact hbefore k (List.mem_range.mpr (by omega)) hk
  · intro k hk
    exact hafter k (Or.inr hk)

theorem foldlM_range_some {σ : Type} (f : σ → Nat → Option σ) (Q : Nat → σ → Prop) (n : Nat)
    (s : σ) (h0 : Q 0 s)
    (hstep : ∀ i s, i < n → Q i s → ∃ s', f s i = some s' ∧ Q (i + 1) s') :
    ∃ s', (List.range n).foldlM f s = some s' ∧ Q n s' := by
  induction n with
  | zero => exact ⟨s, rfl, h0⟩
  | succ n ih =>
    obtain ⟨s1, h1, q1⟩ := ih (fun i s hi hq => hstep i s (by omega) hq)
    obtain ⟨s2, h2, q2⟩ := hstep n s1 (by omega) q1
    refine ⟨s2, ?_, q2⟩
    rw [List.range_succ, List.foldlM_append, h1]
    simp [h2]

theorem fillMem_some (basisl : Nat) (salc : msym_salc_t K) (val : Nat → K)
    (hf : ∀ j, j < salc.fl → salc.f j < basisl) :
    ∃ mem, fillMem basisl salc val = some mem := by
  unfold fillMem
  obtain ⟨m, hm, _⟩ := foldlM_range_some
    (fun (mem : Nat → K) j =>
      if salc.f j < basisl then some (Function.update mem (salc.f j) (val j)) else none)
    (fun _ _ => True) salc.fl (fun _ => 0) trivial
    (fun i s hi _ => by
      simp only [if_pos (hf i hi)]
      exact ⟨_, rfl, trivial⟩)
  exact ⟨m, hm⟩

theorem salcLoop_some (vlproj : Nat → (Nat → K) → (Nat → K) → Nat → K)
    (vlsumsqr : Nat → (Nat → K) → K)
    (basisl : Nat) (md : Int) (wf : Nat → Nat → K) (o : Nat) (salc : msym_salc_t K)
    (st : K × K × (Nat → Nat → K))
    (hd : (salc.d : Int) ≤ md) (hf : ∀ j, j < salc.fl → salc.f j < basisl) :
    ∃ st1, salcLoop vlproj vlsumsqr basisl md wf o salc st = some st1 := by
  unfold salcLoop
  obtain ⟨s1, h1, _⟩ := foldlM_range_some
    (fun (st : K × K × (Nat → Nat → K)) d =>
      match fillMem basisl salc (fun j => salc.pf d j) with
      | none => none
      | some mem0 =>
        let pabssqr := vlsumsqr basisl (vlproj basisl (wf o) mem0)
        if (d : Int) < md then
          some (st.1 + pabssqr, st.2.1 + pabssqr,
            Function.update st.2.2 o (Function.update (st.2.2 o) d (st.2.2 o d + pabssqr)))
        else none)
    (fun _ _ => True) salc.d st trivial
    (fun i s hi _ => by
      obtain ⟨mem, hmem⟩ := fillMem_some basisl salc (fun j => salc.pf i j) hf
      have hlt : (i : Int) < md := by
        have : (i : Int) < (salc.d : Int) := by exact_mod_cast hi
        omega
      simp only [hmem, if_pos hlt]
      exact ⟨_, rfl, trivial⟩)
  exact ⟨s1, h1⟩

theorem subspaceLoop_some (vlproj : Nat → (Nat → K) → (Nat → K) → Nat → K)
    (vlsumsqr : Nat → (Nat → K) → K) (sqrtf : K → K)
    (basisl : Nat) (md : Int) (psalcl : Nat) (wf : Nat → Nat → K) (o : Nat)
    (sub : msym_subspace_t K) (st : K × Nat × (Nat → Nat → K) × (Nat → Nat → K))
    (hsalc : ∀ s, s < sub.salcl → ((sub.salc s).d : Int) ≤ md
      ∧ ∀ j, j < (sub.salc s).fl → (sub.salc s).f j < basisl)
    (hp : st.2.1 + sub.salcl ≤ psalcl) :
    ∃ st1, subspaceLoop vlproj vlsumsqr sqrtf basisl md psalcl wf o sub st = some st1
      ∧ st1.2.1 = st.2.1 + sub.salcl := by
  unfold subspaceLoop
  exact foldlM_range_some
    (fun (st : K × Nat × (Nat → Nat → K) × (Nat → Nat → K)) s =>
      match salcLoop vlproj vlsumsqr basisl md wf o (sub.salc s) (st.1, 0, st.2.2.2) with
      | none => none
      | some (mabs, psalcabs, bfd) =>
        if st.2.1 < psalcl then
          some (mabs, st.2.1 + 1,
            Function.update st.2.2.1 o
              (Function.update (st.2.2.1 o) st.2.1 (sqrtf psalcabs)), bfd)
        else none)
    (fun s st1 => st1.2.1 = st.2.1 + s) sub.salcl st rfl
    (fun i s hi hq => by
      obtain ⟨st2, h2⟩ := salcLoop_some vlproj vlsumsqr basisl md wf o (sub.salc i)
        (s.1, 0, s.2.2.2) (hsalc i hi).1 (hsalc i hi).2
      obtain ⟨mabs, psalcabs, bfd⟩ := st2
      have hlt : s.2.1 < psalcl := by
        simp only at hq
        omega
      simp only [h2, if_pos hlt]
      refine ⟨_, rfl, ?_⟩
      simp only at hq ⊢
      omega)

theorem irrepLoop_some (vlproj : Nat → (Nat → K) → (Nat → K) → Nat → K)
    (vlsumsqr : Nat → (Nat → K) → K) (sqrtf : K → K)
    (ct : msym_character_table_t K) (ssl : Nat) (ss : Nat → msym_subspace_t K)
    (basisl : Nat) (md : Int) (wf : Nat → Nat → K) (o : Nat) (st : irrep_state K)
    (hssl : ct.d ≤ ssl)
    (hsalc : ∀ k, k < ct.d → ∀ s, s < (ss k).salcl → (((ss k).salc s).d : Int) ≤ md
      ∧ ∀ j, j < ((ss k).salc s).fl → ((ss k).salc s).f j < basisl)
    (hp : st.psalci = 0) (hic : ∀ o1, st.c.icomp o1 < ct.d) :
    ∃ st1, irrepLoop vlproj vlsumsqr sqrtf ct ssl ss basisl md (psalcLength ssl ss) wf o st
        = some st1
      ∧ ∀ o1, st1.c.icomp o1 < ct.d := by
  have psalcLength_succ : ∀ k, psalcLength (k + 1) ss = psalcLength k ss + (ss k).salcl := by
    intro k
    unfold psalcLength
    rw [List.range_succ, List.foldl_append]
    rfl
  have psalcLength_mono : ∀ n k, k ≤ n → psalcLength k ss ≤ psalcLength n ss := by
    intro n
    induction n with
    | zero =>
      intro k hk
      have : k = 0 := by omega
      rw [this]
    | succ n ih =>
      intro k hk
      by_cases hkn : k = n + 1
      · rw [hkn]
      · have := ih k (by omega)
        rw [psalcLength_succ]
        omega
  unfold irrepLoop
  obtain ⟨st1, h1, _, q1⟩ := foldlM_range_some
    (irrepStep vlproj vlsumsqr sqrtf ssl ss basisl md (psalcLength ssl ss) wf o)
    (fun k st1 => st1.psalci = psalcLength k ss ∧ ∀ o1, st1.c.icomp o1 < ct.d) ct.d st
    ⟨by rw [hp]; rfl, hic⟩
    (fun k s hk hq => by
      obtain ⟨hq1, hq2⟩ := hq
      have hks : k < ssl := by omega
      have hle : psalcLength (k + 1) ss ≤ psalcLength ssl ss :=
        psalcLength_mono ssl (k + 1) (by omega)
      rw [psalcLength_succ] at hle
      obtain ⟨st2, h2, h3⟩ := subspaceLoop_some vlproj vlsumsqr sqrtf basisl md
        (psalcLength ssl ss) wf o (ss k) (0, s.psalci, s.c.psalc, s.c.bfd) (hsalc k hk)
        (by simp only; omega)
      obtain ⟨mabs, psalci, psalc, bfd⟩ := st2
      simp only at h3
      unfold irrepStep
      rw [if_pos hks]
      simp only [h2]
      by_cases hm : mabs > s.mcomp
      · rw [if_pos hm]
        refine ⟨_, rfl, ?_, ?_⟩
        · simp only
          rw [psalcLength_succ, h3, hq1]
        · intro o1
          simp only
          by_cases ho : o1 = o
          · rw [ho, Function.update_same]
            exact hk
          · rw [Function.update_noteq ho]
            exact hq2 o1
      · rw [if_neg hm]
        refine ⟨_, rfl, ?_, hq2⟩
        simp only
        rw [psalcLength_succ, h3, hq1])
  exact ⟨st1, h1, q1⟩

theorem componentAnalysis_some (vlproj : Nat → (Nat → K) → (Nat → K) → Nat → K)
    (vlsumsqr : Nat → (Nat → K) → K) (sqrtf : K → K)
    (ct : msym_character_table_t K) (ssl : Nat) (ss : Nat → msym_subspace_t K)
    (basisl : Nat) (wf : Nat → Nat → K)
    (hd : 1 ≤ ct.d) (hssl : ct.d ≤ ssl)
    (hsalc : ∀ k, k < ct.d → ∀ s, s < (ss k).salcl →
      (((ss k).salc s).d : Int) ≤ maxDimension ct
      ∧ ∀ j, j < ((ss k).salc s).fl → ((ss k).salc s).f j < basisl) :
    ∃ c, componentAnalysis vlproj vlsumsqr sqrtf ct ssl ss basisl wf = some c := by
  unfold componentAnalysis
  obtain ⟨c, hc, _⟩ := foldlM_range_some
    (waveStep vlproj vlsumsqr sqrtf ct ssl ss basisl wf)
    (fun _ c => ∀ o1, c.icomp o1 < ct.d) basisl
    { icomp := fun _ => 0, ispan := fun _ => 0, psalc := fun _ _ => 0, bfd := fun _ _ => 0,
      psalck := fun _ => 0 }
    (fun _ => hd)
    (fun o c _ hq => by
      obtain ⟨st1, h1, q1⟩ := irrepLoop_some vlproj vlsumsqr sqrtf ct ssl ss basisl
        (maxDimension ct) wf o { mcomp := -1, psalci := 0, c := c } hssl hsalc rfl hq
      unfold waveStep
      simp only [h1, if_pos (q1 o)]
      exact ⟨_, rfl, q1⟩)
  exact ⟨c, hc⟩

theorem sum_countP_lt (d : Nat) (os : List Nat) (g : Nat → Nat) (h : ∀ o ∈ os, g o < d) :
    ∑ k in Finset.range d, ((os.countP (fun o => g o = k) : Nat) : Int)
      = (os.length : Int) := by
  induction os with
  | nil => simp
  | cons o rest ih =>
    have hrest := ih (fun x hx => h x (List.mem_cons_of_mem _ hx))
    have hs : g o < d := h o (List.mem_cons_self _ _)
    simp only [List.countP_cons, List.length_cons, Nat.cast_add, Finset.sum_add_distrib, hrest]
    congr 1
    simp [Finset.sum_ite_eq, hs]

/-- The component analysis is defined on a table with at least one irrep when
`ss` has a subspace for every irrep and every SALC has at most `md` partner
functions and basis functions inside `basis`; it assigns every wave function
to one irrep, and the counts `ispan` add up to `basisl`. -/
theorem componentAnalysis_total (vlproj : Nat → (Nat → K) → (Nat → K) → Nat → K)
    (vlsumsqr : Nat → (Nat → K) → K) (sqrtf : K → K)
    (ct : msym_character_table_t K) (ssl : Nat) (ss : Nat → msym_subspace_t K)
    (basisl : Nat) (wf : Nat → Nat → K)
    (hd : 1 ≤ ct.d) (hssl : ct.d ≤ ssl)
    (hsalc : ∀ k, k < ct.d → ∀ s, s < (ss k).salcl →
      (((ss k).salc s).d : Int) ≤ maxDimension ct
      ∧ ∀ j, j < ((ss k).salc s).fl → ((ss k).salc s).f j < basisl) :
    ∃ c, componentAnalysis vlproj vlsumsqr sqrtf ct ssl ss basisl wf = some c
      ∧ (∀ o, o < basisl → c.icomp o < ct.d)
      ∧ (∀ k, c.ispan k
          = (((List.range basisl).countP (fun o => c.icomp o = k) : Nat) : Int))
      ∧ ∑ k in Finset.range ct.d, c.ispan k = (basisl : Int) := by
  obtain ⟨c, hc⟩ := componentAnalysis_some vlproj vlsumsqr sqrtf ct ssl ss basisl wf hd hssl
    hsalc
  obtain ⟨h1, h2⟩ := componentAnalysis_ispan vlproj vlsumsqr sqrtf ct ssl ss basisl wf c hc
  refine ⟨c, hc, h2, h1, ?_⟩
  have hsum := sum_countP_lt ct.d (List.range basisl) c.icomp
    (fun o ho => h2 o (List.mem_range.mp ho))
  rw [List.length_range] at hsum
  rw [← hsum]
  exact Finset.sum_congr rfl (fun k _ => h1 k)

theorem componentAnalysis_pgE (sqrtf : K → K) :
    componentAnalysis vlprojEx vlsumsqrEx sqrtf (pgE : msym_point_group_t K).ct 1
        (fun _ => { salcl := 1, salc := fun _ => salcE }) 2 wfE
      = some { icomp := fun _ => 0, ispan := fun k => if k = 0 then 2 else 0,
               psalc := fun o j => if o < 2 ∧ j = 0 then sqrtf 1 else 0,
               bfd := fun o d => if o < 2 ∧ d = 0 then 1 else 0,
               psalck := fun _ => 0 } := by
  simp [componentAnalysis, waveStep, irrepLoop, irrepStep, subspaceLoop, salcLoop, fillMem, pgE,
    salcE, wfE, maxDimension, psalcLength, vlprojEx, vlsumsqrEx, List.range_succ,
    Finset.sum_range_succ]
  refine ⟨?_, ?_, ?_⟩
  · funext k
    rcases k with _ | k <;> simp [Function.update_apply]
  · funext o j
    rcases o with _ | _ | o <;> rcases j with _ | j <;> simp [Function.update_apply]
    rw [if_neg (by omega)]
  · funext o d
    rcases o with _ | _ | o <;> rcases d with _ | d <;> simp [Function.update_apply]
    rw [if_neg (by omega)]

theorem partnerLoop_pgE (sqrtf : K → K) (hs : sqrtf 0 = 0) (x : K) :
    partnerLoop (fun _ a b i => a i - b i) (fun l a => sqrtf (vlsumsqrEx l a)) (10 ^ 308)
        (pgE : msym_point_group_t K).ct 2 (maxDimension (pgE : msym_point_group_t K).ct)
        (psalcLength 1 (fun _ => ({ salcl := 1, salc := fun _ => salcE } : msym_subspace_t K)))
        { icomp := fun _ => 0, ispan := fun k => if k = 0 then 2 else 0,
          psalc := fun o j => if o < 2 ∧ j = 0 then x else 0,
          bfd := fun o d => if o < 2 ∧ d = 0 then 1 else 0,
          psalck := fun _ => 0 }
        (fun _ _ => 0)
      = some (fun r c => ([[1, 1], [-1, -1], [0, -1]].getD r []).getD c 0) := by
  simp [partnerLoop, resetPartners, claimed, candidateLoop, bestSlot, countPartners, setCell, pgE,
    maxDimension, psalcLength, vlsumsqrEx, List.range_succ, Finset.sum_range_succ, hs,
    List.range'_succ]
  funext r c
  rcases r with _ | _ | _ | r <;> rcases c with _ | _ | c <;> simp [Function.update_apply]

theorem partnersVerified_pgE (x : K) :
    partnersVerified (pgE : msym_point_group_t K).ct 2
        { icomp := fun _ => 0, ispan := fun k => if k = 0 then 2 else 0,
          psalc := fun o j => if o < 2 ∧ j = 0 then x else 0,
          bfd := fun o d => if o < 2 ∧ d = 0 then 1 else 0,
          psalck := fun _ => 0 }
        (fun r c => ([[1, 1], [-1, -1], [0, -1]].getD r []).getD c 0) = true := by
  simp [partnersVerified, pgE, List.range_succ]

theorem assignDimensions_pgE (x : K) :
    assignDimensions 2 2
        ({ icomp := fun _ => 0, ispan := fun k => if k = 0 then 2 else 0,
           psalc := fun o j => if o < 2 ∧ j = 0 then x else 0,
           bfd := fun o d => if o < 2 ∧ d = 0 then 1 else 0,
           psalck := fun _ => 0 } : wf_components K) 0
        ((List.range 2).foldl (fun pf i => setCell pf 2 i (-1))
          (setCell (fun r c => ([[1, 1], [-1, -1], [0, -1]].getD r []).getD c 0) 0 0 0))
      = some (fun r c => ([[0, 1], [-1, -1], [0, -1]].getD r []).getD c 0) := by
  have h10 : ¬ ((1 : K) < 0) := by norm_num
  simp [assignDimensions, setCell, List.range_succ, Function.update_apply, h10]
  funext r c
  rcases r with _ | _ | _ | r <;> rcases c with _ | _ | c <;> simp [Function.update_apply]

theorem symmetrizeWavefunctions_pgE (sqrtf : K → K) (hs : sqrtf 0 = 0) :
    symmetrizeWavefunctions vlprojEx vlsumsqrEx (fun _ a b i => a i - b i)
        (fun l a => sqrtf (vlsumsqrEx l a)) (fun _ a b i => a i + b i) sqrtf (10 ^ 308)
        (pgE : msym_point_group_t K) 1 (fun _ => { salcl := 1, salc := fun _ => salcE })
        (fun _ => 1) 2 wfE
      = none := by
  unfold symmetrizeWavefunctions
  rw [componentAnalysis_pgE]
  simp only
  have hspan : spanMismatch (pgE : msym_point_group_t K).ct (fun _ => 1)
      (fun k => if k = 0 then 2 else 0) = false := by
    simp [spanMismatch, pgE, List.range_succ]
  rw [hspan, partnerLoop_pgE sqrtf hs]
  simp only [Bool.false_eq_true, if_false, partnersVerified_pgE, if_true]
  have hrec : reconstructLoop (fun _ a b i => a i + b i) (pgE : msym_point_group_t K).ct
      (fun _ => { salcl := 1, salc := fun _ => salcE }) 2
      (psalcLength 1 (fun _ => ({ salcl := 1, salc := fun _ => salcE } : msym_subspace_t K)))
      { icomp := fun _ => 0, ispan := fun k => if k = 0 then 2 else 0,
        psalc := fun o j => if o < 2 ∧ j = 0 then sqrtf 1 else 0,
        bfd := fun o d => if o < 2 ∧ d = 0 then 1 else 0,
        psalck := fun _ => 0 }
      (fun r c => ([[1, 1], [-1, -1], [0, -1]].getD r []).getD c 0, fun _ _ => 0) = none := by
    have h10 : ¬ ((1 : K) < 0) := by norm_num
    simp [reconstructLoop, assignDimensions, reconstructSalc, setCell, fillMem, psalcLength,
      salcE, pgE, List.range_succ, Function.update_apply, h10]
  rw [hrec]

/-- The binary64 value of `C4PI` is the literal rounded to 53 significant
bits: the mantissa `7286977268806824` lies between `2⁵²` and `2⁵³`, and the
value differs from the literal by less than half a unit in the last place. -/
theorem C4PI_binary64_rounds :
    (2 : ℝ) ^ 52 ≤ 7286977268806824 ∧ (7286977268806824 : ℝ) < 2 ^ 53
      ∧ |(C4PI_binary64 : ℝ) - C4PI| < 1 / 2 ^ 53 := by
  refine ⟨by norm_num, by norm_num, ?_⟩
  rw [abs_sub_lt_iff]
  constructor <;> norm_num [C4PI, C4PI_binary64]

/-- The binary64 value of `-C4PI` is the binary64 number nearest to the golden
ratio: they differ by less than half a unit in the last place. -/
theorem neg_C4PI_binary64_near_golden :
    |(-C4PI_binary64 : ℝ) - (1 + Real.sqrt 5) / 2| < 1 / 2 ^ 53 := by
  have hlo : (2 * (-C4PI_binary64 : ℝ) - 1 - 2 / 2 ^ 53) < Real.sqrt 5 := by
    rw [Real.lt_sqrt (by norm_num [C4PI_binary64])]
    norm_num [C4PI_binary64]
  have hhi : Real.sqrt 5 < (2 * (-C4PI_binary64 : ℝ) - 1 + 2 / 2 ^ 53) := by
    rw [Real.sqrt_lt' (by norm_num [C4PI_binary64])]
    norm_num [C4PI_binary64]
  rw [abs_sub_lt_iff]
  constructor <;> linarith

/-- The literal `-C4PI` differs from the golden ratio by less than half a unit
in the last place of a binary64 number between 1 and 2. -/
theorem neg_C4PI_near_golden_ulp :
    |(-C4PI : ℝ) - (1 + Real.sqrt 5) / 2| < 1 / 2 ^ 53 :=
  lt_trans neg_C4PI_near_golden (by norm_num)

theorem componentAnalysis_C3v (sqrtf : K → K) :
    ∃ c, componentAnalysis vlprojEx vlsumsqrEx sqrtf (tableC3v : msym_character_table_t K) 3
        ssC3v 3 wfC3v = some c
      ∧ c.icomp 0 = 0 ∧ c.icomp 1 = 2 ∧ c.icomp 2 = 2
      ∧ c.ispan 0 = 1 ∧ c.ispan 1 = 0 ∧ c.ispan 2 = 2 := by
  have h10 : ¬ ((1 : K) < 0) := by norm_num
  have h14 : (1 : K) < 2 * 2 := by norm_num
  have h00 : ¬ ((0 : K) < 0) := lt_irrefl 0
  have h01 : (0 : K) < 1 := zero_lt_one
  have hm1 : (-1 : K) < 0 := by norm_num
  have hm11 : (-1 : K) < 1 := by norm_num
  simp [componentAnalysis, waveStep, irrepLoop, irrepStep, subspaceLoop, salcLoop, fillMem,
    tableC3v, msym_character_table_t.ofLists, ssC3v, salcA, salcE12, wfC3v, maxDimension,
    psalcLength, vlprojEx, vlsumsqrEx, List.range_succ, Finset.sum_range_succ,
    Function.update_apply, h10, h14, h00, h01, hm1, hm11]

/-- With the identity for `rnd` the rounded loop is the loop of the general
path of `symmetrizeLoop`. -/
theorem symmetrizeLoopR_id
    (applySymmetryOperation : msym_symmetry_operation_t → (Fin 3 → K) → (Fin 3 → K) → Fin 3 → K)
    (pg : msym_point_group_t K) (perm : Nat → Nat → msym_permutation_t)
    (thresholds : msym_thresholds_t K) (l : List Nat) (es : Nat → msym_equivalence_set_t K)
    (e : Option K) :
    symmetrizeLoopR (fun x => x) applySymmetryOperation pg perm thresholds l es e
      = symmetrizeLoop applySymmetryOperation pg perm thresholds (fun x => x)
          (fun e t => e + t) l es e := by
  have hadd : ∀ a b : Fin 3 → K, vaddR (fun x => x) a b = vadd a b := fun a b => rfl
  have hdot : ∀ a b : Fin 3 → K, vdotR (fun x => x) a b = vdot a b := fun a b => rfl
  have hsc : ∀ (s : K) (a : Fin 3 → K), vscaleR (fun x => x) s a = vscale s a := fun s a => rfl
  have hacc : ∀ (p : Nat → msym_permutation_t) (n : Nat) (src v : Nat → Fin 3 → K),
      accumulateLoopR (fun x => x) applySymmetryOperation pg p n src v
        = accumulateLoop applySymmetryOperation pg p n src v := by
    intro p n src v
    simp only [accumulateLoopR, accumulateLoop, hadd]
  have hscale : ∀ (o n : Nat) (v el : Nat → Fin 3 → K),
      scaleLoopR (fun x => x) o n v el = scaleLoop o n v el := by
    intro o n v el
    simp only [scaleLoopR, scaleLoop, hdot, hsc]
  have herr : ∀ (o : Nat) (e : Option K) (ol sl : K),
      errorTermR (fun x => x) o e ol sl = errorTerm (fun e t => e + t) o e ol sl := by
    intro o e ol sl
    rfl
  induction l generalizing es e with
  | nil => rfl
  | cons i rest ih =>
    simp only [symmetrizeLoopR, symmetrizeLoop, hacc, hscale, herr, ih]

/-- With the identity for `rnd` the rounded function is
`symmetrizeMoleculeProject`. -/
theorem symmetrizeMoleculeProjectR_id
    (applySymmetryOperation : msym_symmetry_operation_t → (Fin 3 → K) → (Fin 3 → K) → Fin 3 → K)
    (sqrtf : K → K) (pg : msym_point_group_t K) (esl : Nat)
    (es : Nat → msym_equivalence_set_t K) (perm : Nat → Nat → msym_permutation_t)
    (thresholds : msym_thresholds_t K) (err : Option K) :
    symmetrizeMoleculeProjectR (fun x => x) applySymmetryOperation sqrtf pg esl es perm
        thresholds err
      = symmetrizeMoleculeProject applySymmetryOperation sqrtf pg esl es perm thresholds err := by
  simp only [symmetrizeMoleculeProjectR, symmetrizeMoleculeProject, symmetrizeLoopR_id]

end Lemmas

section Claims

variable {K : Type} [LinearOrderedField K]

/-- C1: for a table with `d` classes and positive total multiplicity
`|G| = Σ_j classc[j]` and every class-indexed vector `rspan`,
`decomposeRepresentation` returns with
`dspan[k] = (Σ_j classc[j]·rspan[j]·table[k][j]) / |G|` for every irrep `k < d`. -/
theorem decomposeRepresentation_formula (ct : msym_character_table_t K) (rspan dspan : Nat → K)
    (hpos : 0 < ∑ j in Finset.range ct.d, ct.classc j) :
    ∃ out, decomposeRepresentation ct rspan dspan = some out ∧
      ∀ k, k < ct.d →
        out k = (∑ j in Finset.range ct.d, (ct.classc j : K) * rspan j * ct.table k j)
          / ((∑ j in Finset.range ct.d, ct.classc j : Int) : K) := by
  refine ⟨_, decomposeRepresentation_eq ct rspan dspan (ne_of_gt hpos), ?_⟩
  intro k hk
  simp only [hk, if_true]

/-- Witness for C1: the table of T (|G| = 12) and the vector (12, 0, 0). -/
theorem decomposeRepresentation_formula_witness :
    (0 < ∑ j in Finset.range (tableT : msym_character_table_t ℚ).d,
        (tableT : msym_character_table_t ℚ).classc j) ∧
    ∃ out, decomposeRepresentation (tableT : msym_character_table_t ℚ)
        (fun j => [12, 0, 0].getD j 0) (fun _ => 0) = some out ∧
      ∀ k, k < (tableT : msym_character_table_t ℚ).d →
        out k = (∑ j in Finset.range (tableT : msym_character_table_t ℚ).d,
            ((tableT : msym_character_table_t ℚ).classc j : ℚ) * [12, 0, 0].getD j 0
              * (tableT : msym_character_table_t ℚ).table k j)
          / ((∑ j in Finset.range (tableT : msym_character_table_t ℚ).d,
              (tableT : msym_character_table_t ℚ).classc j : Int) : ℚ) :=
  ⟨by decide,
   decomposeRepresentation_formula (tableT : msym_character_table_t ℚ)
     (fun j => [12, 0, 0].getD j 0) (fun _ => 0) (by decide)⟩

/-- C2 (counterexample): for T with its twelve operations the call succeeds, and
decomposing row 1 (the merged pair E) gives `dspan[1] = 2`, not 1. -/
theorem decomposeRepresentation_row_E_of_T :
    generateCharacterTable Real.cos Real.pi POINT_GROUP_T 0 opsT none
        = some (MSYM_SUCCESS, some tableT) ∧
      ∃ out, decomposeRepresentation (tableT : msym_character_table_t ℝ)
          ((tableT : msym_character_table_t ℝ).table 1) (fun _ => 0) = some out ∧
        out 1 = 2 := by
  refine ⟨generateCharacterTable_opsT Real.cos Real.pi 0 none, _,
    decomposeRepresentation_eq _ _ _ ?_, ?_⟩
  · norm_num [tableT, msym_character_table_t.ofLists, Finset.sum_range_succ]
  · norm_num [tableT, msym_character_table_t.ofLists, Finset.sum_range_succ]

/-- C2 (amended): for a table returned with success and a row `i`, decomposing
row `i` returns `dspan[k] = (Σ_j classc[j]·table[i][j]·table[k][j]) / |G|` with
`|G|` the number of input operations, and for `k ≠ i` this is at most
`1e-10 / |G|`. -/
theorem decomposeRepresentation_generated_row (cosf : K → K) (pi : K)
    (type : msym_point_group_type_t) (n : Int) (sops : List msym_symmetry_operation_t)
    (oct : Option (msym_character_table_t K)) (ct : msym_character_table_t K)
    (h : generateCharacterTable cosf pi type n sops oct = some (MSYM_SUCCESS, some ct))
    (i : Nat) (hi : i < ct.d) (dspan : Nat → K) :
    ∃ out, decomposeRepresentation ct (ct.table i) dspan = some out ∧
      (∀ k, k < ct.d →
        out k = (∑ j in Finset.range ct.d, (ct.classc j : K) * ct.table i j * ct.table k j)
          / (sops.length : K)) ∧
      (∀ k, k < ct.d → k ≠ i → out k ≤ (1 / 10 ^ 10) / (sops.length : K)) := by
  obtain ⟨_, hsum⟩ := generateCharacterTable_classc cosf pi type n sops oct ct h
  have hlen := generateCharacterTable_sops_ne_nil cosf pi type n sops oct ct h
  have hne : (∑ j in Finset.range ct.d, ct.classc j) ≠ 0 := by
    rw [hsum]
    exact_mod_cast (Nat.pos_iff_ne_zero.mp hlen)
  have hcast : ((∑ j in Finset.range ct.d, ct.classc j : Int) : K) = (sops.length : K) := by
    rw [hsum]
    simp
  have hval : ∀ k, k < ct.d →
      (fun k => if k < ct.d then
          (∑ j in Finset.range ct.d, (ct.classc j : K) * ct.table i j * ct.table k j)
            / ((∑ j in Finset.range ct.d, ct.classc j : Int) : K)
        else dspan k) k
        = (∑ j in Finset.range ct.d, (ct.classc j : K) * ct.table i j * ct.table k j)
          / (sops.length : K) := by
    intro k hk
    simp only [hk, if_true, hcast]
  refine ⟨_, decomposeRepresentation_eq ct (ct.table i) dspan hne, hval, ?_⟩
  intro k hk hki
  have hk2 := hval k hk
  simp only at hk2
  rw [hk2]
  have hle := generateCharacterTable_rowSum_le cosf pi type n sops oct ct h i k hi hk
    (fun e => hki e.symm)
  have hpos : (0 : K) ≤ (sops.length : K) := Nat.cast_nonneg _
  exact div_le_div_of_nonneg_right hle hpos

/-- Witness for C2 (amended): the C3v table, row 2. -/
theorem decomposeRepresentation_generated_row_witness :
    generateCharacterTable Real.cos Real.pi POINT_GROUP_Cnv 3 opsC3v none
        = some (MSYM_SUCCESS, some tableC3v) ∧
      2 < (tableC3v : msym_character_table_t ℝ).d ∧
      ∃ out, decomposeRepresentation (tableC3v : msym_character_table_t ℝ)
          ((tableC3v : msym_character_table_t ℝ).table 2) (fun _ => 0) = some out ∧
        (∀ k, k < (tableC3v : msym_character_table_t ℝ).d →
          out k = (∑ j in Finset.range (tableC3v : msym_character_table_t ℝ).d,
              ((tableC3v : msym_character_table_t ℝ).classc j : ℝ)
                * (tableC3v : msym_character_table_t ℝ).table 2 j
                * (tableC3v : msym_character_table_t ℝ).table k j)
            / (opsC3v.length : ℝ)) ∧
        (∀ k, k < (tableC3v : msym_character_table_t ℝ).d → k ≠ 2 →
          out k ≤ (1 / 10 ^ 10) / (opsC3v.length : ℝ)) :=
  ⟨generateCharacterTable_opsC3v Real.cos Real.pi real_cos_two_pi_div_three none,
   by decide,
   decomposeRepresentation_generated_row Real.cos Real.pi POINT_GROUP_Cnv 3 opsC3v none tableC3v
     (generateCharacterTable_opsC3v Real.cos Real.pi real_cos_two_pi_div_three none)
     2 (by decide) (fun _ => 0)⟩

/-- C3 (counterexample): for T with its twelve operations the call succeeds, and
the class-weighted square of row 1 (the merged pair E) is 24, not the group
order 12. -/
theorem rowNorm_E_of_T :
    generateCharacterTable Real.cos Real.pi POINT_GROUP_T 0 opsT none
        = some (MSYM_SUCCESS, some tableT) ∧
      ∑ k in Finset.range (tableT : msym_character_table_t ℝ).d,
          ((tableT : msym_character_table_t ℝ).classc k : ℝ)
            * (tableT : msym_character_table_t ℝ).table 1 k
            * (tableT : msym_character_table_t ℝ).table 1 k = 24 ∧
      opsT.length = 12 := by
  refine ⟨generateCharacterTable_opsT Real.cos Real.pi 0 none, ?_, rfl⟩
  norm_num [tableT, msym_character_table_t.ofLists, Finset.sum_range_succ]

/-- C3 (amended): for a table returned with success and distinct rows `i`, `j`,
`Σ_k classc[k]·table[i][k]·table[j][k] ≤ 1e-10`. -/
theorem generateCharacterTable_rows_bound (cosf : K → K) (pi : K)
    (type : msym_point_group_type_t) (n : Int) (sops : List msym_symmetry_operation_t)
    (oct : Option (msym_character_table_t K)) (ct : msym_character_table_t K)
    (h : generateCharacterTable cosf pi type n sops oct = some (MSYM_SUCCESS, some ct))
    (i j : Nat) (hi : i < ct.d) (hj : j < ct.d) (hij : i ≠ j) :
    ∑ k in Finset.range ct.d, (ct.classc k : K) * ct.table i k * ct.table j k
      ≤ 1 / 10 ^ 10 :=
  generateCharacterTable_rowSum_le cosf pi type n sops oct ct h i j hi hj hij

/-- Witness for C3 (amended): rows 2 and 0 of the C3v table. -/
theorem generateCharacterTable_rows_bound_witness :
    generateCharacterTable Real.cos Real.pi POINT_GROUP_Cnv 3 opsC3v none
        = some (MSYM_SUCCESS, some tableC3v) ∧
      2 < (tableC3v : msym_character_table_t ℝ).d ∧
      0 < (tableC3v : msym_character_table_t ℝ).d ∧ 2 ≠ 0 ∧
      ∑ k in Finset.range (tableC3v : msym_character_table_t ℝ).d,
          ((tableC3v : msym_character_table_t ℝ).classc k : ℝ)
            * (tableC3v : msym_character_table_t ℝ).table 2 k
            * (tableC3v : msym_character_table_t ℝ).table 0 k ≤ 1 / 10 ^ 10 :=
  ⟨generateCharacterTable_opsC3v Real.cos Real.pi real_cos_two_pi_div_three none,
   by decide, by decide, by decide,
   generateCharacterTable_rows_bound Real.cos Real.pi POINT_GROUP_Cnv 3 opsC3v none tableC3v
     (generateCharacterTable_opsC3v Real.cos Real.pi real_cos_two_pi_div_three none)
     2 0 (by decide) (by decide) (by decide)⟩

/-- C4 (code at the failing input): `verifyCharacterTable` returns
`MSYM_SUCCESS` on a table whose rows 0 and 1 have product -2, of absolute value
above `1e-10`; `generateCharacterTable` builds this table for Cnv, `n = 1` from
a vertical reflection (class 0) and a vertical C2 (class 1) and returns it. -/
theorem verifyCharacterTable_accepts_negative_product (cosf : K → K) (pi : K)
    (oct : Option (msym_character_table_t K)) :
    verifyCharacterTable (negTable : msym_character_table_t K) = MSYM_SUCCESS ∧
      rowProduct (negTable : msym_character_table_t K) 0 1 = -2 ∧
      (CHARACTER_TABLE_VERIFICATION_THRESHOLD : K)
        < |rowProduct (negTable : msym_character_table_t K) 0 1| ∧
      generateCharacterTable cosf pi POINT_GROUP_Cnv 1 opsVertical oct
        = some (MSYM_SUCCESS, some negTable) := by
  refine ⟨verify_negTable, rowProduct_negTable, ?_, generateCharacterTable_opsVertical cosf pi oct⟩
  rw [rowProduct_negTable]
  norm_num [CHARACTER_TABLE_VERIFICATION_THRESHOLD]

/-- C6 (counterexample): on the list with class indices (1, 0) line 76 chooses
`d = 1`, while 1 + the maximum class index is 2. -/
theorem tableSize_opsUnsorted :
    tableSize opsUnsorted = some 1 ∧ 1 + maxClass opsUnsorted = 2 :=
  ⟨by decide, by decide⟩

/-- C6 (amended): for a non-empty operation list with non-decreasing class
indices, the table size `d` chosen by `generateCharacterTable` is 1 + the
maximum class index of the list. -/
theorem tableSize_of_sorted (sops : List msym_symmetry_operation_t) (hne : sops ≠ [])
    (hsorted : sops.Pairwise (fun a b => a.cla ≤ b.cla)) :
    tableSize sops = some (1 + maxClass sops) := by
  rw [maxClass_eq_getLast sops hne hsorted]
  unfold tableSize
  rw [List.getLast?_eq_getLast sops hne]
  simp [Nat.add_comm]

/-- Witness for C6 (amended): the six operations of C3v. -/
theorem tableSize_of_sorted_witness :
    opsC3v ≠ [] ∧ opsC3v.Pairwise (fun a b => a.cla ≤ b.cla) ∧
      tableSize opsC3v = some (1 + maxClass opsC3v) :=
  ⟨by decide, by decide, tableSize_of_sorted opsC3v (by decide) (by decide)⟩

/-- C7 (counterexample): in `opsMixed` the identity has class index 0; the call
for Cnv, `n = 1` succeeds, and row 1 has `table[1][0] = -1` while `s[1].d = 1`. -/
theorem identity_column_opsMixed :
    (∀ sop ∈ opsMixed, sop.type = IDENTITY → sop.cla = 0) ∧
      (∃ sop ∈ opsMixed, sop.type = IDENTITY) ∧
      generateCharacterTable Real.cos Real.pi POINT_GROUP_Cnv 1 opsMixed none
        = some (MSYM_SUCCESS, some tableMixed) ∧
      (tableMixed : msym_character_table_t ℝ).table 1 0 = -1 ∧
      ((tableMixed : msym_character_table_t ℝ).s 1).d = 1 := by
  refine ⟨by decide, by decide, generateCharacterTable_opsMixed Real.cos Real.pi none, ?_, ?_⟩
  · simp [tableMixed, msym_character_table_t.ofLists]
  · simp [tableMixed, msym_character_table_t.ofLists]

/-- C7 (amended): for a table returned with success from an operation list
whose first operation has class index 0 and in which the operations of class 0
are exactly the identity operations, column 0 equals the irrep dimension:
`table[i][0] = s[i].d` for every irrep `i`, parametric and predefined alike. -/
theorem generateCharacterTable_identity_column (cosf : K → K) (pi : K)
    (type : msym_point_group_type_t) (n : Int) (sops : List msym_symmetry_operation_t)
    (oct : Option (msym_character_table_t K)) (ct : msym_character_table_t K)
    (hhead : ∃ e rest, sops = e :: rest ∧ e.cla = 0)
    (hclass : ∀ sop ∈ sops, sop.cla = 0 ↔ sop.type = IDENTITY)
    (h : generateCharacterTable cosf pi type n sops oct = some (MSYM_SUCCESS, some ct)) :
    ∀ i, i < ct.d → ct.table i 0 = (((ct.s i).d : Int) : K) :=
  generateCharacterTable_column_zero cosf pi type n sops oct ct hhead hclass h

/-- Witness for C7 (amended): the predefined table of T. -/
theorem generateCharacterTable_identity_column_witness :
    (∃ e rest, opsT = e :: rest ∧ e.cla = 0) ∧
      (∀ sop ∈ opsT, sop.cla = 0 ↔ sop.type = IDENTITY) ∧
      generateCharacterTable Real.cos Real.pi POINT_GROUP_T 0 opsT none
        = some (MSYM_SUCCESS, some tableT) ∧
      ∀ i, i < (tableT : msym_character_table_t ℝ).d →
        (tableT : msym_character_table_t ℝ).table i 0
          = ((((tableT : msym_character_table_t ℝ).s i).d : Int) : ℝ) :=
  ⟨⟨_, _, rfl, rfl⟩, by decide, generateCharacterTable_opsT Real.cos Real.pi 0 none,
   generateCharacterTable_identity_column Real.cos Real.pi POINT_GROUP_T 0 opsT none tableT
     ⟨_, _, rfl, rfl⟩ (by decide) (generateCharacterTable_opsT Real.cos Real.pi 0 none)⟩

/-- C8: for every successful call, `classc[k]` is the number of input
operations with class index `k`, for each `k < d`, and the multiplicities sum
to the number of input operations. -/
theorem generateCharacterTable_classc_counts (cosf : K → K) (pi : K)
    (type : msym_point_group_type_t) (n : Int) (sops : List msym_symmetry_operation_t)
    (oct : Option (msym_character_table_t K)) (ct : msym_character_table_t K)
    (h : generateCharacterTable cosf pi type n sops oct = some (MSYM_SUCCESS, some ct)) :
    (∀ k, k < ct.d → ct.classc k = ((sops.countP (fun sop => sop.cla = k) : Nat) : Int))
      ∧ ∑ k in Finset.range ct.d, ct.classc k = (sops.length : Int) :=
  ⟨fun k _ => (generateCharacterTable_classc cosf pi type n sops oct ct h).1 k,
   (generateCharacterTable_classc cosf pi type n sops oct ct h).2⟩

/-- Witness for C8: the C3v table, multiplicities (1, 2, 3) of sum 6. -/
theorem generateCharacterTable_classc_counts_witness :
    generateCharacterTable Real.cos Real.pi POINT_GROUP_Cnv 3 opsC3v none
        = some (MSYM_SUCCESS, some tableC3v) ∧
      (∀ k, k < (tableC3v : msym_character_table_t ℝ).d →
        (tableC3v : msym_character_table_t ℝ).classc k
          = ((opsC3v.countP (fun sop => sop.cla = k) : Nat) : Int)) ∧
      ∑ k in Finset.range (tableC3v : msym_character_table_t ℝ).d,
          (tableC3v : msym_character_table_t ℝ).classc k = (opsC3v.length : Int) :=
  ⟨generateCharacterTable_opsC3v Real.cos Real.pi real_cos_two_pi_div_three none,
   generateCharacterTable_classc_counts Real.cos Real.pi POINT_GROUP_Cnv 3 opsC3v none tableC3v
     (generateCharacterTable_opsC3v Real.cos Real.pi real_cos_two_pi_div_three none)⟩

/-- C9 (counterexample): for Cnv, `n = 3` on the six operations of C3v the call
succeeds and the label of the third irrep is "E1", not "E". -/
theorem c3v_third_label :
    ∃ ct, generateCharacterTable Real.cos Real.pi POINT_GROUP_Cnv 3 opsC3v none
        = some (MSYM_SUCCESS, some ct) ∧
      (ct.s 2).name = "E1" ∧ (ct.s 2).name ≠ "E" := by
  refine ⟨tableC3v,
    generateCharacterTable_opsC3v Real.cos Real.pi real_cos_two_pi_div_three none, ?_, ?_⟩
  · simp [tableC3v, msym_character_table_t.ofLists]
  · simp [tableC3v, msym_character_table_t.ofLists]

/-- C9 (amended): for Cnv, `n = 3` on E (class 0), C3 and C3² about the
principal axis (horizontal, class 1) and three vertical reflections (class 2)
the call succeeds with class multiplicities (1, 2, 3); the irreps are labelled
A1, A2, E1 with dimensions 1, 1, 2 and rows (1,1,1), (1,1,-1), (2,-1,0). -/
theorem generateCharacterTable_C3v :
    generateCharacterTable Real.cos Real.pi POINT_GROUP_Cnv 3
        [ { type := IDENTITY, order := 1, power := 1, orientation := NONE, cla := 0 },
          { type := PROPER_ROTATION, order := 3, power := 1, orientation := HORIZONTAL, cla := 1 },
          { type := PROPER_ROTATION, order := 3, power := 2, orientation := HORIZONTAL, cla := 1 },
          { type := REFLECTION, order := 1, power := 1, orientation := VERTICAL, cla := 2 },
          { type := REFLECTION, order := 1, power := 1, orientation := VERTICAL, cla := 2 },
          { type := REFLECTION, order := 1, power := 1, orientation := VERTICAL, cla := 2 } ]
        none
      = some (MSYM_SUCCESS,
          some (msym_character_table_t.ofLists 3 [1, 2, 3] [some 0, some 1, some 3]
            [{ name := "A1", d := 1 }, { name := "A2", d := 1 }, { name := "E1", d := 2 }]
            [[1, 1, 1], [1, 1, -1], [2, -1, 0]])) :=
  generateCharacterTable_opsC3v Real.cos Real.pi real_cos_two_pi_div_three none

/-- C10 (counterexample): for Dnh, `n = 2` on the eight operations of D2h the
call succeeds and the labels are not Ag, B1g, B2g, B3g, Au, B1u, B2u, B3u. -/
theorem d2h_labels :
    ∃ ct, generateCharacterTable Real.cos Real.pi POINT_GROUP_Dnh 2 opsD2h none
        = some (MSYM_SUCCESS, some ct) ∧
      (List.range 8).map (fun i => (ct.s i).name)
        ≠ ["Ag", "B1g", "B2g", "B3g", "Au", "B1u", "B2u", "B3u"] := by
  refine ⟨tableD2h, generateCharacterTable_opsD2h Real.cos Real.pi none, ?_⟩
  decide

/-- C10 (amended): for Dnh, `n = 2` on the eight operations of D2h (E, the
principal C2, a vertical and a dihedral perpendicular C2, i, σh, a vertical
and a dihedral mirror; one operation per class) the call succeeds with eight
1-D irreps labelled A1g, A2g, A1u, A2u, B1g, B1u, B2g, B2u, and every
character of the table is +1 or -1. -/
theorem generateCharacterTable_D2h (cosf : K → K) (pi : K)
    (oct : Option (msym_character_table_t K)) :
    generateCharacterTable cosf pi POINT_GROUP_Dnh 2
        [ { type := IDENTITY, order := 1, power := 1, orientation := NONE, cla := 0 },
          { type := PROPER_ROTATION, order := 2, power := 1, orientation := HORIZONTAL, cla := 1 },
          { type := PROPER_ROTATION, order := 2, power := 1, orientation := VERTICAL, cla := 2 },
          { type := PROPER_ROTATION, order := 2, power := 1, orientation := DIHEDRAL, cla := 3 },
          { type := INVERSION, order := 1, power := 1, orientation := NONE, cla := 4 },
          { type := REFLECTION, order := 1, power := 1, orientation := HORIZONTAL, cla := 5 },
          { type := REFLECTION, order := 1, power := 1, orientation := VERTICAL, cla := 6 },
          { type := REFLECTION, order := 1, power := 1, orientation := DIHEDRAL, cla := 7 } ]
        oct
      = some (MSYM_SUCCESS, some tableD2h) ∧
    (List.range 8).map (fun i => ((tableD2h : msym_character_table_t K).s i).name)
      = ["A1g", "A2g", "A1u", "A2u", "B1g", "B1u", "B2g", "B2u"] ∧
    (List.range 8).map (fun i => ((tableD2h : msym_character_table_t K).s i).d)
      = [1, 1, 1, 1, 1, 1, 1, 1] ∧
    ∀ i k : Fin 8, (tableD2h : msym_character_table_t K).table i k = 1
      ∨ (tableD2h : msym_character_table_t K).table i k = -1 := by
  refine ⟨generateCharacterTable_opsD2h cosf pi oct, ?_, ?_, ?_⟩
  · simp [tableD2h, msym_character_table_t.ofLists, List.range_succ]
  · simp [tableD2h, msym_character_table_t.ofLists, List.range_succ]
  · intro i k
    fin_cases i <;> fin_cases k <;> simp [tableD2h, msym_character_table_t.ofLists]

/-- C11: for type Td and the 24-operation list `opsTd` (classes E, 8 C3, 3 C2,
6 S4, 6 reflections, no orientation) `generateCharacterTable` returns Success;
the table has five rows labelled A1, A2, E, T1, T2 with dimensions 1, 1, 2, 3,
3, and the class sizes add up to 24. -/
theorem generateCharacterTable_Td :
    opsTd.length = 24
    ∧ opsTd.map (fun sop => sop.cla)
        = [0] ++ List.replicate 8 1 ++ List.replicate 3 2 ++ List.replicate 6 3
            ++ List.replicate 6 4
    ∧ (∀ sop ∈ opsTd, sop.orientation = NONE)
    ∧ ∃ ct : msym_character_table_t ℝ,
      generateCharacterTable Real.cos Real.pi POINT_GROUP_Td 0 opsTd none
        = some (MSYM_SUCCESS, some ct)
      ∧ ct.d = 5
      ∧ (List.range ct.d).map (fun k => ((ct.s k).name, (ct.s k).d))
          = [("A1", 1), ("A2", 1), ("E", 2), ("T1", 3), ("T2", 3)]
      ∧ (∑ k in Finset.range ct.d, ct.classc k) = 24 := by
  refine ⟨rfl, rfl, by decide, tableTd, generateCharacterTable_opsTd _ _ _ _, rfl, ?_, ?_⟩
  · simp [tableTd, msym_character_table_t.ofLists, List.range_succ]
  · simp [tableTd, msym_character_table_t.ofLists, Finset.sum_range_succ]

/-- C12: in the table a successful `getCharacterTableIh` has bound, the ten
class descriptors being bound to ten different classes (the ten classes in the
predefined order), there are ten classes; the row Ag is 1 in every class; the
row Au is (1,1,-1,-1,1,-1,1,-1,1,-1) on the classes of E, C2, σ, S6, C5, S10,
C5², i, C3, S10³; and the T1u character on the class of C5 is `-C4PI`, which is
(1+√5)/2 to the precision of the type `double`: the literal, and the binary64
number `-C4PI_binary64` that it is rounded to, both differ from (1+√5)/2 by
less than 2⁻⁵³, half a unit in the last place. -/
theorem getCharacterTableIh_rows (sops : List msym_symmetry_operation_t)
    (ct ct1 : msym_character_table_t ℝ)
    (h : getCharacterTableIh sops ct = (MSYM_SUCCESS, ct1))
    (hd : (tsopsIh.map (boundClass sops)).Nodup) :
    ct1.d = 10
    ∧ ((ct1.s 0).name = "Ag" ∧ (ct1.s 1).name = "Au" ∧ (ct1.s 3).name = "T1u")
    ∧ (∀ c, c < 10 → ct1.table 0 c = 1)
    ∧ (∀ i : Fin 10, ∃ c, boundClass sops (tsopsIh.getD i (tsop IDENTITY 0 0)) = some c
        ∧ c < 10
        ∧ ct1.table 1 c = ([1, 1, -1, -1, 1, -1, 1, -1, 1, -1] : List ℝ).getD i 0)
    ∧ (∃ c, boundClass sops (tsop PROPER_ROTATION 5 1) = some c ∧ c < 10
        ∧ ct1.table 3 c = -C4PI
        ∧ |ct1.table 3 c - (1 + Real.sqrt 5) / 2| < 1 / 2 ^ 53)
    ∧ (|(C4PI_binary64 : ℝ) - C4PI| < 1 / 2 ^ 53
        ∧ |(-C4PI_binary64 : ℝ) - (1 + Real.sqrt 5) / 2| < 1 / 2 ^ 53) := by
  obtain ⟨h1, h2, h3, h4, c, hc, hcl, hv⟩ := getCharacterTableIh_bound_rows sops ct ct1 h hd
  exact ⟨h1, h2, h3, h4, ⟨c, hc, hcl, hv, by rw [hv]; exact neg_C4PI_near_golden_ulp⟩,
    C4PI_binary64_rounds.2.2, neg_C4PI_binary64_near_golden⟩

/-- Witness for C12: the Ih table bound to the ten operations `opsIh`. -/
theorem getCharacterTableIh_rows_witness :
    getCharacterTableIh opsIh (callocTable 10 : msym_character_table_t ℝ)
        = (MSYM_SUCCESS, (getCharacterTableIh opsIh (callocTable 10)).2)
    ∧ (tsopsIh.map (boundClass opsIh)).Nodup
    ∧ (getCharacterTableIh opsIh (callocTable 10 : msym_character_table_t ℝ)).2.d = 10
    ∧ (((getCharacterTableIh opsIh (callocTable 10 : msym_character_table_t ℝ)).2.s 0).name = "Ag"
      ∧ ((getCharacterTableIh opsIh (callocTable 10 : msym_character_table_t ℝ)).2.s 1).name = "Au"
      ∧ ((getCharacterTableIh opsIh (callocTable 10 : msym_character_table_t ℝ)).2.s 3).name
          = "T1u")
    ∧ (∀ c, c < 10 →
        (getCharacterTableIh opsIh (callocTable 10 : msym_character_table_t ℝ)).2.table 0 c = 1)
    ∧ (∀ i : Fin 10, ∃ c, boundClass opsIh (tsopsIh.getD i (tsop IDENTITY 0 0)) = some c
        ∧ c < 10
        ∧ (getCharacterTableIh opsIh (callocTable 10 : msym_character_table_t ℝ)).2.table 1 c
            = ([1, 1, -1, -1, 1, -1, 1, -1, 1, -1] : List ℝ).getD i 0)
    ∧ (∃ c, boundClass opsIh (tsop PROPER_ROTATION 5 1) = some c ∧ c < 10
        ∧ (getCharacterTableIh opsIh (callocTable 10 : msym_character_table_t ℝ)).2.table 3 c
            = -C4PI
        ∧ |(getCharacterTableIh opsIh (callocTable 10 : msym_character_table_t ℝ)).2.table 3 c
            - (1 + Real.sqrt 5) / 2| < 1 / 2 ^ 53)
    ∧ (|(C4PI_binary64 : ℝ) - C4PI| < 1 / 2 ^ 53
        ∧ |(-C4PI_binary64 : ℝ) - (1 + Real.sqrt 5) / 2| < 1 / 2 ^ 53) :=
  ⟨Prod.ext getCharacterTableIh_opsIh rfl, by rw [boundClass_opsIh]; decide,
    getCharacterTableIh_rows opsIh (callocTable 10) _
      (Prod.ext getCharacterTableIh_opsIh rfl) (by rw [boundClass_opsIh]; decide)⟩

/-- C13 (counterexample): for type Ci on the two operations E and i the call
returns InvalidCharacterTable, which is not PointGroupError. -/
theorem generateCharacterTable_Ci_code :
    generateCharacterTable Real.cos Real.pi POINT_GROUP_Ci 0 opsCi none
        = some (MSYM_INVALID_CHARACTER_TABLE, none)
      ∧ MSYM_INVALID_CHARACTER_TABLE ≠ MSYM_POINT_GROUP_ERROR :=
  ⟨generateCharacterTable_of_unknown_rep Real.cos Real.pi POINT_GROUP_Ci 0 opsCi none
    (by decide) rfl, by decide⟩

/-- C13 (amended): for the types Ci, Cs and Sn and every non-empty operation
list `generateCharacterTable` returns InvalidCharacterTable and leaves `*oct`
as it was; every group type has an entry in the dispatch table `fmap`, so the
branch of line 128 that returns PointGroupError is taken for none of them. -/
theorem generateCharacterTable_unknown_representations (cosf : K → K) (pi : K)
    (type : msym_point_group_type_t) (n : Int) (sops : List msym_symmetry_operation_t)
    (oct : Option (msym_character_table_t K))
    (htype : type = POINT_GROUP_Ci ∨ type = POINT_GROUP_Cs ∨ type = POINT_GROUP_Sn)
    (hne : sops ≠ []) :
    generateCharacterTable cosf pi type n sops oct = some (MSYM_INVALID_CHARACTER_TABLE, oct)
      ∧ ∀ t : msym_point_group_type_t,
          ((fmap : List (msym_point_group_type_t × fmap_f K)).find? (fun e => e.1 = t)).isSome
            = true := by
  refine ⟨?_, ?_⟩
  · rcases htype with rfl | rfl | rfl
    · exact generateCharacterTable_of_unknown_rep cosf pi _ n sops oct hne rfl
    · exact generateCharacterTable_of_unknown_rep cosf pi _ n sops oct hne rfl
    · exact generateCharacterTable_of_unknown_rep cosf pi _ n sops oct hne rfl
  · intro t
    obtain ⟨f, hf⟩ := fmap_find_isSome (K := K) t
    rw [hf]
    rfl

/-- Witness for C13: type Sn with `n = 2` on the operations E and i. -/
theorem generateCharacterTable_unknown_representations_witness :
    (POINT_GROUP_Sn = POINT_GROUP_Ci ∨ POINT_GROUP_Sn = POINT_GROUP_Cs
        ∨ POINT_GROUP_Sn = POINT_GROUP_Sn)
      ∧ opsCi ≠ []
      ∧ generateCharacterTable Real.cos Real.pi POINT_GROUP_Sn 2 opsCi none
          = some (MSYM_INVALID_CHARACTER_TABLE, none)
      ∧ ∀ t : msym_point_group_type_t,
          ((fmap : List (msym_point_group_type_t × fmap_f ℝ)).find? (fun e => e.1 = t)).isSome
            = true :=
  ⟨by decide, by decide,
    generateCharacterTable_unknown_representations Real.cos Real.pi POINT_GROUP_Sn 2 opsCi none
      (by decide) (by decide)⟩

/-- C14: for each of the types Th, O, Oh, K and Kh and every operation list
(with at least one operation: line 76 reads the last one)
`generateCharacterTable` returns InvalidCharacterTable and leaves `*oct` as it
was. -/
theorem generateCharacterTable_unknown_tables (cosf : K → K) (pi : K)
    (type : msym_point_group_type_t) (n : Int) (sops : List msym_symmetry_operation_t)
    (oct : Option (msym_character_table_t K))
    (htype : type = POINT_GROUP_Th ∨ type = POINT_GROUP_O ∨ type = POINT_GROUP_Oh
      ∨ type = POINT_GROUP_K ∨ type = POINT_GROUP_Kh)
    (hne : sops ≠ []) :
    generateCharacterTable cosf pi type n sops oct
      = some (MSYM_INVALID_CHARACTER_TABLE, oct) := by
  rcases htype with rfl | rfl | rfl | rfl | rfl
  · exact generateCharacterTable_of_unknown_tab cosf pi _ n sops oct hne rfl
  · exact generateCharacterTable_of_unknown_tab cosf pi _ n sops oct hne rfl
  · exact generateCharacterTable_of_unknown_tab cosf pi _ n sops oct hne rfl
  · exact generateCharacterTable_of_unknown_tab cosf pi _ n sops oct hne rfl
  · exact generateCharacterTable_of_unknown_tab cosf pi _ n sops oct hne rfl

/-- Witness for C14: type Oh on the 24 operations `opsTd`. -/
theorem generateCharacterTable_unknown_tables_witness :
    (POINT_GROUP_Oh = POINT_GROUP_Th ∨ POINT_GROUP_Oh = POINT_GROUP_O
        ∨ POINT_GROUP_Oh = POINT_GROUP_Oh ∨ POINT_GROUP_Oh = POINT_GROUP_K
        ∨ POINT_GROUP_Oh = POINT_GROUP_Kh)
      ∧ opsTd ≠ []
      ∧ generateCharacterTable Real.cos Real.pi POINT_GROUP_Oh 0 opsTd none
          = some (MSYM_INVALID_CHARACTER_TABLE, none) :=
  ⟨by decide, by decide,
    generateCharacterTable_unknown_tables Real.cos Real.pi POINT_GROUP_Oh 0 opsTd none
      (by decide) (by decide)⟩

/-- C15: a call of `generateCharacterTable` that returns an error code leaves
`*oct` as it was; a call that returns Success has stored in `*oct` a table on
which `verifyCharacterTable` returned Success. -/
theorem generateCharacterTable_output_slot (cosf : K → K) (pi : K)
    (type : msym_point_group_type_t) (n : Int) (sops : List msym_symmetry_operation_t)
    (oct o : Option (msym_character_table_t K)) (ret : msym_error_t)
    (h : generateCharacterTable cosf pi type n sops oct = some (ret, o)) :
    (ret ≠ MSYM_SUCCESS → o = oct)
      ∧ (ret = MSYM_SUCCESS →
          ∃ ct, o = some ct ∧ verifyCharacterTable ct = MSYM_SUCCESS) := by
  rcases generateCharacterTable_outcome cosf pi type n sops oct o ret h with h1 | h1
  · exact ⟨fun hne => absurd h1.1 hne, fun _ => h1.2⟩
  · exact ⟨fun _ => h1.2, fun he => absurd he h1.1⟩

/-- Witness for C15: the Th call on `opsTd` with the T table in the slot returns
InvalidCharacterTable and the slot still holds the T table. -/
theorem generateCharacterTable_output_slot_witness :
    generateCharacterTable Real.cos Real.pi POINT_GROUP_Th 0 opsTd (some tableT)
        = some (MSYM_INVALID_CHARACTER_TABLE, some tableT)
      ∧ (MSYM_INVALID_CHARACTER_TABLE ≠ MSYM_SUCCESS →
          some (tableT : msym_character_table_t ℝ) = some tableT)
      ∧ (MSYM_INVALID_CHARACTER_TABLE = MSYM_SUCCESS →
          ∃ ct : msym_character_table_t ℝ,
            some tableT = some ct ∧ verifyCharacterTable ct = MSYM_SUCCESS) :=
  ⟨generateCharacterTable_of_unknown_tab Real.cos Real.pi POINT_GROUP_Th 0 opsTd (some tableT)
      (by decide) rfl,
    generateCharacterTable_output_slot Real.cos Real.pi POINT_GROUP_Th 0 opsTd (some tableT)
      (some tableT) MSYM_INVALID_CHARACTER_TABLE
      (generateCharacterTable_of_unknown_tab Real.cos Real.pi POINT_GROUP_Th 0 opsTd
        (some tableT) (by decide) rfl)⟩

/-- C16: after a successful `symmetrizeMolecule` on the general path, every
equivalence set `i` is no larger than the group order, keeps its length, and
its atom `k` is at (1/|G|) times the sum, over all pairs of an operation `j`
and an atom `k'` of the set with `perm[i][j].p[k'] = k`, of operation `j`
applied to the original position of atom `k'`. -/
theorem symmetrizeMolecule_positions
    (applySymmetryOperation : msym_symmetry_operation_t → (Fin 3 → K) → (Fin 3 → K) → Fin 3 → K)
    (vproj : (Fin 3 → K) → (Fin 3 → K) → Fin 3 → K)
    (sqrtf : K → K) (pg : msym_point_group_t K) (esl : Nat)
    (es : Nat → msym_equivalence_set_t K) (perm : Nat → Nat → msym_permutation_t)
    (thresholds : msym_thresholds_t K) (err : Option K)
    (es1 : Nat → msym_equivalence_set_t K) (err1 : Option K)
    (hgen : ¬ ((pg.type = POINT_GROUP_Cnv ∨ pg.type = POINT_GROUP_Dnh) ∧ pg.n = 0))
    (h : symmetrizeMolecule applySymmetryOperation vproj sqrtf pg esl es perm thresholds err
      = some (MSYM_SUCCESS, es1, err1))
    (i : Nat) (hi : i < esl) :
    (es i).length ≤ pg.order ∧ (es1 i).length = (es i).length
      ∧ ∀ k, k < (es i).length →
        (es1 i).elements k
          = (1 / (pg.order : K)) •
              ∑ j in Finset.range pg.order, ∑ k' in Finset.range (es i).length,
                if ((perm i) j).p k' = k then
                  applySymmetryOperation (pg.sops j) (pg.axis j) ((es i).elements k')
                else 0 := by
  rw [symmetrizeMolecule_general _ _ _ _ _ _ _ _ _ hgen] at h
  obtain ⟨hlen, hset⟩ := (symmetrizeMoleculeProject_sets _ _ _ _ _ _ _ _ _ _ h).1 i hi
  refine ⟨hlen, by rw [hset]; rfl, ?_⟩
  intro k hk
  rw [hset]
  simp only [symmetrizedSet, if_pos hk, vscale, orbitSum]

/-- Witness for C16: the pair of atoms of the C2 example. -/
theorem symmetrizeMolecule_positions_witness :
    ∃ (es1 : Nat → msym_equivalence_set_t ℝ) (err1 : Option ℝ),
      symmetrizeMolecule applyC2 (fun x _ => x) Real.sqrt pgC2 2 esC2 permC2 thresholdsC2 none
        = some (MSYM_SUCCESS, es1, err1)
      ∧ (esC2 0 : msym_equivalence_set_t ℝ).length ≤ (pgC2 : msym_point_group_t ℝ).order
      ∧ (es1 0).length = (esC2 0 : msym_equivalence_set_t ℝ).length
      ∧ ∀ k, k < (esC2 0 : msym_equivalence_set_t ℝ).length →
        (es1 0).elements k
          = (1 / ((pgC2 : msym_point_group_t ℝ).order : ℝ)) •
              ∑ j in Finset.range (pgC2 : msym_point_group_t ℝ).order,
                ∑ k' in Finset.range (esC2 0 : msym_equivalence_set_t ℝ).length,
                  if ((permC2 0) j).p k' = k then
                    applyC2 ((pgC2 : msym_point_group_t ℝ).sops j)
                      ((pgC2 : msym_point_group_t ℝ).axis j)
                      ((esC2 0 : msym_equivalence_set_t ℝ).elements k')
                  else 0 := by
  obtain ⟨es1, err1, h⟩ := symmetrizeMoleculeProject_C2 Real.sqrt (none : Option ℝ)
  rw [← symmetrizeMolecule_general applyC2 (fun x _ => x) Real.sqrt pgC2 2 esC2 permC2
    thresholdsC2 none pgC2_general] at h
  exact ⟨es1, err1, h,
    symmetrizeMolecule_positions applyC2 (fun x _ => x) Real.sqrt pgC2 2 esC2 permC2
      thresholdsC2 none es1 err1 pgC2_general h 0 (by norm_num)⟩

/-- C17: the error a successful `symmetrizeMolecule` stores, none of the terms
dividing by zero, is not negative and is `sqrt(max(e, 0))`, where with
`setNorm` for ol, `orbitNorm` for sl, `setError` for (ol - sl)/ol and
`setSkipped` for the sets of a single element with ol at most
`thresholds->zero`: on the general path `e` is the sum of the terms of the sets
that are not skipped; on the linear path `e` is the greatest of 0 and these
terms, the operations being applied to the projections on the axis of the
first proper rotation of order 0. -/
theorem symmetrizeMolecule_error_metric
    (applySymmetryOperation : msym_symmetry_operation_t → (Fin 3 → K) → (Fin 3 → K) → Fin 3 → K)
    (vproj : (Fin 3 → K) → (Fin 3 → K) → Fin 3 → K)
    (sqrtf : K → K) (pg : msym_point_group_t K) (esl : Nat)
    (es : Nat → msym_equivalence_set_t K) (perm : Nat → Nat → msym_permutation_t)
    (thresholds : msym_thresholds_t K) (err : Option K)
    (es1 : Nat → msym_equivalence_set_t K) (err1 : Option K)
    (hsqrt : ∀ x, 0 ≤ sqrtf x)
    (h : symmetrizeMolecule applySymmetryOperation vproj sqrtf pg esl es perm thresholds err
      = some (MSYM_SUCCESS, es1, err1))
    (hol : ∀ i, i < esl → setSkipped thresholds (es i) = false → setNorm (es i) ≠ 0) :
    ∃ e errv, err1 = some errv ∧ 0 ≤ errv ∧ errv = sqrtf (max e 0)
      ∧ (¬ ((pg.type = POINT_GROUP_Cnv ∨ pg.type = POINT_GROUP_Dnh) ∧ pg.n = 0) →
          e = ∑ i in Finset.range esl,
                if setSkipped thresholds (es i) then 0
                else setError applySymmetryOperation pg (perm i) (fun x => x) (es i))
      ∧ ((pg.type = POINT_GROUP_Cnv ∨ pg.type = POINT_GROUP_Dnh) ∧ pg.n = 0 →
          ∃ cinf,
            (List.range pg.order).find?
                (fun i => (pg.sops i).type = PROPER_ROTATION && (pg.sops i).order = 0)
              = some cinf
            ∧ IsGreatest ({0} ∪ {t | ∃ i, i < esl ∧ setSkipped thresholds (es i) = false
                ∧ t = setError applySymmetryOperation pg (perm i)
                        (fun x => vproj x (pg.axis cinf)) (es i)}) e) := by
  by_cases hlin : (pg.type = POINT_GROUP_Cnv ∨ pg.type = POINT_GROUP_Dnh) ∧ pg.n = 0
  · rw [symmetrizeMolecule_linear _ _ _ _ _ _ _ _ _ hlin] at h
    obtain ⟨cinf, e, hfind, hgreat, herr⟩ :=
      symmetrizeMoleculeLinear_error _ _ _ _ _ _ _ _ _ _ _ h hol
    have he : 0 ≤ e := hgreat.2 (Or.inl rfl)
    exact ⟨e, sqrtf e, herr, hsqrt e, by rw [max_eq_left he],
      fun hn => absurd hlin hn, fun _ => ⟨cinf, hfind, hgreat⟩⟩
  · rw [symmetrizeMolecule_general _ _ _ _ _ _ _ _ _ hlin] at h
    have herr := symmetrizeMoleculeProject_error _ _ _ _ _ _ _ _ _ _ h hol
    exact ⟨_, _, herr, hsqrt _, rfl, fun _ => rfl, fun hl => absurd hl hlin⟩

/-- Witness for C17: the linear example, a single atom near the axis of C∞. -/
theorem symmetrizeMolecule_error_metric_witness :
    ∃ (es1 : Nat → msym_equivalence_set_t ℝ) (err1 : Option ℝ),
      symmetrizeMolecule (fun _ _ x => x) vprojZ Real.sqrt pgCinfv 1 esLinear permId
          thresholdsC2 none = some (MSYM_SUCCESS, es1, err1)
      ∧ (∀ i, i < 1 → setSkipped thresholdsC2 (esLinear i : msym_equivalence_set_t ℝ) = false →
          setNorm (esLinear i : msym_equivalence_set_t ℝ) ≠ 0)
      ∧ ∃ e errv, err1 = some errv ∧ 0 ≤ errv ∧ errv = Real.sqrt (max e 0)
        ∧ (¬ (((pgCinfv : msym_point_group_t ℝ).type = POINT_GROUP_Cnv
              ∨ (pgCinfv : msym_point_group_t ℝ).type = POINT_GROUP_Dnh)
            ∧ (pgCinfv : msym_point_group_t ℝ).n = 0) →
            e = ∑ i in Finset.range 1,
                  if setSkipped thresholdsC2 (esLinear i : msym_equivalence_set_t ℝ) then 0
                  else setError (fun _ _ x => x) pgCinfv (permId i) (fun x => x) (esLinear i))
        ∧ (((pgCinfv : msym_point_group_t ℝ).type = POINT_GROUP_Cnv
              ∨ (pgCinfv : msym_point_group_t ℝ).type = POINT_GROUP_Dnh)
            ∧ (pgCinfv : msym_point_group_t ℝ).n = 0 →
            ∃ cinf,
              (List.range (pgCinfv : msym_point_group_t ℝ).order).find?
                  (fun i => ((pgCinfv : msym_point_group_t ℝ).sops i).type = PROPER_ROTATION
                    && ((pgCinfv : msym_point_group_t ℝ).sops i).order = 0)
                = some cinf
              ∧ IsGreatest ({0} ∪ {t | ∃ i, i < 1
                  ∧ setSkipped thresholdsC2 (esLinear i : msym_equivalence_set_t ℝ) = false
                  ∧ t = setError (fun _ _ x => x) pgCinfv (permId i)
                          (fun x => vprojZ x ((pgCinfv : msym_point_group_t ℝ).axis cinf))
                          (esLinear i)}) e) := by
  obtain ⟨es1, err1, h⟩ := symmetrizeMoleculeLinear_Cinf Real.sqrt (none : Option ℝ)
  rw [← symmetrizeMolecule_linear (fun _ _ x => x) vprojZ Real.sqrt pgCinfv 1 esLinear permId
    thresholdsC2 none pgCinfv_linear] at h
  have hol : ∀ i, i < 1 →
      setSkipped thresholdsC2 (esLinear i : msym_equivalence_set_t ℝ) = false →
      setNorm (esLinear i : msym_equivalence_set_t ℝ) ≠ 0 := by
    intro i _ _
    simp [setNorm, esLinear, vdot]
    norm_num
  exact ⟨es1, err1, h, hol,
    symmetrizeMolecule_error_metric (fun _ _ x => x) vprojZ Real.sqrt pgCinfv 1 esLinear permId
      thresholdsC2 none es1 err1 Real.sqrt_nonneg h hol⟩

/-- C18: when the indices of the permutations stay inside their sets,
`symmetrizeMolecule` returns; it returns SymmetrizationError exactly when some
equivalence set has more elements than the group order, or the linear path is
taken (type Cnv or Dnh with `n = 0`) and no operation is a proper rotation of
order 0; in every other case it returns Success. -/
theorem symmetrizeMolecule_return_code
    (applySymmetryOperation : msym_symmetry_operation_t → (Fin 3 → K) → (Fin 3 → K) → Fin 3 → K)
    (vproj : (Fin 3 → K) → (Fin 3 → K) → Fin 3 → K)
    (sqrtf : K → K) (pg : msym_point_group_t K) (esl : Nat)
    (es : Nat → msym_equivalence_set_t K) (perm : Nat → Nat → msym_permutation_t)
    (thresholds : msym_thresholds_t K) (err : Option K)
    (hperm : ∀ i, i < esl → ∀ j, j < pg.order → ∀ k, k < (es i).length →
      ((perm i) j).p k < (es i).length) :
    ∃ ret es1 err1,
      symmetrizeMolecule applySymmetryOperation vproj sqrtf pg esl es perm thresholds err
        = some (ret, es1, err1)
      ∧ (ret = MSYM_SYMMETRIZATION_ERROR ↔
          ((∃ i, i < esl ∧ (es i).length > pg.order)
            ∨ (((pg.type = POINT_GROUP_Cnv ∨ pg.type = POINT_GROUP_Dnh) ∧ pg.n = 0)
              ∧ ∀ j, j < pg.order →
                  ¬ ((pg.sops j).type = PROPER_ROTATION ∧ (pg.sops j).order = 0))))
      ∧ (ret = MSYM_SUCCESS ↔
          ¬ ((∃ i, i < esl ∧ (es i).length > pg.order)
            ∨ (((pg.type = POINT_GROUP_Cnv ∨ pg.type = POINT_GROUP_Dnh) ∧ pg.n = 0)
              ∧ ∀ j, j < pg.order →
                  ¬ ((pg.sops j).type = PROPER_ROTATION ∧ (pg.sops j).order = 0)))) :=
  symmetrizeMolecule_defined applySymmetryOperation vproj sqrtf pg esl es perm thresholds err
    hperm

/-- Witness for C18: the linear group `pgC0v` without an operation C∞ on the
sets of the C2 example. -/
theorem symmetrizeMolecule_return_code_witness :
    (∀ i, i < 2 → ∀ j, j < (pgC0v : msym_point_group_t ℝ).order →
        ∀ k, k < (esC2 i : msym_equivalence_set_t ℝ).length →
          ((permC2 i) j).p k < (esC2 i : msym_equivalence_set_t ℝ).length)
    ∧ ∃ ret es1 err1,
      symmetrizeMolecule applyC2 vprojZ Real.sqrt pgC0v 2 esC2 permC2 thresholdsC2 none
        = some (ret, es1, err1)
      ∧ (ret = MSYM_SYMMETRIZATION_ERROR ↔
          ((∃ i, i < 2 ∧ (esC2 i : msym_equivalence_set_t ℝ).length
                > (pgC0v : msym_point_group_t ℝ).order)
            ∨ ((((pgC0v : msym_point_group_t ℝ).type = POINT_GROUP_Cnv
                  ∨ (pgC0v : msym_point_group_t ℝ).type = POINT_GROUP_Dnh)
                ∧ (pgC0v : msym_point_group_t ℝ).n = 0)
              ∧ ∀ j, j < (pgC0v : msym_point_group_t ℝ).order →
                  ¬ (((pgC0v : msym_point_group_t ℝ).sops j).type = PROPER_ROTATION
                    ∧ ((pgC0v : msym_point_group_t ℝ).sops j).order = 0))))
      ∧ (ret = MSYM_SUCCESS ↔
          ¬ ((∃ i, i < 2 ∧ (esC2 i : msym_equivalence_set_t ℝ).length
                > (pgC0v : msym_point_group_t ℝ).order)
            ∨ ((((pgC0v : msym_point_group_t ℝ).type = POINT_GROUP_Cnv
                  ∨ (pgC0v : msym_point_group_t ℝ).type = POINT_GROUP_Dnh)
                ∧ (pgC0v : msym_point_group_t ℝ).n = 0)
              ∧ ∀ j, j < (pgC0v : msym_point_group_t ℝ).order →
                  ¬ (((pgC0v : msym_point_group_t ℝ).sops j).type = PROPER_ROTATION
                    ∧ ((pgC0v : msym_point_group_t ℝ).sops j).order = 0)))) :=
  ⟨fun i hi j hj k hk => permC2_lt i hi j hj k hk,
    symmetrizeMolecule_return_code applyC2 vprojZ Real.sqrt pgC0v 2 esC2 permC2 thresholdsC2
      none (fun i hi j hj k hk => permC2_lt i hi j hj k hk)⟩

/-- C20: when the component analysis of `symmetrizeWavefunctions` has run and
`ispan[k]` differs from `span[k]` times the dimension of irrep `k` for some
irrep `k` of the table, the call returns SymmetrizationError and `symwf` is
left zeroed, whatever the routines of the partner search and of the
reconstruction are; `ispan[k]` is the number of wave functions assigned to
irrep `k`. -/
theorem symmetrizeWavefunctions_span_error
    (vlproj : Nat → (Nat → K) → (Nat → K) → Nat → K)
    (vlsumsqr : Nat → (Nat → K) → K) (vlsub : Nat → (Nat → K) → (Nat → K) → Nat → K)
    (vlabs : Nat → (Nat → K) → K) (vladd : Nat → (Nat → K) → (Nat → K) → Nat → K)
    (sqrtf : K → K) (dblMax : K) (pg : msym_point_group_t K) (ssl : Nat)
    (ss : Nat → msym_subspace_t K) (span : Nat → Int) (basisl : Nat) (wf : Nat → Nat → K)
    (c : wf_components K)
    (hca : componentAnalysis vlproj vlsumsqr sqrtf pg.ct ssl ss basisl wf = some c)
    (k : Nat) (hk : k < pg.ct.d) (hne : c.ispan k ≠ span k * (pg.ct.s k).d) :
    (∀ k1, c.ispan k1
        = (((List.range basisl).countP (fun o => c.icomp o = k1) : Nat) : Int))
      ∧ symmetrizeWavefunctions vlproj vlsumsqr vlsub vlabs vladd sqrtf dblMax pg ssl ss span
          basisl wf
        = some (MSYM_SYMMETRIZATION_ERROR, fun _ _ => 0) :=
  ⟨(componentAnalysis_ispan vlproj vlsumsqr sqrtf pg.ct ssl ss basisl wf c hca).1,
    symmetrizeWavefunctions_of_spanMismatch vlproj vlsumsqr vlsub vlabs vladd sqrtf dblMax pg
      ssl ss span basisl wf c hca k hk hne⟩

/-- Witness for C20: one wave function in the single irrep A, with no function
expected there (`span[0] = 0`). -/
theorem symmetrizeWavefunctions_span_error_witness :
    ∃ c : wf_components ℝ,
      componentAnalysis vlprojEx vlsumsqrEx Real.sqrt (pgA : msym_point_group_t ℝ).ct 1
          (fun _ => { salcl := 1, salc := fun _ => salcA }) 1 (fun _ _ => 1) = some c
      ∧ c.ispan 0 ≠ (0 : Int) * ((pgA : msym_point_group_t ℝ).ct.s 0).d
      ∧ (∀ k1, c.ispan k1
          = (((List.range 1).countP (fun o => c.icomp o = k1) : Nat) : Int))
      ∧ symmetrizeWavefunctions vlprojEx vlsumsqrEx (fun _ a b i => a i - b i) vlsumsqrEx
          (fun _ a b i => a i + b i) Real.sqrt (10 ^ 308) pgA 1
          (fun _ => { salcl := 1, salc := fun _ => salcA }) (fun _ => 0) 1 (fun _ _ => 1)
        = some (MSYM_SYMMETRIZATION_ERROR, fun _ _ => 0) := by
  obtain ⟨c, hca, hc⟩ := componentAnalysis_pgA (K := ℝ) Real.sqrt
  have hne : c.ispan 0 ≠ (0 : Int) * ((pgA : msym_point_group_t ℝ).ct.s 0).d := by
    rw [hc]
    simp
  exact ⟨c, hca, hne,
    symmetrizeWavefunctions_span_error vlprojEx vlsumsqrEx (fun _ a b i => a i - b i)
      vlsumsqrEx (fun _ a b i => a i + b i) Real.sqrt (10 ^ 308) pgA 1
      (fun _ => { salcl := 1, salc := fun _ => salcA }) (fun _ => 0) 1 (fun _ _ => 1) c hca 0
      (by simp [pgA]) hne⟩

/-- C21: for every length `l` and vectors `irrep1`, `irrep2`, `directProduct`
writes `pspan[i] = irrep1[i]·irrep2[i]` for every `i < l`, and the calls
`directProduct(a, b)` and `directProduct(b, a)` leave the same vector in
`pspan`. -/
theorem directProduct_pointwise (l : Nat) (irrep1 irrep2 pspan : Nat → K) :
    (∀ i, i < l → directProduct l irrep1 irrep2 pspan i = irrep1 i * irrep2 i)
      ∧ directProduct l irrep1 irrep2 pspan = directProduct l irrep2 irrep1 pspan := by
  refine ⟨?_, ?_⟩
  · intro i hi
    rw [directProduct_apply, if_pos hi]
  · funext i
    rw [directProduct_apply, directProduct_apply, mul_comm]

/-- C22 (counterexample): for `n = 3` the schedule of C_n has ⌊3/2⌋+1 = 2
descriptors; called with `rl = 5`, `getRepresentationsCn` returns Success and
has written A and four E rows, the last with angular index 4. -/
theorem getRepresentationsCn_oversized :
    (3 : Int) / 2 + 1 ≠ 5 ∧
      ∃ rep, getRepresentationsCn 3 5 (fun _ => zeroRep) = some (MSYM_SUCCESS, rep)
        ∧ rep 0 = mkRep IRREDUCIBLE 1 1 1 1 1 1 ∧ rep 4 = mkRep REDUCIBLE 2 1 1 1 1 4 :=
  ⟨by decide, _, getRepresentationsCn_odd 3 5 _ (by decide) (by decide), by simp,
    by simp [mkRep]⟩

/-- C22 (amended): none of the six generators tests `rl`, and none returns
InvalidCharacterTable.  Each returns Success exactly when all its stores fall
inside `rep[rl]`: for C_n when `rl ≥ 1` (n odd) or `rl ≥ 2` (n even); for
C_nv and D_n when `rl ≥ 2` (n odd) or `rl ≥ 4` (n even); for C_nh when `rl` is
even and `rl ≥ 2` (n odd) or `rl ≥ 4` (n even); for D_nh when `rl` is even and
`rl ≥ 4` (n odd) or `rl ≥ 8` (n even); for D_nd when `rl ≥ 4` and `n` or `rl`
is even.  For every other `rl` a store falls outside `rep[rl]` and the call
has no defined result. -/
theorem getRepresentations_return_codes (n : Int) (rl : Nat)
    (rep : Nat → msym_representation_t) :
    ((getRepresentationsCn n rl rep).map Prod.fst
        = if (if n % 2 = 0 then 2 else 1) ≤ rl then some MSYM_SUCCESS else none)
    ∧ ((getRepresentationsCnv n rl rep).map Prod.fst
        = if (if n % 2 = 0 then 4 else 2) ≤ rl then some MSYM_SUCCESS else none)
    ∧ ((getRepresentationsDn n rl rep).map Prod.fst
        = if (if n % 2 = 0 then 4 else 2) ≤ rl then some MSYM_SUCCESS else none)
    ∧ ((getRepresentationsCnh n rl rep).map Prod.fst
        = if (if n % 2 = 0 then 4 else 2) ≤ rl ∧ rl % 2 = 0 then some MSYM_SUCCESS else none)
    ∧ ((getRepresentationsDnh n rl rep).map Prod.fst
        = if (if n % 2 = 0 then 8 else 4) ≤ rl ∧ rl % 2 = 0 then some MSYM_SUCCESS else none)
    ∧ ((getRepresentationsDnd n rl rep).map Prod.fst
        = if 4 ≤ rl ∧ (n % 2 = 0 ∨ rl % 2 = 0) then some MSYM_SUCCESS else none) :=
  ⟨getRepresentationsCn_code n rl rep, getRepresentationsCnv_code n rl rep,
    getRepresentationsDn_code n rl rep, getRepresentationsCnh_code n rl rep,
    getRepresentationsDnh_code n rl rep, getRepresentationsDnd_code n rl rep⟩

/-- C23: for a group type served by a representation generator, an operation
list whose class indices are non-decreasing and cover `0..d-1`, and a
successful call of `generateCharacterTable`, every class `c < d` has a first
operation in the list; that operation is the representative recorded in
`sops[c]`, and for every irrep `i < d` the stored character `table[i][c]` is
the value `representationCharacter` returns (with Success) for that operation
and the descriptor `rep[i]` the generator emitted. -/
theorem generateCharacterTable_characters (cosf : K → K) (pi : K)
    (type : msym_point_group_type_t) (n : Int) (sops : List msym_symmetry_operation_t)
    (oct : Option (msym_character_table_t K)) (ct : msym_character_table_t K)
    (fr : Int → Nat → (Nat → msym_representation_t) →
      Option (msym_error_t × (Nat → msym_representation_t)))
    (hfr : (fmap : List (msym_point_group_type_t × fmap_f K)).find? (fun e => e.1 = type)
      = some (type, fmap_f.fr fr))
    (hsorted : sops.Pairwise (fun a b => a.cla ≤ b.cla))
    (hcover : ∀ c, c < ct.d → ∃ sop ∈ sops, sop.cla = c)
    (h : generateCharacterTable cosf pi type n sops oct = some (MSYM_SUCCESS, some ct)) :
    ∃ rep, fr n ct.d (fun _ => zeroRep) = some (MSYM_SUCCESS, rep) ∧
      ∀ c, c < ct.d → ∃ j sop, firstOfClass sops c = some j ∧ sops[j]? = some sop ∧
        sop.cla = c ∧ ct.sops c = some j ∧
        ∀ i, i < ct.d →
          representationCharacter cosf pi n sop (rep i) 0 = some (MSYM_SUCCESS, ct.table i c) :=
  generateCharacterTable_first_of_class cosf pi type n sops oct ct fr hfr hsorted hcover h

/-- Witness for C23: the C3v table on the six operations `opsC3v`. -/
theorem generateCharacterTable_characters_witness :
    (fmap : List (msym_point_group_type_t × fmap_f ℝ)).find? (fun e => e.1 = POINT_GROUP_Cnv)
        = some (POINT_GROUP_Cnv, fmap_f.fr getRepresentationsCnv) ∧
      opsC3v.Pairwise (fun a b => a.cla ≤ b.cla) ∧
      (∀ c, c < (tableC3v : msym_character_table_t ℝ).d → ∃ sop ∈ opsC3v, sop.cla = c) ∧
      generateCharacterTable Real.cos Real.pi POINT_GROUP_Cnv 3 opsC3v none
        = some (MSYM_SUCCESS, some tableC3v) ∧
      ∃ rep, getRepresentationsCnv 3 (tableC3v : msym_character_table_t ℝ).d (fun _ => zeroRep)
          = some (MSYM_SUCCESS, rep) ∧
        ∀ c, c < (tableC3v : msym_character_table_t ℝ).d →
          ∃ j sop, firstOfClass opsC3v c = some j ∧ opsC3v[j]? = some sop ∧
            sop.cla = c ∧ (tableC3v : msym_character_table_t ℝ).sops c = some j ∧
            ∀ i, i < (tableC3v : msym_character_table_t ℝ).d →
              representationCharacter Real.cos Real.pi 3 sop (rep i) 0
                = some (MSYM_SUCCESS, (tableC3v : msym_character_table_t ℝ).table i c) := by
  have hsorted : opsC3v.Pairwise (fun a b => a.cla ≤ b.cla) := by decide
  have hcover : ∀ c, c < (tableC3v : msym_character_table_t ℝ).d →
      ∃ sop ∈ opsC3v, sop.cla = c := by
    intro c hc
    have hc3 : c < 3 := hc
    interval_cases c <;> simp [opsC3v]
  exact ⟨rfl, hsorted, hcover,
    generateCharacterTable_opsC3v Real.cos Real.pi real_cos_two_pi_div_three none,
    generateCharacterTable_characters Real.cos Real.pi POINT_GROUP_Cnv 3 opsC3v none tableC3v
      getRepresentationsCnv rfl hsorted hcover
      (generateCharacterTable_opsC3v Real.cos Real.pi real_cos_two_pi_div_three none)⟩

/-- C24: for a descriptor of dimension 1 with signs (p, v, h, i), every `n`
and every operation of nonzero order, with `q = n / order` (the C integer
division), `representationCharacter` succeeds with: in horizontal orientation
1 for the identity, h for a reflection, i for the inversion, p if `q` is odd
else 1 for a proper rotation and h times that value for an improper rotation;
in vertical orientation 1, v·h, i and v for identity, reflection, inversion
and proper rotation; in dihedral orientation 1, p·v·h, i and p·v; and in
vertical or dihedral orientation it returns InvalidCharacterTable for an
improper rotation, leaving `*c` as it was. -/
theorem representationCharacter_one_dimensional (cosf : K → K) (pi : K) (n : Int)
    (sop : msym_symmetry_operation_t) (rep : msym_representation_t) (c : K)
    (hd : rep.d = 1) (ho : sop.order ≠ 0) :
    (sop.orientation = HORIZONTAL →
      representationCharacter cosf pi n sop rep c =
        match sop.type with
        | IDENTITY => some (MSYM_SUCCESS, 1)
        | REFLECTION => some (MSYM_SUCCESS, (rep.eig.h : K))
        | INVERSION => some (MSYM_SUCCESS, (rep.eig.i : K))
        | PROPER_ROTATION =>
          some (MSYM_SUCCESS, if Odd (Int.tdiv n sop.order) then (rep.eig.p : K) else 1)
        | IMPROPER_ROTATION =>
          some (MSYM_SUCCESS,
            (rep.eig.h : K) * (if Odd (Int.tdiv n sop.order) then (rep.eig.p : K) else 1)))
    ∧ (sop.orientation = VERTICAL →
      representationCharacter cosf pi n sop rep c =
        match sop.type with
        | IDENTITY => some (MSYM_SUCCESS, 1)
        | REFLECTION => some (MSYM_SUCCESS, (rep.eig.v : K) * (rep.eig.h : K))
        | INVERSION => some (MSYM_SUCCESS, (rep.eig.i : K))
        | PROPER_ROTATION => some (MSYM_SUCCESS, (rep.eig.v : K))
        | IMPROPER_ROTATION => some (MSYM_INVALID_CHARACTER_TABLE, c))
    ∧ (sop.orientation = DIHEDRAL →
      representationCharacter cosf pi n sop rep c =
        match sop.type with
        | IDENTITY => some (MSYM_SUCCESS, 1)
        | REFLECTION =>
          some (MSYM_SUCCESS, (rep.eig.p : K) * (rep.eig.v : K) * (rep.eig.h : K))
        | INVERSION => some (MSYM_SUCCESS, (rep.eig.i : K))
        | PROPER_ROTATION => some (MSYM_SUCCESS, (rep.eig.p : K) * (rep.eig.v : K))
        | IMPROPER_ROTATION => some (MSYM_INVALID_CHARACTER_TABLE, c)) := by
  refine ⟨?_, ?_, ?_⟩
  · intro hor
    unfold representationCharacter
    simp only [hor, hd, if_true, intQuot, if_neg ho, Option.map_some']
    cases sop.type <;> simp only [oddSelect_cast, Int.cast_mul]
  · intro hor
    unfold representationCharacter
    have hne : ¬ (VERTICAL = HORIZONTAL) := by decide
    simp only [hor, hd, if_true, if_neg hne]
    cases sop.type <;> simp only [Int.cast_mul]
  · intro hor
    unfold representationCharacter
    have hne : ¬ (DIHEDRAL = HORIZONTAL) := by decide
    have hne2 : ¬ (DIHEDRAL = VERTICAL) := by decide
    simp only [hor, hd, if_true, if_neg hne, if_neg hne2]
    cases sop.type <;> simp only [Int.cast_mul]

/-- Witness for C24: the B row of a group with `n = 2` on a horizontal C2
(order 2, so `q = 1`) has the character p = -1. -/
theorem representationCharacter_one_dimensional_witness :
    (mkRep IRREDUCIBLE 1 (-1) 1 1 1 1).d = 1 ∧ ((2 : Int) ≠ 0) ∧
      representationCharacter Real.cos Real.pi 2
        { type := PROPER_ROTATION, order := 2, power := 1, orientation := HORIZONTAL, cla := 1 }
        (mkRep IRREDUCIBLE 1 (-1) 1 1 1 1) 0 = some (MSYM_SUCCESS, -1) := by
  refine ⟨rfl, by decide, ?_⟩
  have h := (representationCharacter_one_dimensional Real.cos Real.pi 2
    { type := PROPER_ROTATION, order := 2, power := 1, orientation := HORIZONTAL, cla := 1 }
    (mkRep IRREDUCIBLE 1 (-1) 1 1 1 1) 0 rfl (by decide)).1 rfl
  rw [h]
  have hq : Odd (Int.tdiv 2 2) := by decide
  simp [hq, mkRep]

/-- C25: for a descriptor of dimension 2 with angular index l and signs
(h, i), and every operation of nonzero order, `representationCharacter`
succeeds with: in horizontal orientation 2 for the identity, 2h for a
reflection, 2i for the inversion, 2·cos(2·l·power·π/order) for a proper
rotation and h times that value for an improper rotation; in vertical or
dihedral orientation 2, 0, 2i and 0 for identity, reflection, inversion and
proper rotation, and it returns InvalidCharacterTable for an improper
rotation, leaving `*c` as it was. -/
theorem representationCharacter_two_dimensional (cosf : K → K) (pi : K) (n : Int)
    (sop : msym_symmetry_operation_t) (rep : msym_representation_t) (c : K)
    (hd : rep.d = 2) (ho : sop.order ≠ 0) :
    (sop.orientation = HORIZONTAL →
      representationCharacter cosf pi n sop rep c =
        match sop.type with
        | IDENTITY => some (MSYM_SUCCESS, 2)
        | REFLECTION => some (MSYM_SUCCESS, 2 * (rep.eig.h : K))
        | INVERSION => some (MSYM_SUCCESS, 2 * (rep.eig.i : K))
        | PROPER_ROTATION =>
          some (MSYM_SUCCESS,
            2 * cosf (2 * (rep.eig.l : K) * (sop.power : K) * pi / (sop.order : K)))
        | IMPROPER_ROTATION =>
          some (MSYM_SUCCESS,
            (rep.eig.h : K)
              * (2 * cosf (2 * (rep.eig.l : K) * (sop.power : K) * pi / (sop.order : K)))))
    ∧ (sop.orientation = VERTICAL ∨ sop.orientation = DIHEDRAL →
      representationCharacter cosf pi n sop rep c =
        match sop.type with
        | IDENTITY => some (MSYM_SUCCESS, 2)
        | REFLECTION => some (MSYM_SUCCESS, 0)
        | INVERSION => some (MSYM_SUCCESS, 2 * (rep.eig.i : K))
        | PROPER_ROTATION => some (MSYM_SUCCESS, 0)
        | IMPROPER_ROTATION => some (MSYM_INVALID_CHARACTER_TABLE, c)) := by
  have h21 : ¬ ((2 : Int) = 1) := by decide
  have harg : ((2 * rep.eig.l * sop.power : Int) : K) * (pi / (sop.order : K))
      = 2 * (rep.eig.l : K) * (sop.power : K) * pi / (sop.order : K) := by
    push_cast
    ring
  refine ⟨?_, ?_⟩
  · intro hor
    unfold representationCharacter
    simp only [hor, hd, if_true, if_neg h21, piOver, if_neg ho, Option.map_some', harg]
    cases sop.type <;> simp only [Int.cast_mul, Int.cast_ofNat]
    rw [mul_assoc]
  · intro hor
    have hne : ¬ (sop.orientation = HORIZONTAL) := by
      rcases hor with e | e <;> rw [e] <;> decide
    unfold representationCharacter
    simp only [hd, if_true, if_neg h21, if_neg hne]
    cases sop.type <;> simp only [Int.cast_mul, Int.cast_ofNat]

/-- Witness for C25: the E1 row (l = 1) on a horizontal C3 has the character
2·cos(2π/3) = -1. -/
theorem representationCharacter_two_dimensional_witness :
    (mkRep REDUCIBLE 2 1 1 1 1 1).d = 2 ∧ ((3 : Int) ≠ 0) ∧
      representationCharacter Real.cos Real.pi 3
        { type := PROPER_ROTATION, order := 3, power := 1, orientation := HORIZONTAL, cla := 1 }
        (mkRep REDUCIBLE 2 1 1 1 1 1) 0 = some (MSYM_SUCCESS, -1) := by
  refine ⟨rfl, by decide, ?_⟩
  have h := (representationCharacter_two_dimensional Real.cos Real.pi 3
    { type := PROPER_ROTATION, order := 3, power := 1, orientation := HORIZONTAL, cla := 1 }
    (mkRep REDUCIBLE 2 1 1 1 1 1) 0 rfl (by decide)).1 rfl
  rw [h]
  have harg : (2 : ℝ) * ((mkRep REDUCIBLE 2 1 1 1 1 1).eig.l : ℝ) * ((1 : Int) : ℝ) * Real.pi
      / ((3 : Int) : ℝ) = 2 * (Real.pi / 3) := by
    simp [mkRep]
    ring
  simp only [harg, real_cos_two_pi_div_three]
  norm_num

/-- C26 (counterexample): for odd `n = 3` and `rl = 6` the third descriptor of
`getRepresentationsDnd` has h = i = -1 and the fifth and sixth share the
angular index 1 (h = -1, i = +1 and h = +1, i = -1); for even `n = 2` and
`rl = 5` the third descriptor has h = -1, i = +1 and the fifth is a single E1
with all signs +1. -/
theorem getRepresentationsDnd_parities :
    (∃ rep, getRepresentationsDnd 3 6 (fun _ => zeroRep) = some (MSYM_SUCCESS, rep)
      ∧ rep 2 = mkRep IRREDUCIBLE 1 1 1 (-1) (-1) 1
      ∧ ((rep 4).d = 2 ∧ (rep 4).eig.l = 1 ∧ (rep 4).eig.h = -1 ∧ (rep 4).eig.i = 1)
      ∧ ((rep 5).d = 2 ∧ (rep 5).eig.l = 1 ∧ (rep 5).eig.h = 1 ∧ (rep 5).eig.i = -1))
    ∧ (∃ rep, getRepresentationsDnd 2 5 (fun _ => zeroRep) = some (MSYM_SUCCESS, rep)
      ∧ rep 2 = mkRep IRREDUCIBLE 1 1 1 (-1) 1 1
      ∧ rep 4 = mkRep IRREDUCIBLE 2 1 1 1 1 1) :=
  ⟨⟨_, getRepresentationsDnd_odd 3 6 _ (by decide) (by decide) (by decide), by simp,
      by simp [mkRep, mod2Shl1]; decide, by simp [mkRep, mod2Shl1, zeroRep]; decide⟩,
    ⟨_, getRepresentationsDnd_even 2 5 _ (by decide) (by decide), by simp, by simp [mkRep]⟩⟩

/-- C26 (amended): called with `rl ≥ 4` (and `rl` even when `n` is odd),
`getRepresentationsDnd` returns Success; the first two descriptors are 1-D
with all signs +1 and with v = -1.  When `n` is even the next two are 1-D with
h = -1 (i = +1; v = +1 and v = -1) and every remaining descriptor `4 + j` is a
single 2-D E with l = j + 1 and all signs +1.  When `n` is odd the next two
are 1-D with h = i = -1 (v = +1 and v = -1) and the remaining descriptors come
in pairs `4 + 2j`, `4 + 2j + 1` of 2-D descriptors sharing l = j + 1: the first
with i = +1 and h = (-1)^l, the second with i = -1 and h = -(-1)^l. -/
theorem getRepresentationsDnd_schedule (n : Int) (rl : Nat)
    (rep0 : Nat → msym_representation_t)
    (h4 : 4 ≤ rl) (hpar : n % 2 = 0 ∨ rl % 2 = 0) :
    ∃ rep, getRepresentationsDnd n rl rep0 = some (MSYM_SUCCESS, rep)
      ∧ rep 0 = mkRep IRREDUCIBLE 1 1 1 1 1 1
      ∧ rep 1 = mkRep IRREDUCIBLE 1 1 (-1) 1 1 1
      ∧ (n % 2 = 0 →
          rep 2 = mkRep IRREDUCIBLE 1 1 1 (-1) 1 1
          ∧ rep 3 = mkRep IRREDUCIBLE 1 1 (-1) (-1) 1 1
          ∧ ∀ j : Nat, 4 + j < rl → rep (4 + j) = mkRep IRREDUCIBLE 2 1 1 1 1 ((j : Int) + 1))
      ∧ (n % 2 = 1 →
          rep 2 = mkRep IRREDUCIBLE 1 1 1 (-1) (-1) 1
          ∧ rep 3 = mkRep IRREDUCIBLE 1 1 (-1) (-1) (-1) 1
          ∧ ∀ j : Nat, 4 + 2 * j + 1 < rl →
              ((rep (4 + 2 * j)).type = IRREDUCIBLE ∧ (rep (4 + 2 * j)).d = 2
                ∧ (rep (4 + 2 * j)).eig.l = (j : Int) + 1
                ∧ (rep (4 + 2 * j)).eig.i = 1
                ∧ (rep (4 + 2 * j)).eig.h = (-1) ^ (j + 1))
              ∧ ((rep (4 + 2 * j + 1)).type = IRREDUCIBLE ∧ (rep (4 + 2 * j + 1)).d = 2
                ∧ (rep (4 + 2 * j + 1)).eig.l = (j : Int) + 1
                ∧ (rep (4 + 2 * j + 1)).eig.i = -1
                ∧ (rep (4 + 2 * j + 1)).eig.h = -(-1) ^ (j + 1))) := by
  rcases Int.emod_two_eq_zero_or_one n with hn | hn
  · refine ⟨_, getRepresentationsDnd_even n rl rep0 hn h4, by simp, by simp, ?_, ?_⟩
    · intro _
      refine ⟨by simp, by simp, ?_⟩
      intro j hj
      have hc : 4 ≤ 4 + j ∧ 4 + j < rl := ⟨by omega, hj⟩
      simp only [hc, and_self, if_true]
      simp
    · intro h1
      omega
  · have hp : rl % 2 = 0 := by omega
    refine ⟨_, getRepresentationsDnd_odd n rl rep0 hn h4 hp, by simp, by simp, ?_, ?_⟩
    · intro h0
      omega
    · intro _
      refine ⟨by simp, by simp, ?_⟩
      intro j hj
      have hc : 4 ≤ 4 + 2 * j ∧ 4 + 2 * j < rl := ⟨by omega, by omega⟩
      have hc1 : 4 ≤ 4 + 2 * j + 1 ∧ 4 + 2 * j + 1 < rl := ⟨by omega, hj⟩
      have e0 : (4 + 2 * j - 4) % 2 = 0 := by omega
      have e1 : ¬ ((4 + 2 * j + 1 - 4) % 2 = 0) := by omega
      have d0 : (4 + 2 * j - 4) / 2 = j := by omega
      have d1 : (4 + 2 * j + 1 - 4) / 2 = j := by omega
      have hm := mod2Shl1_succ j
      have hm2 : -1 + mod2Shl1 ((j : Int) + 1) = -(-1) ^ (j + 1) := by
        rw [← hm]
        ring
      simp only [hc, hc1, and_self, if_true, e0, e1, if_false, d0, d1, hm, hm2, mkRep, true_and]

/-- Witness for C26 (amended): `n = 3` with the six cells of a fresh array. -/
theorem getRepresentationsDnd_schedule_witness :
    4 ≤ 6 ∧ ((3 : Int) % 2 = 0 ∨ 6 % 2 = 0) ∧
    ∃ rep, getRepresentationsDnd 3 6 (fun _ => zeroRep) = some (MSYM_SUCCESS, rep)
      ∧ rep 0 = mkRep IRREDUCIBLE 1 1 1 1 1 1
      ∧ rep 1 = mkRep IRREDUCIBLE 1 1 (-1) 1 1 1
      ∧ ((3 : Int) % 2 = 0 →
          rep 2 = mkRep IRREDUCIBLE 1 1 1 (-1) 1 1
          ∧ rep 3 = mkRep IRREDUCIBLE 1 1 (-1) (-1) 1 1
          ∧ ∀ j : Nat, 4 + j < 6 → rep (4 + j) = mkRep IRREDUCIBLE 2 1 1 1 1 ((j : Int) + 1))
      ∧ ((3 : Int) % 2 = 1 →
          rep 2 = mkRep IRREDUCIBLE 1 1 1 (-1) (-1) 1
          ∧ rep 3 = mkRep IRREDUCIBLE 1 1 (-1) (-1) (-1) 1
          ∧ ∀ j : Nat, 4 + 2 * j + 1 < 6 →
              ((rep (4 + 2 * j)).type = IRREDUCIBLE ∧ (rep (4 + 2 * j)).d = 2
                ∧ (rep (4 + 2 * j)).eig.l = (j : Int) + 1
                ∧ (rep (4 + 2 * j)).eig.i = 1
                ∧ (rep (4 + 2 * j)).eig.h = (-1) ^ (j + 1))
              ∧ ((rep (4 + 2 * j + 1)).type = IRREDUCIBLE ∧ (rep (4 + 2 * j + 1)).d = 2
                ∧ (rep (4 + 2 * j + 1)).eig.l = (j : Int) + 1
                ∧ (rep (4 + 2 * j + 1)).eig.i = -1
                ∧ (rep (4 + 2 * j + 1)).eig.h = -(-1) ^ (j + 1))) :=
  ⟨by decide, by decide,
    getRepresentationsDnd_schedule 3 6 (fun _ => zeroRep) (by decide) (by decide)⟩

/-- C27 (counterexample): for Cn, `n = 3` on the three operations of C3 the
call succeeds and the label stored for the second row is "*E1". -/
theorem c3_second_label :
    ∃ ct, generateCharacterTable Real.cos Real.pi POINT_GROUP_Cn 3 opsC3 none
        = some (MSYM_SUCCESS, some ct) ∧
      (ct.s 1).name = "*E1" :=
  ⟨tableC3, generateCharacterTable_opsC3 Real.cos Real.pi real_cos_two_pi_div_three none,
    by simp [tableC3, msym_character_table_t.ofLists]⟩

/-- C27 (amended): in a table returned by `generateCharacterTable` through a
representation generator, the label of every row `i` is the text
`getRepresentationName` writes for the descriptor `rep[i]` into the 8-byte
name buffer, with nothing stripped: it begins with "*" exactly when the
descriptor is reducible and of dimension other than 1, as the E rows of C_n
and C_nh are. -/
theorem generateCharacterTable_labels (cosf : K → K) (pi : K)
    (type : msym_point_group_type_t) (n : Int) (sops : List msym_symmetry_operation_t)
    (oct : Option (msym_character_table_t K)) (ct : msym_character_table_t K)
    (fr : Int → Nat → (Nat → msym_representation_t) →
      Option (msym_error_t × (Nat → msym_representation_t)))
    (hfr : (fmap : List (msym_point_group_type_t × fmap_f K)).find? (fun e => e.1 = type)
      = some (type, fmap_f.fr fr))
    (h : generateCharacterTable cosf pi type n sops oct = some (MSYM_SUCCESS, some ct)) :
    ∃ rep, fr n ct.d (fun _ => zeroRep) = some (MSYM_SUCCESS, rep) ∧
      ∀ i, i < ct.d →
        getRepresentationName type n (rep i) sizeof_name "" = (MSYM_SUCCESS, (ct.s i).name)
        ∧ ((ct.s i).name.data.head? = some '*' ↔ (rep i).type = REDUCIBLE ∧ (rep i).d ≠ 1) :=
  generateCharacterTable_labels_inv cosf pi type n sops oct ct fr hfr h

/-- Witness for C27 (amended): the C3 table on the three operations `opsC3`. -/
theorem generateCharacterTable_labels_witness :
    (fmap : List (msym_point_group_type_t × fmap_f ℝ)).find? (fun e => e.1 = POINT_GROUP_Cn)
        = some (POINT_GROUP_Cn, fmap_f.fr getRepresentationsCn) ∧
      generateCharacterTable Real.cos Real.pi POINT_GROUP_Cn 3 opsC3 none
        = some (MSYM_SUCCESS, some tableC3) ∧
      ∃ rep, getRepresentationsCn 3 (tableC3 : msym_character_table_t ℝ).d (fun _ => zeroRep)
          = some (MSYM_SUCCESS, rep) ∧
        ∀ i, i < (tableC3 : msym_character_table_t ℝ).d →
          getRepresentationName POINT_GROUP_Cn 3 (rep i) sizeof_name ""
            = (MSYM_SUCCESS, ((tableC3 : msym_character_table_t ℝ).s i).name)
          ∧ (((tableC3 : msym_character_table_t ℝ).s i).name.data.head? = some '*'
            ↔ (rep i).type = REDUCIBLE ∧ (rep i).d ≠ 1) :=
  ⟨rfl, generateCharacterTable_opsC3 Real.cos Real.pi real_cos_two_pi_div_three none,
    generateCharacterTable_labels Real.cos Real.pi POINT_GROUP_Cn 3 opsC3 none tableC3
      getRepresentationsCn rfl
      (generateCharacterTable_opsC3 Real.cos Real.pi real_cos_two_pi_div_three none)⟩

/-- C28 (counterexample): for Cnv, `n = 5`, the valid 2-D descriptor with
l = 2 and v = +1 (the slot v is not masked for Cnv) gets the label "E2": no
"1" follows the angular index. -/
theorem e2_label_without_v :
    (mkRep IRREDUCIBLE 2 1 1 1 1 2).eig.v = 1
      ∧ (maskEindex POINT_GROUP_Cnv 5 (mkRep IRREDUCIBLE 2 1 1 1 1 2)).e2 = 1
      ∧ getRepresentationName POINT_GROUP_Cnv 5 (mkRep IRREDUCIBLE 2 1 1 1 1 2) 8 ""
        = (MSYM_SUCCESS, "E2") := by
  refine ⟨rfl, rfl, ?_⟩
  decide

/-- C28 (amended): for a valid descriptor and a group type whose v slot is
not masked (every type but C_n and C_nh): when the dimension is 1 the label is
the base letter A or B, then "1" for v = +1 or "2" for v = -1 (nothing for
v = 0), then the g/u suffix and the prime suffix, cut to the buffer; when the
dimension is 2..5 the label carries no v suffix at all: it does not depend on
v. -/
theorem getRepresentationName_v_suffix (type : msym_point_group_type_t) (n : Int)
    (rep : msym_representation_t) (l : Nat) (name : String)
    (hvalid : 1 ≤ rep.d ∧ rep.d ≤ 5 ∧ |rep.eig.p| ≤ 1 ∧ |rep.eig.v| ≤ 1 ∧ |rep.eig.h| ≤ 1
      ∧ |rep.eig.i| ≤ 1)
    (htype : type ≠ POINT_GROUP_Cn ∧ type ≠ POINT_GROUP_Cnh) :
    (rep.d = 1 → ∃ letter gu prime, letter ∈ ['A', 'B'] ∧ gu ∈ ["u", "", "g"]
        ∧ prime ∈ ["''", "", "'"]
        ∧ getRepresentationName type n rep l name
          = (MSYM_SUCCESS, snprintf l name
              (String.singleton letter
                ++ (if rep.eig.v = 1 then "1" else if rep.eig.v = -1 then "2" else "")
                ++ gu ++ prime)))
    ∧ (rep.d ≠ 1 → ∀ v, |v| ≤ 1 →
        getRepresentationName type n { rep with eig := { rep.eig with v := v } } l name
          = getRepresentationName type n rep l name) :=
  getRepresentationName_v_suffix_aux type n rep l name hvalid htype

/-- Witness for C28 (amended): the A2 descriptor of C3v, with v = -1. -/
theorem getRepresentationName_v_suffix_witness :
    (1 ≤ (mkRep IRREDUCIBLE 1 1 (-1) 1 1 1).d ∧ (mkRep IRREDUCIBLE 1 1 (-1) 1 1 1).d ≤ 5
      ∧ |(mkRep IRREDUCIBLE 1 1 (-1) 1 1 1).eig.p| ≤ 1
      ∧ |(mkRep IRREDUCIBLE 1 1 (-1) 1 1 1).eig.v| ≤ 1
      ∧ |(mkRep IRREDUCIBLE 1 1 (-1) 1 1 1).eig.h| ≤ 1
      ∧ |(mkRep IRREDUCIBLE 1 1 (-1) 1 1 1).eig.i| ≤ 1)
    ∧ (POINT_GROUP_Cnv ≠ POINT_GROUP_Cn ∧ POINT_GROUP_Cnv ≠ POINT_GROUP_Cnh)
    ∧ ((mkRep IRREDUCIBLE 1 1 (-1) 1 1 1).d = 1 →
        ∃ letter gu prime, letter ∈ ['A', 'B'] ∧ gu ∈ ["u", "", "g"]
          ∧ prime ∈ ["''", "", "'"]
          ∧ getRepresentationName POINT_GROUP_Cnv 3 (mkRep IRREDUCIBLE 1 1 (-1) 1 1 1) 8 ""
            = (MSYM_SUCCESS, snprintf 8 ""
                (String.singleton letter
                  ++ (if (mkRep IRREDUCIBLE 1 1 (-1) 1 1 1).eig.v = 1 then "1"
                      else if (mkRep IRREDUCIBLE 1 1 (-1) 1 1 1).eig.v = -1 then "2" else "")
                  ++ gu ++ prime))) :=
  ⟨by decide, by decide,
    (getRepresentationName_v_suffix POINT_GROUP_Cnv 3 (mkRep IRREDUCIBLE 1 1 (-1) 1 1 1) 8 ""
      (by decide) (by decide)).1⟩

/-- C29 (counterexample): for Dnd with even `n = 2` the third descriptor the
generator emits has p = +1 and h = -1, and its label is "B1": the base letter
is B although p = +1. -/
theorem dnd_even_letter_from_h :
    ∃ rep, getRepresentationsDnd 2 5 (fun _ => zeroRep) = some (MSYM_SUCCESS, rep)
      ∧ (rep 2).d = 1 ∧ (rep 2).eig.p = 1 ∧ (rep 2).eig.h = -1
      ∧ getRepresentationName POINT_GROUP_Dnd 2 (rep 2) 8 "" = (MSYM_SUCCESS, "B1") := by
  refine ⟨_, getRepresentationsDnd_even 2 5 _ (by decide) (by decide), ?_, ?_, ?_, ?_⟩
  · simp [mkRep]
  · simp [mkRep]
  · simp [mkRep]
  · simp only [Nat.not_ofNat_le_one, false_and, if_false, OfNat.ofNat_ne_zero,
      Nat.succ_ne_self, reduceCtorEq]
    decide

/-- C29 (amended): for a valid descriptor and a name buffer of at least three
bytes `getRepresentationName` succeeds.  For dimension 1 the label begins with
the base letter B when the deciding sign is -1 and A otherwise, where the
deciding sign is h for D_nd with even `n` and p for every other type and `n`.
For dimensions 2, 3, 4, 5 the base letter is E, T, G, H; it is the first
character of an irreducible descriptor's label and follows the "*" of a
reducible one. -/
theorem getRepresentationName_base_letter (type : msym_point_group_type_t) (n : Int)
    (rep : msym_representation_t) (l : Nat) (name : String)
    (hvalid : 1 ≤ rep.d ∧ rep.d ≤ 5 ∧ |rep.eig.p| ≤ 1 ∧ |rep.eig.v| ≤ 1 ∧ |rep.eig.h| ≤ 1
      ∧ |rep.eig.i| ≤ 1)
    (hl : 3 ≤ l) :
    ∃ label, getRepresentationName type n rep l name = (MSYM_SUCCESS, label)
      ∧ (rep.d = 1 → label.data.head?
          = some (if (if type = POINT_GROUP_Dnd ∧ n % 2 = 0 then rep.eig.h else rep.eig.p) = -1
              then 'B' else 'A'))
      ∧ (rep.d ≠ 1 → ∃ rest,
          label = (if rep.type = IRREDUCIBLE then "" else "*")
            ++ String.singleton
                (if rep.d = 2 then 'E' else if rep.d = 3 then 'T' else if rep.d = 4 then 'G'
                  else 'H')
            ++ rest) :=
  getRepresentationName_letter_aux type n rep l name hvalid hl

/-- Witness for C29 (amended): the B1 descriptor of D2d in the 8-byte name
buffer. -/
theorem getRepresentationName_base_letter_witness :
    (1 ≤ (mkRep IRREDUCIBLE 1 1 1 (-1) 1 1).d ∧ (mkRep IRREDUCIBLE 1 1 1 (-1) 1 1).d ≤ 5
      ∧ |(mkRep IRREDUCIBLE 1 1 1 (-1) 1 1).eig.p| ≤ 1
      ∧ |(mkRep IRREDUCIBLE 1 1 1 (-1) 1 1).eig.v| ≤ 1
      ∧ |(mkRep IRREDUCIBLE 1 1 1 (-1) 1 1).eig.h| ≤ 1
      ∧ |(mkRep IRREDUCIBLE 1 1 1 (-1) 1 1).eig.i| ≤ 1)
    ∧ 3 ≤ 8
    ∧ ∃ label, getRepresentationName POINT_GROUP_Dnd 2 (mkRep IRREDUCIBLE 1 1 1 (-1) 1 1) 8 ""
          = (MSYM_SUCCESS, label)
        ∧ ((mkRep IRREDUCIBLE 1 1 1 (-1) 1 1).d = 1 → label.data.head?
            = some (if (if POINT_GROUP_Dnd = POINT_GROUP_Dnd ∧ (2 : Int) % 2 = 0
                then (mkRep IRREDUCIBLE 1 1 1 (-1) 1 1).eig.h
                else (mkRep IRREDUCIBLE 1 1 1 (-1) 1 1).eig.p) = -1
                then 'B' else 'A'))
        ∧ ((mkRep IRREDUCIBLE 1 1 1 (-1) 1 1).d ≠ 1 → ∃ rest,
            label = (if (mkRep IRREDUCIBLE 1 1 1 (-1) 1 1).type = IRREDUCIBLE then "" else "*")
              ++ String.singleton
                  (if (mkRep IRREDUCIBLE 1 1 1 (-1) 1 1).d = 2 then 'E'
                    else if (mkRep IRREDUCIBLE 1 1 1 (-1) 1 1).d = 3 then 'T'
                    else if (mkRep IRREDUCIBLE 1 1 1 (-1) 1 1).d = 4 then 'G' else 'H')
              ++ rest) :=
  ⟨by decide, by decide,
    getRepresentationName_base_letter POINT_GROUP_Dnd 2 (mkRep IRREDUCIBLE 1 1 1 (-1) 1 1) 8 ""
      (by decide) (by decide)⟩

/-- C30 (counterexample): on three operations in which the C3 and the C2
matched by the second and third class descriptors of the T table share the
class index 1, `getPredefinedCharacterTable` (called by `getCharacterTableT`)
succeeds; the first operation matching the second descriptor has class 1, and
row E of column 1 holds 2, the entry of the third predefined column, not the
entry -1 of the second. -/
theorem getCharacterTableT_shared_class :
    ∃ ct1 : msym_character_table_t ℝ,
      getCharacterTableT opsTShared (callocTable 3) = (MSYM_SUCCESS, ct1)
      ∧ boundClass opsTShared (tsop PROPER_ROTATION 3 1) = some 1
      ∧ ct1.table 1 1 = 2 ∧ ct1.table 1 1 ≠ -1 := by
  refine ⟨_, getCharacterTableT_opsTShared, by decide, ?_, ?_⟩
  · simp [msym_character_table_t.ofLists]
  · simp [msym_character_table_t.ofLists]
    norm_num

/-- C30 (amended): when `getPredefinedCharacterTable` succeeds the table has
`l` classes and, for every predefined column index `i < l`, row `i` has the
dimension `tdim[i]` and the label `tname[i]` cut to the 7 characters the name
buffer holds; the first runtime operation (in list order) that matches
`tsops[i]` on type, order, power and orientation has a class index `c_i < l`;
and if no later descriptor `k > i` is bound to the same class, then column
`c_i` equals predefined column `i` in every row: `ctable[j][c_i] = table[j][i]`
for all `j < l`. -/
theorem getPredefinedCharacterTable_bound_columns (sops : List msym_symmetry_operation_t)
    (l : Nat) (tsops : List msym_symmetry_operation_t) (tname : List String)
    (tdim : List Int) (table : List (List K)) (ct ct1 : msym_character_table_t K)
    (h : getPredefinedCharacterTable sops l tsops tname tdim table ct = (MSYM_SUCCESS, ct1)) :
    ct1.d = l ∧ ∀ i, i < l →
      ct1.s i = { name := snprintf sizeof_name "" (tname.getD i ""), d := tdim.getD i 0 }
      ∧ ∃ c, boundClass sops (tsops.getD i (tsop IDENTITY 0 0)) = some c ∧ c < l
        ∧ ((∀ k, i < k → k < l →
              boundClass sops (tsops.getD k (tsop IDENTITY 0 0)) ≠ some c) →
            ∀ j, j < l → ct1.table j c = (table.getD j []).getD i 0) :=
  getPredefinedCharacterTable_last sops l tsops tname tdim table ct ct1 h

/-- Witness for C30 (amended): the call `getCharacterTableT` makes for the
twelve operations `opsT`. -/
theorem getPredefinedCharacterTable_bound_columns_witness :
    ∃ ct1 : msym_character_table_t ℝ,
      getPredefinedCharacterTable opsT 3
          [tsop IDENTITY 1 1, tsop PROPER_ROTATION 3 1, tsop PROPER_ROTATION 2 1]
          ["A", "E", "T"] [1, 2, 3] [[1, 1, 1], [2, -1, 2], [3, 0, -1]] (callocTable 3)
        = (MSYM_SUCCESS, ct1)
      ∧ ct1.d = 3 ∧ ∀ i, i < 3 →
        ct1.s i = { name := snprintf sizeof_name "" (["A", "E", "T"].getD i ""),
                    d := ([1, 2, 3] : List Int).getD i 0 }
        ∧ ∃ c, boundClass opsT
              ([tsop IDENTITY 1 1, tsop PROPER_ROTATION 3 1, tsop PROPER_ROTATION 2 1].getD i
                (tsop IDENTITY 0 0)) = some c ∧ c < 3
          ∧ ((∀ k, i < k → k < 3 →
                boundClass opsT
                  ([tsop IDENTITY 1 1, tsop PROPER_ROTATION 3 1, tsop PROPER_ROTATION 2 1].getD k
                    (tsop IDENTITY 0 0)) ≠ some c) →
              ∀ j, j < 3 → ct1.table j c
                = (([[1, 1, 1], [2, -1, 2], [3, 0, -1]] : List (List ℝ)).getD j []).getD i 0) :=
  ⟨_, getCharacterTableT_opsT,
    getPredefinedCharacterTable_bound_columns opsT 3 _ _ _ _ _ _ getCharacterTableT_opsT⟩

/-- C31: `getPredefinedCharacterTable` returns InvalidCharacterTable if and
only if the table size `ct->d` differs from the predefined length `l`, or some
class descriptor `tsops[i]`, `i < l`, matches no runtime operation, or the
first operation matching some descriptor has a class index `≥ l`; in every
other case it returns Success. -/
theorem getPredefinedCharacterTable_return_code (sops : List msym_symmetry_operation_t)
    (l : Nat) (tsops : List msym_symmetry_operation_t) (tname : List String)
    (tdim : List Int) (table : List (List K)) (ct : msym_character_table_t K) :
    ((getPredefinedCharacterTable sops l tsops tname tdim table ct).1
        = MSYM_INVALID_CHARACTER_TABLE
      ↔ ct.d ≠ l
        ∨ (∃ i, i < l ∧ boundClass sops (tsops.getD i (tsop IDENTITY 0 0)) = none)
        ∨ ∃ i, i < l ∧ ∃ c, boundClass sops (tsops.getD i (tsop IDENTITY 0 0)) = some c
            ∧ l ≤ c)
    ∧ ((getPredefinedCharacterTable sops l tsops tname tdim table ct).1
        ≠ MSYM_INVALID_CHARACTER_TABLE
      → (getPredefinedCharacterTable sops l tsops tname tdim table ct).1 = MSYM_SUCCESS) :=
  getPredefinedCharacterTable_code sops l tsops tname tdim table ct

/-- C32: for every basis size `basisl` and every table with at least one
irrep, when `ss` holds a subspace for every irrep and each of their SALCs has
at most `md` partner functions and basis functions inside `basis`, the
component analysis of `symmetrizeWavefunctions` completes; it assigns every
wave function `o` to exactly one irrep `icomp[o]` of the table, `ispan[k]`
counts the wave functions assigned to `k`, and the counts add up to `basisl`. -/
theorem componentAnalysis_span_total (vlproj : Nat → (Nat → K) → (Nat → K) → Nat → K)
    (vlsumsqr : Nat → (Nat → K) → K) (sqrtf : K → K)
    (ct : msym_character_table_t K) (ssl : Nat) (ss : Nat → msym_subspace_t K)
    (basisl : Nat) (wf : Nat → Nat → K)
    (hd : 1 ≤ ct.d) (hssl : ct.d ≤ ssl)
    (hsalc : ∀ k, k < ct.d → ∀ s, s < (ss k).salcl →
      (((ss k).salc s).d : Int) ≤ maxDimension ct
      ∧ ∀ j, j < ((ss k).salc s).fl → ((ss k).salc s).f j < basisl) :
    ∃ c, componentAnalysis vlproj vlsumsqr sqrtf ct ssl ss basisl wf = some c
      ∧ (∀ o, o < basisl → c.icomp o < ct.d)
      ∧ (∀ k, c.ispan k
          = (((List.range basisl).countP (fun o => c.icomp o = k) : Nat) : Int))
      ∧ ∑ k in Finset.range ct.d, c.ispan k = (basisl : Int) :=
  componentAnalysis_total vlproj vlsumsqr sqrtf ct ssl ss basisl wf hd hssl hsalc

/-- Witness for C32: the table of C3v (irreps A1, A2, E1) over three basis
functions, with the subspaces `ssC3v` and the three wave functions `wfC3v`.
Wave function 0 goes to A1; wave function 1, of weight 1 in A1 and 4 in E1,
and wave function 2 go to E1; the counts are (1, 0, 2), of sum 3. -/
theorem componentAnalysis_span_total_witness :
    1 ≤ (tableC3v : msym_character_table_t ℝ).d
    ∧ (tableC3v : msym_character_table_t ℝ).d ≤ 3
    ∧ (∀ k, k < (tableC3v : msym_character_table_t ℝ).d →
        ∀ s, s < (ssC3v k : msym_subspace_t ℝ).salcl →
        ((((ssC3v k : msym_subspace_t ℝ).salc s).d : Nat) : Int)
            ≤ maxDimension (tableC3v : msym_character_table_t ℝ)
        ∧ ∀ j, j < ((ssC3v k : msym_subspace_t ℝ).salc s).fl →
            ((ssC3v k : msym_subspace_t ℝ).salc s).f j < 3)
    ∧ ∃ c, componentAnalysis vlprojEx vlsumsqrEx Real.sqrt
          (tableC3v : msym_character_table_t ℝ) 3 ssC3v 3 wfC3v = some c
        ∧ (∀ o, o < 3 → c.icomp o < (tableC3v : msym_character_table_t ℝ).d)
        ∧ (∀ k, c.ispan k
            = (((List.range 3).countP (fun o => c.icomp o = k) : Nat) : Int))
        ∧ ∑ k in Finset.range (tableC3v : msym_character_table_t ℝ).d, c.ispan k
            = ((3 : Nat) : Int)
        ∧ (c.icomp 0 = 0 ∧ c.icomp 1 = 2 ∧ c.icomp 2 = 2)
        ∧ (c.ispan 0 = 1 ∧ c.ispan 1 = 0 ∧ c.ispan 2 = 2) := by
  have hsalc : ∀ k, k < (tableC3v : msym_character_table_t ℝ).d →
      ∀ s, s < (ssC3v k : msym_subspace_t ℝ).salcl →
      ((((ssC3v k : msym_subspace_t ℝ).salc s).d : Nat) : Int)
          ≤ maxDimension (tableC3v : msym_character_table_t ℝ)
      ∧ ∀ j, j < ((ssC3v k : msym_subspace_t ℝ).salc s).fl →
          ((ssC3v k : msym_subspace_t ℝ).salc s).f j < 3 := by
    intro k hk s hs
    have hk3 : k < 3 := hk
    have hmd : maxDimension (tableC3v : msym_character_table_t ℝ) = 2 := by
      simp [maxDimension, tableC3v, msym_character_table_t.ofLists, List.range_succ]
    rw [hmd]
    interval_cases k
    · refine ⟨by simp [ssC3v, salcA], ?_⟩
      intro j hj
      simp only [ssC3v, salcA, if_true] at hj ⊢
      omega
    · simp [ssC3v] at hs
    · refine ⟨by simp [ssC3v, salcE12], ?_⟩
      intro j hj
      simp [ssC3v, salcE12] at hj ⊢
      omega
  obtain ⟨c, hc, h1, h2, h3⟩ :=
    componentAnalysis_span_total vlprojEx vlsumsqrEx Real.sqrt
      (tableC3v : msym_character_table_t ℝ) 3 ssC3v 3 wfC3v (by decide) (le_refl _) hsalc
  obtain ⟨c1, hc1, i0, i1, i2, s0, s1, s2⟩ := componentAnalysis_C3v Real.sqrt
  rw [hc] at hc1
  cases hc1
  exact ⟨by decide, le_refl _, hsalc, c, hc, h1, h2, h3, ⟨i0, i1, i2⟩, ⟨s0, s1, s2⟩⟩

/-- C33 (failing input): the table of the single irrep E (dimension 2), one
SALC whose partner function `d` is the basis function `d`, and two wave
functions both equal to the basis function 0, with `span[0] = 1`.  The
component analysis and the span check pass, the partner search makes wave
function 1 the partner of wave function 0, and the partner checks pass.  The
dimension assignment for that group gives partner 0 the dimension 0 and leaves
partner 1 unassigned (`pf[basisl][1] = -1`): its only positive component is in
dimension 0, which is taken.  The reconstruction then reads `space[-1]`, so
the call has no defined result. -/
theorem symmetrizeWavefunctions_unassigned_partner :
    ∃ (c : wf_components ℝ) (pf pf1 : Nat → Nat → Int),
      componentAnalysis vlprojEx vlsumsqrEx Real.sqrt (pgE : msym_point_group_t ℝ).ct 1
          (fun _ => { salcl := 1, salc := fun _ => salcE }) 2 wfE = some c
      ∧ spanMismatch (pgE : msym_point_group_t ℝ).ct (fun _ => 1) c.ispan = false
      ∧ partnerLoop (fun _ a b i => a i - b i) (fun l a => Real.sqrt (vlsumsqrEx l a))
          (10 ^ 308) (pgE : msym_point_group_t ℝ).ct 2
          (maxDimension (pgE : msym_point_group_t ℝ).ct)
          (psalcLength 1 (fun _ => ({ salcl := 1, salc := fun _ => salcE } : msym_subspace_t ℝ)))
          c (fun _ _ => 0) = some pf
      ∧ partnersVerified (pgE : msym_point_group_t ℝ).ct 2 c pf = true
      ∧ 0 ≤ pf 0 0 ∧ pf 0 1 = 1
      ∧ assignDimensions 2 2 c 0
          ((List.range 2).foldl (fun pf i => setCell pf 2 i (-1)) (setCell pf 0 0 0)) = some pf1
      ∧ pf1 2 0 = 0 ∧ pf1 2 1 = -1
      ∧ symmetrizeWavefunctions vlprojEx vlsumsqrEx (fun _ a b i => a i - b i)
          (fun l a => Real.sqrt (vlsumsqrEx l a)) (fun _ a b i => a i + b i) Real.sqrt
          (10 ^ 308) (pgE : msym_point_group_t ℝ) 1
          (fun _ => { salcl := 1, salc := fun _ => salcE }) (fun _ => 1) 2 wfE
        = none := by
  refine ⟨_, _, _, componentAnalysis_pgE Real.sqrt, ?_,
    partnerLoop_pgE Real.sqrt Real.sqrt_zero _, partnersVerified_pgE _, by decide, by decide,
    assignDimensions_pgE _, by decide, by decide,
    symmetrizeWavefunctions_pgE Real.sqrt Real.sqrt_zero⟩
  simp [spanMismatch, pgE, List.range_succ]

/-- C34: on the general path, when the first equivalence set whose length
exceeds the group order is at index `i < esl` (and the permutation indices of
the sets before it are rows of `v`), `symmetrizeMolecule` returns
SymmetrizationError; the sets `0..i-1` hold their projections, the sets `i`
and later are unchanged, and `*err` is not written. -/
theorem symmetrizeMolecule_first_oversized
    (applySymmetryOperation : msym_symmetry_operation_t → (Fin 3 → K) → (Fin 3 → K) → Fin 3 → K)
    (vproj : (Fin 3 → K) → (Fin 3 → K) → Fin 3 → K)
    (sqrtf : K → K) (pg : msym_point_group_t K) (esl : Nat)
    (es : Nat → msym_equivalence_set_t K) (perm : Nat → Nat → msym_permutation_t)
    (thresholds : msym_thresholds_t K) (err : Option K)
    (hgen : ¬ ((pg.type = POINT_GROUP_Cnv ∨ pg.type = POINT_GROUP_Dnh) ∧ pg.n = 0))
    (i : Nat) (hi : i < esl) (hbig : (es i).length > pg.order)
    (hfirst : ∀ k, k < i → (es k).length ≤ pg.order)
    (hperm : ∀ k, k < i → ∀ j, j < pg.order → ∀ m, m < (es k).length →
      ((perm k) j).p m < pg.order) :
    ∃ es1,
      symmetrizeMolecule applySymmetryOperation vproj sqrtf pg esl es perm thresholds err
        = some (MSYM_SYMMETRIZATION_ERROR, es1, err)
      ∧ (∀ k, k < i →
          es1 k = symmetrizedSet applySymmetryOperation pg (perm k) (fun x => x) (es k))
      ∧ ∀ k, i ≤ k → es1 k = es k :=
  symmetrizeMolecule_first_oversized_aux applySymmetryOperation vproj sqrtf pg esl es perm
    thresholds err hgen i hi hbig hfirst hperm

/-- Witness for C34: the group C2 (order 2) and the sets `esOversized`, whose
second set has three atoms. -/
theorem symmetrizeMolecule_first_oversized_witness :
    ¬ (((pgC2 : msym_point_group_t ℝ).type = POINT_GROUP_Cnv
        ∨ (pgC2 : msym_point_group_t ℝ).type = POINT_GROUP_Dnh)
      ∧ (pgC2 : msym_point_group_t ℝ).n = 0)
    ∧ 1 < 3
    ∧ (esOversized 1 : msym_equivalence_set_t ℝ).length > (pgC2 : msym_point_group_t ℝ).order
    ∧ (∀ k, k < 1 → (esOversized k : msym_equivalence_set_t ℝ).length
        ≤ (pgC2 : msym_point_group_t ℝ).order)
    ∧ (∀ k, k < 1 → ∀ j, j < (pgC2 : msym_point_group_t ℝ).order →
        ∀ m, m < (esOversized k : msym_equivalence_set_t ℝ).length →
          ((permC2 k) j).p m < (pgC2 : msym_point_group_t ℝ).order)
    ∧ ∃ es1,
      symmetrizeMolecule applyC2 vprojZ Real.sqrt pgC2 3 esOversized permC2 thresholdsC2 none
        = some (MSYM_SYMMETRIZATION_ERROR, es1, none)
      ∧ (∀ k, k < 1 →
          es1 k = symmetrizedSet applyC2 pgC2 (permC2 k) (fun x => x) (esOversized k))
      ∧ ∀ k, 1 ≤ k → es1 k = esOversized k := by
  have hbig : (esOversized 1 : msym_equivalence_set_t ℝ).length
      > (pgC2 : msym_point_group_t ℝ).order := by
    simp [esOversized, pgC2]
  have hfirst : ∀ k, k < 1 → (esOversized k : msym_equivalence_set_t ℝ).length
      ≤ (pgC2 : msym_point_group_t ℝ).order := by
    intro k hk
    interval_cases k
    simp [esOversized, esC2, pgC2]
  have hperm : ∀ k, k < 1 → ∀ j, j < (pgC2 : msym_point_group_t ℝ).order →
      ∀ m, m < (esOversized k : msym_equivalence_set_t ℝ).length →
        ((permC2 k) j).p m < (pgC2 : msym_point_group_t ℝ).order := by
    intro k hk j hj m hm
    interval_cases k
    exact permC2_lt 0 (by decide) j hj m hm
  exact ⟨pgC2_general, by decide, hbig, hfirst, hperm,
    symmetrizeMolecule_first_oversized applyC2 vprojZ Real.sqrt pgC2 3 esOversized permC2
      thresholdsC2 none pgC2_general 1 (by decide) hbig hfirst hperm⟩

/-- C35 (counterexample): for a descriptor of dimension 2 and a horizontal
proper rotation of order 0 the quotient `M_PI/sop->order` is a division by
zero, although the descriptor is not 1-D: the call has no result. -/
theorem representationCharacter_two_dimensional_order_zero :
    (mkRep IRREDUCIBLE 2 1 1 1 1 1).d = 2
      ∧ piOver Real.pi 0 = none
      ∧ representationCharacter Real.cos Real.pi 0
        { type := PROPER_ROTATION, order := 0, power := 1, orientation := HORIZONTAL, cla := 1 }
        (mkRep IRREDUCIBLE 2 1 1 1 1 1) 0 = none := by
  refine ⟨rfl, by simp [piOver], ?_⟩
  rw [representationCharacter_eq_none]
  simp [mkRep]

/-- C35 (amended): `representationCharacter` divides by zero exactly when the
operation has order 0, is a proper or improper rotation in horizontal
orientation, and the descriptor has dimension 1 (the `int` quotient
`n/sop->order`) or dimension 2 (the `double` quotient `M_PI/sop->order`).  On
every other input, in particular whenever the order is not zero, it returns
either Success with a character or InvalidCharacterTable with `*c` left as it
was. -/
theorem representationCharacter_division_by_zero (cosf : K → K) (pi : K) (n : Int)
    (sop : msym_symmetry_operation_t) (rep : msym_representation_t) (c : K) :
    (representationCharacter cosf pi n sop rep c = none
      ↔ sop.order = 0 ∧ sop.orientation = HORIZONTAL
        ∧ (sop.type = PROPER_ROTATION ∨ sop.type = IMPROPER_ROTATION)
        ∧ (rep.d = 1 ∨ rep.d = 2))
    ∧ ∀ r, representationCharacter cosf pi n sop rep c = some r →
        r.1 = MSYM_SUCCESS ∨ r = (MSYM_INVALID_CHARACTER_TABLE, c) :=
  ⟨representationCharacter_eq_none cosf pi n sop rep c,
    fun r h => representationCharacter_codes cosf pi n sop rep c r h⟩

end Claims

end Msym
